import Mathlib

/-!
# Nirvana Windows port: protection-domain address space

A shallow embedding of `AddressSpace.h`, `AddressSpace.cpp` and `MemoryWindows.h`.

Conventions of the embedding.

* Addresses, sizes, handles and `DWORD`s are natural numbers.  Pointer arithmetic is the
  arithmetic of naturals: ranges are ranges of a flat address space.
* The Win32 virtual-memory calls the code makes are modelled at the granularity the code
  uses them at: the address space is a function from block index
  (`address / ALLOCATION_GRANULARITY`) to the OS view of that block (`VBlock`), a mapped
  block carrying the protection of each of its pages.
* Code that throws returns `Res.raise`; a retry loop that can never succeed in a
  single-threaded run is `Res.hang`; reading an array outside its bounds is `Res.fault`.
* `assert` is compiled out and `verify (x)` only evaluates `x` (release build).
-/

set_option autoImplicit false

namespace Nirvana

/-! ## Platform constants -/

/-- Modelled from the spec: `PAGE_SIZE` of `Win32.h` (protection/commit unit, 4 KiB). -/
def PAGE_SIZE : Nat := 4096

/-- Modelled from the spec: `ALLOCATION_GRANULARITY` of `Win32.h` (mapping/allocation unit,
64 KiB). -/
def ALLOCATION_GRANULARITY : Nat := 65536

/-- Pages in a block: `ALLOCATION_GRANULARITY / PAGE_SIZE`. -/
def PAGES_PER_BLOCK : Nat := ALLOCATION_GRANULARITY / PAGE_SIZE

/-- Win32 page protection constants (winnt.h). -/
def PAGE_NOACCESS : Nat := 0x01
def PAGE_READONLY : Nat := 0x02
def PAGE_READWRITE : Nat := 0x04
def PAGE_WRITECOPY : Nat := 0x08
def PAGE_EXECUTE : Nat := 0x10
def PAGE_EXECUTE_READ : Nat := 0x20
def PAGE_EXECUTE_READWRITE : Nat := 0x40
def PAGE_EXECUTE_WRITECOPY : Nat := 0x80
def PAGE_REVERT_TO_FILE_MAP : Nat := 0x80000000

/-- The sentinel "reserved, no mapping": `INVALID_HANDLE_VALUE` is `(HANDLE)-1`. -/
def INVALID_HANDLE_VALUE : Nat := 2 ^ 64 - 1

/-- The largest multiple of `a` not above `x`. -/
def round_down (x a : Nat) : Nat := x / a * a

/-- The smallest multiple of `a` not below `x`. -/
def round_up (x a : Nat) : Nat := (x + a - 1) / a * a

/-! ## Page states (`class PageState`) -/

namespace PageState

def NOT_COMMITTED : Nat := 0
def DECOMMITTED : Nat := PAGE_NOACCESS
def RW_MAPPED_PRIVATE : Nat := PAGE_READWRITE
def RW_MAPPED_SHARED : Nat := PAGE_EXECUTE_WRITECOPY
def RW_UNMAPPED : Nat := PAGE_EXECUTE_READWRITE
def RO_MAPPED_PRIVATE : Nat := PAGE_READONLY
def RO_MAPPED_SHARED : Nat := PAGE_EXECUTE
def RO_UNMAPPED : Nat := PAGE_EXECUTE_READ

def MASK_RW : Nat := RW_MAPPED_PRIVATE ||| RW_MAPPED_SHARED ||| RW_UNMAPPED
def MASK_RO : Nat := RO_MAPPED_PRIVATE ||| RO_MAPPED_SHARED ||| RO_UNMAPPED
def MASK_ACCESS : Nat := MASK_RW ||| MASK_RO
def MASK_UNMAPPED : Nat := RW_UNMAPPED ||| RO_UNMAPPED
def MASK_MAPPED : Nat :=
  RW_MAPPED_PRIVATE ||| RW_MAPPED_SHARED ||| RO_MAPPED_PRIVATE ||| RO_MAPPED_SHARED
def MASK_MAY_BE_SHARED : Nat :=
  RW_MAPPED_SHARED ||| RO_MAPPED_SHARED ||| MASK_UNMAPPED ||| DECOMMITTED

end PageState

/-! ## Flags of `Nirvana::Memory` -/

namespace Memory

/-- Modelled from the spec: the flag constants of `Memory.h` (the interface header is not
among the sources).  `READ_WRITE` is the empty flag set, `RELEASE = DECOMMIT | 0x20`. -/
def READ_WRITE : Nat := 0x00
def READ_ONLY : Nat := 0x01
def RESERVED : Nat := 0x02
def ALLOCATE : Nat := 0x08
def DECOMMIT : Nat := 0x10
def RELEASE : Nat := 0x30
def ZERO_INIT : Nat := 0x40
def EXACTLY : Nat := 0x80

end Memory

/-- The bits of `flags` outside `mask`: the C expression `flags & ~mask`. -/
def bits_outside (flags mask : Nat) : Nat := flags ^^^ (flags &&& mask)

/-! ## Results -/

/-- CORBA system exceptions the code throws. -/
inductive Exc
  | BAD_PARAM
  | INV_FLAG
  | NO_MEMORY
  | INTERNAL
  deriving DecidableEq, Repr

/-- Outcome of a call. -/
inductive Res (α : Type)
  | ok (a : α)
  | raise (e : Exc)
  | hang
  | fault
  deriving DecidableEq, Repr

/-- Sequencing: anything but a normal return ends the computation. -/
def Res.bind {α β : Type} (r : Res α) (f : α → Res β) : Res β :=
  match r with
  | .ok a => f a
  | .raise e => .raise e
  | .hang => .hang
  | .fault => .fault

instance : Monad Res where
  pure := Res.ok
  bind := Res.bind

/-- Read of `a [i]` for an array of `a.length` elements. -/
def rd (a : List Nat) (i : Nat) : Res Nat :=
  match a[i]? with
  | some x => .ok x
  | none => .fault

/-! ## The operating system

The state of the host virtual-memory manager, as far as the code observes it. -/

/-- The OS view of one granularity block.  `reserved base end_`: the block belongs to the
reservation made by one `VirtualAllocEx (MEM_RESERVE)` call that spans the blocks
`[base, end_)`.  `mapped h protect`: a view of the file mapping `h`, one block long, is mapped
at the block's base; `protect` is `MEMORY_BASIC_INFORMATION::Protect` of each page, `0` for a
page that is not committed. -/
inductive VBlock
  | free
  | reserved (base end_ : Nat)
  | mapped (h : Nat) (protect : List Nat)
  deriving DecidableEq, Repr

/-- The process: the block directory of `AddressSpace` and the OS state behind it. -/
structure World where
  /-- Field `m_directory_size`: number of blocks of the address space. -/
  directory_size : Nat
  /-- Field `BlockInfo::mapping` of every block (an uncommitted directory page reads as
  null). -/
  directory : Nat → Nat
  /-- OS state of every block. -/
  vm : Nat → VBlock
  /-- Open handles: the kernel object behind each handle value. -/
  handles : Nat → Option Nat
  /-- Committed pages of each file-mapping object. -/
  committed : Nat → Nat → Bool
  /-- Number of file-mapping objects created so far (the next object's name). -/
  objects : Nat
  /-- Result of `AddressSpace::is_current_process ()`. -/
  is_current_process : Bool

/-- Store into `BlockInfo::mapping` of block `i`. -/
def World.set_mapping (w : World) (i : Nat) (h : Nat) : World :=
  { w with directory := fun j => if j = i then h else w.directory j }

/-- Replace the OS state of block `i`. -/
def World.set_vm (w : World) (i : Nat) (b : VBlock) : World :=
  { w with vm := fun j => if j = i then b else w.vm j }

/-- Win32 `CompareObjectHandles`: both handles are open and name the same kernel object. -/
def CompareObjectHandles (w : World) (h1 h2 : Nat) : Bool :=
  match w.handles h1, w.handles h2 with
  | some a, some b => a == b
  | _, _ => false

/-- Win32 `DuplicateHandle (GetCurrentProcess (), h, process, &dup, 0, FALSE,
DUPLICATE_SAME_ACCESS)`: `dup` is the handle value the OS hands out (null: the OS refuses);
returns it, or null on failure. -/
def DuplicateHandle (w : World) (h dup : Nat) : Nat × World :=
  match w.handles h with
  | some obj =>
    if dup ≠ 0 ∧ dup ≠ INVALID_HANDLE_VALUE ∧ w.handles dup = none then
      (dup, { w with handles := fun k => if k = dup then some obj else w.handles k })
    else (0, w)
  | none => (0, w)

/-- Win32 `CreateFileMappingW (0, 0, PAGE_EXECUTE_READWRITE | SEC_RESERVE, 0,
ALLOCATION_GRANULARITY, 0)`: a new file-mapping object with no page committed, behind the
handle value `h` the OS hands out (null: the OS refuses). -/
def CreateFileMappingW (w : World) (h : Nat) : Nat × World :=
  if h ≠ 0 ∧ h ≠ INVALID_HANDLE_VALUE ∧ w.handles h = none then
    (h, { w with
      handles := fun k => if k = h then some w.objects else w.handles k
      committed := fun obj k => if obj = w.objects then false else w.committed obj k
      objects := w.objects + 1 })
  else (0, w)

/-- Win32 `CloseHandle`. -/
def CloseHandle (w : World) (h : Nat) : World :=
  { w with handles := fun k => if k = h then none else w.handles k }

/-- Blocks `[b, e)` are all free and inside the address space (whose first block, the one of
the null pointer, is never available). -/
def blocks_free (w : World) (b e : Nat) : Bool :=
  decide (0 < b) && decide (e ≤ w.directory_size) &&
    (List.range (e - b)).all fun k => w.vm (b + k) == .free

/-- Win32 `VirtualAllocEx (process, address, size, MEM_RESERVE, PAGE_NOACCESS)` for a non-null
`address`: the address is rounded down to the allocation granularity and every page that
holds a byte of `[address, address + size)` is reserved; the call fails unless all of them are
free.  Returns the base of the reservation, `0` on failure. -/
def VirtualAllocEx_reserve (w : World) (address size : Nat) : Nat × World :=
  let b := address / ALLOCATION_GRANULARITY
  let e := (address + size + ALLOCATION_GRANULARITY - 1) / ALLOCATION_GRANULARITY
  if 0 < size ∧ blocks_free w b e then
    (b * ALLOCATION_GRANULARITY,
      { w with vm := fun j => if b ≤ j ∧ j < e then .reserved b e else w.vm j })
  else (0, w)

/-- Win32 `VirtualFreeEx (process, address, 0, MEM_RELEASE)`: `address` must be the base of a
reservation, which is released whole. -/
def VirtualFreeEx_release (w : World) (address : Nat) : Bool × World :=
  match w.vm (address / ALLOCATION_GRANULARITY) with
  | .reserved b e =>
    if address = b * ALLOCATION_GRANULARITY then
      (true, { w with vm := fun j => if w.vm j = .reserved b e then .free else w.vm j })
    else (false, w)
  | _ => (false, w)

/-- Win32 `UnmapViewOfFile2 (process, address, 0)`. -/
def UnmapViewOfFile2 (w : World) (address : Nat) : Bool × World :=
  match w.vm (address / ALLOCATION_GRANULARITY) with
  | .mapped _ _ =>
    if address % ALLOCATION_GRANULARITY = 0 then
      (true, w.set_vm (address / ALLOCATION_GRANULARITY) .free)
    else (false, w)
  | _ => (false, w)

/-- Protection of the pages of a fresh view of the file mapping behind `obj`: committed pages
get the view protection, the others are not committed. -/
def view_protect (w : World) (obj protection : Nat) : List Nat :=
  (List.range PAGES_PER_BLOCK).map fun k => if w.committed obj k then protection else 0

/-- Win32 `MapViewOfFile2 (mapping, process, 0, address, ALLOCATION_GRANULARITY, 0, protection)`
for a non-null `address`: fails unless `mapping` is an open handle (never null, never
`INVALID_HANDLE_VALUE`) and the block is free. -/
def MapViewOfFile2 (w : World) (mapping address protection : Nat) : Nat × World :=
  let i := address / ALLOCATION_GRANULARITY
  match w.handles mapping with
  | some obj =>
    if mapping ≠ 0 ∧ mapping ≠ INVALID_HANDLE_VALUE ∧ address % ALLOCATION_GRANULARITY = 0 ∧
        0 < i ∧ i < w.directory_size ∧ w.vm i = .free then
      (address, w.set_vm i (.mapped mapping (view_protect w obj protection)))
    else (0, w)
  | none => (0, w)

/-- Win32 `VirtualProtectEx (process, address, size, protection, &old)` inside one block: every
page that holds a byte of the range gets `protection` (the modifier `PAGE_REVERT_TO_FILE_MAP`
is not part of the protection a later query reports). -/
def VirtualProtectEx (w : World) (address size protection : Nat) : World :=
  let i := address / ALLOCATION_GRANULARITY
  match w.vm i with
  | .mapped h ps =>
    let first := address % ALLOCATION_GRANULARITY / PAGE_SIZE
    let last := (address % ALLOCATION_GRANULARITY + size + PAGE_SIZE - 1) / PAGE_SIZE
    w.set_vm i (.mapped h
      ((List.range ps.length).map fun k =>
        if first ≤ k ∧ k < last then protection % PAGE_REVERT_TO_FILE_MAP else ps.getD k 0))
  | _ => w

/-- Constants of `MEMORY_BASIC_INFORMATION` (winnt.h). -/
def MEM_COMMIT : Nat := 0x1000
def MEM_RESERVE : Nat := 0x2000
def MEM_FREE : Nat := 0x10000
def MEM_PRIVATE : Nat := 0x20000
def MEM_MAPPED : Nat := 0x40000

/-- Win32 `MEMORY_BASIC_INFORMATION`. -/
structure MEMORY_BASIC_INFORMATION where
  BaseAddress : Nat
  AllocationBase : Nat
  RegionSize : Nat
  State : Nat
  Protect : Nat
  Type_ : Nat
  deriving DecidableEq, Repr

/-- First block at or after `i` that is not free, looking at `fuel` blocks. -/
def free_run (w : World) : Nat → Nat → Nat
  | i, 0 => i
  | i, fuel + 1 => if w.vm i = .free then free_run w (i + 1) fuel else i

/-- First page at or after `k` whose protection is not `v`, looking at `fuel` pages. -/
def protect_run (ps : List Nat) (v : Nat) : Nat → Nat → Nat
  | k, 0 => k
  | k, fuel + 1 => if ps.getD k 0 = v then protect_run ps v (k + 1) fuel else k

/-- Win32 `VirtualQueryEx (process, address, &mbi, sizeof (mbi))`: the region of pages from
the page of `address` on that share state, protection and allocation. -/
def query (w : World) (address : Nat) : MEMORY_BASIC_INFORMATION :=
  let i := address / ALLOCATION_GRANULARITY
  let base := round_down address PAGE_SIZE
  match w.vm i with
  | .free =>
    { BaseAddress := base, AllocationBase := 0
      RegionSize := free_run w i (w.directory_size - i) * ALLOCATION_GRANULARITY - base
      State := MEM_FREE, Protect := PAGE_NOACCESS, Type_ := 0 }
  | .reserved b e =>
    { BaseAddress := base, AllocationBase := b * ALLOCATION_GRANULARITY
      RegionSize := e * ALLOCATION_GRANULARITY - base
      State := MEM_RESERVE, Protect := 0, Type_ := MEM_PRIVATE }
  | .mapped _ ps =>
    let k := address % ALLOCATION_GRANULARITY / PAGE_SIZE
    let v := ps.getD k 0
    { BaseAddress := base, AllocationBase := i * ALLOCATION_GRANULARITY
      RegionSize := (protect_run ps v k (PAGES_PER_BLOCK - k) - k) * PAGE_SIZE
      State := if v = 0 then MEM_RESERVE else MEM_COMMIT, Protect := v, Type_ := MEM_MAPPED }

/-! ## The block directory -/

/-- Method `AddressSpace::allocated_block`: the directory entry of the block of `address`
(its index), or null when the index is outside the directory or the entry's mapping is
null. -/
def allocated_block (w : World) (address : Nat) : Option Nat :=
  let idx := address / ALLOCATION_GRANULARITY
  if idx < w.directory_size ∧ w.directory idx ≠ 0 then some idx else none

/-! ## `AddressSpace::Block` -/

/-- Constructor `Block::Block (space, address)`: the block's base `m_address`;
`BAD_PARAM` when the block is not allocated. -/
def Block.new (w : World) (address : Nat) : Res Nat :=
  match allocated_block w address with
  | some _ => .ok (round_down address ALLOCATION_GRANULARITY)
  | none => .raise .BAD_PARAM

/-- Accessor `Block::mapping ()`. -/
def Block.mapping (w : World) (m_address : Nat) : Nat :=
  w.directory (m_address / ALLOCATION_GRANULARITY)

/-- Snapshot `Block::State`: `MAPPED` with the state of each page and the OR of them, or
the reservation that holds the block. -/
inductive State
  | RESERVED (begin end_ : Nat)
  | MAPPED (page_state : List Nat) (page_state_bits : Nat)
  deriving DecidableEq, Repr

/-- The array `page_state [PAGES_PER_BLOCK]` that `Block::state ()` fills from the
protection the OS reports for each page of the view. -/
def page_states (protect : List Nat) : List Nat :=
  (List.range PAGES_PER_BLOCK).map fun k => protect.getD k 0

/-- Method `Block::state ()` on a block whose snapshot is invalid.  The query loop ends at
once when the mapping is the sentinel or the OS reports a mapped view; when the directory
holds a real handle and the OS reports no view it spins. -/
def Block.state (w : World) (m_address : Nat) : Res State :=
  let mbi := query w m_address
  let hm := Block.mapping w m_address
  match w.vm (m_address / ALLOCATION_GRANULARITY) with
  | .mapped _ ps =>
    .ok (.MAPPED (page_states ps) ((page_states ps).foldl (· ||| ·) mbi.Protect))
  | _ =>
    if hm = 0 ∨ hm = INVALID_HANDLE_VALUE then
      .ok (.RESERVED mbi.AllocationBase (mbi.BaseAddress + mbi.RegionSize))
    else .hang

/-- The page loop of `Block::is_copy`: `n` pages from page `k` on. -/
def Block.is_copy_pages (pst other_pst : List Nat) : Nat → Nat → Res Bool
  | _, 0 => .ok true
  | k, n + 1 =>
    match rd pst k, rd other_pst k with
    | .ok ps, .ok other_ps =>
      if (ps ||| other_ps) &&& PageState.MASK_UNMAPPED ≠ 0 then .ok false
      else if ps &&& PageState.MASK_ACCESS = 0 ∨ other_ps &&& PageState.MASK_ACCESS = 0 then
        .ok false
      else Block.is_copy_pages pst other_pst (k + 1) n
    | _, _ => .fault

/-- Method `Block::is_copy (other, offset, size)`. -/
def Block.is_copy (w : World) (m_address other : Nat) (offset size : Nat) : Res Bool := do
  let st ← Block.state w m_address
  let other_st ← Block.state w other
  match st, other_st with
  | .MAPPED pst _, .MAPPED other_pst _ =>
    if ¬ CompareObjectHandles w (Block.mapping w m_address) (Block.mapping w other) then
      pure false
    else
      let page_begin := offset / PAGE_SIZE
      let pst_end := (offset + size + PAGE_SIZE - 1) / PAGE_SIZE
      Block.is_copy_pages pst other_pst page_begin (pst_end - page_begin)
  | _, _ => pure false

/-- The block loop of `AddressSpace::is_copy`, inside its `try`. -/
def AddressSpace.is_copy_loop (w : World) (end1 : Nat) : Nat → Nat → Nat → Res Bool
  | 0, begin1, _ => if begin1 < end1 then .hang else .ok true
  | fuel + 1, begin1, begin2 =>
    if begin1 < end1 then do
      let block1 ← Block.new w begin1
      let block2 ← Block.new w begin2
      let block_end1 := min (block1 + ALLOCATION_GRANULARITY) end1
      let r ← Block.is_copy w block1 block2 (begin1 - block1) (block_end1 - begin1)
      if ¬ r then pure false
      else
        AddressSpace.is_copy_loop w end1 fuel block_end1 (block2 + ALLOCATION_GRANULARITY)
    else .ok true

/-- Method `AddressSpace::is_copy (p, plocal, size)`; `catch (...)` turns every exception of
the loop into `false`. -/
def AddressSpace.is_copy (w : World) (p plocal size : Nat) : Res Bool :=
  if p % ALLOCATION_GRANULARITY = plocal % ALLOCATION_GRANULARITY then
    match AddressSpace.is_copy_loop w (p + size) (size / ALLOCATION_GRANULARITY + 2) p plocal with
    | .raise _ => .ok false
    | r => r
  else .ok false

/-- Win32 `MapViewOfFile2` with a null base address: the OS picks the block, `choice`
(a null `choice` is a refusal); fails unless `mapping` is an open handle and the block is
free. -/
def MapViewOfFile2_any (w : World) (mapping protection choice : Nat) : Nat × World :=
  if choice = 0 then (0, w) else MapViewOfFile2 w mapping choice protection

/-- Win32 `VirtualAllocEx (MEM_RESERVE)` with a null address: the OS picks the base,
`choice` (a null `choice` is a refusal). -/
def VirtualAllocEx_reserve_any (w : World) (size choice : Nat) : Nat × World :=
  if choice = 0 ∨ choice % ALLOCATION_GRANULARITY ≠ 0 then (0, w)
  else VirtualAllocEx_reserve w choice size

/-! ## Reservation and mapping (`AddressSpace.cpp`) -/

/-- The loop `while (!VirtualAllocEx (process, address, size, MEM_RESERVE, ...)) concurrency ()`:
in a single-threaded run a refused reservation is refused for ever. -/
def reserve_retry (w : World) (address size : Nat) : Res Unit × World :=
  let r := VirtualAllocEx_reserve w address size
  if r.1 = 0 then (.hang, r.2) else (.ok (), r.2)

/-- The loop `while (!MapViewOfFile2 (mapping, process, 0, address, ...)) concurrency ()`. -/
def map_view_retry (w : World) (mapping address protection : Nat) : Res Unit × World :=
  let r := MapViewOfFile2 w mapping address protection
  if r.1 = 0 then (.hang, r.2) else (.ok (), r.2)

/-- The branch `old == INVALID_HANDLE_VALUE` of `Block::map`: the reservation that holds the
block is released and what lies before and after the block is reserved again. -/
def Block.map_split (w : World) (m_address : Nat) : Res Unit × World :=
  let mbi := query w m_address
  let reserved_begin := mbi.AllocationBase
  let region_end := mbi.BaseAddress + mbi.RegionSize
  let w := (VirtualFreeEx_release w reserved_begin).2
  let r1 := if reserved_begin < m_address then
      reserve_retry w reserved_begin (m_address - reserved_begin)
    else (.ok (), w)
  match r1 with
  | (.ok _, w) =>
    let end_ := m_address + ALLOCATION_GRANULARITY
    if end_ < region_end then reserve_retry w end_ (region_end - end_) else (.ok (), w)
  | r => r

/-- Method `Block::map (mapping, protection, commit)`. -/
def Block.map (w : World) (m_address mapping protection : Nat) (commit : Bool) :
    Res Unit × World :=
  let i := m_address / ALLOCATION_GRANULARITY
  let old := w.directory i
  -- InterlockedCompareExchangePointer / InterlockedExchangePointer
  let w := if commit then (if old = INVALID_HANDLE_VALUE then w.set_mapping i mapping else w)
    else w.set_mapping i mapping
  if old = INVALID_HANDLE_VALUE then
    match Block.map_split w m_address with
    | (.ok _, w) => map_view_retry w mapping m_address protection
    | r => r
  else if old ≠ 0 then
    if commit then (.ok (), CloseHandle w mapping)
    else
      let w := (UnmapViewOfFile2 w m_address).2
      let w := CloseHandle w old
      map_view_retry w mapping m_address protection
  else (.raise .INTERNAL, w.set_mapping i 0)

/-- Method `Block::unmap (reserve, no_close_handle)`. -/
def Block.unmap (w : World) (m_address reserve : Nat) (no_close_handle : Bool) :
    Res Unit × World :=
  let i := m_address / ALLOCATION_GRANULARITY
  let mapping := w.directory i
  let w := w.set_mapping i reserve
  if mapping = 0 then
    (.raise .INTERNAL, if reserve ≠ 0 then w.set_mapping i 0 else w)
  else if mapping ≠ INVALID_HANDLE_VALUE then
    let w := (UnmapViewOfFile2 w m_address).2
    let w := if no_close_handle then w else CloseHandle w mapping
    if reserve ≠ 0 then reserve_retry w m_address ALLOCATION_GRANULARITY else (.ok (), w)
  else (.ok (), w)

/-- The compare-and-swap walk of `AddressSpace::reserve` over `n` blocks from `pb` on:
the address of the first block whose entry was not null (`none` when all were claimed). -/
def AddressSpace.reserve_claim (w : World) : Nat → Nat → Option Nat × World
  | _, 0 => (none, w)
  | pb, n + 1 =>
    if w.directory (pb / ALLOCATION_GRANULARITY) ≠ 0 then (some pb, w)
    else AddressSpace.reserve_claim
      (w.set_mapping (pb / ALLOCATION_GRANULARITY) INVALID_HANDLE_VALUE)
      (pb + ALLOCATION_GRANULARITY) n

/-- The rollback of `AddressSpace::reserve`: `while (pb > p) block (pb -= G).mapping = 0`,
`n` blocks down from `pb`. -/
def AddressSpace.reserve_rollback (w : World) : Nat → Nat → World
  | _, 0 => w
  | pb, n + 1 =>
    AddressSpace.reserve_rollback
      (w.set_mapping ((pb - ALLOCATION_GRANULARITY) / ALLOCATION_GRANULARITY) 0)
      (pb - ALLOCATION_GRANULARITY) n

/-- One pass of the loop of `AddressSpace::reserve`, `dst` and `size` already rounded:
`(some p, _)` the reservation stands at `p`, `(none, true)` the OS refused, `(none, false)` a
compare-and-swap failed and the attempt was rolled back. -/
def AddressSpace.reserve_attempt (w : World) (size dst choice : Nat) :
    Option Nat × Bool × World :=
  let r := if dst = 0 then VirtualAllocEx_reserve_any w size choice
    else VirtualAllocEx_reserve w dst size
  let p := r.1
  if p = 0 then (none, true, r.2)
  else
    let c := AddressSpace.reserve_claim r.2 p (size / ALLOCATION_GRANULARITY)
    match c.1 with
    | none => (some p, true, c.2)
    | some pb =>
      let w := AddressSpace.reserve_rollback c.2 pb ((pb - p) / ALLOCATION_GRANULARITY)
      (none, false, (VirtualFreeEx_release w p).2)

/-- The retry loop of `AddressSpace::reserve`; `choice` and `retries` are the bases the OS
picks when it is asked with a null address. -/
def AddressSpace.reserve_loop (w : World) (size flags dst : Nat) :
    Nat → List Nat → Res Nat × World
  | choice, retries =>
    match AddressSpace.reserve_attempt w size dst choice with
    | (some p, _, w) => (.ok p, w)
    | (none, true, w) =>
      if dst ≠ 0 ∧ flags &&& Memory.EXACTLY ≠ 0 then (.ok 0, w) else (.raise .NO_MEMORY, w)
    | (none, false, w) =>
      match retries with
      | [] => (.hang, w)
      | c :: rest => AddressSpace.reserve_loop w size flags dst c rest

/-- Method `AddressSpace::reserve (size, flags, dst)`. -/
def AddressSpace.reserve (w : World) (size flags dst : Nat) (choice : Nat)
    (retries : List Nat) : Res Nat × World :=
  if size = 0 then (.raise .BAD_PARAM, w)
  else
    let dst' := if dst ≠ 0 ∧ ¬ (flags &&& Memory.EXACTLY ≠ 0) then
        round_down dst ALLOCATION_GRANULARITY else dst
    let size := round_up size ALLOCATION_GRANULARITY
    match AddressSpace.reserve_loop w size flags dst' choice retries with
    | (.ok p, w) =>
      if p = 0 then (.ok 0, w)
      else if dst' ≠ 0 ∧ flags &&& Memory.EXACTLY ≠ 0 then (.ok dst', w) else (.ok p, w)
    | r => r

/-- The first `VirtualAllocEx` call of `AddressSpace::reserve (size, flags, dst)`: the
address it returns (null: the OS refuses) and the state it leaves. -/
def AddressSpace.reserve_request (w : World) (size flags dst choice : Nat) : Nat × World :=
  let dst' := if dst ≠ 0 ∧ ¬ (flags &&& Memory.EXACTLY ≠ 0) then
      round_down dst ALLOCATION_GRANULARITY else dst
  let size := round_up size ALLOCATION_GRANULARITY
  if dst' = 0 then VirtualAllocEx_reserve_any w size choice
  else VirtualAllocEx_reserve w dst' size

/-- The allocation check of `AddressSpace::release`: `n` blocks from `p` on. -/
def AddressSpace.release_check (w : World) : Nat → Nat → Bool
  | _, 0 => true
  | p, n + 1 =>
    match allocated_block w p with
    | none => false
    | some _ => AddressSpace.release_check w (p + ALLOCATION_GRANULARITY) n

/-- The inner loop of the release pass: `while (p < region_end)` null the entry of `p`,
`n` blocks at most.  The entry is reached through `allocated_block (p)`, a null pointer
when the entry is already null. -/
def AddressSpace.release_region (w : World) (region_end : Nat) : Nat → Nat → Res Nat × World
  | p, 0 => if p < region_end then (.hang, w) else (.ok p, w)
  | p, n + 1 =>
    if p < region_end then
      match allocated_block w p with
      | none => (.fault, w)
      | some i =>
        AddressSpace.release_region (w.set_mapping i 0) region_end
          (p + ALLOCATION_GRANULARITY) n
    else (.ok p, w)

/-- The release pass of `AddressSpace::release`: `for (p = begin; p < end;)`. -/
def AddressSpace.release_pass (w : World) (end_ : Nat) : Nat → Nat → Res Unit × World
  | p, 0 => if p < end_ then (.hang, w) else (.ok (), w)
  | p, fuel + 1 =>
    if p < end_ then
      match allocated_block w p with
      | none => (.fault, w)
      | some i =>
        let mapping := w.directory i
        let w := w.set_mapping i 0
        if mapping = INVALID_HANDLE_VALUE then
          let mbi := query w p
          let w := if mbi.State = MEM_RESERVE then (VirtualFreeEx_release w p).2 else w
          let region_end := min (mbi.BaseAddress + mbi.RegionSize) end_
          match AddressSpace.release_region w region_end (p + ALLOCATION_GRANULARITY) fuel with
          | (.ok p, w) => AddressSpace.release_pass w end_ p fuel
          | (.raise e, w) => (.raise e, w)
          | (.hang, w) => (.hang, w)
          | (.fault, w) => (.fault, w)
        else
          let w := (UnmapViewOfFile2 w p).2
          let w := CloseHandle w mapping
          AddressSpace.release_pass w end_ (p + ALLOCATION_GRANULARITY) fuel
    else (.ok (), w)

/-- The value `MEMORY_BASIC_INFORMATION mbi = {0}`. -/
def MEMORY_BASIC_INFORMATION.zero : MEMORY_BASIC_INFORMATION :=
  { BaseAddress := 0, AllocationBase := 0, RegionSize := 0, State := 0, Protect := 0,
    Type_ := 0 }

/-- The margins of `AddressSpace::release`: `begin_mbi` and `end_mbi`, the regions of the
reservations that hold the first and the last block (zero when the block is mapped). -/
def AddressSpace.release_margins (w : World) (begin_ end_ : Nat) :
    MEMORY_BASIC_INFORMATION × MEMORY_BASIC_INFORMATION :=
  let sentinel_at (a : Nat) : Bool :=
    w.directory (a / ALLOCATION_GRANULARITY) = INVALID_HANDLE_VALUE
  let begin_mbi := if sentinel_at begin_ then query w begin_ else .zero
  let end_mbi :=
    if sentinel_at begin_ ∧ begin_mbi.BaseAddress + begin_mbi.RegionSize ≥ end_ then begin_mbi
    else .zero
  let end_mbi :=
    if end_mbi.BaseAddress = 0 then
      let back := end_ - PAGE_SIZE
      if sentinel_at back then query w back else end_mbi
    else end_mbi
  (begin_mbi, end_mbi)

/-- Split of the reservation of the first block at `begin`. -/
def AddressSpace.release_split_begin (w : World) (begin_ : Nat)
    (begin_mbi : MEMORY_BASIC_INFORMATION) : Res Unit × World :=
  if begin_mbi.BaseAddress ≠ 0 ∧ begin_mbi.AllocationBase < begin_ then
    let w := (VirtualFreeEx_release w begin_mbi.AllocationBase).2
    reserve_retry w begin_mbi.AllocationBase (begin_ - begin_mbi.AllocationBase)
  else (.ok (), w)

/-- Split of the reservation of the last block at `end`. -/
def AddressSpace.release_split_end (w : World) (begin_ end_ : Nat)
    (end_mbi : MEMORY_BASIC_INFORMATION) : Res Unit × World :=
  if end_mbi.BaseAddress ≠ 0 ∧ end_ < end_mbi.BaseAddress + end_mbi.RegionSize then
    let w := if end_mbi.AllocationBase ≥ begin_ then
        (VirtualFreeEx_release w end_mbi.AllocationBase).2
      else w
    reserve_retry w end_ (end_mbi.BaseAddress + end_mbi.RegionSize - end_)
  else (.ok (), w)

/-- The block "Define allocation margins if memory is reserved" of `AddressSpace::release`,
with the two splits. -/
def AddressSpace.release_split (w : World) (begin_ end_ : Nat) : Res Unit × World :=
  let m := AddressSpace.release_margins w begin_ end_
  match AddressSpace.release_split_begin w begin_ m.1 with
  | (.ok _, w) => AddressSpace.release_split_end w begin_ end_ m.2
  | r => r

/-- Method `AddressSpace::release (dst, size)`. -/
def AddressSpace.release (w : World) (dst size : Nat) : Res Unit × World :=
  if ¬ (dst ≠ 0 ∧ size ≠ 0) then (.ok (), w)
  else
    let begin_ := round_down dst ALLOCATION_GRANULARITY
    let end_ := round_up (dst + size) ALLOCATION_GRANULARITY
    let n := (end_ - begin_) / ALLOCATION_GRANULARITY
    if ¬ AddressSpace.release_check w begin_ n then (.raise .BAD_PARAM, w)
    else
      match AddressSpace.release_split w begin_ end_ with
      | (.ok _, w) => AddressSpace.release_pass w end_ begin_ n
      | r => r

/-- The retry loop of `AddressSpace::map`; `choice` and `retries` are the blocks the OS
picks for the view. -/
def AddressSpace.map_loop (w : World) (mapping protection : Nat) :
    Nat → List Nat → Res Nat × World
  | choice, retries =>
    let r := MapViewOfFile2_any w mapping protection choice
    let p := r.1
    if p = 0 then (.raise .NO_MEMORY, r.2)
    else
      let w := r.2
      if w.directory (p / ALLOCATION_GRANULARITY) = 0 then
        (.ok p, w.set_mapping (p / ALLOCATION_GRANULARITY) mapping)
      else
        let w := (UnmapViewOfFile2 w p).2
        match retries with
        | [] => (.hang, w)
        | c :: rest => AddressSpace.map_loop w mapping protection c rest

/-- Method `AddressSpace::map (mapping, protection)`. -/
def AddressSpace.map (w : World) (mapping protection : Nat) (choice : Nat)
    (retries : List Nat) : Res Nat × World :=
  AddressSpace.map_loop w mapping protection choice retries

/-! ## Page-level operations of `AddressSpace::Block` -/

/-- The array `state ().mapped.page_state`: the member of the union that is live only for a
mapped block. -/
def Block.page_state (w : World) (m_address : Nat) : Res (List Nat) := do
  match ← Block.state w m_address with
  | .MAPPED page_state _ => pure page_state
  | .RESERVED _ _ => .fault

/-- A loop `for (ps = page_state + k; ps < page_state + end; ++ps) if (mask & *ps) return true`,
`n` pages at most. -/
def any_page (page_state : List Nat) (mask end_ : Nat) : Nat → Nat → Res Bool
  | k, 0 => if k < end_ then .hang else .ok false
  | k, n + 1 =>
    if k < end_ then do
      let ps ← rd page_state k
      if mask &&& ps ≠ 0 then pure true else any_page page_state mask end_ (k + 1) n
    else .ok false

/-- Method `Block::has_data_outside_of (offset, size, mask)`. -/
def Block.has_data_outside_of (w : World) (m_address offset size mask : Nat) : Res Bool :=
  let offset_end := offset + size
  if offset ≠ 0 ∨ size < ALLOCATION_GRANULARITY then do
    let page_state ← Block.page_state w m_address
    let before ←
      if offset ≠ 0 then
        any_page page_state mask ((offset + PAGE_SIZE - 1) / PAGE_SIZE) 0 (PAGES_PER_BLOCK + 1)
      else pure false
    if before then pure true
    else if offset_end < ALLOCATION_GRANULARITY then
      any_page page_state mask PAGES_PER_BLOCK (offset_end / PAGE_SIZE) (PAGES_PER_BLOCK + 1)
    else pure false
  else pure false

/-- Method `Block::can_move (offset, size, flags)`. -/
def Block.can_move (w : World) (m_address offset size flags : Nat) : Res Bool :=
  if flags &&& Memory.DECOMMIT ≠ 0 then
    if flags &&& bits_outside Memory.RELEASE Memory.DECOMMIT ≠ 0 then pure true
    else do
      let outside ← Block.has_data_outside_of w m_address offset size PageState.MASK_ACCESS
      pure (!outside)
  else pure false

/-- Method `AddressSpace::protect (address, size, protection)`. -/
def AddressSpace.protect (w : World) (address size protection : Nat) : World :=
  VirtualProtectEx w address size protection

/-- The tables `states_RW` and `states_RO` of `Block::change_protection`. -/
def states_RW : List Nat :=
  [PageState.RW_MAPPED_PRIVATE, PageState.RW_MAPPED_SHARED, PageState.RW_UNMAPPED]

def states_RO : List Nat :=
  [PageState.RO_MAPPED_PRIVATE, PageState.RO_MAPPED_SHARED, PageState.RO_UNMAPPED]

/-- The lookup `for (i = 0; i < STATES_CNT; ++i) if (states_src [i] == state) ...`. -/
def translate_state (states_src states_dst : List Nat) (state : Nat) : Nat :=
  match states_src, states_dst with
  | s :: src, d :: dst => if s = state then d else translate_state src dst state
  | _, _ => state

/-- The loop `do ++region_end; while (region_end < state_end && state == *region_end)`, entered
with `region_end` already incremented; `n` pages at most. -/
def same_state_run (page_state : List Nat) (state state_end : Nat) : Nat → Nat → Res Nat
  | region_end, 0 => if region_end < state_end then .hang else .ok region_end
  | region_end, n + 1 =>
    if region_end < state_end then do
      let s ← rd page_state region_end
      if state = s then same_state_run page_state state state_end (region_end + 1) n
      else pure region_end
    else .ok region_end

/-- The region loop of `Block::change_protection`. -/
def Block.change_protection_loop (page_state : List Nat) (m_address protect_mask : Nat)
    (states_src states_dst : List Nat) (state_end : Nat) :
    Nat → Nat → World → Res Unit × World
  | 0, _, w => (.hang, w)
  | fuel + 1, region_begin, w =>
    match rd page_state region_begin with
    | .ok state =>
      match same_state_run page_state state state_end (region_begin + 1) PAGES_PER_BLOCK with
      | .ok region_end =>
        let new_state := translate_state states_src states_dst state
        let w :=
          if protect_mask &&& state = 0 ∧ new_state ≠ state then
            AddressSpace.protect w (m_address + region_begin * PAGE_SIZE)
              ((region_end - region_begin) * PAGE_SIZE) new_state
          else w
        if region_end < state_end then
          Block.change_protection_loop page_state m_address protect_mask states_src states_dst
            state_end fuel region_end w
        else (.ok (), w)
      | .raise e => (.raise e, w)
      | .hang => (.hang, w)
      | .fault => (.fault, w)
    | _ => (.fault, w)

/-- Method `Block::change_protection (offset, size, flags)`. -/
def Block.change_protection (w : World) (m_address offset size flags : Nat) :
    Res Unit × World :=
  let offset_end := offset + size
  let ro := flags &&& Memory.READ_ONLY ≠ 0
  let protect_mask := if ro then PageState.MASK_RO else PageState.MASK_RW
  let states_src := if ro then states_RW else states_RO
  let states_dst := if ro then states_RO else states_RW
  let offset := if ro then round_up offset PAGE_SIZE else round_down offset PAGE_SIZE
  let offset_end :=
    if ro then round_down offset_end PAGE_SIZE else round_up offset_end PAGE_SIZE
  match Block.page_state w m_address with
  | .ok page_state =>
    Block.change_protection_loop page_state m_address protect_mask states_src states_dst
      (offset_end / PAGE_SIZE) (PAGES_PER_BLOCK + 1) (offset / PAGE_SIZE) w
  | .raise e => (.raise e, w)
  | .hang => (.hang, w)
  | .fault => (.fault, w)

/-- The page loop of `Block::check_committed`: `n` pages at most. -/
def all_pages_access (page_state : List Nat) (end_ : Nat) : Nat → Nat → Res Bool
  | k, 0 => if k < end_ then .hang else .ok true
  | k, n + 1 =>
    if k < end_ then do
      let ps ← rd page_state k
      if PageState.MASK_ACCESS &&& ps = 0 then pure false
      else all_pages_access page_state end_ (k + 1) n
    else .ok true

/-- Method `Block::check_committed (offset, size)`. -/
def Block.check_committed (w : World) (m_address offset size : Nat) : Res Nat := do
  match ← Block.state w m_address with
  | .MAPPED page_state page_state_bits =>
    let ok ← all_pages_access page_state ((offset + size + PAGE_SIZE - 1) / PAGE_SIZE)
      (offset / PAGE_SIZE) (PAGES_PER_BLOCK + 1)
    if ok then pure page_state_bits else .raise .BAD_PARAM
  | .RESERVED _ _ => .raise .BAD_PARAM

/-- The test `(PageState::MASK_MAY_BE_SHARED | PageState::DECOMMITTED) & state` of the discard
loop of `Block::decommit`. -/
def may_be_shared (state : Nat) : Bool :=
  (PageState.MASK_MAY_BE_SHARED ||| PageState.DECOMMITTED) &&& state ≠ 0

/-- The two inner loops `do ++region_end; while (region_end < state_end && ...)` of the
discard loop: the run of pages that are private, or not, like the first one. -/
def Block.decommit_run (page_state : List Nat) (state_end : Nat) (kind : Bool) :
    Nat → Nat → Res Nat
  | region_end, 0 => if region_end < state_end then .hang else .ok region_end
  | region_end, n + 1 =>
    if region_end < state_end then do
      let x ← rd page_state region_end
      if may_be_shared x = kind then
        Block.decommit_run page_state state_end kind (region_end + 1) n
      else pure region_end
    else .ok region_end

/-- The loop "Discard private pages" of `Block::decommit`: the runs of private pages get a
`MEM_RESET` hint, which changes no protection; only the reads of the walk are kept. -/
def Block.decommit_discard (page_state : List Nat) (state_end : Nat) : Nat → Nat → Res Unit
  | 0, _ => .hang
  | fuel + 1, region_begin => do
    let s ← rd page_state region_begin
    let region_end ←
      Block.decommit_run page_state state_end (may_be_shared s) (region_begin + 1)
        PAGES_PER_BLOCK
    if region_end < state_end then Block.decommit_discard page_state state_end fuel region_end
    else pure ()

/-- The flag `can_unmap` of `Block::decommit`: no page before `offset` and no page from
`offset_end` on has a `MASK_ACCESS` bit. -/
def Block.decommit_can_unmap (page_state : List Nat) (offset offset_end : Nat) : Res Bool := do
  let can_unmap ←
    if offset ≠ 0 then do
      let found ← any_page page_state PageState.MASK_ACCESS (offset / PAGE_SIZE) 0
        (PAGES_PER_BLOCK + 1)
      pure (!found)
    else pure true
  if can_unmap ∧ offset_end < ALLOCATION_GRANULARITY then do
    let found ← any_page page_state PageState.MASK_ACCESS PAGES_PER_BLOCK
      (offset_end / PAGE_SIZE) (PAGES_PER_BLOCK + 1)
    pure (!found)
  else pure can_unmap

/-- The branch of `Block::decommit` for a mapped block that is not decommitted whole. -/
def Block.decommit_mapped (w : World) (m_address offset offset_end : Nat)
    (page_state : List Nat) : Res Unit × World :=
  match Block.decommit_can_unmap page_state offset offset_end with
  | .ok true => Block.unmap w m_address INVALID_HANDLE_VALUE false
  | .ok false =>
    -- Decommit pages.
    let w := AddressSpace.protect w (m_address + offset) (offset_end - offset)
      (PageState.DECOMMITTED ||| PAGE_REVERT_TO_FILE_MAP)
    match Block.decommit_discard page_state (offset_end / PAGE_SIZE)
        (PAGES_PER_BLOCK + 1) (offset / PAGE_SIZE) with
    | .ok _ => (.ok (), w)
    | .raise e => (.raise e, w)
    | .hang => (.hang, w)
    | .fault => (.fault, w)
  | .raise e => (.raise e, w)
  | .hang => (.hang, w)
  | .fault => (.fault, w)

/-- The body of `Block::decommit` after the range has been rounded to pages. -/
def Block.decommit_pages (w : World) (m_address offset offset_end : Nat) : Res Unit × World :=
  if offset < offset_end then
    if offset = 0 ∧ offset_end = ALLOCATION_GRANULARITY then
      Block.unmap w m_address INVALID_HANDLE_VALUE false
    else
      match Block.state w m_address with
      | .ok (.MAPPED page_state _) => Block.decommit_mapped w m_address offset offset_end page_state
      | .ok (.RESERVED _ _) => (.ok (), w)
      | .raise e => (.raise e, w)
      | .hang => (.hang, w)
      | .fault => (.fault, w)
  else (.ok (), w)

/-- Method `Block::decommit (offset, size)`. -/
def Block.decommit (w : World) (m_address offset size : Nat) : Res Unit × World :=
  let offset := round_up offset PAGE_SIZE
  let offset_end := round_down (offset + size) PAGE_SIZE
  Block.decommit_pages w m_address offset offset_end

/-! ## `Block::copy` -/

/-- The constants `AddressSpace::MAP_PRIVATE` and `AddressSpace::MAP_SHARED`. -/
def MAP_PRIVATE : Nat := PAGE_EXECUTE_READWRITE
def MAP_SHARED : Nat := PAGE_EXECUTE_WRITECOPY

/-- Write `a [i] = v` into an array of `a.length` elements. -/
def wr (a : List Nat) (i v : Nat) : Res (List Nat) :=
  if i < a.length then .ok (a.set i v) else .fault

/-- The call `std::fill (a + first, a + last, v)`, `n` elements at most. -/
def fill (v last : Nat) : Nat → Nat → List Nat → Res (List Nat)
  | first, 0, a => if first < last then .hang else .ok a
  | first, n + 1, a =>
    if first < last then do
      let a ← wr a first v
      fill v last (first + 1) n a
    else .ok a

/-- The target state of a moved page: shared when the source page may be shared. -/
def moved_state (flags src_state : Nat) : Nat :=
  if flags &&& Memory.READ_ONLY ≠ 0 then
    if src_state &&& PageState.MASK_MAY_BE_SHARED ≠ 0 then PageState.RO_MAPPED_SHARED
    else PageState.RO_MAPPED_PRIVATE
  else
    if src_state &&& PageState.MASK_MAY_BE_SHARED ≠ 0 then PageState.RW_MAPPED_SHARED
    else PageState.RW_MAPPED_PRIVATE

/-- The loop `do { ... } while (++dst_ps != dst_ps_end)` of `Block::copy` that decides the
target page states of a move from the source page states. -/
def Block.copy_move_states (flags : Nat) (src_page_state : List Nat) (dst_ps_end : Nat) :
    Nat → Nat → List Nat → Res (List Nat)
  | 0, _, _ => .hang
  | fuel + 1, dst_ps, a => do
    let src_state ← rd src_page_state dst_ps
    let a ← wr a dst_ps (moved_state flags src_state)
    if dst_ps + 1 ≠ dst_ps_end then
      Block.copy_move_states flags src_page_state dst_ps_end fuel (dst_ps + 1) a
    else pure a

/-- The array `dst_page_state` of `Block::copy`. -/
def Block.copy_dst_page_state (move : Bool) (src_page_state : Res (List Nat))
    (offset size flags : Nat) : Res (List Nat) := do
  let dst_ps_begin := offset / PAGE_SIZE
  let dst_ps_end := (offset + size + PAGE_SIZE - 1) / PAGE_SIZE
  let a := List.replicate PAGES_PER_BLOCK 0
  let a ← fill PageState.DECOMMITTED dst_ps_begin 0 (PAGES_PER_BLOCK + 1) a
  let a ← fill PageState.DECOMMITTED PAGES_PER_BLOCK dst_ps_end (PAGES_PER_BLOCK + 1) a
  if move then do
    let src ← src_page_state
    Block.copy_move_states flags src dst_ps_end (PAGES_PER_BLOCK + 1) dst_ps_begin a
  else
    fill (if Memory.READ_ONLY &&& flags ≠ 0 then PageState.RO_MAPPED_SHARED
      else PageState.RW_MAPPED_SHARED) dst_ps_end dst_ps_begin (PAGES_PER_BLOCK + 1) a

/-- The skip loop of the protection pass of `Block::copy`:
`while (!(MASK_ACCESS & (*cur_ps ^ (state = *region_begin))))`; `none` is the `return` at
the end of the block, `some k` the first page whose access differs. -/
def Block.copy_skip (cur_ps dst_page_state : List Nat) : Nat → Nat → Res (Option Nat)
  | 0, _ => .hang
  | fuel + 1, region_begin => do
    let cur ← rd cur_ps region_begin
    let state ← rd dst_page_state region_begin
    if PageState.MASK_ACCESS &&& (cur ^^^ state) = 0 then
      if region_begin + 1 = PAGES_PER_BLOCK then pure none
      else Block.copy_skip cur_ps dst_page_state fuel (region_begin + 1)
    else pure (some region_begin)

/-- The protection pass of `Block::copy` ("Manage protection of copyed pages"). -/
def Block.copy_protect (cur_ps dst_page_state : List Nat) (m_address : Nat) :
    Nat → Nat → World → Res Unit × World
  | 0, _, w => (.hang, w)
  | fuel + 1, region_begin, w =>
    match Block.copy_skip cur_ps dst_page_state (PAGES_PER_BLOCK + 1) region_begin with
    | .ok none => (.ok (), w)
    | .ok (some region_begin) =>
      match rd dst_page_state region_begin with
      | .ok state =>
        match same_state_run dst_page_state state PAGES_PER_BLOCK (region_begin + 1)
            PAGES_PER_BLOCK with
        | .ok region_end =>
          let w := AddressSpace.protect w (m_address + region_begin * PAGE_SIZE)
            ((region_end - region_begin) * PAGE_SIZE) state
          if region_end < PAGES_PER_BLOCK then
            Block.copy_protect cur_ps dst_page_state m_address fuel region_end w
          else (.ok (), w)
        | .raise e => (.raise e, w)
        | .hang => (.hang, w)
        | .fault => (.fault, w)
      | _ => (.fault, w)
    | .raise e => (.raise e, w)
    | .hang => (.hang, w)
    | .fault => (.fault, w)

/-- One call `m_space.protect (ptr, size, state)` of the protection pass of `Block::copy`:
the pages `[region_begin, region_end)` of the block, and the protection. -/
structure ProtectRegion where
  region_begin : Nat
  region_end : Nat
  state : Nat
  deriving DecidableEq, Repr

/-- The calls of `m_space.protect` that the protection pass of `Block::copy` makes, in
order: the walk of `Block.copy_protect`, the calls kept instead of made. -/
def Block.copy_protect_regions (cur_ps dst_page_state : List Nat) :
    Nat → Nat → Res (List ProtectRegion)
  | 0, _ => .hang
  | fuel + 1, region_begin =>
    match Block.copy_skip cur_ps dst_page_state (PAGES_PER_BLOCK + 1) region_begin with
    | .ok none => .ok []
    | .ok (some region_begin) =>
      match rd dst_page_state region_begin with
      | .ok state =>
        match same_state_run dst_page_state state PAGES_PER_BLOCK (region_begin + 1)
            PAGES_PER_BLOCK with
        | .ok region_end =>
          if region_end < PAGES_PER_BLOCK then
            match Block.copy_protect_regions cur_ps dst_page_state fuel region_end with
            | .ok rest => .ok (⟨region_begin, region_end, state⟩ :: rest)
            | r => r
          else .ok [⟨region_begin, region_end, state⟩]
        | .raise e => .raise e
        | .hang => .hang
        | .fault => .fault
      | _ => .fault
    | .raise e => .raise e
    | .hang => .hang
    | .fault => .fault

/-- The process after the calls `m_space.protect (address () + region_begin * PAGE_SIZE,
(region_end - region_begin) * PAGE_SIZE, state)` of a list of regions, in order. -/
def Block.protect_regions (m_address : Nat) : List ProtectRegion → World → World
  | [], w => w
  | r :: rest, w =>
    Block.protect_regions m_address rest
      (AddressSpace.protect w (m_address + r.region_begin * PAGE_SIZE)
        ((r.region_end - r.region_begin) * PAGE_SIZE) r.state)

/-- The rewiring step of `Block::copy`: `if (remap) ...`; `dup` is the handle value the OS
hands out to `DuplicateHandle`. -/
def Block.copy_remap (w : World) (m_address src : Nat) (move no_duplicate_handle : Bool)
    (dup : Nat) : Res Unit × World :=
  if ¬ no_duplicate_handle then
    let r := DuplicateHandle w (Block.mapping w src) dup
    if r.1 = 0 then (.raise .NO_MEMORY, r.2)
    else
      match Block.map r.2 m_address r.1 (if move then MAP_PRIVATE else MAP_SHARED) false with
      | (.raise e, w) => (.raise e, CloseHandle w r.1)
      | x => x
  else Block.map w m_address (Block.mapping w src) MAP_PRIVATE false

/-- The teardown of the source in `Block::copy`: `if (Memory::DECOMMIT & flags) ...`. -/
def Block.copy_teardown (w : World) (src offset size flags : Nat)
    (move no_duplicate_handle : Bool) : Res Unit × World :=
  if Memory.DECOMMIT &&& flags ≠ 0 then
    if bits_outside Memory.RELEASE Memory.DECOMMIT &&& flags ≠ 0 then
      Block.unmap w src 0 no_duplicate_handle
    else if move then Block.unmap w src INVALID_HANDLE_VALUE no_duplicate_handle
    else Block.decommit w src offset size
  else (.ok (), w)

/-- Method `Block::copy (remap, move, src, offset, size, flags)`. -/
def Block.copy6 (w : World) (m_address : Nat) (remap move : Bool)
    (src offset size flags dup : Nat) : Res Unit × World :=
  let src_page_state := if move then Block.page_state w src else .ok []
  match Block.copy_dst_page_state move src_page_state offset size flags with
  | .ok dst_page_state =>
    let no_duplicate_handle := move && w.is_current_process
    match (if remap then Block.copy_remap w m_address src move no_duplicate_handle dup
        else (.ok (), w)) with
    | (.ok _, w) =>
      match Block.copy_teardown w src offset size flags move no_duplicate_handle with
      | (.ok _, w) =>
        match Block.page_state w m_address with
        | .ok cur_ps =>
          Block.copy_protect cur_ps dst_page_state m_address (PAGES_PER_BLOCK + 1) 0 w
        | .raise e => (.raise e, w)
        | .hang => (.hang, w)
        | .fault => (.fault, w)
      | r => r
    | r => r
  | .raise e => (.raise e, w)
  | .hang => (.hang, w)
  | .fault => (.fault, w)

/-- Method `Block::copy (src, offset, size, flags)`. -/
def Block.copy (w : World) (m_address src offset size flags dup : Nat) : Res Unit × World :=
  let src_mapping := Block.mapping w src
  let cur_mapping := Block.mapping w m_address
  let remap : Res Bool :=
    if INVALID_HANDLE_VALUE = cur_mapping then pure true
    else if ¬ CompareObjectHandles w cur_mapping src_mapping then do
      -- Change mapping, if possible
      if ← Block.has_data_outside_of w m_address offset size PageState.MASK_ACCESS then
        .raise .INTERNAL
      else pure true
    else pure false
  match remap >>= fun r => (Block.can_move w src offset size flags) >>= fun m => pure (r, m) with
  | .ok (remap, move) => Block.copy6 w m_address remap move src offset size flags dup
  | .raise e => (.raise e, w)
  | .hang => (.hang, w)
  | .fault => (.fault, w)

/-! ## Range operations of `AddressSpace` -/

/-- The loop of `AddressSpace::check_allocated`:
`for (p = ptr; p < end; p += ALLOCATION_GRANULARITY)`. -/
def AddressSpace.check_allocated_loop (w : World) (end_ : Nat) : Nat → Nat → Res Unit
  | 0, p => if p < end_ then .hang else .ok ()
  | fuel + 1, p =>
    if p < end_ then
      match allocated_block w p with
      | none => .raise .BAD_PARAM
      | some _ => AddressSpace.check_allocated_loop w end_ fuel (p + ALLOCATION_GRANULARITY)
    else .ok ()

/-- Method `AddressSpace::check_allocated (ptr, size)`. -/
def AddressSpace.check_allocated (w : World) (ptr size : Nat) : Res Unit :=
  if size = 0 then .ok ()
  else if ptr = 0 then .raise .BAD_PARAM
  else AddressSpace.check_allocated_loop w (ptr + size) (size / ALLOCATION_GRANULARITY + 2) ptr

/-- The loop of `AddressSpace::check_committed`. -/
def AddressSpace.check_committed_loop (w : World) (end_ : Nat) : Nat → Nat → Nat → Res Nat
  | 0, p, mask => if p < end_ then .hang else .ok mask
  | fuel + 1, p, mask =>
    if p < end_ then do
      let block ← Block.new w p
      let block_end := min (block + ALLOCATION_GRANULARITY) end_
      let bits ← Block.check_committed w block (p - block) (block_end - p)
      AddressSpace.check_committed_loop w end_ fuel block_end (mask ||| bits)
    else .ok mask

/-- Method `AddressSpace::check_committed (ptr, size)`.  Modelled from the spec: the accumulator
`mask`, which the code reads before it is initialised, starts as zero. -/
def AddressSpace.check_committed (w : World) (ptr size : Nat) : Res Nat :=
  if size = 0 then .ok 0
  else if ptr = 0 then .raise .BAD_PARAM
  else AddressSpace.check_committed_loop w (ptr + size) (size / ALLOCATION_GRANULARITY + 2) ptr 0

/-- The loop of `AddressSpace::change_protection`. -/
def AddressSpace.change_protection_loop (end_ flags : Nat) :
    Nat → Nat → World → Res Unit × World
  | 0, p, w => if p < end_ then (.hang, w) else (.ok (), w)
  | fuel + 1, p, w =>
    if p < end_ then
      match Block.new w p with
      | .ok block =>
        let block_end := min (block + ALLOCATION_GRANULARITY) end_
        match Block.change_protection w block (p - block) (block_end - p) flags with
        | (.ok _, w) => AddressSpace.change_protection_loop end_ flags fuel block_end w
        | r => r
      | .raise e => (.raise e, w)
      | .hang => (.hang, w)
      | .fault => (.fault, w)
    else (.ok (), w)

/-- Method `AddressSpace::change_protection (ptr, size, flags)`. -/
def AddressSpace.change_protection (w : World) (ptr size flags : Nat) : Res Unit × World :=
  if size = 0 then (.ok (), w)
  else if ptr = 0 then (.raise .BAD_PARAM, w)
  else
    AddressSpace.change_protection_loop (ptr + size) flags
      (size / ALLOCATION_GRANULARITY + 2) ptr w

/-- The block loop of `AddressSpace::decommit`. -/
def AddressSpace.decommit_loop (end_ : Nat) : Nat → Nat → World → Res Unit × World
  | 0, p, w => if p < end_ then (.hang, w) else (.ok (), w)
  | fuel + 1, p, w =>
    if p < end_ then
      match Block.new w p with
      | .ok block =>
        let block_end := min (block + ALLOCATION_GRANULARITY) end_
        match Block.decommit w block (p - block) (block_end - p) with
        | (.ok _, w) => AddressSpace.decommit_loop end_ fuel block_end w
        | r => r
      | .raise e => (.raise e, w)
      | .hang => (.hang, w)
      | .fault => (.fault, w)
    else (.ok (), w)

/-- Method `AddressSpace::decommit (ptr, size)`. -/
def AddressSpace.decommit (w : World) (ptr size : Nat) : Res Unit × World :=
  if size = 0 then (.ok (), w)
  else
    match AddressSpace.check_allocated w ptr size with
    | .ok _ =>
      AddressSpace.decommit_loop (ptr + size) (size / ALLOCATION_GRANULARITY + 2) ptr w
    | .raise e => (.raise e, w)
    | .hang => (.hang, w)
    | .fault => (.fault, w)

/-- The loop of `AddressSpace::is_private`:
`for (begin = p, end = begin + size; begin < end;)`. -/
def AddressSpace.is_private_loop (w : World) (end_ : Nat) : Nat → Nat → Res Bool
  | 0, begin_ => if begin_ < end_ then .hang else .ok true
  | fuel + 1, begin_ =>
    if begin_ < end_ then
      let mbi := query w begin_
      if mbi.Protect &&& (PAGE_WRITECOPY ||| PAGE_EXECUTE_WRITECOPY) ≠ 0 then .ok false
      else AddressSpace.is_private_loop w end_ fuel (mbi.BaseAddress + mbi.RegionSize)
    else .ok true

/-- Method `AddressSpace::is_private (p, size)`. -/
def AddressSpace.is_private (w : World) (p size : Nat) : Res Bool :=
  AddressSpace.is_private_loop w (p + size) (size / PAGE_SIZE + 2) p

/-- Answers of the OS to the calls of one operation that leave it a choice: the handle
value it hands out next (null: it refuses) and the blocks it picks when asked for memory at
a null address. -/
structure Os where
  handle : Nat
  choice : Nat
  retries : List Nat

/-- Sequencing of calls that change the process: anything but a normal return ends the
computation, in the state it was reached in. -/
def andThen {α β : Type} (r : Res α × World) (f : α → World → Res β × World) :
    Res β × World :=
  match r with
  | (.ok a, w) => f a w
  | (.raise e, w) => (.raise e, w)
  | (.hang, w) => (.hang, w)
  | (.fault, w) => (.fault, w)

/-- A handler `catch (...) { cleanup; throw; }`: on an exception `cleanup` runs and the
exception is thrown again, unless `cleanup` itself does not return normally. -/
def onException {α : Type} (r : Res α × World) (cleanup : World → Res Unit × World) :
    Res α × World :=
  match r with
  | (.raise e, w) =>
    match cleanup w with
    | (.ok _, w) => (.raise e, w)
    | (.raise e', w) => (.raise e', w)
    | (.hang, w) => (.hang, w)
    | (.fault, w) => (.fault, w)
  | x => x

/-- A call that only reads the process. -/
def pureCall {α : Type} (r : Res α) (w : World) : Res α × World :=
  match r with
  | .ok a => (.ok a, w)
  | .raise e => (.raise e, w)
  | .hang => (.hang, w)
  | .fault => (.fault, w)

/-- Method `AddressSpace::copy (src, offset, size, flags)`: quick copy of one block. -/
def AddressSpace.copy (w : World) (src offset size flags : Nat) (os : Os) : Res Nat × World :=
  andThen (pureCall (Block.can_move w src offset size flags) w) fun move w =>
  let mapped : Res Nat × World :=
    if ¬ move ∨ ¬ w.is_current_process then
      let r := DuplicateHandle w (Block.mapping w src) os.handle
      if r.1 = 0 then (.raise .NO_MEMORY, r.2)
      else
        onException
          (AddressSpace.map r.2 r.1 (if move then MAP_PRIVATE else MAP_SHARED)
            os.choice os.retries)
          fun w => (.ok (), CloseHandle w r.1)
    else AddressSpace.map w (Block.mapping w src) MAP_PRIVATE os.choice os.retries
  andThen mapped fun p w =>
  andThen
    (onException
      (andThen (pureCall (Block.new w p) w) fun block w =>
        Block.copy6 w block false move src offset size flags 0)
      fun w => AddressSpace.release w p size) fun _ w =>
  (.ok p, w)

/-! ## The facade (`MemoryWindows.h`) -/

/-- The members of `MemoryWindows` that are defined out of line, in `MemoryWindows.cpp`,
which is not among the sources: they are parameters of the embedding. -/
structure MemoryWindowsCpp where
  /-- Member `MemoryWindows::commit_no_check (ptr, size)`. -/
  commit_no_check : World → Nat → Nat → Res Nat × World
  /-- Member `MemoryWindows::Block::commit (offset, size)` of the block at the given base. -/
  Block_commit : World → Nat → Nat → Nat → Res Nat × World
  /-- Member `MemoryWindows::Block::need_remap_to_share (offset, size)`. -/
  Block_need_remap_to_share : World → Nat → Nat → Nat → Res Bool × World
  /-- Member `MemoryWindows::Block::remap ()`. -/
  Block_remap : World → Nat → Res Unit × World
  /-- Member `MemoryWindows::Block::prepare_to_share_no_remap (offset, size)`. -/
  Block_prepare_to_share_no_remap : World → Nat → Nat → Nat → Res Unit × World
  /-- Member `MemoryWindows::Block::copy (src, size, flags)` of the block at the given
  base. -/
  Block_copy : World → Nat → Nat → Nat → Nat → Res Unit × World
  /-- Function `is_current_stack (p)`. -/
  is_current_stack : Nat → Bool

/-- The handler `catch (const NO_MEMORY&) { if (flags & Memory::EXACTLY) ret = 0; else throw; }`
of `allocate` and `copy`. -/
def catchNoMemory (flags : Nat) (r : Res Nat × World) : Res Nat × World :=
  match r with
  | (.raise .NO_MEMORY, w) =>
    if flags &&& Memory.EXACTLY ≠ 0 then (.ok 0, w) else (.raise .NO_MEMORY, w)
  | x => x

/-- Function `MemoryWindows::new_mapping ()`. -/
def MemoryWindows.new_mapping (w : World) (os : Os) : Res Nat × World :=
  let r := CreateFileMappingW w os.handle
  if r.1 = 0 then (.raise .NO_MEMORY, r.2) else (.ok r.1, r.2)

/-- The body of the `try` block of `MemoryWindows::allocate`. -/
def MemoryWindows.allocate_try (cpp : MemoryWindowsCpp) (w : World) (dst size flags : Nat)
    (os : Os) : Res Nat × World :=
  if dst = 0 ∧ size ≤ ALLOCATION_GRANULARITY ∧ Memory.RESERVED &&& flags = 0 then
    -- Optimization: quick allocate
    andThen (MemoryWindows.new_mapping w os) fun mapping w =>
    andThen
      (onException (AddressSpace.map w mapping MAP_PRIVATE os.choice os.retries)
        fun w => (.ok (), CloseHandle w mapping)) fun ret w =>
    andThen
      (onException
        (andThen (pureCall (Block.new w ret) w) fun block w => cpp.Block_commit w block 0 size)
        fun w => AddressSpace.release w ret size) fun _ w =>
    (.ok ret, w)
  else
    andThen (AddressSpace.reserve w size flags dst os.choice os.retries) fun ret w =>
    if ret = 0 then (.ok 0, w)
    else if Memory.RESERVED &&& flags = 0 then
      andThen
        (onException (cpp.commit_no_check w ret size) fun w => AddressSpace.release w ret size)
        fun _ w => (.ok ret, w)
    else (.ok ret, w)

/-- Method `MemoryWindows::allocate (dst, size, flags)`. -/
def MemoryWindows.allocate (cpp : MemoryWindowsCpp) (w : World) (dst size flags : Nat)
    (os : Os) : Res Nat × World :=
  if size = 0 then (.raise .BAD_PARAM, w)
  else if bits_outside flags (Memory.RESERVED ||| Memory.EXACTLY ||| Memory.ZERO_INIT) ≠ 0 then
    (.raise .INV_FLAG, w)
  else catchNoMemory flags (MemoryWindows.allocate_try cpp w dst size flags os)

/-- Method `MemoryWindows::release (dst, size)`. -/
def MemoryWindows.release (w : World) (dst size : Nat) : Res Unit × World :=
  AddressSpace.release w dst size

/-- Method `MemoryWindows::decommit (ptr, size)`. -/
def MemoryWindows.decommit (w : World) (ptr size : Nat) : Res Unit × World :=
  AddressSpace.decommit w ptr size

/-- The pair `Region { ptr, size }` of `MemoryWindows`. -/
structure Region where
  ptr : Nat
  size : Nat
  deriving DecidableEq, Repr

/-- The subtraction `size -= d` of a `SIZE_T` (64 bits, wrapping). -/
def size_sub (size d : Nat) : Nat := (size + 2 ^ 64 - d % 2 ^ 64) % 2 ^ 64

/-- Method `Region::subtract (begin, end)`: the region after the call (the method returns its
`size`). -/
def Region.subtract (r : Region) (begin_ end_ : Nat) : Region :=
  let my_end := r.ptr + r.size
  if r.ptr < begin_ then
    let size := if my_end ≥ end_ then 0 else r.size
    let size := if my_end > begin_ then size_sub size (my_end - begin_) else size
    { ptr := r.ptr, size := size }
  else if end_ ≥ my_end then { ptr := r.ptr, size := 0 }
  else if end_ > r.ptr then { ptr := end_, size := size_sub r.size (end_ - r.ptr) }
  else r

/-- Method `MemoryWindows::Block::prepare_to_share (offset, size, flags)`. -/
def MemoryWindows.Block.prepare_to_share (cpp : MemoryWindowsCpp) (w : World)
    (block offset size flags : Nat) : Res Unit × World :=
  andThen (cpp.Block_need_remap_to_share w block offset size) fun need w =>
  andThen (if need then cpp.Block_remap w block else (.ok (), w)) fun _ w =>
  if flags &&& Memory.DECOMMIT = 0 then cpp.Block_prepare_to_share_no_remap w block offset size
  else (.ok (), w)

/-- The ascending block loops of the share path of `MemoryWindows::copy`
(`while (pd < limit)`); `clamp` tells whether `block_end` is cut at `limit`. -/
def MemoryWindows.copy_up (cpp : MemoryWindowsCpp) (limit flags : Nat) (clamp : Bool) :
    Nat → Nat → Nat → World → Res (Nat × Nat) × World
  | 0, pd, ps, w => if pd < limit then (.hang, w) else (.ok (pd, ps), w)
  | fuel + 1, pd, ps, w =>
    if pd < limit then
      andThen (pureCall (Block.new w pd) w) fun block w =>
      let block_end := block + ALLOCATION_GRANULARITY
      let block_end := if clamp ∧ block_end > limit then limit else block_end
      let cb := block_end - pd
      andThen (cpp.Block_copy w block ps cb flags) fun _ w =>
      MemoryWindows.copy_up cpp limit flags clamp fuel block_end (ps + cb) w
    else (.ok (pd, ps), w)

/-- The descending block loops of the share path of `MemoryWindows::copy`
(`while (pd > limit)`); `clamp` tells whether `block_begin` is cut at `limit`. -/
def MemoryWindows.copy_down (cpp : MemoryWindowsCpp) (limit flags : Nat) (clamp : Bool) :
    Nat → Nat → Nat → World → Res (Nat × Nat) × World
  | 0, pd, ps, w => if pd > limit then (.hang, w) else (.ok (pd, ps), w)
  | fuel + 1, pd, ps, w =>
    if pd > limit then
      let block_begin := round_down (pd - 1) ALLOCATION_GRANULARITY
      let block_begin := if clamp ∧ block_begin < limit then limit else block_begin
      andThen (pureCall (Block.new w block_begin) w) fun block w =>
      let cb := pd - block_begin
      let ps := ps - cb
      andThen (cpp.Block_copy w block ps cb flags) fun _ w =>
      MemoryWindows.copy_down cpp limit flags clamp fuel block_begin ps w
    else (.ok (pd, ps), w)

/-- The flags of the overlapped part: `(flags & ~Memory::RELEASE) | Memory::DECOMMIT`. -/
def first_part_flags (flags : Nat) : Nat := bits_outside flags Memory.RELEASE ||| Memory.DECOMMIT

/-- The branch "Share (regions may overlap)" of `MemoryWindows::copy`. -/
def MemoryWindows.copy_share (cpp : MemoryWindowsCpp) (w : World) (ret src size flags : Nat) :
    Res Unit × World :=
  let fuel := size / ALLOCATION_GRANULARITY + 2
  if ret < src then
    let pd := ret
    let end_ := pd + size
    let ps := src
    andThen
      (if end_ > src then
        -- Copy overlapped part with Memory::DECOMMIT.
        let first_part_end := round_up (end_ - (src + size - end_)) ALLOCATION_GRANULARITY
        MemoryWindows.copy_up cpp first_part_end (first_part_flags flags) false fuel pd ps w
      else (.ok (pd, ps), w)) fun p w =>
    andThen (MemoryWindows.copy_up cpp end_ flags true fuel p.1 p.2 w) fun _ w => (.ok (), w)
  else
    let src_end := src + size
    let pd := ret + size
    let ps := src + size
    andThen
      (if ret < src_end then
        -- Copy overlapped part with Memory::DECOMMIT.
        let first_part_begin := round_down (ret + (ret - src)) ALLOCATION_GRANULARITY
        MemoryWindows.copy_down cpp first_part_begin (first_part_flags flags) false fuel pd ps w
      else (.ok (pd, ps), w)) fun p w =>
    andThen (MemoryWindows.copy_down cpp ret flags true fuel p.1 p.2 w) fun _ w => (.ok (), w)

/-- One call `block.copy (ps, cb, flags)` of the share path of `MemoryWindows::copy`, made on
the block of the destination address `pd`: the bytes `[ps, ps + cb)` go to `[pd, pd + cb)`. -/
structure Piece where
  pd : Nat
  ps : Nat
  cb : Nat
  flags : Nat
  deriving DecidableEq, Repr

/-- The calls `block.copy (ps, cb, flags)` of the ascending loops of the share path, in
order, with the final `pd` and `ps`: the walk of `MemoryWindows.copy_up`, the calls kept
instead of made (`block.address ()` is `pd` rounded down to the granularity). -/
def MemoryWindows.copy_up_pieces (limit flags : Nat) (clamp : Bool) :
    Nat → Nat → Nat → Res (List Piece × Nat × Nat)
  | 0, pd, ps => if pd < limit then .hang else .ok ([], pd, ps)
  | fuel + 1, pd, ps =>
    if pd < limit then
      let block_end := round_down pd ALLOCATION_GRANULARITY + ALLOCATION_GRANULARITY
      let block_end := if clamp ∧ block_end > limit then limit else block_end
      let cb := block_end - pd
      match MemoryWindows.copy_up_pieces limit flags clamp fuel block_end (ps + cb) with
      | .ok (rest, p) => .ok (⟨pd, ps, cb, flags⟩ :: rest, p)
      | r => r
    else .ok ([], pd, ps)

/-- The calls `block.copy (ps, cb, flags)` of the descending loops of the share path, in
order, with the final `pd` and `ps`: the walk of `MemoryWindows.copy_down`. -/
def MemoryWindows.copy_down_pieces (limit flags : Nat) (clamp : Bool) :
    Nat → Nat → Nat → Res (List Piece × Nat × Nat)
  | 0, pd, ps => if pd > limit then .hang else .ok ([], pd, ps)
  | fuel + 1, pd, ps =>
    if pd > limit then
      let block_begin := round_down (pd - 1) ALLOCATION_GRANULARITY
      let block_begin := if clamp ∧ block_begin < limit then limit else block_begin
      let cb := pd - block_begin
      let ps := ps - cb
      match MemoryWindows.copy_down_pieces limit flags clamp fuel block_begin ps with
      | .ok (rest, p) => .ok (⟨block_begin, ps, cb, flags⟩ :: rest, p)
      | r => r
    else .ok ([], pd, ps)

/-- The calls `block.copy (ps, cb, flags)` of the branch "Share (regions may overlap)" of
`MemoryWindows::copy`, in order: the walk of `MemoryWindows.copy_share`. -/
def MemoryWindows.copy_share_pieces (ret src size flags : Nat) : Res (List Piece) :=
  let fuel := size / ALLOCATION_GRANULARITY + 2
  if ret < src then
    let pd := ret
    let end_ := pd + size
    let ps := src
    let first : Res (List Piece × Nat × Nat) :=
      if end_ > src then
        let first_part_end := round_up (end_ - (src + size - end_)) ALLOCATION_GRANULARITY
        MemoryWindows.copy_up_pieces first_part_end (first_part_flags flags) false fuel pd ps
      else .ok ([], pd, ps)
    first.bind fun a =>
    (MemoryWindows.copy_up_pieces end_ flags true fuel a.2.1 a.2.2).bind fun b =>
    .ok (a.1 ++ b.1)
  else
    let src_end := src + size
    let pd := ret + size
    let ps := src + size
    let first : Res (List Piece × Nat × Nat) :=
      if ret < src_end then
        let first_part_begin := round_down (ret + (ret - src)) ALLOCATION_GRANULARITY
        MemoryWindows.copy_down_pieces first_part_begin (first_part_flags flags) false fuel pd ps
      else .ok ([], pd, ps)
    first.bind fun a =>
    (MemoryWindows.copy_down_pieces ret flags true fuel a.2.1 a.2.2).bind fun b =>
    .ok (a.1 ++ b.1)

/-- The calls of a list of pieces, made in order: for each the constructor
`Block block (pd)` and `block.copy (ps, cb, flags)`. -/
def MemoryWindows.run_pieces (cpp : MemoryWindowsCpp) : List Piece → World → Res Unit × World
  | [], w => (.ok (), w)
  | p :: rest, w =>
    andThen (pureCall (Block.new w p.pd) w) fun block w =>
    andThen (cpp.Block_copy w block p.ps p.cb p.flags) fun _ w =>
    MemoryWindows.run_pieces cpp rest w

/-- The branch "Physical copy" of `MemoryWindows::copy`; the bytes that `real_move` moves are
not part of the process state the embedding keeps. -/
def MemoryWindows.copy_physical (cpp : MemoryWindowsCpp) (w : World)
    (dst ret src size flags : Nat) : Res Unit × World :=
  andThen (cpp.commit_no_check w ret size) fun state_bits w =>
  andThen
    (if state_bits &&& PageState.MASK_RO ≠ 0 then
      AddressSpace.change_protection w dst size Memory.READ_WRITE
    else (.ok (), w)) fun _ w =>
  andThen
    (if flags &&& Memory.READ_ONLY ≠ 0 then
      AddressSpace.change_protection w ret size Memory.READ_ONLY
    else (.ok (), w)) fun _ w =>
  if flags &&& Memory.DECOMMIT ≠ 0 ∧ ret ≠ src then
    -- Release or decommit source. Regions can overlap.
    let reg : Region := { ptr := src, size := size }
    if flags &&& bits_outside Memory.RELEASE Memory.DECOMMIT ≠ 0 then
      let reg := reg.subtract (round_up ret ALLOCATION_GRANULARITY)
        (round_down (ret + size) ALLOCATION_GRANULARITY)
      if reg.size ≠ 0 then MemoryWindows.release w reg.ptr reg.size else (.ok (), w)
    else
      let reg := reg.subtract (round_up ret PAGE_SIZE) (round_down (ret + size) PAGE_SIZE)
      if reg.size ≠ 0 then MemoryWindows.decommit w reg.ptr reg.size else (.ok (), w)
  else (.ok (), w)

/-- The part of `MemoryWindows::copy` after the destination `ret` is known: the special case
`ret == src` and the copy itself, with its handler. -/
def MemoryWindows.copy_to (cpp : MemoryWindowsCpp) (w : World)
    (dst ret src size flags src_prot_mask : Nat) (src_in_stack dst_in_stack : Bool)
    (allocated : Region) : Res Nat × World :=
  let src_align := src % ALLOCATION_GRANULARITY
  let not_release : Bool := Memory.RELEASE ≠ flags &&& Memory.RELEASE
  let special : Option (Res Nat × World) × Nat :=
    if ret = src then
      -- Special case - change protection.
      if Memory.ALLOCATE &&& flags ≠ 0 ∧ not_release then
        if flags &&& Memory.EXACTLY ≠ 0 then (some (.ok 0, w), 0) else (none, 0)
      else
        (some
          (andThen
            (if src_prot_mask &&& (if flags &&& Memory.READ_ONLY ≠ 0 then PageState.MASK_RW
                else PageState.MASK_RO) ≠ 0 then
              AddressSpace.change_protection w src size flags
            else (.ok (), w)) fun _ w => (.ok src, w)), dst)
    else (none, dst)
  match special with
  | (some r, _) => r
  | (none, dst) =>
    andThen
      (onException
        (if ¬ src_in_stack ∧ ¬ dst_in_stack ∧ ret % ALLOCATION_GRANULARITY = src_align then
          MemoryWindows.copy_share cpp w ret src size flags
        else MemoryWindows.copy_physical cpp w dst ret src size flags)
        fun w => MemoryWindows.release w allocated.ptr allocated.size) fun _ w =>
    (.ok ret, w)

/-- The `else` branch of the `try` block of `MemoryWindows::copy`: the destination is found
or reserved, then `copy_to` runs. -/
def MemoryWindows.copy_slow (cpp : MemoryWindowsCpp) (w : World)
    (dst src size flags src_prot_mask : Nat) (src_in_stack : Bool) (os : Os) :
    Res Nat × World :=
  let src_align := src % ALLOCATION_GRANULARITY
  let not_release : Bool := Memory.RELEASE ≠ flags &&& Memory.RELEASE
  if dst = 0 ∨ flags &&& Memory.ALLOCATE ≠ 0 then
    -- first the attempt to reserve space exactly at dst
    let at_dst : Res (Option Nat × Region) × World :=
      if dst ≠ 0 then
        if dst = src then
          if Memory.EXACTLY &&& flags ≠ 0 ∧ not_release then (.ok (none, ⟨0, 0⟩), w)
          else (.ok (some 0, ⟨0, 0⟩), w)
        else
          let allocated := (Region.mk dst size).subtract
            (round_down src ALLOCATION_GRANULARITY)
            (round_up (src + size) ALLOCATION_GRANULARITY)
          andThen
            (if allocated.size ≠ 0 then
              AddressSpace.reserve w allocated.size (flags ||| Memory.EXACTLY) allocated.ptr
                os.choice os.retries
            else (.ok 0, w)) fun reserved w =>
          if reserved ≠ 0 then (.ok (some dst, allocated), w)
          else if flags &&& Memory.EXACTLY ≠ 0 then (.ok (none, allocated), w)
          else (.ok (some 0, allocated), w)
      else (.ok (some 0, ⟨0, 0⟩), w)
    andThen at_dst fun r w =>
    match r with
    | (none, _) => (.ok 0, w)
    | (some ret, allocated) =>
      if ret = 0 then
        if ¬ not_release then
          MemoryWindows.copy_to cpp w dst src src size flags src_prot_mask src_in_stack false
            allocated
        else
          andThen (AddressSpace.reserve w (size + src_align) flags 0 os.choice os.retries)
            fun res w =>
          if res = 0 then (.ok 0, w)
          else
            let ret := res + src_align
            MemoryWindows.copy_to cpp w dst ret src size flags src_prot_mask src_in_stack false
              ⟨ret, size⟩
      else
        MemoryWindows.copy_to cpp w dst ret src size flags src_prot_mask src_in_stack false
          allocated
  else
    let dst_in_stack := cpp.is_current_stack dst
    andThen (pureCall (AddressSpace.check_allocated w dst size) w) fun _ w =>
    MemoryWindows.copy_to cpp w dst dst src size flags src_prot_mask src_in_stack dst_in_stack
      ⟨0, 0⟩

/-- The body of the `try` block of `MemoryWindows::copy`. -/
def MemoryWindows.copy_try (cpp : MemoryWindowsCpp) (w : World)
    (dst src size flags src_prot_mask : Nat) (os : Os) : Res Nat × World :=
  let src_in_stack := cpp.is_current_stack src
  let src_align := src % ALLOCATION_GRANULARITY
  if dst = 0 ∧ Memory.RELEASE ≠ flags &&& Memory.RELEASE ∧ ¬ src_in_stack ∧
      round_up (src + size) ALLOCATION_GRANULARITY - src ≤ ALLOCATION_GRANULARITY then
    -- Quick copy one block.
    andThen (pureCall (Block.new w src) w) fun block w =>
    andThen (MemoryWindows.Block.prepare_to_share cpp w block src_align size flags) fun _ w =>
    AddressSpace.copy w block src_align size flags os
  else MemoryWindows.copy_slow cpp w dst src size flags src_prot_mask src_in_stack os

/-- Method `MemoryWindows::copy (dst, src, size, flags)`. -/
def MemoryWindows.copy (cpp : MemoryWindowsCpp) (w : World) (dst src size flags : Nat)
    (os : Os) : Res Nat × World :=
  if size = 0 then (.ok dst, w)
  else if bits_outside flags
      (Memory.READ_ONLY ||| Memory.RELEASE ||| Memory.ALLOCATE ||| Memory.EXACTLY) ≠ 0 then
    (.raise .INV_FLAG, w)
  else
    -- Source range have to be committed.
    andThen (pureCall (AddressSpace.check_committed w src size) w) fun src_prot_mask w =>
    catchNoMemory flags (MemoryWindows.copy_try cpp w dst src size flags src_prot_mask os)

/-! ## Vocabulary of the statements -/

/-- The directory holds a non-null entry for the block of `address`. -/
def block_allocated (w : World) (address : Nat) : Prop :=
  address / ALLOCATION_GRANULARITY < w.directory_size ∧
    w.directory (address / ALLOCATION_GRANULARITY) ≠ 0

/-- The OS has a view mapped at block `i`. -/
def os_mapped (w : World) (i : Nat) : Prop := ∃ h ps, w.vm i = .mapped h ps

/-- Protection the OS reports for page `k` of block `i` (`0` outside a view). -/
def page_protect (w : World) (i k : Nat) : Nat :=
  match w.vm i with
  | .mapped _ ps => ps.getD k 0
  | _ => 0

/-- State of the page that holds `address`. -/
def page_at (w : World) (address : Nat) : Nat :=
  page_protect w (address / ALLOCATION_GRANULARITY)
    (address % ALLOCATION_GRANULARITY / PAGE_SIZE)

/-- A page state with a `MASK_ACCESS` bit and without any `MASK_UNMAPPED` bit. -/
def page_shared_ok (s : Nat) : Prop :=
  s &&& PageState.MASK_ACCESS ≠ 0 ∧ s &&& PageState.MASK_UNMAPPED = 0

/-- The bytes `a` and `a'` are copies of each other as far as `is_copy` can tell: both blocks
are allocated and mapped, their mapping handles compare equal, and both pages are accessible
and still backed by the mapping. -/
def CopyAt (w : World) (a a' : Nat) : Prop :=
  block_allocated w a ∧ block_allocated w a' ∧
  os_mapped w (a / ALLOCATION_GRANULARITY) ∧ os_mapped w (a' / ALLOCATION_GRANULARITY) ∧
  CompareObjectHandles w (w.directory (a / ALLOCATION_GRANULARITY))
    (w.directory (a' / ALLOCATION_GRANULARITY)) = true ∧
  page_shared_ok (page_at w a) ∧ page_shared_ok (page_at w a')

/-- Every real handle of the directory has its view: the part of the directory invariant
that keeps `Block::state ()` from spinning. -/
def views_present (w : World) : Prop :=
  ∀ i, w.directory i ≠ 0 → w.directory i ≠ INVALID_HANDLE_VALUE → os_mapped w i

/-- A page went from a read-only state to the read-write state of the same sharing
class. -/
def made_writable (old new : Nat) : Prop :=
  (old = PageState.RO_MAPPED_PRIVATE ∧ new = PageState.RW_MAPPED_PRIVATE) ∨
  (old = PageState.RO_MAPPED_SHARED ∧ new = PageState.RW_MAPPED_SHARED) ∨
  (old = PageState.RO_UNMAPPED ∧ new = PageState.RW_UNMAPPED)

/-- The second state differs from the first only in the protection of pages that hold a
byte of `[lo, hi)`, each made writable: the directory, the reservations, the views and
their mappings, and the handles are the same. -/
def ProtectionOnly (lo hi : Nat) (w w' : World) : Prop :=
  w'.directory_size = w.directory_size ∧ w'.directory = w.directory ∧
  w'.handles = w.handles ∧ w'.committed = w.committed ∧ w'.objects = w.objects ∧
  w'.is_current_process = w.is_current_process ∧
  ∀ i, w'.vm i = w.vm i ∨
    ∃ h ps ps', w.vm i = .mapped h ps ∧ w'.vm i = .mapped h ps' ∧ ps'.length = ps.length ∧
      ∀ j, ps'.getD j 0 = ps.getD j 0 ∨
        (i * ALLOCATION_GRANULARITY + j * PAGE_SIZE < hi ∧
          lo < i * ALLOCATION_GRANULARITY + (j + 1) * PAGE_SIZE ∧
          made_writable (ps.getD j 0) (ps'.getD j 0))

/-- The destination ranges of the pieces, in order, tile `[a, b)` from `a` upwards: each
piece is not empty and starts where the one before it ends. -/
def tiles_up : Nat → Nat → List Piece → Prop
  | a, b, [] => a = b
  | a, b, p :: rest => p.pd = a ∧ 0 < p.cb ∧ tiles_up (a + p.cb) b rest

/-- The destination ranges of the pieces, in order, tile `[a, b)` from `b` downwards: each
piece is not empty and ends where the one before it starts. -/
def tiles_down : Nat → Nat → List Piece → Prop
  | a, b, [] => a = b
  | a, b, p :: rest => p.pd + p.cb = b ∧ 0 < p.cb ∧ tiles_down a p.pd rest

/-- The destination block `dst` has been rewired to the mapping of the source block `src`:
its entry is another handle than before, an open handle of the object behind the source's
handle, and the OS has a view of that handle at the block. -/
def Remapped (w w' : World) (dst src : Nat) : Prop :=
  Block.mapping w' dst ≠ Block.mapping w dst ∧
  (∃ obj, w.handles (Block.mapping w src) = some obj ∧
    w'.handles (Block.mapping w' dst) = some obj) ∧
  ∃ ps, w'.vm (dst / ALLOCATION_GRANULARITY) = .mapped (Block.mapping w' dst) ps

/-! ## The directory invariant -/

/-- The entry of block `i` agrees with the OS state of the block: a null entry, a free block;
the sentinel, a block inside a reservation; a real handle, a view of that handle. -/
def BlockOk (w : World) (i : Nat) : Prop :=
  (w.directory i = 0 → w.vm i = .free) ∧
  (w.directory i = INVALID_HANDLE_VALUE → ∃ b e, w.vm i = .reserved b e) ∧
  (w.directory i ≠ 0 → w.directory i ≠ INVALID_HANDLE_VALUE →
    ∃ ps, w.vm i = .mapped (w.directory i) ps)

/-- Directory consistency: every entry agrees with the OS state of its block. -/
def Consistent (w : World) : Prop := ∀ i, BlockOk w i

/-- Every reservation the OS holds is a run of blocks `[b, e)` that all carry it. -/
def ReservationsWhole (w : World) : Prop :=
  ∀ i b e, w.vm i = .reserved b e →
    b ≤ i ∧ i < e ∧ ∀ j, b ≤ j → j < e → w.vm j = .reserved b e

/-- The invariant of the address space between two calls: directory consistency, whole
reservations, and no entry for the block of the null pointer or beyond the directory. -/
def WellFormed (w : World) : Prop :=
  Consistent w ∧ ReservationsWhole w ∧ ∀ i, (i = 0 ∨ w.directory_size ≤ i) → w.directory i = 0

/-- The call returned: normally or with an exception (it neither spins nor reads outside an
array). -/
def Res.returned {α : Type} (r : Res α) : Prop := r ≠ .hang ∧ r ≠ .fault

instance {α : Type} [DecidableEq α] (r : Res α) : Decidable r.returned := by
  unfold Res.returned; infer_instance

/-! ## Sequences of calls -/

/-- Outcome of a call without its value. -/
def Res.void {α : Type} (r : Res α) : Res Unit := r.bind fun _ => .ok ()

/-- One call on the address space, with its arguments.  The OS answers that a call leaves
open (`choice`, `retries`) are part of it; a `Block` method is called on the block built by
`Block (space, address)`. -/
inductive Call
  | reserve (size flags dst choice : Nat) (retries : List Nat)
  | release (dst size : Nat)
  | map (mapping protection choice : Nat) (retries : List Nat)
  | block_map (address mapping protection : Nat) (commit : Bool)
  | block_unmap (address reserve : Nat) (no_close_handle : Bool)

/-- Any call at all. -/
def Call.any (_ : Call) (_ : World) : Prop := True

/-- A fresh process: nothing reserved, nothing mapped, no handle open. -/
def world_empty : World where
  directory_size := 64
  directory := fun _ => 0
  vm := fun _ => .free
  handles := fun _ => none
  committed := fun _ _ => false
  objects := 0
  is_current_process := true

/-- Blocks 1 and 3 are views of one file mapping (through the handles 100 and 101), all pages
`RW_MAPPED_SHARED`. -/
def world_shared : World :=
  { world_empty with
    directory := fun i => if i = 1 then 100 else if i = 3 then 101 else 0
    vm := fun i =>
      if i = 1 then .mapped 100 (List.replicate 16 PageState.RW_MAPPED_SHARED)
      else if i = 3 then .mapped 101 (List.replicate 16 PageState.RW_MAPPED_SHARED)
      else .free
    handles := fun h => if h = 100 ∨ h = 101 then some 7 else none
    committed := fun obj _ => obj == 7
    objects := 8 }

/-- Out-of-line members that return at once and touch nothing: a stand-in for evaluating
paths that do not reach them. -/
def cpp_idle : MemoryWindowsCpp where
  commit_no_check := fun w _ _ => (.ok 0, w)
  Block_commit := fun w _ _ _ => (.ok 0, w)
  Block_need_remap_to_share := fun w _ _ _ => (.ok false, w)
  Block_remap := fun w _ => (.ok (), w)
  Block_prepare_to_share_no_remap := fun w _ _ _ => (.ok (), w)
  Block_copy := fun w _ _ _ _ => (.ok (), w)
  is_current_stack := fun _ => false

/-- An OS that hands out no handle and picks no address. -/
def os_refuses : Os := { handle := 0, choice := 0, retries := [] }

/-- The state after `allocate (G, 3 * G, EXACTLY | RESERVED)` in a fresh process: blocks 1
to 3 are one reservation. -/
def world_reserved3 : World :=
  (MemoryWindows.allocate cpp_idle world_empty ALLOCATION_GRANULARITY
    (3 * ALLOCATION_GRANULARITY) (Memory.EXACTLY ||| Memory.RESERVED) os_refuses).2

/-- The state after `release (G + 1, 2 * G - 1)` on `world_reserved3`. -/
def world_released2 : World :=
  (MemoryWindows.release world_reserved3 (ALLOCATION_GRANULARITY + 1)
    (2 * ALLOCATION_GRANULARITY - 1)).2

/-- A process whose directory holds an entry (the handle 100) for block 2 while the OS has
nothing there: what `reserve` meets when another thread has claimed the block first. -/
def world_claimed : World :=
  { world_empty with directory := fun i => if i = 2 then 100 else 0 }

/-- The sample process `world_shared` after `reserve (ALLOCATION_GRANULARITY, EXACTLY,
2 * ALLOCATION_GRANULARITY)`: block 2 is a reservation, its entry the sentinel. -/
def world_shared_reserved : World :=
  (AddressSpace.reserve world_shared ALLOCATION_GRANULARITY Memory.EXACTLY
    (2 * ALLOCATION_GRANULARITY) 0 []).2

/-! # Theorems -/

open Memory

@[simp] theorem Res.ok_bind {α β : Type} (a : α) (f : α → Res β) : (Res.ok a >>= f) = f a := rfl
@[simp] theorem Res.raise_bind {α β : Type} (e : Exc) (f : α → Res β) :
    (Res.raise e >>= f) = Res.raise e := rfl
@[simp] theorem Res.hang_bind {α β : Type} (f : α → Res β) : (Res.hang >>= f) = Res.hang := rfl
@[simp] theorem Res.fault_bind {α β : Type} (f : α → Res β) : (Res.fault >>= f) = Res.fault := rfl
@[simp] theorem Res.pure_eq {α : Type} (a : α) : (pure a : Res α) = Res.ok a := rfl

theorem or_eq_zero_iff (a b : Nat) : a ||| b = 0 ↔ a = 0 ∧ b = 0 := by
  constructor
  · intro h
    constructor
    · apply Nat.eq_of_testBit_eq
      intro i
      have := congrArg (fun x => Nat.testBit x i) h
      simp at this
      simp [this.1]
    · apply Nat.eq_of_testBit_eq
      intro i
      have := congrArg (fun x => Nat.testBit x i) h
      simp at this
      simp [this.2]
  · rintro ⟨rfl, rfl⟩; simp

theorem page_states_length (ps : List Nat) : (page_states ps).length = PAGES_PER_BLOCK := by
  simp [page_states]

theorem page_states_get (ps : List Nat) (k : Nat) (hk : k < PAGES_PER_BLOCK) :
    (page_states ps)[k]? = some (ps.getD k 0) := by
  simp [page_states, hk]

theorem is_copy_pages_true (pst opst : List Nat) (n k : Nat) :
    Block.is_copy_pages pst opst k n = .ok true ↔
      ∀ j, k ≤ j → j < k + n → ∃ a b, pst[j]? = some a ∧ opst[j]? = some b ∧
        page_shared_ok a ∧ page_shared_ok b := by
  induction n generalizing k with
  | zero => simp [Block.is_copy_pages]; intro j h1 h2; omega
  | succ n ih =>
    simp only [Block.is_copy_pages, rd]
    constructor
    · intro h
      cases h1 : pst[k]? with
      | none => simp [h1] at h
      | some a =>
        cases h2 : opst[k]? with
        | none => simp [h1, h2] at h
        | some b =>
          simp only [h1, h2] at h
          by_cases c1 : (a ||| b) &&& PageState.MASK_UNMAPPED ≠ 0
          · rw [if_pos c1] at h; simp at h
          rw [if_neg c1] at h
          by_cases c2 : a &&& PageState.MASK_ACCESS = 0 ∨ b &&& PageState.MASK_ACCESS = 0
          · rw [if_pos c2] at h; simp at h
          rw [if_neg c2] at h
          have h' := (ih (k+1)).1 h
          intro j hj1 hj2
          by_cases hjk : j = k
          · subst hjk
            refine ⟨a, b, h1, h2, ?_⟩
            simp only [ne_eq, not_not, Nat.and_distrib_right, or_eq_zero_iff] at c1
            simp only [not_or] at c2
            exact ⟨⟨c2.1, c1.1⟩, ⟨c2.2, c1.2⟩⟩
          · exact h' j (by omega) (by omega)
    · intro h
      obtain ⟨a, b, h1, h2, ha, hb⟩ := h k (le_refl _) (by omega)
      simp only [h1, h2]
      have c1 : ¬ ((a ||| b) &&& PageState.MASK_UNMAPPED ≠ 0) := by
        simp only [ne_eq, not_not, Nat.and_distrib_right, or_eq_zero_iff]
        exact ⟨ha.2, hb.2⟩
      have c2 : ¬ (a &&& PageState.MASK_ACCESS = 0 ∨ b &&& PageState.MASK_ACCESS = 0) := by
        simp only [not_or]; exact ⟨ha.1, hb.1⟩
      rw [if_neg c1, if_neg c2]
      apply (ih (k+1)).2
      intro j hj1 hj2
      exact h j (by omega) (by omega)

theorem is_copy_pages_comm (pst opst : List Nat) (n k : Nat) :
    Block.is_copy_pages pst opst k n = Block.is_copy_pages opst pst k n := by
  induction n generalizing k with
  | zero => simp [Block.is_copy_pages]
  | succ n ih =>
    simp only [Block.is_copy_pages, rd]
    cases h1 : pst[k]? <;> cases h2 : opst[k]? <;> simp only []
    rename_i a b
    rw [Nat.or_comm b a, ih (k+1)]
    by_cases c1 : (a ||| b) &&& PageState.MASK_UNMAPPED ≠ 0
    · simp [c1]
    · simp only [c1, if_false]
      by_cases c2 : a &&& PageState.MASK_ACCESS = 0 <;> by_cases c3 : b &&& PageState.MASK_ACCESS = 0 <;> simp [c2, c3]

theorem CompareObjectHandles_comm (w : World) (a b : Nat) :
    CompareObjectHandles w a b = CompareObjectHandles w b a := by
  unfold CompareObjectHandles
  cases w.handles a <;> cases w.handles b <;> simp [eq_comm]

theorem Block_state_mapped (w : World) (b : Nat) (h : Nat) (ps : List Nat)
    (hv : w.vm (b / ALLOCATION_GRANULARITY) = .mapped h ps) :
    ∃ bits, Block.state w b = .ok (.MAPPED (page_states ps) bits) := by
  simp [Block.state, hv]

theorem Block_state_not_mapped (w : World) (b : Nat)
    (hv : ¬ os_mapped w (b / ALLOCATION_GRANULARITY)) :
    Block.state w b = .hang ∨ ∃ x y, Block.state w b = .ok (.RESERVED x y) := by
  unfold Block.state
  cases hvm : w.vm (b / ALLOCATION_GRANULARITY) with
  | mapped h ps => exact absurd ⟨h, ps, hvm⟩ hv
  | free => simp only []; split_ifs <;> simp
  | reserved x y => simp only []; split_ifs <;> simp

theorem Block_is_copy_true (w : World) (b1 b2 o s : Nat)
    (hos : o + s ≤ ALLOCATION_GRANULARITY) :
    Block.is_copy w b1 b2 o s = .ok true ↔
      os_mapped w (b1 / ALLOCATION_GRANULARITY) ∧ os_mapped w (b2 / ALLOCATION_GRANULARITY) ∧
      CompareObjectHandles w (Block.mapping w b1) (Block.mapping w b2) = true ∧
      ∀ k, o / PAGE_SIZE ≤ k → k < (o + s + PAGE_SIZE - 1) / PAGE_SIZE →
        page_shared_ok (page_protect w (b1 / ALLOCATION_GRANULARITY) k) ∧
        page_shared_ok (page_protect w (b2 / ALLOCATION_GRANULARITY) k) := by
  by_cases m1 : os_mapped w (b1 / ALLOCATION_GRANULARITY)
  swap
  · have : Block.is_copy w b1 b2 o s ≠ .ok true := by
      unfold Block.is_copy
      rcases Block_state_not_mapped w b1 m1 with h | ⟨x, y, h⟩
      · simp [h]
      · rw [h]
        simp only [Res.ok_bind]
        cases Block.state w b2 <;> simp
    simp [this, m1]
  by_cases m2 : os_mapped w (b2 / ALLOCATION_GRANULARITY)
  swap
  · have : Block.is_copy w b1 b2 o s ≠ .ok true := by
      unfold Block.is_copy
      obtain ⟨h1, ps1, hv1⟩ := m1
      obtain ⟨bits, hs1⟩ := Block_state_mapped w b1 h1 ps1 hv1
      rw [hs1]
      rcases Block_state_not_mapped w b2 m2 with h | ⟨x, y, h⟩
      · simp [h]
      · rw [h]
        simp
    simp [this, m2]
  obtain ⟨h1, ps1, hv1⟩ := m1
  obtain ⟨h2, ps2, hv2⟩ := m2
  obtain ⟨bits1, hs1⟩ := Block_state_mapped w b1 h1 ps1 hv1
  obtain ⟨bits2, hs2⟩ := Block_state_mapped w b2 h2 ps2 hv2
  have m1 : os_mapped w (b1 / ALLOCATION_GRANULARITY) := ⟨h1, ps1, hv1⟩
  have m2 : os_mapped w (b2 / ALLOCATION_GRANULARITY) := ⟨h2, ps2, hv2⟩
  unfold Block.is_copy
  rw [hs1, hs2]
  simp only [Res.ok_bind, Res.pure_eq]
  by_cases hc : CompareObjectHandles w (Block.mapping w b1) (Block.mapping w b2) = true
  swap
  · simp [hc]
  simp only [hc, not_true_eq_false, if_false, m1, m2, true_and]
  rw [is_copy_pages_true]
  have hP : PAGE_SIZE = 4096 := rfl
  have hG : ALLOCATION_GRANULARITY = 65536 := rfl
  have hPB : PAGES_PER_BLOCK = 16 := rfl
  constructor
  · intro h k hk1 hk2
    have hk16 : k < PAGES_PER_BLOCK := by rw [hPB]; rw [hP] at hk2; rw [hG] at hos; omega
    obtain ⟨a, b, ha, hb, hpa, hpb⟩ := h k hk1 (by omega)
    rw [page_states_get _ _ hk16] at ha hb
    simp only [page_protect, hv1, hv2]
    simp only [Option.some.injEq] at ha hb
    rw [ha, hb]; exact ⟨hpa, hpb⟩
  · intro h j hj1 hj2
    have hk2 : j < (o + s + PAGE_SIZE - 1) / PAGE_SIZE := by omega
    have hk16 : j < PAGES_PER_BLOCK := by rw [hPB]; rw [hP] at hk2; rw [hG] at hos; omega
    have := h j hj1 hk2
    simp only [page_protect, hv1, hv2] at this
    exact ⟨_, _, page_states_get _ _ hk16, page_states_get _ _ hk16, this.1, this.2⟩

theorem Block_state_cases (w : World) (b : Nat) :
    Block.state w b = .hang ∨ ∃ s, Block.state w b = .ok s := by
  unfold Block.state
  cases w.vm (b / ALLOCATION_GRANULARITY) <;> simp only [] <;> (try split_ifs) <;> simp

theorem Block_is_copy_comm (w : World) (b1 b2 o s : Nat) :
    Block.is_copy w b1 b2 o s = Block.is_copy w b2 b1 o s := by
  unfold Block.is_copy
  rcases Block_state_cases w b1 with h1 | ⟨s1, h1⟩ <;>
    rcases Block_state_cases w b2 with h2 | ⟨s2, h2⟩ <;>
    simp only [h1, h2, Res.ok_bind, Res.hang_bind]
  cases s1 <;> cases s2 <;> simp only [Res.pure_eq]
  rw [CompareObjectHandles_comm, is_copy_pages_comm]

theorem is_copy_pages_ok (pst opst : List Nat) (n k : Nat) (h1 : k + n ≤ pst.length)
    (h2 : k + n ≤ opst.length) : ∃ r, Block.is_copy_pages pst opst k n = .ok r := by
  induction n generalizing k with
  | zero => exact ⟨true, rfl⟩
  | succ n ih =>
    simp only [Block.is_copy_pages, rd]
    have e1 : pst[k]? = some pst[k] := List.getElem?_eq_getElem (by omega)
    have e2 : opst[k]? = some opst[k] := List.getElem?_eq_getElem (by omega)
    rw [e1, e2]
    simp only []
    split_ifs
    · exact ⟨false, rfl⟩
    · exact ⟨false, rfl⟩
    · exact ih (k + 1) (by omega) (by omega)

theorem Block_state_length (w : World) (b : Nat) (pst : List Nat) (bits : Nat)
    (h : Block.state w b = .ok (.MAPPED pst bits)) : pst.length = 16 := by
  revert h
  unfold Block.state
  cases w.vm (b / ALLOCATION_GRANULARITY) <;> simp only [] <;> (try split_ifs) <;>
    simp only [Res.ok.injEq, State.MAPPED.injEq, reduceCtorEq, false_implies, and_imp]
  intro h _
  rw [← h]
  simp [page_states, PAGES_PER_BLOCK, ALLOCATION_GRANULARITY, PAGE_SIZE]

theorem Block_is_copy_of_states (w : World) (b1 b2 o s : Nat) (s1 s2 : State)
    (h1 : Block.state w b1 = .ok s1) (h2 : Block.state w b2 = .ok s2)
    (hos : o + s ≤ ALLOCATION_GRANULARITY) :
    ∃ r, Block.is_copy w b1 b2 o s = .ok r := by
  unfold Block.is_copy
  simp only [h1, h2, Res.ok_bind]
  cases s1 <;> cases s2 <;> simp only [Res.pure_eq]
  · exact ⟨false, rfl⟩
  · exact ⟨false, rfl⟩
  · exact ⟨false, rfl⟩
  · rename_i pst1 _ pst2 _
    split_ifs
    · have hP : PAGE_SIZE = 4096 := rfl
      have hG : ALLOCATION_GRANULARITY = 65536 := rfl
      have l1 := Block_state_length w b1 _ _ h1
      have l2 := Block_state_length w b2 _ _ h2
      apply is_copy_pages_ok
      · rw [l1, hP]; rw [hG] at hos; omega
      · rw [l2, hP]; rw [hG] at hos; omega
    · exact ⟨false, rfl⟩

theorem Block_is_copy_cases (w : World) (b1 b2 o s : Nat)
    (hos : o + s ≤ ALLOCATION_GRANULARITY) :
    Block.is_copy w b1 b2 o s = .hang ∨ ∃ r, Block.is_copy w b1 b2 o s = .ok r := by
  rcases Block_state_cases w b1 with h1 | ⟨s1, h1⟩
  · left; unfold Block.is_copy; simp only [h1, Res.hang_bind]
  rcases Block_state_cases w b2 with h2 | ⟨s2, h2⟩
  · left; unfold Block.is_copy; simp only [h1, h2, Res.ok_bind, Res.hang_bind]
  · exact Or.inr (Block_is_copy_of_states w b1 b2 o s s1 s2 h1 h2 hos)

theorem Block_state_no_hang (w : World) (b : Nat) (hv : views_present w) :
    ∃ s, Block.state w b = .ok s := by
  rcases Block_state_cases w b with h | h
  · exfalso
    revert h
    unfold Block.state
    cases hvm : w.vm (b / ALLOCATION_GRANULARITY) <;> simp only [] <;> (try split_ifs) <;>
      simp only [not_false_eq_true, imp_false, not_true_eq_false, reduceCtorEq] <;>
      rename_i hx <;>
      simp only [not_or, Block.mapping] at hx <;>
      obtain ⟨_, _, hm⟩ := hv _ hx.1 hx.2 <;>
      rw [hvm] at hm <;> cases hm
  · exact h

theorem Block_is_copy_no_hang (w : World) (b1 b2 o s : Nat) (hv : views_present w)
    (hos : o + s ≤ ALLOCATION_GRANULARITY) :
    ∃ r, Block.is_copy w b1 b2 o s = .ok r := by
  obtain ⟨s1, h1⟩ := Block_state_no_hang w b1 hv
  obtain ⟨s2, h2⟩ := Block_state_no_hang w b2 hv
  exact Block_is_copy_of_states w b1 b2 o s s1 s2 h1 h2 hos

theorem Block_new_ok (w : World) (a : Nat) (h : block_allocated w a) :
    Block.new w a = .ok (round_down a ALLOCATION_GRANULARITY) := by
  simp [Block.new, allocated_block, h.1, h.2]

theorem Block_new_raise (w : World) (a : Nat) (h : ¬ block_allocated w a) :
    Block.new w a = .raise .BAD_PARAM := by
  have : ¬ (a / ALLOCATION_GRANULARITY < w.directory_size ∧
    w.directory (a / ALLOCATION_GRANULARITY) ≠ 0) := h
  simp only [Block.new, allocated_block, this, if_false]

theorem is_copy_piece (w : World) (begin1 begin2 end1 : Nat) (hlt : begin1 < end1)
    (hmod : begin1 % ALLOCATION_GRANULARITY = begin2 % ALLOCATION_GRANULARITY)
    (ha1 : block_allocated w begin1) (ha2 : block_allocated w begin2) :
    Block.is_copy w (round_down begin1 ALLOCATION_GRANULARITY)
        (round_down begin2 ALLOCATION_GRANULARITY)
        (begin1 - round_down begin1 ALLOCATION_GRANULARITY)
        (min (round_down begin1 ALLOCATION_GRANULARITY + ALLOCATION_GRANULARITY) end1 - begin1)
      = .ok true ↔
    ∀ a, begin1 ≤ a →
      a < min (round_down begin1 ALLOCATION_GRANULARITY + ALLOCATION_GRANULARITY) end1 →
      CopyAt w a (begin2 + (a - begin1)) := by
  have hP : PAGE_SIZE = 4096 := rfl
  have hG : ALLOCATION_GRANULARITY = 65536 := rfl
  rw [Block_is_copy_true]
  swap
  · simp only [round_down, hG]; omega
  have e1 : round_down begin1 ALLOCATION_GRANULARITY / ALLOCATION_GRANULARITY
      = begin1 / ALLOCATION_GRANULARITY := by simp only [round_down, hG]; omega
  have e2 : round_down begin2 ALLOCATION_GRANULARITY / ALLOCATION_GRANULARITY
      = begin2 / ALLOCATION_GRANULARITY := by simp only [round_down, hG]; omega
  simp only [Block.mapping, e1, e2]
  constructor
  · rintro ⟨m1, m2, hc, hp⟩ a hle hlt'
    have d1 : a / ALLOCATION_GRANULARITY = begin1 / ALLOCATION_GRANULARITY := by
      simp only [round_down, hG] at *; omega
    have d2 : (begin2 + (a - begin1)) / ALLOCATION_GRANULARITY
        = begin2 / ALLOCATION_GRANULARITY := by
      simp only [round_down, hG] at *; omega
    have d3 : (begin2 + (a - begin1)) % ALLOCATION_GRANULARITY / PAGE_SIZE
        = a % ALLOCATION_GRANULARITY / PAGE_SIZE := by
      simp only [round_down, hG, hP] at *; omega
    have hk := hp (a % ALLOCATION_GRANULARITY / PAGE_SIZE)
      (by simp only [round_down, hG, hP] at *; omega)
      (by simp only [round_down, hG, hP] at *; omega)
    refine ⟨?_, ?_, ?_, ?_, ?_, ?_, ?_⟩
    · exact ⟨by rw [d1]; exact ha1.1, by rw [d1]; exact ha1.2⟩
    · exact ⟨by rw [d2]; exact ha2.1, by rw [d2]; exact ha2.2⟩
    · rw [d1]; exact m1
    · rw [d2]; exact m2
    · rw [d1, d2]; exact hc
    · simp only [page_at, d1]; exact hk.1
    · simp only [page_at, d2, d3]; exact hk.2
  · intro h
    have h0 := h begin1 (le_refl _) (by simp only [round_down, hG] at *; omega)
    simp only [Nat.sub_self, Nat.add_zero] at h0
    obtain ⟨_, _, m1, m2, hc, _, _⟩ := h0
    refine ⟨m1, m2, hc, ?_⟩
    intro k hk1 hk2
    have hx : ∃ a, begin1 ≤ a ∧
        a < min (round_down begin1 ALLOCATION_GRANULARITY + ALLOCATION_GRANULARITY) end1 ∧
        a / ALLOCATION_GRANULARITY = begin1 / ALLOCATION_GRANULARITY ∧
        a % ALLOCATION_GRANULARITY / PAGE_SIZE = k ∧
        (begin2 + (a - begin1)) / ALLOCATION_GRANULARITY = begin2 / ALLOCATION_GRANULARITY ∧
        (begin2 + (a - begin1)) % ALLOCATION_GRANULARITY / PAGE_SIZE = k := by
      refine ⟨max begin1 (round_down begin1 ALLOCATION_GRANULARITY + k * PAGE_SIZE), ?_⟩
      simp only [round_down, hG, hP] at *
      refine ⟨?_, ?_, ?_, ?_, ?_, ?_⟩ <;> omega
    obtain ⟨a, x1, x2, x3, x4, x5, x6⟩ := hx
    obtain ⟨_, _, _, _, _, p1, p2⟩ := h a x1 x2
    simp only [page_at, x3, x4, x5, x6] at p1 p2
    exact ⟨p1, p2⟩


theorem is_copy_loop_true (w : World) (end1 : Nat) : ∀ fuel begin1 begin2,
    (begin1 < end1 →
      (end1 - 1) / ALLOCATION_GRANULARITY - begin1 / ALLOCATION_GRANULARITY < fuel) →
    (begin1 < end1 → begin1 % ALLOCATION_GRANULARITY = begin2 % ALLOCATION_GRANULARITY) →
    (AddressSpace.is_copy_loop w end1 fuel begin1 begin2 = .ok true ↔
      ∀ a, begin1 ≤ a → a < end1 → CopyAt w a (begin2 + (a - begin1))) := by
  have hG : ALLOCATION_GRANULARITY = 65536 := rfl
  intro fuel
  induction fuel with
  | zero =>
    intro begin1 begin2 hf _
    have : ¬ begin1 < end1 := fun h => by have := hf h; omega
    simp only [AddressSpace.is_copy_loop, this, if_false, true_iff]
    intro a h1 h2; omega
  | succ fuel ih =>
    intro begin1 begin2 hf hmod
    by_cases hlt : begin1 < end1
    swap
    · simp only [AddressSpace.is_copy_loop, hlt, if_false, true_iff]
      intro a h1 h2; omega
    have hmod := hmod hlt
    have hf := hf hlt
    simp only [AddressSpace.is_copy_loop, hlt, if_true]
    by_cases ha1 : block_allocated w begin1
    swap
    · rw [Block_new_raise w _ ha1]
      simp only [Res.raise_bind]
      refine ⟨fun h => (by cases h), fun h => ?_⟩
      have := (h begin1 (le_refl _) hlt).1
      exact absurd this ha1
    by_cases ha2 : block_allocated w begin2
    swap
    · rw [Block_new_ok w _ ha1, Block_new_raise w _ ha2]
      simp only [Res.ok_bind, Res.raise_bind]
      refine ⟨fun h => (by cases h), fun h => ?_⟩
      have := (h begin1 (le_refl _) hlt).2.1
      simp only [Nat.sub_self, Nat.add_zero] at this
      exact absurd this ha2
    rw [Block_new_ok w _ ha1, Block_new_ok w _ ha2]
    simp only [Res.ok_bind]
    have piece := is_copy_piece w begin1 begin2 end1 hlt hmod ha1 ha2
    have hsplit : (∀ a, begin1 ≤ a → a < end1 → CopyAt w a (begin2 + (a - begin1))) ↔
        (∀ a, begin1 ≤ a →
          a < min (round_down begin1 ALLOCATION_GRANULARITY + ALLOCATION_GRANULARITY) end1 →
          CopyAt w a (begin2 + (a - begin1))) ∧
        (∀ a, min (round_down begin1 ALLOCATION_GRANULARITY + ALLOCATION_GRANULARITY) end1 ≤ a →
          a < end1 → CopyAt w a (round_down begin2 ALLOCATION_GRANULARITY
            + ALLOCATION_GRANULARITY
            + (a - min (round_down begin1 ALLOCATION_GRANULARITY + ALLOCATION_GRANULARITY) end1))) := by
      constructor
      · intro h
        refine ⟨fun a h1 h2 => h a h1 (by omega), fun a h1 h2 => ?_⟩
        have e : round_down begin2 ALLOCATION_GRANULARITY + ALLOCATION_GRANULARITY
            + (a - min (round_down begin1 ALLOCATION_GRANULARITY + ALLOCATION_GRANULARITY) end1)
            = begin2 + (a - begin1) := by
          simp only [round_down, hG] at *; omega
        rw [e]
        exact h a (by simp only [round_down, hG] at *; omega) h2
      · rintro ⟨hA, hB⟩ a h1 h2
        by_cases hc : a < min (round_down begin1 ALLOCATION_GRANULARITY + ALLOCATION_GRANULARITY) end1
        · exact hA a h1 hc
        · have e : round_down begin2 ALLOCATION_GRANULARITY + ALLOCATION_GRANULARITY
              + (a - min (round_down begin1 ALLOCATION_GRANULARITY + ALLOCATION_GRANULARITY) end1)
              = begin2 + (a - begin1) := by
            simp only [round_down, hG] at *; omega
          rw [← e]
          exact hB a (by omega) h2
    rw [hsplit, ← piece]
    have hrec := ih (min (round_down begin1 ALLOCATION_GRANULARITY + ALLOCATION_GRANULARITY) end1)
      (round_down begin2 ALLOCATION_GRANULARITY + ALLOCATION_GRANULARITY)
      (by simp only [round_down, hG] at *; omega)
      (by simp only [round_down, hG] at *; omega)
    rw [← hrec]
    rcases Block_is_copy_cases w (round_down begin1 ALLOCATION_GRANULARITY)
        (round_down begin2 ALLOCATION_GRANULARITY)
        (begin1 - round_down begin1 ALLOCATION_GRANULARITY)
        (min (round_down begin1 ALLOCATION_GRANULARITY + ALLOCATION_GRANULARITY) end1 - begin1)
        (by simp only [round_down, hG] at *; omega) with h | ⟨r, h⟩
    · simp [h]
    · cases r <;> simp [h]


theorem is_copy_loop_total (w : World) (end1 : Nat) (hv : views_present w) :
    ∀ fuel begin1 begin2,
    (begin1 < end1 →
      (end1 - 1) / ALLOCATION_GRANULARITY - begin1 / ALLOCATION_GRANULARITY < fuel) →
    (∃ r, AddressSpace.is_copy_loop w end1 fuel begin1 begin2 = .ok r) ∨
      AddressSpace.is_copy_loop w end1 fuel begin1 begin2 = .raise .BAD_PARAM := by
  have hG : ALLOCATION_GRANULARITY = 65536 := rfl
  intro fuel
  induction fuel with
  | zero =>
    intro begin1 begin2 hf
    have : ¬ begin1 < end1 := fun h => by have := hf h; omega
    simp only [AddressSpace.is_copy_loop, this, if_false]
    exact Or.inl ⟨true, rfl⟩
  | succ fuel ih =>
    intro begin1 begin2 hf
    by_cases hlt : begin1 < end1
    swap
    · simp only [AddressSpace.is_copy_loop, hlt, if_false]
      exact Or.inl ⟨true, rfl⟩
    have hf := hf hlt
    simp only [AddressSpace.is_copy_loop, hlt, if_true]
    by_cases ha1 : block_allocated w begin1
    swap
    · rw [Block_new_raise w _ ha1]; exact Or.inr rfl
    by_cases ha2 : block_allocated w begin2
    swap
    · rw [Block_new_ok w _ ha1, Block_new_raise w _ ha2]; exact Or.inr rfl
    rw [Block_new_ok w _ ha1, Block_new_ok w _ ha2]
    simp only [Res.ok_bind]
    obtain ⟨r, h⟩ := Block_is_copy_no_hang w (round_down begin1 ALLOCATION_GRANULARITY)
        (round_down begin2 ALLOCATION_GRANULARITY)
        (begin1 - round_down begin1 ALLOCATION_GRANULARITY)
        (min (round_down begin1 ALLOCATION_GRANULARITY + ALLOCATION_GRANULARITY) end1 - begin1)
        hv (by simp only [round_down, hG] at *; omega)
    rw [h]
    cases r
    · exact Or.inl ⟨false, by simp⟩
    · simp only [Res.ok_bind, Bool.not_eq_true, Res.pure_eq, if_false, reduceCtorEq]
      exact ih _ _ (by simp only [round_down, hG] at *; omega)

theorem is_copy_loop_comm (w : World) (end1 end2 : Nat) : ∀ fuel begin1 begin2,
    begin1 % ALLOCATION_GRANULARITY = begin2 % ALLOCATION_GRANULARITY →
    end1 - begin1 = end2 - begin2 → (begin1 < end1 ↔ begin2 < end2) →
    AddressSpace.is_copy_loop w end1 fuel begin1 begin2 =
      AddressSpace.is_copy_loop w end2 fuel begin2 begin1 := by
  have hG : ALLOCATION_GRANULARITY = 65536 := rfl
  intro fuel
  induction fuel with
  | zero =>
    intro begin1 begin2 _ _ hlt
    simp only [AddressSpace.is_copy_loop, hlt]
  | succ fuel ih =>
    intro begin1 begin2 hmod hlen hlt
    by_cases h1 : begin1 < end1
    swap
    · have h2 : ¬ begin2 < end2 := fun h => h1 (hlt.2 h)
      simp only [AddressSpace.is_copy_loop, h1, h2, if_false]
    have h2 : begin2 < end2 := hlt.1 h1
    simp only [AddressSpace.is_copy_loop, h1, h2, if_true]
    by_cases ha1 : block_allocated w begin1 <;> by_cases ha2 : block_allocated w begin2
    · rw [Block_new_ok w _ ha1, Block_new_ok w _ ha2]
      simp only [Res.ok_bind]
      have es : min (round_down begin2 ALLOCATION_GRANULARITY + ALLOCATION_GRANULARITY) end2 - begin2
          = min (round_down begin1 ALLOCATION_GRANULARITY + ALLOCATION_GRANULARITY) end1 - begin1 := by
        simp only [round_down, hG] at *; omega
      have eo : begin2 - round_down begin2 ALLOCATION_GRANULARITY
          = begin1 - round_down begin1 ALLOCATION_GRANULARITY := by
        simp only [round_down, hG] at *; omega
      rw [es, eo, Block_is_copy_comm w (round_down begin2 ALLOCATION_GRANULARITY)]
      cases hr : Block.is_copy w (round_down begin1 ALLOCATION_GRANULARITY)
          (round_down begin2 ALLOCATION_GRANULARITY)
          (begin1 - round_down begin1 ALLOCATION_GRANULARITY)
          (min (round_down begin1 ALLOCATION_GRANULARITY + ALLOCATION_GRANULARITY) end1 - begin1) with
      | ok r =>
        cases r
        · simp
        · simp only [Res.ok_bind, Bool.not_eq_true, Res.pure_eq, if_false, reduceCtorEq]
          by_cases hlast : round_down begin1 ALLOCATION_GRANULARITY + ALLOCATION_GRANULARITY < end1
          · have e1 : min (round_down begin1 ALLOCATION_GRANULARITY + ALLOCATION_GRANULARITY) end1
                = round_down begin1 ALLOCATION_GRANULARITY + ALLOCATION_GRANULARITY := by omega
            have e2 : min (round_down begin2 ALLOCATION_GRANULARITY + ALLOCATION_GRANULARITY) end2
                = round_down begin2 ALLOCATION_GRANULARITY + ALLOCATION_GRANULARITY := by
              simp only [round_down, hG] at *; omega
            rw [e1, e2]
            apply ih
            · simp only [round_down, hG] at *; omega
            · simp only [round_down, hG] at *; omega
            · simp only [round_down, hG] at *; omega
          · have e1 : min (round_down begin1 ALLOCATION_GRANULARITY + ALLOCATION_GRANULARITY) end1
                = end1 := by omega
            have e2 : min (round_down begin2 ALLOCATION_GRANULARITY + ALLOCATION_GRANULARITY) end2
                = end2 := by
              simp only [round_down, hG] at *; omega
            rw [e1, e2]
            cases fuel <;> simp [AddressSpace.is_copy_loop]
      | raise e => simp
      | hang => simp
      | fault => simp
    · rw [Block_new_ok w _ ha1, Block_new_raise w _ ha2]; rfl
    · rw [Block_new_raise w _ ha1, Block_new_ok w _ ha2]; rfl
    · rw [Block_new_raise w _ ha1, Block_new_raise w _ ha2]; rfl


/-- C4: `AddressSpace::is_copy (p, q, n)` returns true exactly when `p` and `q` have the same
offset in their blocks and every byte of the range sits, on both sides, in an allocated and
mapped block whose mapping handles compare equal and in a page with a `MASK_ACCESS` bit and
no `MASK_UNMAPPED` bit; it never raises; and in a directory whose handles all have their
views it returns false as soon as a block of either range is not allocated. -/
theorem is_copy_iff (w : World) (p q n : Nat) :
    (AddressSpace.is_copy w p q n = .ok true ↔
      p % ALLOCATION_GRANULARITY = q % ALLOCATION_GRANULARITY ∧
      ∀ a, p ≤ a → a < p + n → CopyAt w a (q + (a - p))) ∧
    (∀ e, AddressSpace.is_copy w p q n ≠ .raise e) ∧
    (views_present w →
      (∃ a, (p ≤ a ∧ a < p + n ∨ q ≤ a ∧ a < q + n) ∧ ¬ block_allocated w a) →
      AddressSpace.is_copy w p q n = .ok false) := by
  have hG : ALLOCATION_GRANULARITY = 65536 := rfl
  have hfuel : p < p + n → (p + n - 1) / ALLOCATION_GRANULARITY - p / ALLOCATION_GRANULARITY
      < n / ALLOCATION_GRANULARITY + 2 := by
    intro _; rw [hG]; omega
  have hiff : AddressSpace.is_copy w p q n = .ok true ↔
      p % ALLOCATION_GRANULARITY = q % ALLOCATION_GRANULARITY ∧
      ∀ a, p ≤ a → a < p + n → CopyAt w a (q + (a - p)) := by
    unfold AddressSpace.is_copy
    by_cases hmod : p % ALLOCATION_GRANULARITY = q % ALLOCATION_GRANULARITY
    · simp only [hmod, if_true, true_and]
      rw [← is_copy_loop_true w (p + n) _ p q hfuel (fun _ => hmod)]
      cases AddressSpace.is_copy_loop w (p + n) (n / ALLOCATION_GRANULARITY + 2) p q <;> simp
    · simp [hmod]
  refine ⟨hiff, ?_, ?_⟩
  · intro e
    unfold AddressSpace.is_copy
    split_ifs
    · cases AddressSpace.is_copy_loop w (p + n) (n / ALLOCATION_GRANULARITY + 2) p q <;> simp
    · simp
  · intro hv hex
    have hnot : AddressSpace.is_copy w p q n ≠ .ok true := by
      intro h
      obtain ⟨hmod, hall⟩ := hiff.1 h
      obtain ⟨a, hr, hna⟩ := hex
      rcases hr with ⟨h1, h2⟩ | ⟨h1, h2⟩
      · exact hna (hall a h1 h2).1
      · have := (hall (p + (a - q)) (by omega) (by omega)).2.1
        have e : q + (p + (a - q) - p) = a := by omega
        rw [e] at this
        exact hna this
    revert hnot
    unfold AddressSpace.is_copy
    split_ifs
    · rcases is_copy_loop_total w (p + n) hv (n / ALLOCATION_GRANULARITY + 2) p q hfuel
        with ⟨r, h⟩ | h
      · rw [h]; cases r <;> simp
      · rw [h]; simp
    · simp

/-- C5: `is_copy` is symmetric, for ranges (`AddressSpace::is_copy`) and for blocks
(`Block::is_copy`): swapping the two sides gives the same outcome. -/
theorem is_copy_symm :
    (∀ (w : World) (p q n : Nat),
      AddressSpace.is_copy w p q n = AddressSpace.is_copy w q p n) ∧
    (∀ (w : World) (a b offset size : Nat),
      Block.is_copy w a b offset size = Block.is_copy w b a offset size) := by
  refine ⟨?_, fun w a b o s => Block_is_copy_comm w a b o s⟩
  intro w p q n
  unfold AddressSpace.is_copy
  by_cases hmod : p % ALLOCATION_GRANULARITY = q % ALLOCATION_GRANULARITY
  · rw [if_pos hmod, if_pos hmod.symm,
      is_copy_loop_comm w (p + n) (q + n) _ p q hmod (by omega) (by omega)]
  · rw [if_neg hmod, if_neg (fun h => hmod h.symm)]

theorem views_present_world_shared : views_present world_shared := by
  intro i h1 _
  by_cases c1 : i = 1
  · subst c1; exact ⟨100, _, rfl⟩
  by_cases c3 : i = 3
  · subst c3; exact ⟨101, _, rfl⟩
  · simp [world_shared, world_empty, c1, c3] at h1

theorem is_copy_iff_witness :
    AddressSpace.is_copy world_shared 65536 131072 65536 = .ok false ∧
    AddressSpace.is_copy world_shared 65536 196608 65536 = .ok true :=
  ⟨(is_copy_iff world_shared 65536 131072 65536).2.2 views_present_world_shared
      ⟨131072, Or.inr (by decide), by simp [block_allocated, world_shared, ALLOCATION_GRANULARITY]⟩,
    by decide⟩

theorem allocated_block_none_iff (w : World) (a : Nat) :
    allocated_block w a = none ↔ ¬ block_allocated w a := by
  unfold allocated_block block_allocated
  simp only []
  split_ifs with h
  · simp [h]
  · simp [h]

theorem allocated_block_some (w : World) (a : Nat) (h : block_allocated w a) :
    allocated_block w a = some (a / ALLOCATION_GRANULARITY) := by
  unfold allocated_block
  exact if_pos h

theorem release_check_iff (w : World) (n p : Nat) :
    AddressSpace.release_check w p n = true ↔
      ∀ k, k < n → block_allocated w (p + k * ALLOCATION_GRANULARITY) := by
  induction n generalizing p with
  | zero => simp [AddressSpace.release_check]
  | succ n ih =>
    simp only [AddressSpace.release_check]
    by_cases ha : block_allocated w p
    · rw [allocated_block_some w p ha]
      simp only []
      rw [ih]
      constructor
      · intro h k hk
        cases k with
        | zero => simpa using ha
        | succ k =>
          have := h k (by omega)
          have e : p + ALLOCATION_GRANULARITY + k * ALLOCATION_GRANULARITY
              = p + (k + 1) * ALLOCATION_GRANULARITY := by ring
          rw [e] at this; exact this
      · intro h k hk
        have := h (k + 1) (by omega)
        have e : p + ALLOCATION_GRANULARITY + k * ALLOCATION_GRANULARITY
            = p + (k + 1) * ALLOCATION_GRANULARITY := by ring
        rw [e]; exact this
    · rw [(allocated_block_none_iff w p).2 ha]
      simp only [Bool.false_eq_true, false_iff]
      intro h
      have := h 0 (by omega)
      simp at this
      exact ha this

theorem block_allocated_congr (w : World) (a b : Nat)
    (h : a / ALLOCATION_GRANULARITY = b / ALLOCATION_GRANULARITY) :
    block_allocated w a ↔ block_allocated w b := by
  unfold block_allocated; rw [h]

theorem release_check_range (w : World) (begin_ end_ : Nat)
    (hb : begin_ % ALLOCATION_GRANULARITY = 0) (he : end_ % ALLOCATION_GRANULARITY = 0) :
    AddressSpace.release_check w begin_ ((end_ - begin_) / ALLOCATION_GRANULARITY) = true ↔
      ∀ a, begin_ ≤ a → a < end_ → block_allocated w a := by
  have hG : ALLOCATION_GRANULARITY = 65536 := rfl
  rw [release_check_iff]
  constructor
  · intro h a h1 h2
    have := h ((a - begin_) / ALLOCATION_GRANULARITY) (by simp only [hG] at *; omega)
    refine (block_allocated_congr w _ _ ?_).1 this
    simp only [hG] at *; omega
  · intro h k hk
    exact h _ (by simp only [hG] at *; omega) (by simp only [hG] at *; omega)

theorem reserve_retry_cases (w : World) (a n : Nat) :
    (reserve_retry w a n).1 = .ok () ∨ (reserve_retry w a n).1 = .hang := by
  unfold reserve_retry
  simp only []
  split_ifs <;> simp

theorem release_split_cases (w : World) (b e : Nat) :
    (AddressSpace.release_split w b e).1 = .ok () ∨
      (AddressSpace.release_split w b e).1 = .hang := by
  unfold AddressSpace.release_split
  simp only []
  have h1 : ∀ m, (AddressSpace.release_split_begin w b m).1 = .ok () ∨
      (AddressSpace.release_split_begin w b m).1 = .hang := by
    intro m
    unfold AddressSpace.release_split_begin
    split_ifs
    · exact reserve_retry_cases _ _ _
    · exact Or.inl rfl
  have h2 : ∀ w' m, (AddressSpace.release_split_end w' b e m).1 = .ok () ∨
      (AddressSpace.release_split_end w' b e m).1 = .hang := by
    intro w' m
    unfold AddressSpace.release_split_end
    split_ifs
    · exact reserve_retry_cases _ _ _
    · exact reserve_retry_cases _ _ _
    · exact Or.inl rfl
  split
  · exact h2 _ _
  · rename_i r hne
    rcases h1 (AddressSpace.release_margins w b e).1 with h | h
    · exfalso
      apply hne () (AddressSpace.release_split_begin w b (AddressSpace.release_margins w b e).1).2
      rw [← h]
    · exact Or.inr h

theorem release_region_no_raise (w : World) (re : Nat) (x : Exc) : ∀ n p,
    (AddressSpace.release_region w re p n).1 ≠ .raise x := by
  intro n
  induction n generalizing w with
  | zero => intro p; simp only [AddressSpace.release_region]; split_ifs <;> simp
  | succ n ih =>
    intro p
    simp only [AddressSpace.release_region]
    split_ifs
    · split
      · simp
      · exact ih _ _
    · simp

theorem release_pass_no_raise (w : World) (e : Nat) (x : Exc) : ∀ n p,
    (AddressSpace.release_pass w e p n).1 ≠ .raise x := by
  intro n
  induction n generalizing w with
  | zero => intro p; simp only [AddressSpace.release_pass]; split_ifs <;> simp
  | succ n ih =>
    intro p
    simp only [AddressSpace.release_pass]
    split_ifs
    · split
      · simp
      · split_ifs <;> first
          | exact ih _ _
          | (split
             · exact ih _ _
             · rename_i h; exact absurd (congrArg Prod.fst h) (release_region_no_raise _ _ _ _ _)
             · simp
             · simp)
    · simp


/-- C10: for a non-null `dst` and `size > 0`, `AddressSpace::release` raises `BAD_PARAM`
exactly when some block of `[round_down (dst), round_up (dst + size))` is not allocated, and
then the directory and the OS state are as before the call; with a null `dst` or a zero
`size` it returns and changes nothing. -/
theorem release_bad_param (w : World) (dst size : Nat) :
    (dst = 0 ∨ size = 0 → AddressSpace.release w dst size = (.ok (), w)) ∧
    (dst ≠ 0 → 0 < size →
      ((AddressSpace.release w dst size).1 = .raise .BAD_PARAM ↔
        ∃ a, round_down dst ALLOCATION_GRANULARITY ≤ a ∧
          a < round_up (dst + size) ALLOCATION_GRANULARITY ∧ ¬ block_allocated w a) ∧
      ((AddressSpace.release w dst size).1 = .raise .BAD_PARAM →
        (AddressSpace.release w dst size).2 = w)) := by
  have hG : ALLOCATION_GRANULARITY = 65536 := rfl
  constructor
  · intro h
    unfold AddressSpace.release
    have : ¬ (dst ≠ 0 ∧ size ≠ 0) := by
      rcases h with h | h <;> simp [h]
    rw [if_pos this]
  · intro hd hs
    have hds : dst ≠ 0 ∧ size ≠ 0 := ⟨hd, by omega⟩
    have hcheck := release_check_range w (round_down dst ALLOCATION_GRANULARITY)
      (round_up (dst + size) ALLOCATION_GRANULARITY)
      (by simp only [round_down, hG]; omega) (by simp only [round_up, hG]; omega)
    have hrel : AddressSpace.release w dst size =
        if ¬ AddressSpace.release_check w (round_down dst ALLOCATION_GRANULARITY)
          ((round_up (dst + size) ALLOCATION_GRANULARITY
            - round_down dst ALLOCATION_GRANULARITY) / ALLOCATION_GRANULARITY) = true
        then (.raise .BAD_PARAM, w)
        else
          match AddressSpace.release_split w (round_down dst ALLOCATION_GRANULARITY)
            (round_up (dst + size) ALLOCATION_GRANULARITY) with
          | (Res.ok _, w) => AddressSpace.release_pass w
              (round_up (dst + size) ALLOCATION_GRANULARITY)
              (round_down dst ALLOCATION_GRANULARITY)
              ((round_up (dst + size) ALLOCATION_GRANULARITY
                - round_down dst ALLOCATION_GRANULARITY) / ALLOCATION_GRANULARITY)
          | r => r := by
      unfold AddressSpace.release
      rw [if_neg (not_not.2 hds)]
    rw [hrel]
    by_cases hc : AddressSpace.release_check w (round_down dst ALLOCATION_GRANULARITY)
        ((round_up (dst + size) ALLOCATION_GRANULARITY - round_down dst ALLOCATION_GRANULARITY)
          / ALLOCATION_GRANULARITY) = true
    · have hall := hcheck.1 hc
      rw [if_neg (not_not.2 hc)]
      have hne : (match AddressSpace.release_split w (round_down dst ALLOCATION_GRANULARITY)
            (round_up (dst + size) ALLOCATION_GRANULARITY) with
          | (Res.ok _, w) => AddressSpace.release_pass w
              (round_up (dst + size) ALLOCATION_GRANULARITY)
              (round_down dst ALLOCATION_GRANULARITY)
              ((round_up (dst + size) ALLOCATION_GRANULARITY
                - round_down dst ALLOCATION_GRANULARITY) / ALLOCATION_GRANULARITY)
          | r => r).1 ≠ .raise .BAD_PARAM := by
        split
        · exact release_pass_no_raise _ _ _ _ _
        · rename_i r hne
          rcases release_split_cases w (round_down dst ALLOCATION_GRANULARITY)
            (round_up (dst + size) ALLOCATION_GRANULARITY) with h | h <;> rw [h] <;> simp
      constructor
      · constructor
        · intro h; exact absurd h hne
        · rintro ⟨a, h1, h2, h3⟩
          exact absurd (hall a h1 h2) h3
      · intro h; exact absurd h hne
    · rw [if_pos hc]
      refine ⟨⟨fun _ => ?_, fun _ => rfl⟩, fun _ => rfl⟩
      by_contra hcon
      apply hc
      apply hcheck.2
      intro a h1 h2
      by_contra h3
      exact hcon ⟨a, h1, h2, h3⟩


theorem release_bad_param_witness :
    (AddressSpace.release world_empty 65536 65536).1 = .raise .BAD_PARAM ∧
    (AddressSpace.release world_empty 65536 65536).2 = world_empty :=
  have h := ((release_bad_param world_empty 65536 65536).2 (by decide) (by decide)).1.2
    ⟨65536, by decide, by decide, by simp [block_allocated, world_empty]⟩
  ⟨h, ((release_bad_param world_empty 65536 65536).2 (by decide) (by decide)).2 h⟩

theorem bits_outside_ne_zero_iff (flags mask : Nat) :
    bits_outside flags mask ≠ 0 ↔ ∃ i, flags.testBit i = true ∧ mask.testBit i = false := by
  unfold bits_outside
  constructor
  · intro h
    by_contra hcon
    apply h
    apply Nat.eq_of_testBit_eq
    intro i
    simp only [Nat.testBit_xor, Nat.testBit_and, Nat.zero_testBit]
    cases hf : flags.testBit i <;> cases hm : mask.testBit i <;> simp
    exact hcon ⟨i, hf, hm⟩
  · rintro ⟨i, hf, hm⟩ h
    have := congrArg (fun x => Nat.testBit x i) h
    simp [hf, hm] at this

/-- C8: with `size > 0`, `MemoryWindows::allocate` raises `INV_FLAG` whenever `flags` has a bit
outside `RESERVED | EXACTLY | ZERO_INIT` and `MemoryWindows::copy` whenever `flags` has a bit
outside `READ_ONLY | RELEASE | ALLOCATE | EXACTLY`; the directory and the OS state are then
exactly as before the call. -/
theorem inv_flag_first (cpp : MemoryWindowsCpp) (w : World) (dst src size flags : Nat)
    (os : Os) (hs : 0 < size) :
    ((∃ i, flags.testBit i = true ∧
        (RESERVED ||| EXACTLY ||| ZERO_INIT).testBit i = false) →
      MemoryWindows.allocate cpp w dst size flags os = (.raise .INV_FLAG, w)) ∧
    ((∃ i, flags.testBit i = true ∧
        (READ_ONLY ||| RELEASE ||| ALLOCATE ||| EXACTLY).testBit i = false) →
      MemoryWindows.copy cpp w dst src size flags os = (.raise .INV_FLAG, w)) := by
  have hs' : ¬ size = 0 := by omega
  constructor
  · intro h
    have := (bits_outside_ne_zero_iff _ _).2 h
    unfold MemoryWindows.allocate
    rw [if_neg hs', if_pos this]
  · intro h
    have := (bits_outside_ne_zero_iff _ _).2 h
    unfold MemoryWindows.copy
    rw [if_neg hs', if_pos this]

theorem inv_flag_first_witness :
    0 < 4096 ∧
    MemoryWindows.allocate cpp_idle world_empty 0 4096 Memory.READ_ONLY os_refuses
      = (.raise .INV_FLAG, world_empty) ∧
    MemoryWindows.copy cpp_idle world_empty 0 65536 4096 Memory.RESERVED os_refuses
      = (.raise .INV_FLAG, world_empty) :=
  ⟨by decide,
    (inv_flag_first cpp_idle world_empty 0 0 4096 Memory.READ_ONLY os_refuses (by decide)).1
      ⟨0, by decide, by decide⟩,
    (inv_flag_first cpp_idle world_empty 0 65536 4096 Memory.RESERVED os_refuses (by decide)).2
      ⟨1, by decide, by decide⟩⟩

theorem catchNoMemory_exactly (flags : Nat) (r : Res Nat × World)
    (h : flags &&& EXACTLY ≠ 0) : (catchNoMemory flags r).1 ≠ .raise .NO_MEMORY := by
  unfold catchNoMemory
  split
  · rw [if_pos h]; simp
  · rename_i hne
    intro hr
    apply hne r.2
    rw [← hr]

theorem catchNoMemory_raise (flags : Nat) (r : Res Nat × World) (w : World)
    (hr : r = (.raise .NO_MEMORY, w)) :
    catchNoMemory flags r =
      if flags &&& EXACTLY ≠ 0 then (.ok 0, w) else (.raise .NO_MEMORY, w) := by
  subst hr; rfl

theorem Block_new_no_memory (w : World) (a : Nat) : Block.new w a ≠ .raise .NO_MEMORY := by
  unfold Block.new; split <;> simp

theorem all_pages_access_no_raise (ps : List Nat) (e : Nat) (x : Exc) : ∀ n k,
    all_pages_access ps e k n ≠ .raise x := by
  intro n
  induction n with
  | zero => intro k; simp only [all_pages_access]; split_ifs <;> simp
  | succ n ih =>
    intro k
    simp only [all_pages_access]
    split_ifs
    · unfold rd
      cases ps[k]? with
      | none => simp [Bind.bind, Res.bind]
      | some v =>
        simp only [Res.ok_bind]
        split_ifs
        · simp
        · exact ih _
    · simp

theorem Block_check_committed_no_memory (w : World) (b o s : Nat) :
    Block.check_committed w b o s ≠ .raise .NO_MEMORY := by
  unfold Block.check_committed
  rcases Block_state_cases w b with h | ⟨st, h⟩
  · simp [h]
  · rw [h]
    simp only [Res.ok_bind]
    cases st with
    | RESERVED _ _ => simp
    | MAPPED ps bits =>
      simp only []
      cases hr : all_pages_access ps ((o + s + PAGE_SIZE - 1) / PAGE_SIZE) (o / PAGE_SIZE)
        (PAGES_PER_BLOCK + 1) with
      | ok v => cases v <;> simp
      | raise e => exact absurd hr (all_pages_access_no_raise _ _ _ _ _)
      | hang => simp
      | fault => simp

theorem check_committed_loop_no_memory (w : World) (e : Nat) : ∀ fuel p mask,
    AddressSpace.check_committed_loop w e fuel p mask ≠ .raise .NO_MEMORY := by
  intro fuel
  induction fuel with
  | zero => intro p mask; simp only [AddressSpace.check_committed_loop]; split_ifs <;> simp
  | succ n ih =>
    intro p mask
    simp only [AddressSpace.check_committed_loop]
    split_ifs
    · cases hb : Block.new w p with
      | ok b =>
        simp only [Res.ok_bind]
        cases hc : Block.check_committed w b (p - b) (min (b + ALLOCATION_GRANULARITY) e - p) with
        | ok v => simp only [Res.ok_bind]; exact ih _ _
        | raise x =>
          simp only [Res.raise_bind]
          intro h
          rw [h] at hc
          exact Block_check_committed_no_memory _ _ _ _ hc
        | hang => simp
        | fault => simp
      | raise x =>
        simp only [Res.raise_bind]
        intro h
        rw [h] at hb
        exact Block_new_no_memory _ _ hb
      | hang => simp
      | fault => simp
    · simp

theorem check_committed_no_memory (w : World) (p n : Nat) :
    AddressSpace.check_committed w p n ≠ .raise .NO_MEMORY := by
  unfold AddressSpace.check_committed
  split_ifs
  · simp
  · simp
  · exact check_committed_loop_no_memory _ _ _ _ _


/-- C9: in `MemoryWindows::allocate` and `MemoryWindows::copy` no `NO_MEMORY` reaches the
caller when `flags` has `EXACTLY`; a `NO_MEMORY` that leaves the `try` block (whatever call
raised it) becomes a null return with `EXACTLY` and is raised to the caller without it; so
it is for a refused reservation and for a refused file mapping in `allocate`. -/
theorem no_memory_exactly (cpp : MemoryWindowsCpp) (w : World) (dst src size flags : Nat)
    (os : Os) :
    (flags &&& EXACTLY ≠ 0 →
      (MemoryWindows.allocate cpp w dst size flags os).1 ≠ .raise .NO_MEMORY ∧
      (MemoryWindows.copy cpp w dst src size flags os).1 ≠ .raise .NO_MEMORY) ∧
    (0 < size → bits_outside flags (RESERVED ||| EXACTLY ||| ZERO_INIT) = 0 →
      ∀ w', MemoryWindows.allocate_try cpp w dst size flags os = (.raise .NO_MEMORY, w') →
        MemoryWindows.allocate cpp w dst size flags os =
          if flags &&& EXACTLY ≠ 0 then (.ok 0, w') else (.raise .NO_MEMORY, w')) ∧
    (0 < size →
      bits_outside flags (READ_ONLY ||| RELEASE ||| ALLOCATE ||| EXACTLY) = 0 →
      ∀ mask w', AddressSpace.check_committed w src size = .ok mask →
        MemoryWindows.copy_try cpp w dst src size flags mask os = (.raise .NO_MEMORY, w') →
        MemoryWindows.copy cpp w dst src size flags os =
          if flags &&& EXACTLY ≠ 0 then (.ok 0, w') else (.raise .NO_MEMORY, w')) ∧
    (0 < size → bits_outside flags (RESERVED ||| EXACTLY ||| ZERO_INIT) = 0 →
      ¬ (dst = 0 ∧ size ≤ ALLOCATION_GRANULARITY ∧ RESERVED &&& flags = 0) →
      ∀ w', AddressSpace.reserve w size flags dst os.choice os.retries
          = (.raise .NO_MEMORY, w') →
        MemoryWindows.allocate cpp w dst size flags os =
          if flags &&& EXACTLY ≠ 0 then (.ok 0, w') else (.raise .NO_MEMORY, w')) ∧
    (0 < size → bits_outside flags (RESERVED ||| EXACTLY ||| ZERO_INIT) = 0 →
      dst = 0 ∧ size ≤ ALLOCATION_GRANULARITY ∧ RESERVED &&& flags = 0 →
      (CreateFileMappingW w os.handle).1 = 0 →
        MemoryWindows.allocate cpp w dst size flags os =
          if flags &&& EXACTLY ≠ 0 then (.ok 0, w) else (.raise .NO_MEMORY, w)) := by
  have halloc : ∀ (hs : 0 < size)
      (hf : bits_outside flags (RESERVED ||| EXACTLY ||| ZERO_INIT) = 0),
      MemoryWindows.allocate cpp w dst size flags os =
        catchNoMemory flags (MemoryWindows.allocate_try cpp w dst size flags os) := by
    intro hs hf
    unfold MemoryWindows.allocate
    rw [if_neg (by omega), if_neg (not_not.2 hf)]
  refine ⟨?_, ?_, ?_, ?_, ?_⟩
  · intro he
    constructor
    · unfold MemoryWindows.allocate
      split_ifs
      · simp
      · simp
      · exact catchNoMemory_exactly _ _ he
    · unfold MemoryWindows.copy
      split_ifs
      · simp
      · simp
      · cases hc : AddressSpace.check_committed w src size with
        | ok mask => simp only [pureCall, andThen]; exact catchNoMemory_exactly _ _ he
        | raise e =>
          simp only [pureCall, andThen]
          intro h
          have : e = .NO_MEMORY := by simpa using h
          rw [this] at hc
          exact check_committed_no_memory _ _ _ hc
        | hang => simp [pureCall, andThen]
        | fault => simp [pureCall, andThen]
  · intro hs hf w' ht
    rw [halloc hs hf]
    exact catchNoMemory_raise _ _ _ ht
  · intro hs hf mask w' hm ht
    unfold MemoryWindows.copy
    rw [if_neg (by omega), if_neg (not_not.2 hf), hm]
    simp only [pureCall, andThen]
    exact catchNoMemory_raise _ _ _ ht
  · intro hs hf hslow w' hr
    rw [halloc hs hf]
    apply catchNoMemory_raise
    unfold MemoryWindows.allocate_try
    rw [if_neg hslow, hr]
    rfl
  · intro hs hf hquick hc
    rw [halloc hs hf]
    apply catchNoMemory_raise
    unfold MemoryWindows.allocate_try
    rw [if_pos hquick]
    have hw : (CreateFileMappingW w os.handle).2 = w := by
      revert hc
      unfold CreateFileMappingW
      split_ifs with hcond
      · intro h0; exact absurd h0 hcond.1
      · intro _; rfl
    unfold MemoryWindows.new_mapping
    simp only [hc, if_true, andThen, hw]


theorem no_memory_exactly_witness :
    MemoryWindows.allocate cpp_idle world_empty 0 4096 Memory.EXACTLY os_refuses
      = (.ok 0, world_empty) ∧
    MemoryWindows.allocate cpp_idle world_empty 0 4096 0 os_refuses
      = (.raise .NO_MEMORY, world_empty) :=
  ⟨(no_memory_exactly cpp_idle world_empty 0 0 4096 Memory.EXACTLY os_refuses).2.2.2.2
      (by decide) (by decide) (by decide) (by decide),
    (no_memory_exactly cpp_idle world_empty 0 0 4096 0 os_refuses).2.2.2.2
      (by decide) (by decide) (by decide) (by decide)⟩

/-- C1 (failing input): a range that does not start on a block boundary.  Blocks 1 to 3 are
reserved by one `allocate`; `release (G + 1, 2G - 1)` returns and frees blocks 1 and 2, the
blocks of the range; `allocate (G + 1, 2G - 1, EXACTLY | RESERVED)` then returns null, not
`G + 1`: `reserve` rounds the size up without the offset of `dst`, so the OS is asked for
`[G + 1, 3G + 1)`, which needs block 3. -/
theorem release_allocate_unaligned :
    (MemoryWindows.allocate cpp_idle world_empty ALLOCATION_GRANULARITY
      (3 * ALLOCATION_GRANULARITY) (EXACTLY ||| RESERVED) os_refuses).1
      = .ok ALLOCATION_GRANULARITY ∧
    (∀ a, ALLOCATION_GRANULARITY + 1 ≤ a →
      a < ALLOCATION_GRANULARITY + 1 + (2 * ALLOCATION_GRANULARITY - 1) →
      block_allocated world_reserved3 a) ∧
    (MemoryWindows.release world_reserved3 (ALLOCATION_GRANULARITY + 1)
      (2 * ALLOCATION_GRANULARITY - 1)).1 = .ok () ∧
    (MemoryWindows.allocate cpp_idle world_released2 (ALLOCATION_GRANULARITY + 1)
      (2 * ALLOCATION_GRANULARITY - 1) (EXACTLY ||| RESERVED) os_refuses).1 = .ok 0 := by
  refine ⟨by decide, ?_, by decide, by decide⟩
  intro a h1 h2
  have hG : ALLOCATION_GRANULARITY = 65536 := rfl
  simp only [hG] at h1 h2
  have : a / ALLOCATION_GRANULARITY = 1 ∨ a / ALLOCATION_GRANULARITY = 2 := by
    rw [hG]; omega
  unfold block_allocated
  rcases this with h | h <;> rw [h] <;> exact ⟨by decide, by decide⟩

/-- C6 (failing input): `Block::change_protection (G - 1, 1, READ_ONLY)` on a mapped block.
The range holds no whole page, `offset` is rounded up to the end of the block, and the loop,
a `do ... while`, still reads `page_state [PAGES_PER_BLOCK]`, outside the array. -/
theorem change_protection_reads_past_block :
    Block.change_protection world_shared ALLOCATION_GRANULARITY
      (ALLOCATION_GRANULARITY - 1) 1 READ_ONLY = (.fault, world_shared) := by
  rfl

/-! ## The directory invariant: the operations one by one -/

theorem blocks_free_iff (w : World) (b e : Nat) :
    blocks_free w b e = true ↔
      0 < b ∧ e ≤ w.directory_size ∧ ∀ j, b ≤ j → j < e → w.vm j = .free := by
  unfold blocks_free
  simp only [Bool.and_eq_true, decide_eq_true_eq, List.all_eq_true, List.mem_range, beq_iff_eq]
  constructor
  · rintro ⟨⟨h1, h2⟩, h3⟩
    refine ⟨h1, h2, fun j hj1 hj2 => ?_⟩
    have := h3 (j - b) (by omega)
    rwa [show b + (j - b) = j by omega] at this
  · rintro ⟨h1, h2, h3⟩
    exact ⟨⟨h1, h2⟩, fun k hk => h3 _ (by omega) (by omega)⟩

theorem INVALID_ne_zero : INVALID_HANDLE_VALUE ≠ 0 := by decide

/-- Result of a reservation of the blocks `[b, b + n)` that are free. -/
theorem VirtualAllocEx_reserve_blocks (w : World) (b n : Nat) (hn : 0 < n) (hb : 0 < b)
    (he : b + n ≤ w.directory_size) (hfree : ∀ j, b ≤ j → j < b + n → w.vm j = .free) :
    VirtualAllocEx_reserve w (b * ALLOCATION_GRANULARITY) (n * ALLOCATION_GRANULARITY) =
      (b * ALLOCATION_GRANULARITY,
        { w with vm := fun j => if b ≤ j ∧ j < b + n then .reserved b (b + n) else w.vm j }) := by
  have hG : ALLOCATION_GRANULARITY = 65536 := rfl
  unfold VirtualAllocEx_reserve
  have e1 : b * ALLOCATION_GRANULARITY / ALLOCATION_GRANULARITY = b := by rw [hG]; omega
  have e2 : (b * ALLOCATION_GRANULARITY + n * ALLOCATION_GRANULARITY + ALLOCATION_GRANULARITY - 1)
      / ALLOCATION_GRANULARITY = b + n := by rw [hG]; omega
  simp only [e1, e2]
  have hf : blocks_free w b (b + n) = true := (blocks_free_iff w b (b + n)).2 ⟨hb, he, hfree⟩
  have hs : 0 < n * ALLOCATION_GRANULARITY := by rw [hG]; omega
  rw [if_pos ⟨hs, hf⟩]

theorem VirtualFreeEx_release_base (w : World) (b e : Nat)
    (hv : w.vm b = .reserved b e) :
    VirtualFreeEx_release w (b * ALLOCATION_GRANULARITY) =
      (true, { w with vm := fun j => if w.vm j = .reserved b e then .free else w.vm j }) := by
  have hG : ALLOCATION_GRANULARITY = 65536 := rfl
  unfold VirtualFreeEx_release
  have e1 : b * ALLOCATION_GRANULARITY / ALLOCATION_GRANULARITY = b := by rw [hG]; omega
  rw [e1, hv]
  simp

theorem UnmapViewOfFile2_mapped (w : World) (i h : Nat) (ps : List Nat)
    (hv : w.vm i = .mapped h ps) :
    UnmapViewOfFile2 w (i * ALLOCATION_GRANULARITY) = (true, w.set_vm i .free) := by
  have hG : ALLOCATION_GRANULARITY = 65536 := rfl
  unfold UnmapViewOfFile2
  have e1 : i * ALLOCATION_GRANULARITY / ALLOCATION_GRANULARITY = i := by rw [hG]; omega
  have e2 : i * ALLOCATION_GRANULARITY % ALLOCATION_GRANULARITY = 0 := by rw [hG]; omega
  rw [e1, hv]
  simp [e2]

theorem RW_reserve (w w' : World) (x y : Nat) (h : ReservationsWhole w)
    (hfree : ∀ j, x ≤ j → j < y → w.vm j = .free)
    (hvm : w'.vm = fun j => if x ≤ j ∧ j < y then .reserved x y else w.vm j) :
    ReservationsWhole w' := by
  intro i b' e' hi
  rw [hvm] at hi ⊢
  simp only at hi ⊢
  by_cases c : x ≤ i ∧ i < y
  · rw [if_pos c] at hi
    cases hi
    refine ⟨c.1, c.2, fun j hj1 hj2 => ?_⟩
    rw [if_pos ⟨hj1, hj2⟩]
  · rw [if_neg c] at hi
    obtain ⟨h1, h2, h3⟩ := h i b' e' hi
    refine ⟨h1, h2, fun j hj1 hj2 => ?_⟩
    have := h3 j hj1 hj2
    have hne : ¬ (x ≤ j ∧ j < y) := by
      intro hc
      have hf := hfree j hc.1 hc.2
      rw [hf] at this
      cases this
    rw [if_neg hne]; exact this

theorem RW_set_vm (w : World) (i : Nat) (v : VBlock) (h : ReservationsWhole w)
    (hold : ∀ b e, w.vm i ≠ .reserved b e) (hnew : ∀ b e, v ≠ .reserved b e) :
    ReservationsWhole (w.set_vm i v) := by
  intro k b e hk
  simp only [World.set_vm] at hk ⊢
  by_cases c : k = i
  · rw [if_pos c] at hk; exact absurd hk (hnew b e)
  · rw [if_neg c] at hk
    obtain ⟨h1, h2, h3⟩ := h k b e hk
    refine ⟨h1, h2, fun j hj1 hj2 => ?_⟩
    have := h3 j hj1 hj2
    by_cases cj : j = i
    · subst cj; exact absurd this (hold b e)
    · rw [if_neg cj]; exact this


theorem block_div (i : Nat) : i * ALLOCATION_GRANULARITY / ALLOCATION_GRANULARITY = i := by
  have hG : ALLOCATION_GRANULARITY = 65536 := rfl
  rw [hG]; omega

theorem WellFormed.index_lt {w : World} (h : WellFormed w) {i : Nat}
    (ha : w.directory i ≠ 0) : 0 < i ∧ i < w.directory_size := by
  have := h.2.2 i
  by_contra hc
  apply ha
  apply this
  omega

/-- What `Block::unmap` leaves behind on a mapped block. -/
theorem Block_unmap_mapped (w : World) (i reserve : Nat) (no_close : Bool) (ps : List Nat)
    (hidx : 0 < i ∧ i < w.directory_size)
    (hreal : w.directory i ≠ 0 ∧ w.directory i ≠ INVALID_HANDLE_VALUE)
    (hv : w.vm i = .mapped (w.directory i) ps) :
    ∃ w', Block.unmap w (i * ALLOCATION_GRANULARITY) reserve no_close = (.ok (), w') ∧
      w'.directory_size = w.directory_size ∧
      w'.directory = (fun j => if j = i then reserve else w.directory j) ∧
      w'.vm = (fun j => if j = i then
        (if reserve = 0 then .free else .reserved i (i + 1)) else w.vm j) ∧
      w'.handles = (fun k => if no_close = false ∧ k = w.directory i then none
        else w.handles k) ∧
      w'.committed = w.committed ∧ w'.objects = w.objects ∧
      w'.is_current_process = w.is_current_process := by
  have hG : ALLOCATION_GRANULARITY = 65536 := rfl
  unfold Block.unmap
  simp only [block_div]
  rw [if_neg hreal.1, if_pos hreal.2]
  have hv' : (w.set_mapping i reserve).vm i = .mapped (w.directory i) ps := hv
  rw [UnmapViewOfFile2_mapped _ i _ ps hv']
  simp only []
  by_cases hr : reserve = 0
  · subst hr
    simp only [ne_eq, not_true_eq_false, if_false]
    refine ⟨_, rfl, ?_, ?_, ?_, ?_, ?_, ?_, ?_⟩
    · cases no_close <;> rfl
    · cases no_close <;> rfl
    · cases no_close <;> simp [World.set_vm, World.set_mapping, CloseHandle]
    · cases no_close <;> simp [World.set_vm, World.set_mapping, CloseHandle]
    · cases no_close <;> rfl
    · cases no_close <;> rfl
    · cases no_close <;> rfl
  · rw [if_pos hr]
    unfold reserve_retry
    have hres := VirtualAllocEx_reserve_blocks
      (if no_close = true then ((w.set_mapping i reserve).set_vm i VBlock.free)
        else CloseHandle ((w.set_mapping i reserve).set_vm i VBlock.free) (w.directory i))
      i 1 (by omega) hidx.1
      (by cases no_close <;> simp [World.set_vm, World.set_mapping, CloseHandle] <;> omega)
      (by
        intro j h1 h2
        have : j = i := by omega
        subst this
        cases no_close <;> simp [World.set_vm, World.set_mapping, CloseHandle])
    simp only [one_mul] at hres
    simp only [hres]
    have hne : ¬ (i * ALLOCATION_GRANULARITY = 0) := by rw [hG]; omega
    rw [if_neg hne]
    refine ⟨_, rfl, ?_, ?_, ?_, ?_, ?_, ?_, ?_⟩
    · cases no_close <;> rfl
    · cases no_close <;> rfl
    · funext j
      cases no_close <;> simp [World.set_vm, World.set_mapping, CloseHandle, hr] <;>
        (by_cases c : j = i
         · subst c; simp
         · simp [c]; intro h1 h2; omega)
    · cases no_close <;> simp [World.set_vm, World.set_mapping, CloseHandle]
    · cases no_close <;> rfl
    · cases no_close <;> rfl
    · cases no_close <;> rfl


theorem Block_unmap_sentinel (w : World) (i : Nat) (no_close : Bool)
    (hs : w.directory i = INVALID_HANDLE_VALUE) :
    Block.unmap w (i * ALLOCATION_GRANULARITY) INVALID_HANDLE_VALUE no_close
      = (.ok (), w.set_mapping i INVALID_HANDLE_VALUE) := by
  unfold Block.unmap
  simp only [block_div]
  rw [if_neg (by rw [hs]; exact INVALID_ne_zero), if_neg (by rw [hs]; simp)]

theorem wf_same_fields (w w' : World) (h : WellFormed w)
    (h1 : w'.directory_size = w.directory_size) (h2 : ∀ j, w'.directory j = w.directory j)
    (h3 : ∀ j, w'.vm j = w.vm j) : WellFormed w' := by
  obtain ⟨hc, hr, hb⟩ := h
  refine ⟨?_, ?_, ?_⟩
  · intro i
    unfold BlockOk
    rw [h2, h3]
    exact hc i
  · intro i b e hi
    rw [h3] at hi
    obtain ⟨x1, x2, x3⟩ := hr i b e hi
    exact ⟨x1, x2, fun j hj1 hj2 => by rw [h3]; exact x3 j hj1 hj2⟩
  · intro i hi
    rw [h2]; apply hb; rw [h1] at hi; exact hi

/-- `Block::unmap` keeps the invariant, when it is given null only for a mapped block. -/
theorem Block_unmap_wf (w : World) (i reserve : Nat) (no_close : Bool) (h : WellFormed w)
    (ha : w.directory i ≠ 0) (hr : reserve = 0 ∨ reserve = INVALID_HANDLE_VALUE)
    (hr0 : reserve = 0 → w.directory i ≠ INVALID_HANDLE_VALUE) :
    (Block.unmap w (i * ALLOCATION_GRANULARITY) reserve no_close).1 = .ok () ∧
      WellFormed (Block.unmap w (i * ALLOCATION_GRANULARITY) reserve no_close).2 := by
  have hidx := h.index_lt ha
  by_cases hs : w.directory i = INVALID_HANDLE_VALUE
  · have hres : reserve = INVALID_HANDLE_VALUE := by
      rcases hr with hr | hr
      · exact absurd hs (hr0 hr)
      · exact hr
    subst hres
    rw [Block_unmap_sentinel w i no_close hs]
    refine ⟨rfl, wf_same_fields w _ h rfl ?_ (fun _ => rfl)⟩
    intro j
    simp only [World.set_mapping]
    split_ifs with c
    · rw [c, hs]
    · rfl
  · obtain ⟨ps, hv⟩ := (h.1 i).2.2 ha hs
    obtain ⟨w', hu, hsz, hd, hvm, _⟩ :=
      Block_unmap_mapped w i reserve no_close ps hidx ⟨ha, hs⟩ hv
    rw [hu]
    refine ⟨rfl, ?_, ?_, ?_⟩
    · intro j
      unfold BlockOk
      rw [hd, hvm]
      simp only []
      by_cases c : j = i
      · subst c
        simp only [if_true]
        rcases hr with hr | hr
        · subst hr
          simp [INVALID_ne_zero.symm]
        · subst hr
          simp [INVALID_ne_zero]
      · simp only [c, if_false]
        exact h.1 j
    · by_cases hr0' : reserve = 0
      · -- the block becomes free
        have : w'.vm = (w.set_vm i .free).vm := by
          rw [hvm]; funext j; simp [World.set_vm, hr0']
        intro k b e hk
        rw [this] at hk ⊢
        exact RW_set_vm w i .free h.2.1 (by intro b e; rw [hv]; simp) (by simp) k b e hk
      · -- the block becomes a reservation of its own
        have hfree : ∀ j, i ≤ j → j < i + 1 → (w.set_vm i .free).vm j = .free := by
          intro j h1 h2
          have : j = i := by omega
          subst this; simp [World.set_vm]
        apply RW_reserve (w.set_vm i .free) w' i (i + 1)
          (RW_set_vm w i .free h.2.1 (by intro b e; rw [hv]; simp) (by simp)) hfree
        rw [hvm]; funext j
        simp only [World.set_vm, hr0', if_false]
        by_cases c : j = i
        · subst c; simp
        · have c2 : ¬ (i ≤ j ∧ j < i + 1) := by omega
          simp [c, c2]
    · intro j hj
      have hj : j = 0 ∨ w'.directory_size ≤ j := hj
      rw [hd]
      simp only []
      have hj' : j ≠ i := by omega
      rw [if_neg hj']
      apply h.2.2; rw [hsz] at hj; exact hj


/-- `VirtualQueryEx` at any address of a reserved block. -/
theorem query_reserved_at (w : World) (a b e : Nat)
    (hv : w.vm (a / ALLOCATION_GRANULARITY) = .reserved b e) :
    query w a =
      { BaseAddress := round_down a PAGE_SIZE,
        AllocationBase := b * ALLOCATION_GRANULARITY,
        RegionSize := e * ALLOCATION_GRANULARITY - round_down a PAGE_SIZE,
        State := MEM_RESERVE, Protect := 0, Type_ := MEM_PRIVATE } := by
  unfold query
  simp only [hv]

/-- An allocated block of a well-formed world is reserved or mapped. -/
theorem WellFormed.allocated_cases {w : World} (h : WellFormed w) {i : Nat}
    (ha : w.directory i ≠ 0) :
    (∃ b e, w.vm i = .reserved b e ∧ w.directory i = INVALID_HANDLE_VALUE) ∨
    (∃ ps, w.vm i = .mapped (w.directory i) ps ∧ w.directory i ≠ INVALID_HANDLE_VALUE) := by
  by_cases hs : w.directory i = INVALID_HANDLE_VALUE
  · obtain ⟨b, e, hv⟩ := (h.1 i).2.1 hs
    exact Or.inl ⟨b, e, hv, hs⟩
  · obtain ⟨ps, hv⟩ := (h.1 i).2.2 ha hs
    exact Or.inr ⟨ps, hv, hs⟩

/-- The run of free blocks that `VirtualQueryEx` reports. -/
theorem free_run_spec (w : World) : ∀ (fuel i : Nat),
    i ≤ free_run w i fuel ∧ free_run w i fuel ≤ i + fuel ∧
    (∀ j, i ≤ j → j < free_run w i fuel → w.vm j = .free) ∧
    (w.vm i = .free → 0 < fuel → i < free_run w i fuel) := by
  intro fuel
  induction fuel with
  | zero =>
    intro i
    unfold free_run
    exact ⟨le_refl _, le_refl _, fun j h1 h2 => by omega, fun _ h => by omega⟩
  | succ n ih =>
    intro i
    unfold free_run
    by_cases hv : w.vm i = .free
    · rw [if_pos hv]
      obtain ⟨h1, h2, h3, _⟩ := ih (i + 1)
      refine ⟨by omega, by omega, ?_, fun _ _ => by omega⟩
      intro j hj1 hj2
      by_cases c : j = i
      · rw [c]; exact hv
      · exact h3 j (by omega) hj2
    · rw [if_neg hv]
      exact ⟨le_refl _, by omega, fun j h1 h2 => by omega, fun h _ => absurd h hv⟩

theorem Res.void_returned {α : Type} (r : Res α) : r.void.returned ↔ r.returned := by
  cases r <;> simp [Res.void, Res.bind, Res.returned]

theorem rd_ok (a : List Nat) (i : Nat) (h : i < a.length) : ∃ x, rd a i = .ok x := by
  unfold rd
  rw [List.getElem?_eq_getElem h]
  exact ⟨_, rfl⟩

theorem rd_congr (a b : List Nat) (i : Nat) (h : a[i]? = b[i]?) : rd a i = rd b i := by
  unfold rd
  rw [h]

/-- The page loops of `can_unmap` end with an answer, which depends only on the pages they
look at. -/
theorem any_page_ok (ps : List Nat) (mask end_ : Nat) (he : end_ ≤ ps.length) :
    ∀ n k, end_ - k ≤ n → ∃ b, any_page ps mask end_ k n = .ok b := by
  intro n
  induction n with
  | zero =>
    intro k hk
    unfold any_page
    rw [if_neg (by omega)]
    exact ⟨_, rfl⟩
  | succ n ih =>
    intro k hk
    unfold any_page
    by_cases c : k < end_
    · rw [if_pos c]
      obtain ⟨x, hx⟩ := rd_ok ps k (by omega)
      rw [hx]
      show ∃ b, (if mask &&& x ≠ 0 then pure true else any_page ps mask end_ (k + 1) n) = _
      split_ifs
      · exact ⟨true, rfl⟩
      · exact ih (k + 1) (by omega)
    · rw [if_neg c]
      exact ⟨_, rfl⟩

theorem any_page_congr (ps ps' : List Nat) (mask end_ : Nat) :
    ∀ n k, (∀ j, k ≤ j → j < end_ → ps[j]? = ps'[j]?) →
      any_page ps mask end_ k n = any_page ps' mask end_ k n := by
  intro n
  induction n with
  | zero => intro k _; rfl
  | succ n ih =>
    intro k hk
    unfold any_page
    by_cases c : k < end_
    · rw [if_pos c, if_pos c, rd_congr ps ps' k (hk k (le_refl _) c),
        ih (k + 1) (fun j h1 h2 => hk j (by omega) h2)]
    · rw [if_neg c, if_neg c]

/-- The flag `can_unmap` is computed, and only from the pages outside the range. -/
theorem decommit_can_unmap_ok (ps : List Nat) (o oe : Nat) (hl : ps.length = PAGES_PER_BLOCK)
    (ho : o ≤ ALLOCATION_GRANULARITY) :
    ∃ b, Block.decommit_can_unmap ps o oe = .ok b := by
  have hG : ALLOCATION_GRANULARITY = 65536 := rfl
  have hP : PAGE_SIZE = 4096 := rfl
  have hN : PAGES_PER_BLOCK = 16 := rfl
  unfold Block.decommit_can_unmap
  obtain ⟨b1, hb1⟩ := any_page_ok ps PageState.MASK_ACCESS (o / PAGE_SIZE)
    (by simp only [hG, hP, hN] at *; omega) (PAGES_PER_BLOCK + 1) 0
    (by simp only [hG, hP, hN] at *; omega)
  obtain ⟨b2, hb2⟩ := any_page_ok ps PageState.MASK_ACCESS PAGES_PER_BLOCK
    (by omega) (PAGES_PER_BLOCK + 1) (oe / PAGE_SIZE) (by simp only [hP, hN]; omega)
  rw [hb1, hb2]
  by_cases c : o ≠ 0
  · rw [if_pos c]
    show ∃ b, (if (!b1) = true ∧ oe < ALLOCATION_GRANULARITY then
      (Res.ok b2).bind (fun found => pure (!found)) else pure (!b1)) = Res.ok b
    split_ifs
    · exact ⟨_, rfl⟩
    · exact ⟨_, rfl⟩
  · rw [if_neg c]
    show ∃ b, (if true = true ∧ oe < ALLOCATION_GRANULARITY then
      (Res.ok b2).bind (fun found => pure (!found)) else pure true) = Res.ok b
    split_ifs
    · exact ⟨_, rfl⟩
    · exact ⟨_, rfl⟩

theorem decommit_can_unmap_congr (ps ps' : List Nat) (o oe : Nat)
    (hag : ∀ j, (j < o / PAGE_SIZE ∨ oe / PAGE_SIZE ≤ j) → ps[j]? = ps'[j]?) :
    Block.decommit_can_unmap ps o oe = Block.decommit_can_unmap ps' o oe := by
  unfold Block.decommit_can_unmap
  rw [any_page_congr ps ps' PageState.MASK_ACCESS (o / PAGE_SIZE) (PAGES_PER_BLOCK + 1) 0
      (fun j _ h2 => hag j (Or.inl h2)),
    any_page_congr ps ps' PageState.MASK_ACCESS PAGES_PER_BLOCK (PAGES_PER_BLOCK + 1)
      (oe / PAGE_SIZE) (fun j h1 _ => hag j (Or.inr h1))]

/-- The inner loops of the discard walk end inside the range. -/
theorem decommit_run_ok (ps : List Nat) (se : Nat) (kind : Bool) (he : se ≤ ps.length) :
    ∀ n r, r ≤ se → se - r ≤ n →
      ∃ r', Block.decommit_run ps se kind r n = .ok r' ∧ r ≤ r' ∧ r' ≤ se := by
  intro n
  induction n with
  | zero =>
    intro r h1 h2
    unfold Block.decommit_run
    rw [if_neg (by omega)]
    exact ⟨r, rfl, le_refl _, h1⟩
  | succ n ih =>
    intro r h1 h2
    unfold Block.decommit_run
    by_cases c : r < se
    · rw [if_pos c]
      obtain ⟨x, hx⟩ := rd_ok ps r (by omega)
      rw [hx]
      show ∃ r', (if may_be_shared x = kind then Block.decommit_run ps se kind (r + 1) n
        else pure r) = Res.ok r' ∧ _
      split_ifs
      · obtain ⟨r', h3, h4, h5⟩ := ih (r + 1) (by omega) (by omega)
        exact ⟨r', h3, by omega, h5⟩
      · exact ⟨r, rfl, le_refl _, h1⟩
    · rw [if_neg c]
      exact ⟨r, rfl, le_refl _, h1⟩

/-- The discard walk of `Block::decommit` ends. -/
theorem decommit_discard_ok (ps : List Nat) (se : Nat) (hl : ps.length = PAGES_PER_BLOCK)
    (he : se ≤ PAGES_PER_BLOCK) :
    ∀ fuel rb, rb < se → se - rb ≤ fuel → Block.decommit_discard ps se fuel rb = .ok () := by
  intro fuel
  induction fuel with
  | zero => intro rb h1 h2; omega
  | succ fuel ih =>
    intro rb h1 h2
    unfold Block.decommit_discard
    obtain ⟨s, hs⟩ := rd_ok ps rb (by omega)
    rw [hs]
    obtain ⟨r', h3, h4, h5⟩ := decommit_run_ok ps se (may_be_shared s) (by omega)
      PAGES_PER_BLOCK (rb + 1) (by omega) (by omega)
    show (Block.decommit_run ps se (may_be_shared s) (rb + 1) PAGES_PER_BLOCK).bind _ = _
    rw [h3]
    show (if r' < se then Block.decommit_discard ps se fuel r' else pure ()) = _
    split_ifs with c
    · exact ih r' c (by omega)
    · rfl

theorem World.set_vm_self (w : World) (k : Nat) (v : VBlock) (h : w.vm k = v) :
    w.set_vm k v = w := by
  cases w
  simp only [World.set_vm, World.mk.injEq, true_and, and_true]
  funext j
  split_ifs with c
  · rw [c]; exact h.symm
  · rfl

theorem World.set_mapping_self (w : World) (k : Nat) (v : Nat) (h : w.directory k = v) :
    w.set_mapping k v = w := by
  cases w
  simp only [World.set_mapping, World.mk.injEq, true_and, and_true]
  funext j
  split_ifs with c
  · rw [c]; exact h.symm
  · rfl

/-- The invariant does not depend on the page protections of a view. -/
theorem wf_reprotect (w : World) (k h : Nat) (ps ps' : List Nat) (hw : WellFormed w)
    (hv : w.vm k = .mapped h ps) : WellFormed (w.set_vm k (.mapped h ps')) := by
  refine ⟨?_, ?_, hw.2.2⟩
  · intro j
    have hj := hw.1 j
    unfold BlockOk at hj ⊢
    show (w.directory j = 0 → (if j = k then _ else w.vm j) = VBlock.free) ∧
      (w.directory j = INVALID_HANDLE_VALUE → ∃ b e, (if j = k then _ else w.vm j) = _) ∧
      (w.directory j ≠ 0 → w.directory j ≠ INVALID_HANDLE_VALUE →
        ∃ ps, (if j = k then _ else w.vm j) = VBlock.mapped (w.directory j) ps)
    by_cases c : j = k
    · subst c
      simp only [if_true]
      refine ⟨?_, ?_, ?_⟩
      · intro h0; have := hj.1 h0; rw [hv] at this; cases this
      · intro h0; obtain ⟨b, e, hbe⟩ := hj.2.1 h0; rw [hv] at hbe; cases hbe
      · intro h0 h1
        obtain ⟨qs, hqs⟩ := hj.2.2 h0 h1
        rw [hv] at hqs
        cases hqs
        exact ⟨ps', rfl⟩
    · simp only [c, if_false]; exact hj
  · exact RW_set_vm w k _ hw.2.1 (by intro b e; rw [hv]; simp) (by simp)

/-- The call `protect (address () + offset, offset_end - offset, DECOMMITTED |
PAGE_REVERT_TO_FILE_MAP)` of `Block::decommit` on a mapped block: the pages of the range
read `PAGE_NOACCESS` afterwards, the others are as they were. -/
theorem decommit_protect_shape (w : World) (k o oe h : Nat) (ps : List Nat)
    (hv : w.vm k = .mapped h ps) (ho : o < oe) (hoe : oe ≤ ALLOCATION_GRANULARITY)
    (hal : oe % PAGE_SIZE = 0) :
    ∃ ps', AddressSpace.protect w (k * ALLOCATION_GRANULARITY + o) (oe - o)
        (PageState.DECOMMITTED ||| PAGE_REVERT_TO_FILE_MAP) = w.set_vm k (.mapped h ps') ∧
      ps'.length = ps.length ∧
      (∀ j, j < ps.length → ps'[j]? =
        some (if o / PAGE_SIZE ≤ j ∧ j < oe / PAGE_SIZE then 1 else ps.getD j 0)) := by
  have hG : ALLOCATION_GRANULARITY = 65536 := rfl
  have hP : PAGE_SIZE = 4096 := rfl
  have hi : (k * ALLOCATION_GRANULARITY + o) / ALLOCATION_GRANULARITY = k := by
    simp only [hG] at *; omega
  have hfirst : (k * ALLOCATION_GRANULARITY + o) % ALLOCATION_GRANULARITY / PAGE_SIZE
      = o / PAGE_SIZE := by
    simp only [hG, hP] at *; omega
  have hlast : ((k * ALLOCATION_GRANULARITY + o) % ALLOCATION_GRANULARITY + (oe - o)
      + PAGE_SIZE - 1) / PAGE_SIZE = oe / PAGE_SIZE := by
    simp only [hG, hP] at *; omega
  have hprot : (PageState.DECOMMITTED ||| PAGE_REVERT_TO_FILE_MAP) % PAGE_REVERT_TO_FILE_MAP
      = 1 := by decide
  unfold AddressSpace.protect VirtualProtectEx
  simp only [hi, hv, hfirst, hlast, hprot]
  refine ⟨_, rfl, by simp, ?_⟩
  intro j hj
  simp [hj]

/-- Pages that `Block::decommit` has protected: protecting them again changes nothing. -/
theorem decommit_protect_again (ps ps' ps'' : List Nat) (a b : Nat)
    (hl : ps'.length = ps.length)
    (h1 : ∀ j, j < ps.length → ps'[j]? = some (if a ≤ j ∧ j < b then 1 else ps.getD j 0))
    (hl2 : ps''.length = ps'.length)
    (h2 : ∀ j, j < ps'.length → ps''[j]? = some (if a ≤ j ∧ j < b then 1 else ps'.getD j 0)) :
    ps'' = ps' := by
  apply List.ext_getElem? 
  intro j
  by_cases hj : j < ps.length
  · rw [h2 j (by omega), h1 j hj]
    congr 1
    split_ifs
    · rfl
    · rw [List.getD_eq_getElem?_getD, h1 j hj]
      simp [*]
  · rw [List.getElem?_eq_none (by omega), List.getElem?_eq_none (by omega)]

theorem Block_state_reserved (w : World) (k b e : Nat) (hv : w.vm k = .reserved b e)
    (hs : w.directory k = INVALID_HANDLE_VALUE) :
    ∃ x y, Block.state w (k * ALLOCATION_GRANULARITY) = .ok (.RESERVED x y) := by
  unfold Block.state Block.mapping
  simp only [block_div, hv, hs, or_true, if_true]
  exact ⟨_, _, rfl⟩

/-- `Block::unmap ()` on an allocated block of a well-formed world leaves the block a
reservation under the sentinel and touches no other block. -/
theorem Block_unmap_to_sentinel (w : World) (k : Nat) (h : WellFormed w)
    (ha : w.directory k ≠ 0) :
    ∃ w', Block.unmap w (k * ALLOCATION_GRANULARITY) INVALID_HANDLE_VALUE false = (.ok (), w') ∧
      WellFormed w' ∧ w'.directory_size = w.directory_size ∧
      (∀ j, j ≠ k → w'.directory j = w.directory j ∧ w'.vm j = w.vm j) ∧
      w'.directory k = INVALID_HANDLE_VALUE ∧ ∃ b e, w'.vm k = .reserved b e := by
  have hwf := Block_unmap_wf w k INVALID_HANDLE_VALUE false h ha (Or.inr rfl)
    (fun h0 => absurd h0 INVALID_ne_zero)
  by_cases hs : w.directory k = INVALID_HANDLE_VALUE
  · rw [Block_unmap_sentinel w k false hs] at hwf ⊢
    refine ⟨_, rfl, hwf.2, rfl, ?_, ?_, (h.1 k).2.1 hs⟩
    · intro j hj
      refine ⟨?_, rfl⟩
      show (if j = k then _ else w.directory j) = _
      rw [if_neg hj]
    · show (if k = k then INVALID_HANDLE_VALUE else w.directory k) = _
      rw [if_pos rfl]
  · obtain ⟨ps, hv⟩ := (h.1 k).2.2 ha hs
    obtain ⟨w', hu, hsz, hd, hvm, _⟩ :=
      Block_unmap_mapped w k INVALID_HANDLE_VALUE false ps (h.index_lt ha) ⟨ha, hs⟩ hv
    rw [hu] at hwf ⊢
    refine ⟨w', rfl, hwf.2, hsz, ?_, ?_, ?_⟩
    · intro j hj
      rw [hd, hvm]
      simp only [if_neg hj, and_self]
    · rw [hd]; simp
    · rw [hvm]
      exact ⟨k, k + 1, by simp [INVALID_ne_zero]⟩

/-- A block left as a reservation under the sentinel: `Block::decommit` changes nothing. -/
theorem decommit_pages_sentinel (w : World) (k o oe b e : Nat)
    (hd : w.directory k = INVALID_HANDLE_VALUE) (hv : w.vm k = .reserved b e) :
    Block.decommit_pages w (k * ALLOCATION_GRANULARITY) o oe = (.ok (), w) := by
  unfold Block.decommit_pages
  by_cases hlt : o < oe
  · rw [if_pos hlt]
    by_cases hwh : o = 0 ∧ oe = ALLOCATION_GRANULARITY
    · rw [if_pos hwh, Block_unmap_sentinel w k false hd, World.set_mapping_self w k _ hd]
    · rw [if_neg hwh]
      obtain ⟨x, y, hst⟩ := Block_state_reserved w k b e hv hd
      rw [hst]
  · rw [if_neg hlt]

/-- A mapped block whose range `Block::decommit` has protected: doing it again changes
nothing. -/
theorem decommit_pages_mapped_again (w : World) (k o oe h : Nat) (ps ps' : List Nat)
    (hv : w.vm k = .mapped h ps') (hlt : o < oe) (hwh : ¬ (o = 0 ∧ oe = ALLOCATION_GRANULARITY))
    (hoe : oe ≤ ALLOCATION_GRANULARITY) (hal : oe % PAGE_SIZE = 0)
    (hl : ps'.length = ps.length)
    (h1 : ∀ j, j < ps.length → ps'[j]? =
      some (if o / PAGE_SIZE ≤ j ∧ j < oe / PAGE_SIZE then 1 else ps.getD j 0))
    (hcu : Block.decommit_can_unmap (page_states ps) o oe = .ok false) :
    Block.decommit_pages w (k * ALLOCATION_GRANULARITY) o oe = (.ok (), w) := by
  have hG : ALLOCATION_GRANULARITY = 65536 := rfl
  have hP : PAGE_SIZE = 4096 := rfl
  have hN : PAGES_PER_BLOCK = 16 := rfl
  unfold Block.decommit_pages
  rw [if_pos hlt, if_neg hwh]
  obtain ⟨bits, hst⟩ := Block_state_mapped w (k * ALLOCATION_GRANULARITY) h ps'
    (by rw [block_div]; exact hv)
  rw [hst]
  simp only []
  unfold Block.decommit_mapped
  have hsame : Block.decommit_can_unmap (page_states ps') o oe
      = Block.decommit_can_unmap (page_states ps) o oe := by
    apply decommit_can_unmap_congr
    intro j hj
    by_cases hj16 : j < PAGES_PER_BLOCK
    · rw [page_states_get ps' j hj16, page_states_get ps j hj16]
      congr 1
      rw [List.getD_eq_getElem?_getD]
      by_cases hjl : j < ps.length
      · rw [h1 j hjl, if_neg (by omega)]
        rfl
      · rw [List.getElem?_eq_none (by omega)]
        rw [List.getD_eq_getElem?_getD, List.getElem?_eq_none (by omega)]
    · rw [List.getElem?_eq_none (by rw [page_states_length]; omega),
        List.getElem?_eq_none (by rw [page_states_length]; omega)]
  rw [hsame, hcu]
  simp only []
  obtain ⟨ps'', hpr, hl2, h2⟩ := decommit_protect_shape w k o oe h ps' hv hlt hoe hal
  rw [hpr, decommit_protect_again ps ps' ps'' (o / PAGE_SIZE) (oe / PAGE_SIZE) hl h1 hl2 h2,
    World.set_vm_self w k _ hv]
  rw [decommit_discard_ok (page_states ps') (oe / PAGE_SIZE) (page_states_length ps')
    (by simp only [hG, hP, hN] at *; omega) (PAGES_PER_BLOCK + 1) (o / PAGE_SIZE)
    (by simp only [hG, hP, hN] at *; omega) (by simp only [hG, hP, hN] at *; omega)]

/-- One block of `decommit` on a well-formed world: the call returns, keeps the invariant,
touches no other block, and leaves the block in a state in which the same call changes
nothing. -/
theorem Block_decommit_pages_step (w : World) (k o oe : Nat) (h : WellFormed w)
    (ha : w.directory k ≠ 0) (hoe : oe ≤ ALLOCATION_GRANULARITY) (hal : oe % PAGE_SIZE = 0) :
    ∃ w', Block.decommit_pages w (k * ALLOCATION_GRANULARITY) o oe = (.ok (), w') ∧
      WellFormed w' ∧ w'.directory_size = w.directory_size ∧
      (∀ j, j ≠ k → w'.directory j = w.directory j ∧ w'.vm j = w.vm j) ∧
      w'.directory k ≠ 0 ∧
      (∀ w2 : World, w2.directory k = w'.directory k → w2.vm k = w'.vm k →
        Block.decommit_pages w2 (k * ALLOCATION_GRANULARITY) o oe = (.ok (), w2)) := by
  have hG : ALLOCATION_GRANULARITY = 65536 := rfl
  have hP : PAGE_SIZE = 4096 := rfl
  have hN : PAGES_PER_BLOCK = 16 := rfl
  -- what `unmap ()` leaves
  have hunmap : ∀ r, Block.unmap w (k * ALLOCATION_GRANULARITY) INVALID_HANDLE_VALUE false = r →
      ∃ w', r = (.ok (), w') ∧
      WellFormed w' ∧ w'.directory_size = w.directory_size ∧
      (∀ j, j ≠ k → w'.directory j = w.directory j ∧ w'.vm j = w.vm j) ∧
      w'.directory k ≠ 0 ∧
      (∀ w2 : World, w2.directory k = w'.directory k → w2.vm k = w'.vm k →
        Block.decommit_pages w2 (k * ALLOCATION_GRANULARITY) o oe = (.ok (), w2)) := by
    intro r hr
    obtain ⟨w', hu, hwf, hsz, hloc, hd, b, e, hv⟩ := Block_unmap_to_sentinel w k h ha
    refine ⟨w', by rw [← hr, hu], hwf, hsz, hloc, by rw [hd]; exact INVALID_ne_zero, ?_⟩
    intro w2 h1 h2
    exact decommit_pages_sentinel w2 k o oe b e (by rw [h1, hd]) (by rw [h2, hv])
  by_cases hlt : o < oe
  · by_cases hwh : o = 0 ∧ oe = ALLOCATION_GRANULARITY
    · have hun := hunmap _ rfl
      have heq : Block.decommit_pages w (k * ALLOCATION_GRANULARITY) o oe
          = Block.unmap w (k * ALLOCATION_GRANULARITY) INVALID_HANDLE_VALUE false := by
        unfold Block.decommit_pages
        rw [if_pos hlt, if_pos hwh]
      rw [heq]
      exact hun
    · rcases h.allocated_cases ha with ⟨b, e, hv, hs⟩ | ⟨ps, hv, hs⟩
      · -- a reservation: nothing to do
        refine ⟨w, decommit_pages_sentinel w k o oe b e hs hv, h, rfl, fun _ _ => ⟨rfl, rfl⟩,
          ha, ?_⟩
        intro w2 h1 h2
        exact decommit_pages_sentinel w2 k o oe b e (by rw [h1, hs]) (by rw [h2, hv])
      · -- a view
        obtain ⟨bits, hst⟩ := Block_state_mapped w (k * ALLOCATION_GRANULARITY) _ ps
          (by rw [block_div]; exact hv)
        obtain ⟨cu, hcu⟩ := decommit_can_unmap_ok (page_states ps) o oe
          (page_states_length ps) (by omega)
        have heq : Block.decommit_pages w (k * ALLOCATION_GRANULARITY) o oe
            = Block.decommit_mapped w (k * ALLOCATION_GRANULARITY) o oe (page_states ps) := by
          unfold Block.decommit_pages
          rw [if_pos hlt, if_neg hwh, hst]
        rw [heq]
        unfold Block.decommit_mapped
        rw [hcu]
        cases cu with
        | true =>
          simp only []
          exact hunmap _ rfl
        | false =>
          simp only []
          obtain ⟨ps', hpr, hl, h1⟩ := decommit_protect_shape w k o oe _ ps hv hlt hoe hal
          rw [hpr]
          rw [decommit_discard_ok (page_states ps) (oe / PAGE_SIZE) (page_states_length ps)
            (by simp only [hG, hP, hN] at *; omega) (PAGES_PER_BLOCK + 1) (o / PAGE_SIZE)
            (by simp only [hG, hP, hN] at *; omega) (by simp only [hG, hP, hN] at *; omega)]
          refine ⟨_, rfl, wf_reprotect w k _ ps ps' h hv, rfl, ?_, ha, ?_⟩
          · intro j hj
            refine ⟨rfl, ?_⟩
            show (if j = k then _ else w.vm j) = _
            rw [if_neg hj]
          · intro w2 _ h2
            have hv2 : w2.vm k = .mapped (w.directory k) ps' := by
              rw [h2]
              show (if k = k then _ else w.vm k) = _
              rw [if_pos rfl]
            exact decommit_pages_mapped_again w2 k o oe _ ps ps' hv2 hlt hwh hoe hal hl h1 hcu
  · refine ⟨w, ?_, h, rfl, fun _ _ => ⟨rfl, rfl⟩, ha, ?_⟩
    · unfold Block.decommit_pages; rw [if_neg hlt]
    · intro w2 _ _
      unfold Block.decommit_pages; rw [if_neg hlt]

/-- One block of `decommit`, for `Block::decommit (offset, size)` itself. -/
theorem Block_decommit_step (w : World) (k offset size : Nat) (h : WellFormed w)
    (ha : w.directory k ≠ 0) (hsz : offset + size ≤ ALLOCATION_GRANULARITY) :
    ∃ w', Block.decommit w (k * ALLOCATION_GRANULARITY) offset size = (.ok (), w') ∧
      WellFormed w' ∧ w'.directory_size = w.directory_size ∧
      (∀ j, j ≠ k → w'.directory j = w.directory j ∧ w'.vm j = w.vm j) ∧
      w'.directory k ≠ 0 ∧
      (∀ w2 : World, w2.directory k = w'.directory k → w2.vm k = w'.vm k →
        Block.decommit w2 (k * ALLOCATION_GRANULARITY) offset size = (.ok (), w2)) := by
  have hG : ALLOCATION_GRANULARITY = 65536 := rfl
  have hP : PAGE_SIZE = 4096 := rfl
  unfold Block.decommit
  simp only []
  apply Block_decommit_pages_step w k _ _ h ha
  · simp only [round_up, round_down, hG, hP] at *; omega
  · simp only [round_up, round_down, hG, hP] at *; omega

theorem decommit_loop_done (end_ p : Nat) (w : World) (h : ¬ p < end_) (fuel : Nat) :
    AddressSpace.decommit_loop end_ fuel p w = (.ok (), w) := by
  cases fuel with
  | zero => unfold AddressSpace.decommit_loop; rw [if_neg h]
  | succ n => unfold AddressSpace.decommit_loop; rw [if_neg h]

/-- The block loop of `AddressSpace::decommit` over an allocated range of a well-formed
world returns, and run again on what it left it changes nothing. -/
theorem decommit_loop_twice (end_ : Nat) : ∀ (fuel p : Nat) (w : World), WellFormed w →
    (∀ a, p ≤ a → a < end_ → block_allocated w a) →
    (p < end_ → end_ ≤ (p / ALLOCATION_GRANULARITY + fuel) * ALLOCATION_GRANULARITY) →
    ∃ w1, AddressSpace.decommit_loop end_ fuel p w = (.ok (), w1) ∧ WellFormed w1 ∧
      w1.directory_size = w.directory_size ∧
      (∀ j, (∀ a, p ≤ a → a < end_ → a / ALLOCATION_GRANULARITY ≠ j) →
        w1.directory j = w.directory j ∧ w1.vm j = w.vm j) ∧
      (∀ j, w.directory j ≠ 0 → w1.directory j ≠ 0) ∧
      (∀ w2 : World, w2.directory_size = w1.directory_size →
        (∀ a, p ≤ a → a < end_ →
          w2.directory (a / ALLOCATION_GRANULARITY) = w1.directory (a / ALLOCATION_GRANULARITY) ∧
          w2.vm (a / ALLOCATION_GRANULARITY) = w1.vm (a / ALLOCATION_GRANULARITY)) →
        ∀ fuel2,
          (p < end_ → end_ ≤ (p / ALLOCATION_GRANULARITY + fuel2) * ALLOCATION_GRANULARITY) →
          AddressSpace.decommit_loop end_ fuel2 p w2 = (.ok (), w2)) := by
  have hG : ALLOCATION_GRANULARITY = 65536 := rfl
  intro fuel
  induction fuel with
  | zero =>
    intro p w h hall hfuel
    have hnlt : ¬ p < end_ := by
      intro hlt
      have := hfuel hlt
      simp only [hG] at *; omega
    refine ⟨w, decommit_loop_done end_ p w hnlt 0, h, rfl, fun _ _ => ⟨rfl, rfl⟩,
      fun _ hj => hj, ?_⟩
    intro w2 _ _ fuel2 _
    exact decommit_loop_done end_ p w2 hnlt fuel2
  | succ fuel ih =>
    intro p w h hall hfuel
    by_cases hlt : p < end_
    · have hk := hall p (le_refl _) hlt
      have hbase : round_down p ALLOCATION_GRANULARITY
          = p / ALLOCATION_GRANULARITY * ALLOCATION_GRANULARITY := rfl
      obtain ⟨k, hkdef⟩ : ∃ k, p / ALLOCATION_GRANULARITY = k := ⟨_, rfl⟩
      rw [hkdef] at hbase
      have hkdir : w.directory k ≠ 0 := by
        have := hk.2; rw [hkdef] at this; exact this
      have hksz : k < w.directory_size := by
        have := hk.1; rw [hkdef] at this; exact this
      have hfuel' := hfuel hlt
      rw [hkdef] at hfuel'
      -- the end of the part of the range that lies in block `k`
      generalize hbe : min (k * ALLOCATION_GRANULARITY + ALLOCATION_GRANULARITY) end_
        = block_end
      have hbe1 : p < block_end := by simp only [hG] at *; omega
      have hbe2 : block_end ≤ end_ := by omega
      have hbe3 : block_end < end_ → block_end = (k + 1) * ALLOCATION_GRANULARITY := by
        intro hc; simp only [hG] at *; omega
      have hpk : k * ALLOCATION_GRANULARITY ≤ p := by simp only [hG] at *; omega
      have hnotk : ∀ a, block_end ≤ a → a < end_ → a / ALLOCATION_GRANULARITY ≠ k := by
        intro a h1 h2
        have := hbe3 (by omega)
        simp only [hG] at *; omega
      obtain ⟨w', hstep, hwf', hsz', hloc', hdir', hstab'⟩ :=
        Block_decommit_step w k (p - k * ALLOCATION_GRANULARITY) (block_end - p) h hkdir
          (by simp only [hG] at *; omega)
      obtain ⟨w1, hloop, hwf1, hsz1, hun1, hnz1, hsec1⟩ := ih block_end w' hwf'
        (by
          intro a h1 h2
          have hal := hall a (by omega) h2
          refine ⟨by rw [hsz']; exact hal.1, ?_⟩
          rw [(hloc' _ (hnotk a h1 h2)).1]
          exact hal.2)
        (by
          intro hc
          have := hbe3 hc
          simp only [hG] at *; omega)
      have hrun : ∀ (f : Nat) (wx wy : World), block_allocated wx p →
          Block.decommit wx (k * ALLOCATION_GRANULARITY)
            (p - k * ALLOCATION_GRANULARITY) (block_end - p) = (.ok (), wy) →
          AddressSpace.decommit_loop end_ (f + 1) p wx =
            AddressSpace.decommit_loop end_ f block_end wy := by
        intro f wx wy hx hdec
        rw [AddressSpace.decommit_loop, if_pos hlt, Block_new_ok wx p hx, hbase]
        simp only []
        rw [hbe, hdec]
      have hk1 : w1.directory k = w'.directory k ∧ w1.vm k = w'.vm k := hun1 k hnotk
      refine ⟨w1, ?_, hwf1, by rw [hsz1, hsz'], ?_, ?_, ?_⟩
      · rw [hrun fuel w w' hk hstep]
        exact hloop
      · intro j hj
        have hjk : j ≠ k := by
          intro hc
          exact hj p (le_refl _) hlt (by rw [hkdef, hc])
        have := hun1 j (fun a h1 h2 => hj a (by omega) h2)
        rw [this.1, this.2]
        exact hloc' j hjk
      · intro j hj
        apply hnz1
        by_cases hjk : j = k
        · rw [hjk]; exact hdir'
        · rw [(hloc' j hjk).1]; exact hj
      · intro w2 hsz2 hag fuel2 hfuel2
        cases fuel2 with
        | zero =>
          exfalso
          have := hfuel2 hlt
          simp only [hG] at *; omega
        | succ f2 =>
          have hagk := hag p (le_refl _) hlt
          rw [hkdef] at hagk
          have hx : block_allocated w2 p := by
            refine ⟨by rw [hkdef, hsz2, hsz1, hsz']; exact hksz, ?_⟩
            rw [hkdef, hagk.1]
            exact hnz1 k hdir'
          rw [hrun f2 w2 w2 hx (hstab' w2 (by rw [hagk.1, hk1.1]) (by rw [hagk.2, hk1.2]))]
          apply hsec1 w2 hsz2 (fun a h1 h2 => hag a (by omega) h2) f2
          intro hc
          have h3 := hbe3 hc
          have h4 := hfuel2 hlt
          rw [hkdef] at h4
          simp only [hG] at *; omega
    · refine ⟨w, decommit_loop_done end_ p w hlt _, h, rfl, fun _ _ => ⟨rfl, rfl⟩,
        fun _ hj => hj, ?_⟩
      intro w2 _ _ fuel2 _
      exact decommit_loop_done end_ p w2 hlt fuel2

/-- The loop of `AddressSpace::check_allocated` passes over an allocated range. -/
theorem check_allocated_loop_ok (w : World) (end_ : Nat) : ∀ (fuel p : Nat),
    (∀ a, p ≤ a → a < end_ → block_allocated w a) →
    end_ ≤ p + fuel * ALLOCATION_GRANULARITY →
    AddressSpace.check_allocated_loop w end_ fuel p = .ok () := by
  have hG : ALLOCATION_GRANULARITY = 65536 := rfl
  intro fuel
  induction fuel with
  | zero =>
    intro p _ hf
    unfold AddressSpace.check_allocated_loop
    rw [if_neg (by omega)]
  | succ fuel ih =>
    intro p hall hf
    unfold AddressSpace.check_allocated_loop
    by_cases hlt : p < end_
    · rw [if_pos hlt, allocated_block_some w p (hall p (le_refl _) hlt)]
      simp only []
      exact ih (p + ALLOCATION_GRANULARITY) (fun a h1 h2 => hall a (by omega) h2)
        (by simp only [hG] at *; omega)
    · rw [if_neg hlt]

theorem check_allocated_ok (w : World) (p n : Nat) (h : WellFormed w)
    (hall : ∀ a, p ≤ a → a < p + n → block_allocated w a) :
    AddressSpace.check_allocated w p n = .ok () := by
  have hG : ALLOCATION_GRANULARITY = 65536 := rfl
  unfold AddressSpace.check_allocated
  by_cases hn : n = 0
  · rw [if_pos hn]
  · rw [if_neg hn]
    have hp : p ≠ 0 := by
      intro hp
      have := (hall p (le_refl _) (by omega)).2
      rw [hp] at this
      exact this (h.2.2 _ (Or.inl (by decide)))
    rw [if_neg hp]
    exact check_allocated_loop_ok w (p + n) _ p hall (by simp only [hG]; omega)

theorem world_shared_wf : WellFormed world_shared := by
  refine ⟨?_, ?_, ?_⟩
  · intro i
    by_cases h1 : i = 1
    · subst h1
      refine ⟨by decide, fun hs => absurd hs (by decide), fun _ _ => ⟨_, rfl⟩⟩
    · by_cases h3 : i = 3
      · subst h3
        refine ⟨by decide, fun hs => absurd hs (by decide), fun _ _ => ⟨_, rfl⟩⟩
      · have hd : world_shared.directory i = 0 := by simp [world_shared, h1, h3]
        have hv : world_shared.vm i = .free := by simp [world_shared, h1, h3]
        refine ⟨fun _ => hv, ?_, ?_⟩
        · intro hs; rw [hd] at hs; exact absurd hs.symm INVALID_ne_zero
        · intro h0; exact absurd hd h0
  · intro i b e hi
    by_cases h1 : i = 1
    · subst h1; simp [world_shared] at hi
    · by_cases h3 : i = 3
      · subst h3; simp [world_shared] at hi
      · simp [world_shared, h1, h3] at hi
  · intro i hi
    have h1 : i ≠ 1 := by
      rcases hi with hi | hi
      · omega
      · have : world_shared.directory_size = 64 := rfl
        omega
    have h3 : i ≠ 3 := by
      rcases hi with hi | hi
      · omega
      · have : world_shared.directory_size = 64 := rfl
        omega
    simp [world_shared, h1, h3]

/-- Claim C7: on a well-formed address space, for every range `[p, p + n)` whose blocks
are all allocated, `AddressSpace::decommit (p, n)` returns, and the same call right after
it returns too and leaves every directory entry and every page state (the whole state) as
the first call left it, whether the first call turned a block into a reservation under
the sentinel or only protected pages of it as `DECOMMITTED`. -/
theorem decommit_twice (w : World) (p n : Nat) (h : WellFormed w)
    (hall : ∀ a, p ≤ a → a < p + n → block_allocated w a) :
    ∃ w1, AddressSpace.decommit w p n = (.ok (), w1) ∧
      AddressSpace.decommit w1 p n = (.ok (), w1) := by
  have hG : ALLOCATION_GRANULARITY = 65536 := rfl
  unfold AddressSpace.decommit
  by_cases hn : n = 0
  · refine ⟨w, ?_, ?_⟩ <;> rw [if_pos hn]
  · have hfuel : ∀ f, f = n / ALLOCATION_GRANULARITY + 2 →
        (p < p + n → p + n ≤ (p / ALLOCATION_GRANULARITY + f) * ALLOCATION_GRANULARITY) := by
      intro f hf _
      simp only [hG] at *; omega
    obtain ⟨w1, hloop, hwf1, hsz1, _, hnz1, hsec1⟩ :=
      decommit_loop_twice (p + n) (n / ALLOCATION_GRANULARITY + 2) p w h hall (hfuel _ rfl)
    have hall1 : ∀ a, p ≤ a → a < p + n → block_allocated w1 a := by
      intro a h1 h2
      have := hall a h1 h2
      exact ⟨by rw [hsz1]; exact this.1, hnz1 _ this.2⟩
    refine ⟨w1, ?_, ?_⟩
    · rw [if_neg hn, check_allocated_ok w p n h hall]
      exact hloop
    · rw [if_neg hn, check_allocated_ok w1 p n hwf1 hall1]
      exact hsec1 w1 rfl (fun _ _ _ => ⟨rfl, rfl⟩) _ (hfuel _ rfl)

theorem decommit_twice_witness :
    ∃ w1, AddressSpace.decommit world_shared 65536 8192 = (.ok (), w1) ∧
      AddressSpace.decommit w1 65536 8192 = (.ok (), w1) :=
  decommit_twice world_shared 65536 8192 world_shared_wf (by
    intro a h1 h2
    have h3 : a / ALLOCATION_GRANULARITY = 1 := by
      have hG : ALLOCATION_GRANULARITY = 65536 := rfl
      simp only [hG]; omega
    simp [block_allocated, h3, world_shared, world_empty])

/-! ## `AddressSpace::reserve` when the OS refuses -/

theorem VirtualAllocEx_reserve_refused (w : World) (a s : Nat)
    (h : (VirtualAllocEx_reserve w a s).1 = 0) : VirtualAllocEx_reserve w a s = (0, w) := by
  have hG : ALLOCATION_GRANULARITY = 65536 := rfl
  unfold VirtualAllocEx_reserve at h ⊢
  simp only [] at h ⊢
  split_ifs at h ⊢ with c
  · exfalso
    have := ((blocks_free_iff w _ _).1 c.2).1
    simp only [] at h
    simp only [hG] at *
    omega
  · rfl

theorem reserve_request_refused (w : World) (size flags dst choice : Nat)
    (h : (AddressSpace.reserve_request w size flags dst choice).1 = 0) :
    AddressSpace.reserve_request w size flags dst choice = (0, w) := by
  unfold AddressSpace.reserve_request at h ⊢
  simp only [] at h ⊢
  generalize (if dst ≠ 0 ∧ ¬ (flags &&& EXACTLY ≠ 0) then
    round_down dst ALLOCATION_GRANULARITY else dst) = d at h ⊢
  by_cases hd : d = 0
  · rw [if_pos hd] at h ⊢
    unfold VirtualAllocEx_reserve_any at h ⊢
    by_cases hc : choice = 0 ∨ choice % ALLOCATION_GRANULARITY ≠ 0
    · rw [if_pos hc]
    · rw [if_neg hc] at h ⊢
      exact VirtualAllocEx_reserve_refused _ _ _ h
  · rw [if_neg hd] at h ⊢
    exact VirtualAllocEx_reserve_refused _ _ _ h

/-- Claim C11, as amended: for every size > 0 and every hint `dst`, when the OS refuses the
reservation `AddressSpace::reserve` returns null if `flags` contains `EXACTLY` and `dst` is
not null, and raises `NO_MEMORY` otherwise, also with `EXACTLY` and a null `dst`; nothing is
changed. -/
theorem reserve_refused (w : World) (size flags dst choice : Nat) (retries : List Nat)
    (hs : size ≠ 0)
    (href : (AddressSpace.reserve_request w size flags dst choice).1 = 0) :
    AddressSpace.reserve w size flags dst choice retries =
      if dst ≠ 0 ∧ flags &&& EXACTLY ≠ 0 then (.ok 0, w) else (.raise .NO_MEMORY, w) := by
  have hreq := reserve_request_refused w size flags dst choice href
  unfold AddressSpace.reserve_request at hreq
  simp only [] at hreq
  unfold AddressSpace.reserve
  rw [if_neg hs]
  simp only []
  have hdx : ((if dst ≠ 0 ∧ ¬ (flags &&& EXACTLY ≠ 0) then
      round_down dst ALLOCATION_GRANULARITY else dst) ≠ 0 ∧ flags &&& EXACTLY ≠ 0) ↔
      (dst ≠ 0 ∧ flags &&& EXACTLY ≠ 0) := by
    constructor
    · rintro ⟨h1, h2⟩
      rw [if_neg (fun c => c.2 h2)] at h1
      exact ⟨h1, h2⟩
    · rintro ⟨h1, h2⟩
      rw [if_neg (fun c => c.2 h2)]
      exact ⟨h1, h2⟩
  generalize (if dst ≠ 0 ∧ ¬ (flags &&& EXACTLY ≠ 0) then
    round_down dst ALLOCATION_GRANULARITY else dst) = d at hreq hdx ⊢
  unfold AddressSpace.reserve_loop AddressSpace.reserve_attempt
  simp only []
  rw [hreq]
  simp only [if_true]
  by_cases c : d ≠ 0 ∧ flags &&& EXACTLY ≠ 0
  · rw [if_pos c, if_pos (hdx.1 c)]
    simp
  · rw [if_neg c, if_neg (fun c' => c (hdx.2 c'))]

theorem reserve_refused_witness :
    AddressSpace.reserve world_shared 65536 EXACTLY 65536 0 [] =
      if 65536 ≠ 0 ∧ EXACTLY &&& EXACTLY ≠ 0 then (.ok 0, world_shared)
      else (.raise .NO_MEMORY, world_shared) :=
  reserve_refused world_shared 65536 EXACTLY 65536 0 [] (by decide) (by decide)

/-- Claim C11, as stated, fails: with `EXACTLY` and a null `dst`, when the OS refuses,
`AddressSpace::reserve` raises `NO_MEMORY`; it does not return null. -/
theorem reserve_refused_null_dst :
    (AddressSpace.reserve_request world_empty 65536 EXACTLY 0 0).1 = 0 ∧
    EXACTLY &&& EXACTLY ≠ 0 ∧
    AddressSpace.reserve world_empty 65536 EXACTLY 0 0 [] =
      (.raise .NO_MEMORY, world_empty) := by
  refine ⟨by decide, by decide, rfl⟩

/-! ## Evaluations at failing inputs -/

/-- Claim C14 at a failing input: a block with every page `RW_MAPPED_SHARED`, the range
`[1, 11)`, which holds no whole page, and `READ_ONLY`: the call returns and page 1, which
has no byte in the range, has become `RO_MAPPED_SHARED`. -/
theorem change_protection_empty_range :
    (Block.change_protection world_shared ALLOCATION_GRANULARITY 1 10 READ_ONLY).1 = .ok () ∧
    page_protect world_shared 1 1 = PageState.RW_MAPPED_SHARED ∧
    page_protect (Block.change_protection world_shared ALLOCATION_GRANULARITY 1 10
      READ_ONLY).2 1 1 = PageState.RO_MAPPED_SHARED := by
  decide

/-- Claim C17 at a failing input: a block with every page `RW_MAPPED_SHARED` and the range
`[1, 4097)`, which holds no whole page: `Block::decommit` returns and page 1 has become
`DECOMMITTED`; with the range `[1, 8193)`, whose only whole page is page 1, page 2 has
become `DECOMMITTED` too. -/
theorem decommit_rounds_from_rounded_offset :
    (Block.decommit world_shared ALLOCATION_GRANULARITY 1 4096).1 = .ok () ∧
    page_protect (Block.decommit world_shared ALLOCATION_GRANULARITY 1 4096).2 1 1
      = PageState.DECOMMITTED ∧
    page_protect (Block.decommit world_shared ALLOCATION_GRANULARITY 1 8192).2 1 2
      = PageState.DECOMMITTED := by
  decide

/-- Claim C18 at a failing input: blocks 1 and 3 are allocated, block 2 is not; the range
`[2 * G - 1, 2 * G + 1)` has a byte in block 2, and `AddressSpace::check_allocated` returns
without an error. -/
theorem check_allocated_skips_last_block :
    AddressSpace.check_allocated world_shared (2 * ALLOCATION_GRANULARITY - 1) 2 = .ok () ∧
    ¬ block_allocated world_shared (2 * ALLOCATION_GRANULARITY) := by
  refine ⟨by decide, ?_⟩
  unfold block_allocated
  decide

theorem rd_eq (a : List Nat) (i : Nat) (h : i < a.length) : rd a i = .ok (a.getD i 0) := by
  unfold rd
  rw [List.getElem?_eq_getElem h, List.getD_eq_getElem?_getD, List.getElem?_eq_getElem h]
  rfl

theorem page_states_getD (ps : List Nat) (j : Nat) (hj : j < PAGES_PER_BLOCK) :
    (page_states ps).getD j 0 = ps.getD j 0 := by
  rw [List.getD_eq_getElem?_getD, page_states_get ps j hj]
  rfl

/-- What the page loops `if (mask & *ps) return true` answer. -/
theorem any_page_iff (ps : List Nat) (mask end_ : Nat) (he : end_ ≤ ps.length) :
    ∀ n k, end_ - k ≤ n → ∃ b, any_page ps mask end_ k n = .ok b ∧
      (b = true ↔ ∃ j, k ≤ j ∧ j < end_ ∧ mask &&& ps.getD j 0 ≠ 0) := by
  intro n
  induction n with
  | zero =>
    intro k hk
    unfold any_page
    rw [if_neg (by omega)]
    refine ⟨false, rfl, ?_⟩
    constructor
    · intro h; cases h
    · rintro ⟨j, h1, h2, _⟩; omega
  | succ n ih =>
    intro k hk
    unfold any_page
    by_cases c : k < end_
    · rw [if_pos c, rd_eq ps k (by omega)]
      show ∃ b, (if mask &&& ps.getD k 0 ≠ 0 then pure true
        else any_page ps mask end_ (k + 1) n) = Res.ok b ∧ _
      by_cases hm : mask &&& ps.getD k 0 ≠ 0
      · rw [if_pos hm]
        exact ⟨true, rfl, fun _ => ⟨k, le_refl _, c, hm⟩, fun _ => rfl⟩
      · rw [if_neg hm]
        obtain ⟨b, hb, hiff⟩ := ih (k + 1) (by omega)
        refine ⟨b, hb, hiff.trans ?_⟩
        constructor
        · rintro ⟨j, h1, h2, h3⟩; exact ⟨j, by omega, h2, h3⟩
        · rintro ⟨j, h1, h2, h3⟩
          by_cases hjk : j = k
          · subst hjk; exact absurd h3 hm
          · exact ⟨j, by omega, h2, h3⟩
    · rw [if_neg c]
      refine ⟨false, rfl, ?_⟩
      constructor
      · intro h; cases h
      · rintro ⟨j, h1, h2, _⟩; omega

theorem Block_page_state_mapped (w : World) (k h : Nat) (ps : List Nat)
    (hv : w.vm k = .mapped h ps) :
    Block.page_state w (k * ALLOCATION_GRANULARITY) = .ok (page_states ps) := by
  obtain ⟨bits, hst⟩ := Block_state_mapped w (k * ALLOCATION_GRANULARITY) h ps
    (by rw [block_div]; exact hv)
  unfold Block.page_state
  rw [hst]
  rfl

/-- Claim C20, as amended: for a mapped block, every mask and every `offset`, `size` with
`offset + size <= ALLOCATION_GRANULARITY`, `Block::has_data_outside_of (offset, size, mask)`
returns, and it is true if and only if some page of the block that has a byte outside
`[offset, offset + size)` has a state intersecting `mask`: a page that the range covers
only in part counts too. -/
theorem has_data_outside_of_iff (w : World) (k offset size mask h : Nat) (ps : List Nat)
    (hv : w.vm k = .mapped h ps) (hsz : offset + size ≤ ALLOCATION_GRANULARITY) :
    ∃ b, Block.has_data_outside_of w (k * ALLOCATION_GRANULARITY) offset size mask = .ok b ∧
      (b = true ↔ ∃ j, j < PAGES_PER_BLOCK ∧ mask &&& ps.getD j 0 ≠ 0 ∧
        (j * PAGE_SIZE < offset ∨ offset + size < (j + 1) * PAGE_SIZE)) := by
  have hG : ALLOCATION_GRANULARITY = 65536 := rfl
  have hP : PAGE_SIZE = 4096 := rfl
  have hN : PAGES_PER_BLOCK = 16 := rfl
  have hl := page_states_length ps
  obtain ⟨b1, hb1, hi1⟩ := any_page_iff (page_states ps) mask ((offset + PAGE_SIZE - 1) / PAGE_SIZE)
    (by rw [hl]; simp only [hG, hP, hN] at *; omega) (PAGES_PER_BLOCK + 1) 0
    (by simp only [hG, hP, hN] at *; omega)
  obtain ⟨b2, hb2, hi2⟩ := any_page_iff (page_states ps) mask PAGES_PER_BLOCK
    (by rw [hl]) (PAGES_PER_BLOCK + 1) ((offset + size) / PAGE_SIZE)
    (by simp only [hG, hP, hN] at *; omega)
  have e1 : (b1 = true ↔ ∃ j, j < PAGES_PER_BLOCK ∧ mask &&& ps.getD j 0 ≠ 0 ∧
      j * PAGE_SIZE < offset) := by
    rw [hi1]
    constructor
    · rintro ⟨j, _, h2, h3⟩
      have hj : j < PAGES_PER_BLOCK := by simp only [hG, hP, hN] at *; omega
      rw [page_states_getD ps j hj] at h3
      exact ⟨j, hj, h3, by simp only [hG, hP, hN] at *; omega⟩
    · rintro ⟨j, hj, h3, h4⟩
      refine ⟨j, Nat.zero_le _, by simp only [hG, hP, hN] at *; omega, ?_⟩
      rw [page_states_getD ps j hj]; exact h3
  have e2 : (b2 = true ↔ ∃ j, j < PAGES_PER_BLOCK ∧ mask &&& ps.getD j 0 ≠ 0 ∧
      offset + size < (j + 1) * PAGE_SIZE) := by
    rw [hi2]
    constructor
    · rintro ⟨j, h1, hj, h3⟩
      rw [page_states_getD ps j hj] at h3
      exact ⟨j, hj, h3, by simp only [hG, hP, hN] at *; omega⟩
    · rintro ⟨j, hj, h3, h4⟩
      refine ⟨j, by simp only [hG, hP, hN] at *; omega, hj, ?_⟩
      rw [page_states_getD ps j hj]; exact h3
  unfold Block.has_data_outside_of
  simp only []
  by_cases hout : offset ≠ 0 ∨ size < ALLOCATION_GRANULARITY
  · rw [if_pos hout, Block_page_state_mapped w k h ps hv]
    simp only [Res.ok_bind]
    by_cases ho : offset ≠ 0
    · rw [if_pos ho, hb1]
      simp only [Res.ok_bind]
      by_cases hbt : b1 = true
      · rw [if_pos hbt]
        refine ⟨true, rfl, fun _ => ?_, fun _ => rfl⟩
        obtain ⟨j, hj, h3, h4⟩ := e1.1 hbt
        exact ⟨j, hj, h3, Or.inl h4⟩
      · rw [if_neg hbt]
        by_cases he : offset + size < ALLOCATION_GRANULARITY
        · rw [if_pos he, hb2]
          refine ⟨b2, rfl, ?_⟩
          constructor
          · intro hb
            obtain ⟨j, hj, h3, h4⟩ := e2.1 hb
            exact ⟨j, hj, h3, Or.inr h4⟩
          · rintro ⟨j, hj, h3, h4 | h4⟩
            · exact absurd (e1.2 ⟨j, hj, h3, h4⟩) hbt
            · exact e2.2 ⟨j, hj, h3, h4⟩
        · rw [if_neg he]
          refine ⟨false, rfl, ?_⟩
          constructor
          · intro hb; cases hb
          · rintro ⟨j, hj, h3, h4 | h4⟩
            · exact absurd (e1.2 ⟨j, hj, h3, h4⟩) hbt
            · exfalso; simp only [hG, hP, hN] at *; omega
    · rw [if_neg ho]
      have ho0 : offset = 0 := not_not.1 ho
      simp only [Res.pure_eq, Res.ok_bind, Bool.false_eq_true, if_false]
      by_cases he : offset + size < ALLOCATION_GRANULARITY
      · rw [if_pos he, hb2]
        refine ⟨b2, rfl, ?_⟩
        constructor
        · intro hb
          obtain ⟨j, hj, h3, h4⟩ := e2.1 hb
          exact ⟨j, hj, h3, Or.inr h4⟩
        · rintro ⟨j, hj, h3, h4 | h4⟩
          · omega
          · exact e2.2 ⟨j, hj, h3, h4⟩
      · exfalso
        rcases hout with h1 | h1
        · exact ho h1
        · omega
  · rw [if_neg hout]
    refine ⟨false, rfl, ?_⟩
    constructor
    · intro hb; cases hb
    · rintro ⟨j, hj, h3, h4 | h4⟩
      · have : offset = 0 := by
          by_contra hc; exact hout (Or.inl hc)
        omega
      · exfalso
        have : ¬ size < ALLOCATION_GRANULARITY := fun hc => hout (Or.inr hc)
        simp only [hG, hP, hN] at *; omega

theorem has_data_outside_of_iff_witness :
    ∃ b, Block.has_data_outside_of world_shared (1 * ALLOCATION_GRANULARITY) 1 65535
        PageState.MASK_ACCESS = .ok b ∧
      (b = true ↔ ∃ j, j < PAGES_PER_BLOCK ∧
        PageState.MASK_ACCESS &&& (List.replicate 16 PageState.RW_MAPPED_SHARED).getD j 0 ≠ 0 ∧
        (j * PAGE_SIZE < 1 ∨ 1 + 65535 < (j + 1) * PAGE_SIZE)) :=
  has_data_outside_of_iff world_shared 1 1 65535 PageState.MASK_ACCESS 100
    (List.replicate 16 PageState.RW_MAPPED_SHARED) rfl (by decide)

/-- Claim C20, as stated, fails: every page of the block is `RW_MAPPED_SHARED` and the range
`[1, ALLOCATION_GRANULARITY)` has a byte in every page, so no page lies outside it; yet
`has_data_outside_of` is true, for page 0, which the range covers only in part. -/
theorem has_data_outside_of_partial_page :
    Block.has_data_outside_of world_shared ALLOCATION_GRANULARITY 1 65535
      PageState.MASK_ACCESS = .ok true ∧
    ∀ j, j < PAGES_PER_BLOCK → j * PAGE_SIZE < 1 + 65535 ∧ 1 < (j + 1) * PAGE_SIZE := by
  refine ⟨by decide, by decide⟩

/-- Claim C19: `Block::can_move (offset, size, flags)` is true if and only if `flags`
contains `DECOMMIT` and either `flags` contains the release bit `RELEASE & ~DECOMMIT` or
`has_data_outside_of (offset, size)` is false; without `DECOMMIT` it is false whatever the
page states are. -/
theorem can_move_iff (w : World) (a offset size flags : Nat) :
    (Block.can_move w a offset size flags = .ok true ↔
      flags &&& DECOMMIT ≠ 0 ∧
        (flags &&& bits_outside RELEASE DECOMMIT ≠ 0 ∨
          Block.has_data_outside_of w a offset size PageState.MASK_ACCESS = .ok false)) ∧
    (flags &&& DECOMMIT = 0 → Block.can_move w a offset size flags = .ok false) := by
  unfold Block.can_move
  by_cases hd : flags &&& DECOMMIT ≠ 0
  · rw [if_pos hd]
    by_cases hr : flags &&& bits_outside RELEASE DECOMMIT ≠ 0
    · rw [if_pos hr]
      exact ⟨⟨fun _ => ⟨hd, Or.inl hr⟩, fun _ => rfl⟩, fun h0 => absurd h0 hd⟩
    · rw [if_neg hr]
      refine ⟨?_, fun h0 => absurd h0 hd⟩
      show ((Block.has_data_outside_of w a offset size PageState.MASK_ACCESS).bind
        fun outside => pure (!outside)) = Res.ok true ↔ _
      cases hh : Block.has_data_outside_of w a offset size PageState.MASK_ACCESS with
      | ok b =>
        cases b with
        | true =>
          constructor
          · intro h; cases h
          · rintro ⟨_, h1 | h1⟩
            · exact absurd h1 hr
            · cases h1
        | false => exact ⟨fun _ => ⟨hd, Or.inr rfl⟩, fun _ => rfl⟩
      | raise e =>
        constructor
        · intro h; cases h
        · rintro ⟨_, h1 | h1⟩
          · exact absurd h1 hr
          · cases h1
      | hang =>
        constructor
        · intro h; cases h
        · rintro ⟨_, h1 | h1⟩
          · exact absurd h1 hr
          · cases h1
      | fault =>
        constructor
        · intro h; cases h
        · rintro ⟨_, h1 | h1⟩
          · exact absurd h1 hr
          · cases h1
  · rw [if_neg hd]
    refine ⟨⟨fun h => ?_, fun h => absurd h.1 hd⟩, fun _ => rfl⟩
    cases h

theorem foldl_or_testBit (l : List Nat) : ∀ (x i : Nat),
    (l.foldl (· ||| ·) x).testBit i = (x.testBit i || l.any fun y => y.testBit i) := by
  induction l with
  | nil => intro x i; simp
  | cons a l ih =>
    intro x i
    simp only [List.foldl_cons, List.any_cons]
    rw [ih (x ||| a) i, Nat.testBit_or, Bool.or_assoc]

/-- Starting the OR of a list from one of its elements gives the OR of the list. -/
theorem foldl_or_mem (l : List Nat) (x : Nat) (hx : x ∈ l) :
    l.foldl (· ||| ·) x = l.foldl (· ||| ·) 0 := by
  apply Nat.eq_of_testBit_eq
  intro i
  rw [foldl_or_testBit, foldl_or_testBit]
  simp only [Nat.zero_testBit, Bool.false_or]
  cases hb : x.testBit i with
  | false => simp
  | true =>
    simp only [Bool.true_or]
    symm
    rw [List.any_eq_true]
    exact ⟨x, hx, hb⟩

theorem foldl_or_contains (l : List Nat) (y : Nat) (hy : y ∈ l) :
    y &&& l.foldl (· ||| ·) 0 = y := by
  apply Nat.eq_of_testBit_eq
  intro i
  rw [Nat.testBit_and, foldl_or_testBit]
  simp only [Nat.zero_testBit, Bool.false_or]
  cases hb : y.testBit i with
  | false => simp
  | true =>
    simp only [Bool.true_and]
    rw [List.any_eq_true]
    exact ⟨y, hy, hb⟩

/-- What the page loop of `Block::check_committed` answers. -/
theorem all_pages_access_iff (ps : List Nat) (end_ : Nat) (he : end_ ≤ ps.length) :
    ∀ n k, end_ - k ≤ n → ∃ b, all_pages_access ps end_ k n = .ok b ∧
      (b = false ↔ ∃ j, k ≤ j ∧ j < end_ ∧ PageState.MASK_ACCESS &&& ps.getD j 0 = 0) := by
  intro n
  induction n with
  | zero =>
    intro k hk
    unfold all_pages_access
    rw [if_neg (by omega)]
    refine ⟨true, rfl, ?_⟩
    constructor
    · intro h; cases h
    · rintro ⟨j, h1, h2, _⟩; omega
  | succ n ih =>
    intro k hk
    unfold all_pages_access
    by_cases c : k < end_
    · rw [if_pos c, rd_eq ps k (by omega)]
      simp only [Res.ok_bind]
      by_cases hm : PageState.MASK_ACCESS &&& ps.getD k 0 = 0
      · rw [if_pos hm]
        exact ⟨false, rfl, fun _ => ⟨k, le_refl _, c, hm⟩, fun _ => rfl⟩
      · rw [if_neg hm]
        obtain ⟨b, hb, hiff⟩ := ih (k + 1) (by omega)
        refine ⟨b, hb, hiff.trans ?_⟩
        constructor
        · rintro ⟨j, h1, h2, h3⟩; exact ⟨j, by omega, h2, h3⟩
        · rintro ⟨j, h1, h2, h3⟩
          by_cases hjk : j = k
          · subst hjk; exact absurd h3 hm
          · exact ⟨j, by omega, h2, h3⟩
    · rw [if_neg c]
      refine ⟨true, rfl, ?_⟩
      constructor
      · intro h; cases h
      · rintro ⟨j, h1, h2, _⟩; omega

/-- Claim C16: for `offset + size <= ALLOCATION_GRANULARITY` and a block whose state can
be read (`Block::state ()` does not spin), `Block::check_committed (offset, size)` raises
`BAD_PARAM` if and only if the block is not mapped or some page with index in
`[offset / PAGE_SIZE, ceil ((offset + size) / PAGE_SIZE))` has no `MASK_ACCESS` bit;
otherwise it returns the bitwise OR of the states of all `PAGES_PER_BLOCK` pages of the
block, which contains the state bits of every page. -/
theorem Block_check_committed_iff (w : World) (k offset size : Nat)
    (hsz : offset + size ≤ ALLOCATION_GRANULARITY)
    (hst : Block.state w (k * ALLOCATION_GRANULARITY) ≠ .hang) :
    (Block.check_committed w (k * ALLOCATION_GRANULARITY) offset size = .raise .BAD_PARAM ↔
      (¬ os_mapped w k ∨ ∃ j, offset / PAGE_SIZE ≤ j ∧
        j < (offset + size + PAGE_SIZE - 1) / PAGE_SIZE ∧
        PageState.MASK_ACCESS &&& page_protect w k j = 0)) ∧
    (Block.check_committed w (k * ALLOCATION_GRANULARITY) offset size ≠ .raise .BAD_PARAM →
      Block.check_committed w (k * ALLOCATION_GRANULARITY) offset size =
        .ok (((List.range PAGES_PER_BLOCK).map (page_protect w k)).foldl (· ||| ·) 0) ∧
      ∀ j, j < PAGES_PER_BLOCK →
        page_protect w k j &&&
          ((List.range PAGES_PER_BLOCK).map (page_protect w k)).foldl (· ||| ·) 0
          = page_protect w k j) := by
  have hG : ALLOCATION_GRANULARITY = 65536 := rfl
  have hP : PAGE_SIZE = 4096 := rfl
  have hN : PAGES_PER_BLOCK = 16 := rfl
  by_cases hm : os_mapped w k
  · obtain ⟨h, ps, hv⟩ := hm
    have hpp : ∀ j, page_protect w k j = ps.getD j 0 := by
      intro j; unfold page_protect; rw [hv]
    have hmap : (List.range PAGES_PER_BLOCK).map (page_protect w k) = page_states ps := by
      unfold page_states
      apply List.map_congr_left
      intro j _
      exact hpp j
    have hbits : Block.state w (k * ALLOCATION_GRANULARITY) =
        .ok (.MAPPED (page_states ps) ((page_states ps).foldl (· ||| ·) 0)) := by
      unfold Block.state
      simp only [block_div, hv]
      congr 2
      apply foldl_or_mem
      have hq : (query w (k * ALLOCATION_GRANULARITY)).Protect = ps.getD 0 0 := by
        unfold query
        simp only [block_div, hv]
        have : k * ALLOCATION_GRANULARITY % ALLOCATION_GRANULARITY / PAGE_SIZE = 0 := by
          simp only [hG, hP]; omega
        rw [this]
      rw [hq, ← page_states_getD ps 0 (by decide)]
      rw [List.getD_eq_getElem?_getD, List.getElem?_eq_getElem (by rw [page_states_length]; decide)]
      exact List.getElem_mem _
    obtain ⟨b, hb, hiff⟩ := all_pages_access_iff (page_states ps)
      ((offset + size + PAGE_SIZE - 1) / PAGE_SIZE)
      (by rw [page_states_length]; simp only [hG, hP, hN] at *; omega)
      (PAGES_PER_BLOCK + 1) (offset / PAGE_SIZE) (by simp only [hG, hP, hN] at *; omega)
    have hiff' : (b = false ↔ ∃ j, offset / PAGE_SIZE ≤ j ∧
        j < (offset + size + PAGE_SIZE - 1) / PAGE_SIZE ∧
        PageState.MASK_ACCESS &&& page_protect w k j = 0) := by
      rw [hiff]
      constructor
      · rintro ⟨j, h1, h2, h3⟩
        rw [page_states_getD ps j (by simp only [hG, hP, hN] at *; omega)] at h3
        exact ⟨j, h1, h2, by rw [hpp]; exact h3⟩
      · rintro ⟨j, h1, h2, h3⟩
        refine ⟨j, h1, h2, ?_⟩
        rw [page_states_getD ps j (by simp only [hG, hP, hN] at *; omega), ← hpp]; exact h3
    have hcc : Block.check_committed w (k * ALLOCATION_GRANULARITY) offset size =
        if b = true then .ok ((page_states ps).foldl (· ||| ·) 0) else .raise .BAD_PARAM := by
      unfold Block.check_committed
      rw [hbits]
      simp only [Res.ok_bind, hb]
      rfl
    rw [hcc, hmap]
    cases b with
    | true =>
      rw [if_pos rfl]
      refine ⟨⟨fun hc => (by cases hc), ?_⟩, fun _ => ⟨rfl, ?_⟩⟩
      · rintro (hc | hc)
        · exact absurd ⟨h, ps, hv⟩ hc
        · have := hiff'.2 hc; cases this
      · intro j hj
        rw [hpp j, ← page_states_getD ps j hj]
        apply foldl_or_contains
        rw [List.getD_eq_getElem?_getD,
          List.getElem?_eq_getElem (by rw [page_states_length]; exact hj)]
        exact List.getElem_mem _
    | false =>
      rw [if_neg Bool.false_ne_true]
      exact ⟨⟨fun _ => Or.inr (hiff'.1 rfl), fun _ => rfl⟩, fun hc => absurd rfl hc⟩
  · have hcc : Block.check_committed w (k * ALLOCATION_GRANULARITY) offset size
        = .raise .BAD_PARAM := by
      rcases Block_state_not_mapped w (k * ALLOCATION_GRANULARITY) (by rw [block_div]; exact hm)
        with hh | ⟨x, y, hxy⟩
      · exact absurd hh hst
      · unfold Block.check_committed
        rw [hxy]
        rfl
    rw [hcc]
    exact ⟨⟨fun _ => Or.inl hm, fun _ => rfl⟩, fun hc => absurd rfl hc⟩

theorem Block_check_committed_iff_witness :
    (Block.check_committed world_shared (1 * ALLOCATION_GRANULARITY) 0 4096 = .raise .BAD_PARAM ↔
      (¬ os_mapped world_shared 1 ∨ ∃ j, 0 / PAGE_SIZE ≤ j ∧
        j < (0 + 4096 + PAGE_SIZE - 1) / PAGE_SIZE ∧
        PageState.MASK_ACCESS &&& page_protect world_shared 1 j = 0)) ∧
    (Block.check_committed world_shared (1 * ALLOCATION_GRANULARITY) 0 4096 ≠ .raise .BAD_PARAM →
      Block.check_committed world_shared (1 * ALLOCATION_GRANULARITY) 0 4096 =
        .ok (((List.range PAGES_PER_BLOCK).map (page_protect world_shared 1)).foldl
          (· ||| ·) 0) ∧
      ∀ j, j < PAGES_PER_BLOCK →
        page_protect world_shared 1 j &&&
          ((List.range PAGES_PER_BLOCK).map (page_protect world_shared 1)).foldl (· ||| ·) 0
          = page_protect world_shared 1 j) :=
  Block_check_committed_iff world_shared 1 0 4096 (by decide) (by decide)

theorem reserve_retry_directory (w : World) (a s : Nat) :
    (reserve_retry w a s).2.directory = w.directory := by
  unfold reserve_retry VirtualAllocEx_reserve
  simp only []
  split_ifs <;> rfl

theorem UnmapViewOfFile2_directory (w : World) (a : Nat) :
    (UnmapViewOfFile2 w a).2.directory = w.directory := by
  unfold UnmapViewOfFile2
  split <;> first | rfl | (split_ifs <;> rfl)

theorem VirtualProtectEx_directory (w : World) (a s p : Nat) :
    (VirtualProtectEx w a s p).directory = w.directory := by
  unfold VirtualProtectEx
  simp only []
  split <;> rfl

/-- `Block::unmap` writes no directory entry but the block's own. -/
theorem Block_unmap_directory (w : World) (a r : Nat) (nc : Bool) (j : Nat)
    (hj : j ≠ a / ALLOCATION_GRANULARITY) :
    (Block.unmap w a r nc).2.directory j = w.directory j := by
  unfold Block.unmap
  simp only []
  split_ifs <;>
    simp [reserve_retry_directory, UnmapViewOfFile2_directory, CloseHandle, World.set_mapping, hj]

theorem Block_decommit_directory (w : World) (a offset size : Nat) (j : Nat)
    (hj : j ≠ a / ALLOCATION_GRANULARITY) :
    (Block.decommit w a offset size).2.directory j = w.directory j := by
  unfold Block.decommit Block.decommit_pages
  simp only []
  split_ifs
  · exact Block_unmap_directory w a _ _ j hj
  · split
    · unfold Block.decommit_mapped
      split
      · exact Block_unmap_directory w a _ _ j hj
      · simp only []
        split <;> simp [AddressSpace.protect, VirtualProtectEx_directory]
      · rfl
      · rfl
      · rfl
    · rfl
    · rfl
    · rfl
    · rfl
  · rfl

theorem Block_copy_teardown_directory (w : World) (src offset size flags : Nat)
    (move nd : Bool) (j : Nat) (hj : j ≠ src / ALLOCATION_GRANULARITY) :
    (Block.copy_teardown w src offset size flags move nd).2.directory j = w.directory j := by
  unfold Block.copy_teardown
  split_ifs
  · exact Block_unmap_directory w src _ _ j hj
  · exact Block_unmap_directory w src _ _ j hj
  · exact Block_decommit_directory w src offset size j hj
  · rfl

theorem Block_copy_protect_directory (cur dps : List Nat) (a : Nat) : ∀ (fuel rb : Nat)
    (w : World), (Block.copy_protect cur dps a fuel rb w).2.directory = w.directory := by
  intro fuel
  induction fuel with
  | zero => intro rb w; rfl
  | succ fuel ih =>
    intro rb w
    unfold Block.copy_protect
    split
    · rfl
    · split
      · split
        · simp only []
          split_ifs
          · rw [ih]; simp [AddressSpace.protect, VirtualProtectEx_directory]
          · simp [AddressSpace.protect, VirtualProtectEx_directory]
        · rfl
        · rfl
        · rfl
      · rfl
    · rfl
    · rfl
    · rfl

/-- Without `remap`, `Block::copy (remap, move, ...)` leaves the entry of the destination
block as it is: it does not call `map`. -/
theorem Block_copy6_no_remap (w : World) (dst src offset size flags dup : Nat) (move : Bool)
    (hne : dst / ALLOCATION_GRANULARITY ≠ src / ALLOCATION_GRANULARITY) :
    (Block.copy6 w dst false move src offset size flags dup).2.directory
        (dst / ALLOCATION_GRANULARITY) = w.directory (dst / ALLOCATION_GRANULARITY) := by
  unfold Block.copy6
  simp only [Bool.false_eq_true, if_false]
  split
  · have ht := Block_copy_teardown_directory w src offset size flags move
      (move && w.is_current_process) (dst / ALLOCATION_GRANULARITY) hne
    split
    · rename_i heq
      rw [heq] at ht
      simp only [] at ht
      split
      · rw [Block_copy_protect_directory]; exact ht
      · exact ht
      · exact ht
      · exact ht
    · exact ht
  · rfl
  · rfl
  · rfl

/-- The remap decision of `Block::copy (src, offset, size, flags)`: it calls
`copy (remap = true, ...)` when the destination's entry is the sentinel, or holds a handle
that does not compare equal to the source's and `has_data_outside_of (offset, size)` is
false; it raises `INTERNAL`, with nothing changed, when that is true; and it calls
`copy (remap = false, ...)` when the two handles compare equal. -/
theorem Block_copy_decision (w : World) (dst src offset size flags dup : Nat) :
    (Block.mapping w dst = INVALID_HANDLE_VALUE → ∀ move,
      Block.can_move w src offset size flags = .ok move →
      Block.copy w dst src offset size flags dup =
        Block.copy6 w dst true move src offset size flags dup) ∧
    (Block.mapping w dst ≠ INVALID_HANDLE_VALUE →
      CompareObjectHandles w (Block.mapping w dst) (Block.mapping w src) = false →
      (Block.has_data_outside_of w dst offset size PageState.MASK_ACCESS = .ok true →
        Block.copy w dst src offset size flags dup = (.raise .INTERNAL, w)) ∧
      (Block.has_data_outside_of w dst offset size PageState.MASK_ACCESS = .ok false →
        ∀ move, Block.can_move w src offset size flags = .ok move →
        Block.copy w dst src offset size flags dup =
          Block.copy6 w dst true move src offset size flags dup)) ∧
    (Block.mapping w dst ≠ INVALID_HANDLE_VALUE →
      CompareObjectHandles w (Block.mapping w dst) (Block.mapping w src) = true →
      ∀ move, Block.can_move w src offset size flags = .ok move →
      Block.copy w dst src offset size flags dup =
          Block.copy6 w dst false move src offset size flags dup ∧
        (dst / ALLOCATION_GRANULARITY ≠ src / ALLOCATION_GRANULARITY →
          (Block.copy w dst src offset size flags dup).2.directory
            (dst / ALLOCATION_GRANULARITY) = w.directory (dst / ALLOCATION_GRANULARITY))) := by
  refine ⟨?_, ?_, ?_⟩
  · intro hs move hm
    unfold Block.copy
    simp only [hs, if_true, hm, Res.pure_eq, Res.ok_bind]
  · intro hs hc
    have hs' : ¬ (INVALID_HANDLE_VALUE = Block.mapping w dst) := fun h => hs h.symm
    refine ⟨?_, ?_⟩
    · intro hd
      unfold Block.copy
      simp only [hs', if_false, hc, Bool.false_eq_true, not_false_eq_true, if_true, hd,
        Res.ok_bind, Res.raise_bind]
    · intro hd move hm
      unfold Block.copy
      simp only [hs', if_false, hc, Bool.false_eq_true, not_false_eq_true, if_true, hd,
        Res.ok_bind, hm, Res.pure_eq]
  · intro hs hc move hm
    have hs' : ¬ (INVALID_HANDLE_VALUE = Block.mapping w dst) := fun h => hs h.symm
    have heq : Block.copy w dst src offset size flags dup =
        Block.copy6 w dst false move src offset size flags dup := by
      unfold Block.copy
      simp only [hs', if_false, hc, not_true_eq_false, Res.pure_eq, Res.ok_bind, hm]
    refine ⟨heq, fun hne => ?_⟩
    rw [heq]
    exact Block_copy6_no_remap w dst src offset size flags dup move hne

theorem World.set_vm_set_vm (w : World) (k : Nat) (a b : VBlock) :
    (w.set_vm k a).set_vm k b = w.set_vm k b := by
  cases w
  simp only [World.set_vm, World.mk.injEq, true_and, and_true]
  funext j
  split_ifs <;> rfl

/-- A call `protect (address () + region_begin * PAGE_SIZE, (region_end - region_begin) *
PAGE_SIZE, state)` on a mapped block: the pages of the region get the protection. -/
theorem protect_region_shape (w : World) (k rb re v h : Nat) (ps : List Nat)
    (hv : w.vm k = .mapped h ps) (hrb : rb < PAGES_PER_BLOCK) (hre : rb ≤ re) :
    ∃ ps1, AddressSpace.protect w (k * ALLOCATION_GRANULARITY + rb * PAGE_SIZE)
        ((re - rb) * PAGE_SIZE) v = w.set_vm k (.mapped h ps1) ∧
      ps1.length = ps.length ∧
      ∀ j, ps1.getD j 0 = if rb ≤ j ∧ j < re ∧ j < ps.length then v % PAGE_REVERT_TO_FILE_MAP
        else ps.getD j 0 := by
  have hG : ALLOCATION_GRANULARITY = 65536 := rfl
  have hP : PAGE_SIZE = 4096 := rfl
  have hN : PAGES_PER_BLOCK = 16 := rfl
  have hi : (k * ALLOCATION_GRANULARITY + rb * PAGE_SIZE) / ALLOCATION_GRANULARITY = k := by
    simp only [hG, hP, hN] at *; omega
  have hfirst : (k * ALLOCATION_GRANULARITY + rb * PAGE_SIZE) % ALLOCATION_GRANULARITY
      / PAGE_SIZE = rb := by
    simp only [hG, hP, hN] at *; omega
  have hlast : ((k * ALLOCATION_GRANULARITY + rb * PAGE_SIZE) % ALLOCATION_GRANULARITY
      + (re - rb) * PAGE_SIZE + PAGE_SIZE - 1) / PAGE_SIZE = re := by
    simp only [hG, hP, hN] at *; omega
  unfold AddressSpace.protect VirtualProtectEx
  simp only [hi, hv, hfirst, hlast]
  refine ⟨_, rfl, by simp, ?_⟩
  intro j
  rw [List.getD_eq_getElem?_getD]
  by_cases hj : j < ps.length
  · simp [hj]
  · rw [List.getElem?_eq_none (by simp; omega)]
    rw [if_neg (by omega), List.getD_eq_getElem?_getD, List.getElem?_eq_none (by omega)]

/-- The loop `do ++region_end; while (region_end < state_end && state == *region_end)`: where
it stops, and that it stops. -/
theorem same_state_run_spec (ps : List Nat) (st se : Nat) : ∀ (n r : Nat),
    (∀ re, same_state_run ps st se r n = .ok re →
      r ≤ re ∧ re ≤ max se r ∧ ∀ j, r ≤ j → j < re → j < ps.length ∧ ps.getD j 0 = st) ∧
    (se ≤ ps.length → se - r ≤ n → ∃ re, same_state_run ps st se r n = .ok re) := by
  intro n
  induction n with
  | zero =>
    intro r
    unfold same_state_run
    constructor
    · intro re h
      split_ifs at h with c
      cases h
      exact ⟨le_refl _, le_max_right _ _, fun j h1 h2 => by omega⟩
    · intro _ hn
      rw [if_neg (by omega)]
      exact ⟨_, rfl⟩
  | succ n ih =>
    intro r
    unfold same_state_run
    by_cases c : r < se
    · rw [if_pos c]
      by_cases hr : r < ps.length
      · rw [rd_eq ps r hr]
        simp only [Res.ok_bind]
        by_cases hs : st = ps.getD r 0
        · rw [if_pos hs]
          obtain ⟨i1, i2⟩ := ih (r + 1)
          constructor
          · intro re h
            obtain ⟨a1, a2, a3⟩ := i1 re h
            refine ⟨by omega, by omega, ?_⟩
            intro j h1 h2
            by_cases hjr : j = r
            · subst hjr; exact ⟨hr, hs.symm⟩
            · exact a3 j (by omega) h2
          · intro h1 h2
            exact i2 h1 (by omega)
        · rw [if_neg hs]
          constructor
          · intro re h
            cases h
            exact ⟨le_refl _, le_max_right _ _, fun j h1 h2 => by omega⟩
          · intro _ _
            exact ⟨_, rfl⟩
      · have : rd ps r = .fault := by
          unfold rd
          rw [List.getElem?_eq_none (by omega)]
        rw [this]
        constructor
        · intro re h; cases h
        · intro h1 _; omega
    · rw [if_neg c]
      constructor
      · intro re h
        cases h
        exact ⟨le_refl _, le_max_right _ _, fun j h1 h2 => by omega⟩
      · intro _ _
        exact ⟨_, rfl⟩

/-- The region loop of `Block::change_protection` on a mapped block, whatever its outcome:
the block stays a view of the same mapping; a page that changed was visited by the loop, was
not in the requested access class, and got the translation of its state; and the loop
returns when it starts inside the block. -/
theorem change_protection_loop_spec (page_state : List Nat) (k pm h se : Nat)
    (src dst : List Nat) (hl : page_state.length = PAGES_PER_BLOCK) :
    ∀ (fuel rb : Nat) (w : World) (ps : List Nat), w.vm k = .mapped h ps →
    ∃ ps', (Block.change_protection_loop page_state (k * ALLOCATION_GRANULARITY) pm src dst
        se fuel rb w).2 = w.set_vm k (.mapped h ps') ∧
      ps'.length = ps.length ∧
      (∀ j, ps'.getD j 0 = ps.getD j 0 ∨
        (rb ≤ j ∧ j < max se (rb + 1) ∧ j < PAGES_PER_BLOCK ∧
          pm &&& page_state.getD j 0 = 0 ∧
          translate_state src dst (page_state.getD j 0) ≠ page_state.getD j 0 ∧
          ps'.getD j 0 = translate_state src dst (page_state.getD j 0)
            % PAGE_REVERT_TO_FILE_MAP)) ∧
      (rb < PAGES_PER_BLOCK → se ≤ PAGES_PER_BLOCK → max (se - rb) 1 ≤ fuel →
        (Block.change_protection_loop page_state (k * ALLOCATION_GRANULARITY) pm src dst
          se fuel rb w).1 = .ok ()) := by
  have hN : PAGES_PER_BLOCK = 16 := rfl
  intro fuel
  induction fuel with
  | zero =>
    intro rb w ps hv
    refine ⟨ps, ?_, rfl, fun j => Or.inl rfl, fun _ _ hf => ?_⟩
    · unfold Block.change_protection_loop
      exact (World.set_vm_self w k _ hv).symm
    · omega
  | succ fuel ih =>
    intro rb w ps hv
    have hself : w = w.set_vm k (.mapped h ps) := (World.set_vm_self w k _ hv).symm
    unfold Block.change_protection_loop
    by_cases hrb : rb < page_state.length
    · rw [rd_eq page_state rb hrb]
      simp only []
      obtain ⟨s1, s2⟩ := same_state_run_spec page_state (page_state.getD rb 0) se
        PAGES_PER_BLOCK (rb + 1)
      cases hrun : same_state_run page_state (page_state.getD rb 0) se (rb + 1)
          PAGES_PER_BLOCK with
      | ok re =>
        simp only []
        obtain ⟨r1, r2, r3⟩ := s1 re hrun
        -- the state after the protect call of this region, if any
        have hstep : ∃ ps1, (if pm &&& page_state.getD rb 0 = 0 ∧
              translate_state src dst (page_state.getD rb 0) ≠ page_state.getD rb 0 then
              AddressSpace.protect w (k * ALLOCATION_GRANULARITY + rb * PAGE_SIZE)
                ((re - rb) * PAGE_SIZE) (translate_state src dst (page_state.getD rb 0))
            else w) = w.set_vm k (.mapped h ps1) ∧ ps1.length = ps.length ∧
            ∀ j, ps1.getD j 0 = ps.getD j 0 ∨
              (rb ≤ j ∧ j < re ∧ j < PAGES_PER_BLOCK ∧ pm &&& page_state.getD j 0 = 0 ∧
                translate_state src dst (page_state.getD j 0) ≠ page_state.getD j 0 ∧
                ps1.getD j 0 = translate_state src dst (page_state.getD j 0)
                  % PAGE_REVERT_TO_FILE_MAP) := by
          by_cases hc : pm &&& page_state.getD rb 0 = 0 ∧
              translate_state src dst (page_state.getD rb 0) ≠ page_state.getD rb 0
          · rw [if_pos hc]
            obtain ⟨ps1, hp, hl1, hf⟩ := protect_region_shape w k rb re
              (translate_state src dst (page_state.getD rb 0)) h ps hv (by omega) (by omega)
            refine ⟨ps1, hp, hl1, fun j => ?_⟩
            rw [hf j]
            by_cases hj : rb ≤ j ∧ j < re ∧ j < ps.length
            · rw [if_pos hj]
              right
              have hst : page_state.getD j 0 = page_state.getD rb 0 := by
                by_cases hjr : j = rb
                · rw [hjr]
                · exact (r3 j (by omega) hj.2.1).2
              have hj16 : j < PAGES_PER_BLOCK := by
                by_cases hjr : j = rb
                · omega
                · have := (r3 j (by omega) hj.2.1).1; omega
              exact ⟨hj.1, hj.2.1, hj16, by rw [hst]; exact hc.1, by rw [hst]; exact hc.2,
                by rw [hst]⟩
            · rw [if_neg hj]; exact Or.inl rfl
          · rw [if_neg hc]
            exact ⟨ps, hself, rfl, fun j => Or.inl rfl⟩
        obtain ⟨ps1, hw1, hl1, hf1⟩ := hstep
        rw [hw1]
        have hv1 : (w.set_vm k (.mapped h ps1)).vm k = .mapped h ps1 := by
          show (if k = k then _ else w.vm k) = _
          rw [if_pos rfl]
        by_cases hcont : re < se
        · rw [if_pos hcont]
          obtain ⟨ps2, hw2, hl2, hf2, ht2⟩ := ih re (w.set_vm k (.mapped h ps1)) ps1 hv1
          refine ⟨ps2, by rw [hw2, World.set_vm_set_vm], by rw [hl2, hl1], ?_, ?_⟩
          · intro j
            rcases hf2 j with e2 | ⟨a1, a2, a3, a4, a5, a6⟩
            · rcases hf1 j with e1 | ⟨b1, b2, b3, b4, b5, b6⟩
              · exact Or.inl (e2.trans e1)
              · exact Or.inr ⟨b1, by omega, b3, b4, b5, by rw [e2]; exact b6⟩
            · exact Or.inr ⟨by omega, by omega, a3, a4, a5, a6⟩
          · intro h1 h2 h3
            exact ht2 (by omega) h2 (by omega)
        · rw [if_neg hcont]
          refine ⟨ps1, rfl, hl1, ?_, fun _ _ _ => rfl⟩
          intro j
          rcases hf1 j with e1 | ⟨b1, b2, b3, b4, b5, b6⟩
          · exact Or.inl e1
          · exact Or.inr ⟨b1, by omega, b3, b4, b5, b6⟩
      | raise e =>
        refine ⟨ps, hself, rfl, fun j => Or.inl rfl, fun h1 h2 _ => ?_⟩
        obtain ⟨re, hre⟩ := s2 (by omega) (by omega)
        rw [hrun] at hre; cases hre
      | hang =>
        refine ⟨ps, hself, rfl, fun j => Or.inl rfl, fun h1 h2 _ => ?_⟩
        obtain ⟨re, hre⟩ := s2 (by omega) (by omega)
        rw [hrun] at hre; cases hre
      | fault =>
        refine ⟨ps, hself, rfl, fun j => Or.inl rfl, fun h1 h2 _ => ?_⟩
        obtain ⟨re, hre⟩ := s2 (by omega) (by omega)
        rw [hrun] at hre; cases hre
    · have hrd : rd page_state rb = .fault := by
        unfold rd
        rw [List.getElem?_eq_none (by omega)]
      rw [hrd]
      exact ⟨ps, hself, rfl, fun j => Or.inl rfl, fun h1 _ _ => by omega⟩

/-- The lookup in the tables of `Block::change_protection`, towards read-only. -/
theorem translate_RW_RO (s : Nat) (h : translate_state states_RW states_RO s ≠ s) :
    (s = PageState.RW_MAPPED_PRIVATE ∧
      translate_state states_RW states_RO s = PageState.RO_MAPPED_PRIVATE) ∨
    (s = PageState.RW_MAPPED_SHARED ∧
      translate_state states_RW states_RO s = PageState.RO_MAPPED_SHARED) ∨
    (s = PageState.RW_UNMAPPED ∧
      translate_state states_RW states_RO s = PageState.RO_UNMAPPED) := by
  unfold states_RW states_RO at h ⊢
  simp only [translate_state] at h ⊢
  split_ifs at h ⊢ with c1 c2 c3
  · exact Or.inl ⟨c1.symm, rfl⟩
  · exact Or.inr (Or.inl ⟨c2.symm, rfl⟩)
  · exact Or.inr (Or.inr ⟨c3.symm, rfl⟩)
  · exact absurd rfl h

/-- The lookup in the tables of `Block::change_protection`, towards read-write. -/
theorem translate_RO_RW (s : Nat) (h : translate_state states_RO states_RW s ≠ s) :
    (s = PageState.RO_MAPPED_PRIVATE ∧
      translate_state states_RO states_RW s = PageState.RW_MAPPED_PRIVATE) ∨
    (s = PageState.RO_MAPPED_SHARED ∧
      translate_state states_RO states_RW s = PageState.RW_MAPPED_SHARED) ∨
    (s = PageState.RO_UNMAPPED ∧
      translate_state states_RO states_RW s = PageState.RW_UNMAPPED) := by
  unfold states_RW states_RO at h ⊢
  simp only [translate_state] at h ⊢
  split_ifs at h ⊢ with c1 c2 c3
  · exact Or.inl ⟨c1.symm, rfl⟩
  · exact Or.inr (Or.inl ⟨c2.symm, rfl⟩)
  · exact Or.inr (Or.inr ⟨c3.symm, rfl⟩)
  · exact absurd rfl h

/-- Claim C15: `Block::change_protection` on a mapped block, whatever the range and whatever
its outcome, leaves the block a view of the same mapping, and every page either keeps its
state or makes one of the transitions `RW_MAPPED_PRIVATE -> RO_MAPPED_PRIVATE`,
`RW_MAPPED_SHARED -> RO_MAPPED_SHARED`, `RW_UNMAPPED -> RO_UNMAPPED` (with `READ_ONLY`) or
their inverses (without `READ_ONLY`): the sharing class never changes, and a page in state
`NOT_COMMITTED` or `DECOMMITTED`, or already in the requested access class, keeps its
state. -/
theorem change_protection_transitions (w : World) (k offset size flags h : Nat)
    (ps : List Nat) (hv : w.vm k = .mapped h ps) :
    ∃ ps', (Block.change_protection w (k * ALLOCATION_GRANULARITY) offset size flags).2
        = w.set_vm k (.mapped h ps') ∧
      ps'.length = ps.length ∧
      ∀ j, ps'.getD j 0 = ps.getD j 0 ∨
        (flags &&& READ_ONLY ≠ 0 ∧
          ((ps.getD j 0 = PageState.RW_MAPPED_PRIVATE ∧
              ps'.getD j 0 = PageState.RO_MAPPED_PRIVATE) ∨
            (ps.getD j 0 = PageState.RW_MAPPED_SHARED ∧
              ps'.getD j 0 = PageState.RO_MAPPED_SHARED) ∨
            (ps.getD j 0 = PageState.RW_UNMAPPED ∧
              ps'.getD j 0 = PageState.RO_UNMAPPED))) ∨
        (flags &&& READ_ONLY = 0 ∧
          ((ps.getD j 0 = PageState.RO_MAPPED_PRIVATE ∧
              ps'.getD j 0 = PageState.RW_MAPPED_PRIVATE) ∨
            (ps.getD j 0 = PageState.RO_MAPPED_SHARED ∧
              ps'.getD j 0 = PageState.RW_MAPPED_SHARED) ∨
            (ps.getD j 0 = PageState.RO_UNMAPPED ∧
              ps'.getD j 0 = PageState.RW_UNMAPPED))) := by
  unfold Block.change_protection
  simp only []
  rw [Block_page_state_mapped w k h ps hv]
  simp only []
  by_cases hro : flags &&& READ_ONLY ≠ 0
  · simp only [if_pos hro]
    obtain ⟨ps', h1, h2, h3, _⟩ := change_protection_loop_spec (page_states ps) k
      PageState.MASK_RO h (round_down (offset + size) PAGE_SIZE / PAGE_SIZE)
      states_RW states_RO (page_states_length ps) (PAGES_PER_BLOCK + 1)
      (round_up offset PAGE_SIZE / PAGE_SIZE) w ps hv
    refine ⟨ps', h1, h2, fun j => ?_⟩
    rcases h3 j with e | ⟨_, _, hj, _, hne, hnew⟩
    · exact Or.inl e
    · right; left
      rw [page_states_getD ps j hj] at hne hnew
      refine ⟨hro, ?_⟩
      rcases translate_RW_RO _ hne with ⟨a, b⟩ | ⟨a, b⟩ | ⟨a, b⟩
      · exact Or.inl ⟨a, by rw [hnew, b]; decide⟩
      · exact Or.inr (Or.inl ⟨a, by rw [hnew, b]; decide⟩)
      · exact Or.inr (Or.inr ⟨a, by rw [hnew, b]; decide⟩)
  · simp only [if_neg hro]
    obtain ⟨ps', h1, h2, h3, _⟩ := change_protection_loop_spec (page_states ps) k
      PageState.MASK_RW h (round_up (offset + size) PAGE_SIZE / PAGE_SIZE)
      states_RO states_RW (page_states_length ps) (PAGES_PER_BLOCK + 1)
      (round_down offset PAGE_SIZE / PAGE_SIZE) w ps hv
    refine ⟨ps', h1, h2, fun j => ?_⟩
    rcases h3 j with e | ⟨_, _, hj, _, hne, hnew⟩
    · exact Or.inl e
    · right; right
      rw [page_states_getD ps j hj] at hne hnew
      refine ⟨not_not.1 hro, ?_⟩
      rcases translate_RO_RW _ hne with ⟨a, b⟩ | ⟨a, b⟩ | ⟨a, b⟩
      · exact Or.inl ⟨a, by rw [hnew, b]; decide⟩
      · exact Or.inr (Or.inl ⟨a, by rw [hnew, b]; decide⟩)
      · exact Or.inr (Or.inr ⟨a, by rw [hnew, b]; decide⟩)

/-- The path of `MemoryWindows::copy (null, src, size, RELEASE)`: after the checks, at most
a call of `AddressSpace::change_protection (src, size, RELEASE)`, then `return src`. -/
theorem copy_release_path (cpp : MemoryWindowsCpp) (w : World) (src n mask : Nat) (os : Os)
    (hn : n ≠ 0) (hc : AddressSpace.check_committed w src n = .ok mask) :
    MemoryWindows.copy cpp w 0 src n RELEASE os =
      andThen (if mask &&& PageState.MASK_RO ≠ 0 then
          AddressSpace.change_protection w src n RELEASE
        else (.ok (), w)) fun _ w => (.ok src, w) := by
  have h1 : bits_outside RELEASE (READ_ONLY ||| RELEASE ||| ALLOCATE ||| EXACTLY) = 0 := by
    decide
  have h2 : RELEASE &&& RELEASE = RELEASE := by decide
  have h3 : ALLOCATE &&& RELEASE = 0 := by decide
  have h4 : RELEASE &&& READ_ONLY = 0 := by decide
  have h5 : RELEASE &&& EXACTLY = 0 := by decide
  unfold MemoryWindows.copy
  rw [if_neg hn, if_neg (by rw [h1]; simp), hc]
  simp only [pureCall, andThen]
  unfold MemoryWindows.copy_try
  simp only [h2, ne_eq, not_true_eq_false, false_and, and_false, if_false]
  unfold MemoryWindows.copy_slow
  simp only [true_or, if_true, ne_eq, not_true_eq_false, if_false, andThen, h2, decide_False,
    Bool.false_eq_true, not_false_eq_true]
  unfold MemoryWindows.copy_to
  simp only [if_true, h3, h2, ne_eq, not_true_eq_false, false_and, if_false, h4]
  generalize (if mask &&& PageState.MASK_RO ≠ 0 then
    AddressSpace.change_protection w src n RELEASE else (.ok (), w)) = r
  unfold catchNoMemory
  rcases r with ⟨r1, w1⟩
  cases r1 with
  | ok a => rfl
  | raise e => cases e <;> simp [andThen, h5]
  | hang => rfl
  | fault => rfl

/-- `Block::change_protection` towards read-write on a mapped block, for a range inside the
block: the call returns, the block stays a view of the same mapping, and a page that
changed holds a byte of the range and was made writable. -/
theorem Block_change_protection_rw (w : World) (k offset size flags h : Nat) (ps : List Nat)
    (hv : w.vm k = .mapped h ps) (hro : flags &&& READ_ONLY = 0) (hs : 0 < size)
    (hsz : offset + size ≤ ALLOCATION_GRANULARITY) :
    ∃ ps', Block.change_protection w (k * ALLOCATION_GRANULARITY) offset size flags
        = (.ok (), w.set_vm k (.mapped h ps')) ∧
      ps'.length = ps.length ∧
      ∀ j, ps'.getD j 0 = ps.getD j 0 ∨
        (j * PAGE_SIZE < offset + size ∧ offset < (j + 1) * PAGE_SIZE ∧
          made_writable (ps.getD j 0) (ps'.getD j 0)) := by
  have hG : ALLOCATION_GRANULARITY = 65536 := rfl
  have hP : PAGE_SIZE = 4096 := rfl
  have hN : PAGES_PER_BLOCK = 16 := rfl
  have hro' : ¬ (flags &&& READ_ONLY ≠ 0) := not_not.2 hro
  have hrb : round_down offset PAGE_SIZE / PAGE_SIZE = offset / PAGE_SIZE := by
    simp only [round_down, hP]; omega
  have hse : round_up (offset + size) PAGE_SIZE / PAGE_SIZE
      = (offset + size + PAGE_SIZE - 1) / PAGE_SIZE := by
    simp only [round_up, hP]; omega
  obtain ⟨ps', h1, h2, h3, h4⟩ := change_protection_loop_spec (page_states ps) k
    PageState.MASK_RW h ((offset + size + PAGE_SIZE - 1) / PAGE_SIZE)
    states_RO states_RW (page_states_length ps) (PAGES_PER_BLOCK + 1)
    (offset / PAGE_SIZE) w ps hv
  have hok := h4 (by simp only [hG, hP, hN] at *; omega) (by simp only [hG, hP, hN] at *; omega)
    (by simp only [hG, hP, hN] at *; omega)
  have heq : Block.change_protection w (k * ALLOCATION_GRANULARITY) offset size flags =
      Block.change_protection_loop (page_states ps) (k * ALLOCATION_GRANULARITY)
        PageState.MASK_RW states_RO states_RW ((offset + size + PAGE_SIZE - 1) / PAGE_SIZE)
        (PAGES_PER_BLOCK + 1) (offset / PAGE_SIZE) w := by
    unfold Block.change_protection
    simp only []
    rw [Block_page_state_mapped w k h ps hv]
    simp only [if_neg hro', hrb, hse]
  refine ⟨ps', ?_, h2, fun j => ?_⟩
  · rw [heq]
    exact Prod.ext hok h1
  · rcases h3 j with e | ⟨a1, a2, hj, _, hne, hnew⟩
    · exact Or.inl e
    · right
      rw [page_states_getD ps j hj] at hne hnew
      refine ⟨by simp only [hG, hP, hN] at *; omega, by simp only [hG, hP, hN] at *; omega, ?_⟩
      rcases translate_RO_RW _ hne with ⟨a, b⟩ | ⟨a, b⟩ | ⟨a, b⟩
      · exact Or.inl ⟨a, by rw [hnew, b]; decide⟩
      · exact Or.inr (Or.inl ⟨a, by rw [hnew, b]; decide⟩)
      · exact Or.inr (Or.inr ⟨a, by rw [hnew, b]; decide⟩)

/-- A range that `AddressSpace::check_committed` accepts lies in allocated, mapped blocks. -/
theorem check_committed_loop_mapped (w : World) (end_ : Nat) : ∀ (fuel p m m' : Nat),
    AddressSpace.check_committed_loop w end_ fuel p m = .ok m' →
    ∀ a, p ≤ a → a < end_ → block_allocated w a ∧ os_mapped w (a / ALLOCATION_GRANULARITY) := by
  have hG : ALLOCATION_GRANULARITY = 65536 := rfl
  intro fuel
  induction fuel with
  | zero =>
    intro p m m' h a h1 h2
    unfold AddressSpace.check_committed_loop at h
    rw [if_pos (by omega)] at h
    cases h
  | succ fuel ih =>
    intro p m m' h a h1 h2
    unfold AddressSpace.check_committed_loop at h
    rw [if_pos (by omega)] at h
    by_cases hp : block_allocated w p
    · rw [Block_new_ok w p hp] at h
      simp only [Res.ok_bind] at h
      have hbase : round_down p ALLOCATION_GRANULARITY
          = p / ALLOCATION_GRANULARITY * ALLOCATION_GRANULARITY := rfl
      rw [hbase] at h
      have hmapped : os_mapped w (p / ALLOCATION_GRANULARITY) := by
        by_contra hnm
        rcases Block_state_not_mapped w (p / ALLOCATION_GRANULARITY * ALLOCATION_GRANULARITY)
          (by rw [block_div]; exact hnm) with hh | ⟨x, y, hxy⟩
        · unfold Block.check_committed at h
          rw [hh] at h
          cases h
        · unfold Block.check_committed at h
          rw [hxy] at h
          cases h
      cases hcc : Block.check_committed w (p / ALLOCATION_GRANULARITY * ALLOCATION_GRANULARITY)
          (p - p / ALLOCATION_GRANULARITY * ALLOCATION_GRANULARITY)
          (min (p / ALLOCATION_GRANULARITY * ALLOCATION_GRANULARITY + ALLOCATION_GRANULARITY)
            end_ - p) with
      | ok bits =>
        rw [hcc] at h
        simp only [Res.ok_bind] at h
        by_cases ha : a < min (p / ALLOCATION_GRANULARITY * ALLOCATION_GRANULARITY
            + ALLOCATION_GRANULARITY) end_
        · have hk : a / ALLOCATION_GRANULARITY = p / ALLOCATION_GRANULARITY := by
            simp only [hG] at *; omega
          exact ⟨(block_allocated_congr w a p hk).2 hp, by rw [hk]; exact hmapped⟩
        · exact ih _ _ _ h a (by omega) h2
      | raise e => rw [hcc] at h; cases h
      | hang => rw [hcc] at h; cases h
      | fault => rw [hcc] at h; cases h
    · rw [Block_new_raise w p hp] at h
      cases h

theorem made_writable_once (a b c : Nat) (h1 : made_writable a b) (h2 : made_writable b c) :
    False := by
  unfold made_writable at h1 h2
  rcases h1 with ⟨_, h1⟩ | ⟨_, h1⟩ | ⟨_, h1⟩ <;> rcases h2 with ⟨h2, _⟩ | ⟨h2, _⟩ | ⟨h2, _⟩ <;>
    · rw [h1] at h2; revert h2; decide

/-- Two protection changes in a row: the ranges add up. -/
theorem ProtectionOnly_then {lo mid hi : Nat} {w1 w2 w3 : World}
    (h1 : ProtectionOnly lo mid w1 w2) (h2 : ProtectionOnly mid hi w2 w3)
    (h12 : lo ≤ mid) (h23 : mid ≤ hi) : ProtectionOnly lo hi w1 w3 := by
  obtain ⟨a1, a2, a3, a4, a5, a6, a7⟩ := h1
  obtain ⟨b1, b2, b3, b4, b5, b6, b7⟩ := h2
  refine ⟨b1.trans a1, b2.trans a2, b3.trans a3, b4.trans a4, b5.trans a5, b6.trans a6, ?_⟩
  intro i
  rcases b7 i with e2 | ⟨h, ps2, ps3, v2, v3, l3, p3⟩
  · rcases a7 i with e1 | ⟨h, ps1, ps2, v1, v2, l2, p2⟩
    · exact Or.inl (e2.trans e1)
    · refine Or.inr ⟨h, ps1, ps2, v1, by rw [e2]; exact v2, l2, fun j => ?_⟩
      rcases p2 j with e | ⟨x1, x2, x3⟩
      · exact Or.inl e
      · exact Or.inr ⟨by omega, x2, x3⟩
  · rcases a7 i with e1 | ⟨h', ps1, ps2', v1, v2', l2, p2⟩
    · refine Or.inr ⟨h, ps2, ps3, by rw [← e1]; exact v2, v3, l3, fun j => ?_⟩
      rcases p3 j with e | ⟨x1, x2, x3⟩
      · exact Or.inl e
      · exact Or.inr ⟨x1, by omega, x3⟩
    · rw [v2] at v2'
      cases v2'
      refine Or.inr ⟨h, ps1, ps3, v1, v3, l3.trans l2, fun j => ?_⟩
      rcases p3 j with e3 | ⟨x1, x2, x3⟩
      · rcases p2 j with e2 | ⟨y1, y2, y3⟩
        · exact Or.inl (e3.trans e2)
        · exact Or.inr ⟨by omega, y2, by rw [e3]; exact y3⟩
      · rcases p2 j with e2 | ⟨y1, y2, y3⟩
        · exact Or.inr ⟨x1, by omega, by rw [← e2]; exact x3⟩
        · exact absurd (made_writable_once _ _ _ y3 x3) id

theorem ProtectionOnly_same (lo hi : Nat) (w : World) : ProtectionOnly lo hi w w :=
  ⟨rfl, rfl, rfl, rfl, rfl, rfl, fun _ => Or.inl rfl⟩

theorem change_protection_loop_done (end_ flags p : Nat) (w : World) (h : ¬ p < end_)
    (fuel : Nat) : AddressSpace.change_protection_loop end_ flags fuel p w = (.ok (), w) := by
  cases fuel with
  | zero => unfold AddressSpace.change_protection_loop; rw [if_neg h]
  | succ n => unfold AddressSpace.change_protection_loop; rw [if_neg h]

/-- The block loop of `AddressSpace::change_protection` towards read-write over a range of
allocated, mapped blocks returns and changes page protections only. -/
theorem change_protection_loop_rw (end_ flags : Nat) (hro : flags &&& READ_ONLY = 0) :
    ∀ (fuel p : Nat) (w : World),
    (∀ a, p ≤ a → a < end_ →
      block_allocated w a ∧ os_mapped w (a / ALLOCATION_GRANULARITY)) →
    (p < end_ → end_ ≤ (p / ALLOCATION_GRANULARITY + fuel) * ALLOCATION_GRANULARITY) →
    ∃ w', AddressSpace.change_protection_loop end_ flags fuel p w = (.ok (), w') ∧
      ProtectionOnly p end_ w w' := by
  have hG : ALLOCATION_GRANULARITY = 65536 := rfl
  have hP : PAGE_SIZE = 4096 := rfl
  intro fuel
  induction fuel with
  | zero =>
    intro p w _ hfuel
    have hnlt : ¬ p < end_ := by
      intro hlt
      have := hfuel hlt
      simp only [hG] at *; omega
    exact ⟨w, change_protection_loop_done end_ flags p w hnlt 0, ProtectionOnly_same _ _ w⟩
  | succ fuel ih =>
    intro p w hall hfuel
    by_cases hlt : p < end_
    · obtain ⟨hal, h, ps, hv⟩ := hall p (le_refl _) hlt
      obtain ⟨k, hkdef⟩ : ∃ k, p / ALLOCATION_GRANULARITY = k := ⟨_, rfl⟩
      rw [hkdef] at hv
      have hbase : round_down p ALLOCATION_GRANULARITY = k * ALLOCATION_GRANULARITY := by
        rw [← hkdef]; rfl
      have hfuel' := hfuel hlt
      rw [hkdef] at hfuel'
      generalize hbe : min (k * ALLOCATION_GRANULARITY + ALLOCATION_GRANULARITY) end_
        = block_end
      have hbe1 : p < block_end := by simp only [hG] at *; omega
      have hbe2 : block_end ≤ end_ := by omega
      have hbe3 : block_end < end_ → block_end = (k + 1) * ALLOCATION_GRANULARITY := by
        intro hc; simp only [hG] at *; omega
      have hbe4 : block_end ≤ k * ALLOCATION_GRANULARITY + ALLOCATION_GRANULARITY := by omega
      have hpk : k * ALLOCATION_GRANULARITY ≤ p := by simp only [hG] at *; omega
      have hnotk : ∀ a, block_end ≤ a → a < end_ → a / ALLOCATION_GRANULARITY ≠ k := by
        intro a h1 h2
        have := hbe3 (by omega)
        simp only [hG] at *; omega
      obtain ⟨ps1, hstep, hl1, hp1⟩ := Block_change_protection_rw w k
        (p - k * ALLOCATION_GRANULARITY) (block_end - p) flags h ps hv hro (by omega)
        (by omega)
      have hfr1 : ProtectionOnly p block_end w (w.set_vm k (.mapped h ps1)) := by
        refine ⟨rfl, rfl, rfl, rfl, rfl, rfl, fun i => ?_⟩
        by_cases hik : i = k
        · subst hik
          refine Or.inr ⟨h, ps, ps1, hv, ?_, hl1, fun j => ?_⟩
          · show (if i = i then _ else w.vm i) = _
            rw [if_pos rfl]
          · rcases hp1 j with e | ⟨x1, x2, x3⟩
            · exact Or.inl e
            · exact Or.inr ⟨by omega, by omega, x3⟩
        · left
          show (if i = k then _ else w.vm i) = _
          rw [if_neg hik]
      obtain ⟨w', hloop, hfr2⟩ := ih block_end (w.set_vm k (.mapped h ps1))
        (by
          intro a h1 h2
          obtain ⟨x1, x2⟩ := hall a (by omega) h2
          refine ⟨x1, ?_⟩
          obtain ⟨h', ps', hv'⟩ := x2
          refine ⟨h', ps', ?_⟩
          show (if a / ALLOCATION_GRANULARITY = k then _ else w.vm _) = _
          rw [if_neg (hnotk a h1 h2)]
          exact hv')
        (by
          intro hc
          have := hbe3 hc
          simp only [hG] at *; omega)
      refine ⟨w', ?_, ProtectionOnly_then hfr1 hfr2 (by omega) hbe2⟩
      rw [AddressSpace.change_protection_loop, if_pos hlt, Block_new_ok w p hal, hbase]
      simp only []
      rw [hbe, hstep]
      exact hloop
    · exact ⟨w, change_protection_loop_done end_ flags p w hlt _, ProtectionOnly_same _ _ w⟩

/-- Claim C12: for every committed source range `(src, n > 0)`,
`MemoryWindows::copy (null, src, n, RELEASE)` returns `src` itself, and the state it leaves
differs from the one it found only in the protection of pages of the source range, each
made writable: no directory entry has changed (nothing is reserved, released or unmapped),
every view is a view of the same mapping, and no page has been decommitted. -/
theorem copy_release_in_place (cpp : MemoryWindowsCpp) (w : World) (src n mask : Nat)
    (os : Os) (hn : n ≠ 0) (hc : AddressSpace.check_committed w src n = .ok mask) :
    ∃ w', MemoryWindows.copy cpp w 0 src n RELEASE os = (.ok src, w') ∧
      ProtectionOnly src (src + n) w w' := by
  have hG : ALLOCATION_GRANULARITY = 65536 := rfl
  rw [copy_release_path cpp w src n mask os hn hc]
  by_cases hm : mask &&& PageState.MASK_RO ≠ 0
  · rw [if_pos hm]
    have hsrc : src ≠ 0 := by
      intro h0
      unfold AddressSpace.check_committed at hc
      rw [if_neg hn, if_pos h0] at hc
      cases hc
    have hall : ∀ a, src ≤ a → a < src + n →
        block_allocated w a ∧ os_mapped w (a / ALLOCATION_GRANULARITY) := by
      unfold AddressSpace.check_committed at hc
      rw [if_neg hn, if_neg hsrc] at hc
      exact check_committed_loop_mapped w (src + n) _ src 0 mask hc
    obtain ⟨w', hloop, hfr⟩ := change_protection_loop_rw (src + n) RELEASE (by decide)
      (n / ALLOCATION_GRANULARITY + 2) src w hall (by
        intro _
        simp only [hG]; omega)
    refine ⟨w', ?_, hfr⟩
    unfold AddressSpace.change_protection
    rw [if_neg hn, if_neg hsrc, hloop]
    rfl
  · rw [if_neg hm]
    exact ⟨w, rfl, ProtectionOnly_same _ _ w⟩

theorem copy_release_in_place_witness :
    ∃ w', MemoryWindows.copy cpp_idle world_shared 0 65536 4096 RELEASE os_refuses
        = (.ok 65536, w') ∧
      ProtectionOnly 65536 (65536 + 4096) world_shared w' :=
  copy_release_in_place cpp_idle world_shared 65536 4096 PageState.RW_MAPPED_SHARED os_refuses
    (by decide) (by decide)

theorem change_protection_transitions_witness :
    ∃ ps', (Block.change_protection world_shared (1 * ALLOCATION_GRANULARITY) 0 4096
        READ_ONLY).2
        = world_shared.set_vm 1 (.mapped 100 ps') ∧
      ps'.length = (List.replicate 16 PageState.RW_MAPPED_SHARED).length ∧
      ∀ j, ps'.getD j 0 = (List.replicate 16 PageState.RW_MAPPED_SHARED).getD j 0 ∨
        (READ_ONLY &&& READ_ONLY ≠ 0 ∧
          (((List.replicate 16 PageState.RW_MAPPED_SHARED).getD j 0
                = PageState.RW_MAPPED_PRIVATE ∧
              ps'.getD j 0 = PageState.RO_MAPPED_PRIVATE) ∨
            ((List.replicate 16 PageState.RW_MAPPED_SHARED).getD j 0
                = PageState.RW_MAPPED_SHARED ∧
              ps'.getD j 0 = PageState.RO_MAPPED_SHARED) ∨
            ((List.replicate 16 PageState.RW_MAPPED_SHARED).getD j 0
                = PageState.RW_UNMAPPED ∧
              ps'.getD j 0 = PageState.RO_UNMAPPED))) ∨
        (READ_ONLY &&& READ_ONLY = 0 ∧
          (((List.replicate 16 PageState.RW_MAPPED_SHARED).getD j 0
                = PageState.RO_MAPPED_PRIVATE ∧
              ps'.getD j 0 = PageState.RW_MAPPED_PRIVATE) ∨
            ((List.replicate 16 PageState.RW_MAPPED_SHARED).getD j 0
                = PageState.RO_MAPPED_SHARED ∧
              ps'.getD j 0 = PageState.RW_MAPPED_SHARED) ∨
            ((List.replicate 16 PageState.RW_MAPPED_SHARED).getD j 0
                = PageState.RO_UNMAPPED ∧
              ps'.getD j 0 = PageState.RW_UNMAPPED))) :=
  change_protection_transitions world_shared 1 0 4096 READ_ONLY 100
    (List.replicate 16 PageState.RW_MAPPED_SHARED) rfl

theorem VirtualProtectEx_frame (w : World) (a s p : Nat) :
    (VirtualProtectEx w a s p).handles = w.handles ∧
    ∀ j h ps, w.vm j = .mapped h ps → ∃ ps', (VirtualProtectEx w a s p).vm j = .mapped h ps' := by
  unfold VirtualProtectEx
  simp only []
  cases hv : w.vm (a / ALLOCATION_GRANULARITY) with
  | free => exact ⟨rfl, fun j h ps hj => ⟨ps, hj⟩⟩
  | reserved b e => exact ⟨rfl, fun j h ps hj => ⟨ps, hj⟩⟩
  | mapped h0 ps0 =>
    refine ⟨rfl, fun j h ps hj => ?_⟩
    simp only [World.set_vm]
    by_cases c : j = a / ALLOCATION_GRANULARITY
    · rw [if_pos c]
      rw [c, hv] at hj
      cases hj
      exact ⟨_, rfl⟩
    · rw [if_neg c]
      exact ⟨ps, hj⟩

theorem reserve_retry_frame (w : World) (a s : Nat) :
    (reserve_retry w a s).2.handles = w.handles ∧
    ∀ j h ps, w.vm j = .mapped h ps → (reserve_retry w a s).2.vm j = .mapped h ps := by
  unfold reserve_retry VirtualAllocEx_reserve
  simp only []
  by_cases c : 0 < s ∧ blocks_free w (a / ALLOCATION_GRANULARITY)
      ((a + s + ALLOCATION_GRANULARITY - 1) / ALLOCATION_GRANULARITY) = true
  · rw [if_pos c]
    obtain ⟨_, hf⟩ := c
    obtain ⟨_, _, hfree⟩ := (blocks_free_iff w _ _).1 hf
    refine ⟨by split_ifs <;> rfl, fun j h ps hj => ?_⟩
    have hv : (if a / ALLOCATION_GRANULARITY ≤ j ∧
        j < (a + s + ALLOCATION_GRANULARITY - 1) / ALLOCATION_GRANULARITY
        then VBlock.reserved (a / ALLOCATION_GRANULARITY)
          ((a + s + ALLOCATION_GRANULARITY - 1) / ALLOCATION_GRANULARITY)
        else w.vm j) = .mapped h ps := by
      by_cases cj : a / ALLOCATION_GRANULARITY ≤ j ∧
          j < (a + s + ALLOCATION_GRANULARITY - 1) / ALLOCATION_GRANULARITY
      · have := hfree j cj.1 cj.2
        rw [this] at hj; cases hj
      · rw [if_neg cj]; exact hj
    split_ifs <;> exact hv
  · rw [if_neg c]
    exact ⟨by split_ifs <;> rfl, fun j h ps hj => by split_ifs <;> exact hj⟩

theorem UnmapViewOfFile2_frame (w : World) (a : Nat) :
    (UnmapViewOfFile2 w a).2.handles = w.handles ∧
    ∀ j, j ≠ a / ALLOCATION_GRANULARITY → (UnmapViewOfFile2 w a).2.vm j = w.vm j := by
  unfold UnmapViewOfFile2
  cases hv : w.vm (a / ALLOCATION_GRANULARITY) with
  | free => exact ⟨rfl, fun j _ => rfl⟩
  | reserved b e => exact ⟨rfl, fun j _ => rfl⟩
  | mapped h0 ps0 =>
    simp only []
    by_cases c : a % ALLOCATION_GRANULARITY = 0
    · rw [if_pos c]
      exact ⟨rfl, fun j hj => by simp [World.set_vm, hj]⟩
    · rw [if_neg c]
      exact ⟨rfl, fun j _ => rfl⟩

theorem VirtualFreeEx_release_frame (w : World) (a : Nat) :
    (VirtualFreeEx_release w a).2.handles = w.handles ∧
    (VirtualFreeEx_release w a).2.directory = w.directory ∧
    ∀ j h ps, w.vm j = .mapped h ps → (VirtualFreeEx_release w a).2.vm j = .mapped h ps := by
  unfold VirtualFreeEx_release
  cases hv : w.vm (a / ALLOCATION_GRANULARITY) with
  | free => exact ⟨rfl, rfl, fun j h ps hj => hj⟩
  | mapped h0 ps0 => exact ⟨rfl, rfl, fun j h ps hj => hj⟩
  | reserved b e =>
    simp only []
    by_cases c : a = b * ALLOCATION_GRANULARITY
    · rw [if_pos c]
      refine ⟨rfl, rfl, fun j h ps hj => ?_⟩
      simp only []
      rw [if_neg (by rw [hj]; intro hc; cases hc)]
      exact hj
    · rw [if_neg c]
      exact ⟨rfl, rfl, fun j h ps hj => hj⟩

/-- `Block::unmap` leaves the views of the other blocks alone and closes no handle but the
one it takes from the block's entry, and not even that one with `no_close_handle`. -/
theorem Block_unmap_frame (w : World) (a r : Nat) (nc : Bool) :
    (∀ j h ps, j ≠ a / ALLOCATION_GRANULARITY → w.vm j = .mapped h ps →
      (Block.unmap w a r nc).2.vm j = .mapped h ps) ∧
    (∀ h, h ≠ w.directory (a / ALLOCATION_GRANULARITY) →
      (Block.unmap w a r nc).2.handles h = w.handles h) ∧
    (nc = true → (Block.unmap w a r nc).2.handles = w.handles) := by
  unfold Block.unmap
  simp only []
  by_cases c1 : w.directory (a / ALLOCATION_GRANULARITY) = 0
  · rw [if_pos c1]
    refine ⟨fun j h ps _ hj => ?_, fun h _ => ?_, fun _ => ?_⟩ <;>
      (split_ifs <;> first | rfl | exact hj)
  · rw [if_neg c1]
    by_cases c2 : w.directory (a / ALLOCATION_GRANULARITY) ≠ INVALID_HANDLE_VALUE
    · rw [if_pos c2]
      obtain ⟨u1, u2⟩ := UnmapViewOfFile2_frame
        (w.set_mapping (a / ALLOCATION_GRANULARITY) r) a
      have hvm : ∀ j h ps, j ≠ a / ALLOCATION_GRANULARITY → w.vm j = .mapped h ps →
          (if nc = true then (UnmapViewOfFile2 (w.set_mapping (a / ALLOCATION_GRANULARITY) r) a).2
            else CloseHandle (UnmapViewOfFile2
              (w.set_mapping (a / ALLOCATION_GRANULARITY) r) a).2
              (w.directory (a / ALLOCATION_GRANULARITY))).vm j = .mapped h ps := by
        intro j h ps hj hm
        have := u2 j hj
        split_ifs
        · rw [this]; exact hm
        · show (UnmapViewOfFile2 _ a).2.vm j = _
          rw [this]; exact hm
      have hh : ∀ h, (h ≠ w.directory (a / ALLOCATION_GRANULARITY) ∨ nc = true) →
          (if nc = true then (UnmapViewOfFile2 (w.set_mapping (a / ALLOCATION_GRANULARITY) r) a).2
            else CloseHandle (UnmapViewOfFile2
              (w.set_mapping (a / ALLOCATION_GRANULARITY) r) a).2
              (w.directory (a / ALLOCATION_GRANULARITY))).handles h = w.handles h := by
        intro h hc
        by_cases cn : nc = true
        · rw [if_pos cn, u1]; rfl
        · rw [if_neg cn]
          have hne : h ≠ w.directory (a / ALLOCATION_GRANULARITY) := by
            rcases hc with hc | hc
            · exact hc
            · exact absurd hc cn
          simp only [CloseHandle, if_neg hne]
          rw [u1]; rfl
      by_cases c3 : r ≠ 0
      · rw [if_pos c3]
        obtain ⟨r1, r2⟩ := reserve_retry_frame
          (if nc = true then (UnmapViewOfFile2 (w.set_mapping (a / ALLOCATION_GRANULARITY) r) a).2
            else CloseHandle (UnmapViewOfFile2
              (w.set_mapping (a / ALLOCATION_GRANULARITY) r) a).2
              (w.directory (a / ALLOCATION_GRANULARITY))) a ALLOCATION_GRANULARITY
        refine ⟨fun j h ps hj hm => r2 j h ps (hvm j h ps hj hm), fun h hne => ?_,
          fun hn => funext fun h => ?_⟩
        · rw [r1]; exact hh h (Or.inl hne)
        · rw [r1]; exact hh h (Or.inr hn)
      · rw [if_neg c3]
        exact ⟨hvm, fun h hne => hh h (Or.inl hne), fun hn => funext fun h => hh h (Or.inr hn)⟩
    · rw [if_neg c2]
      exact ⟨fun j h ps _ hj => hj, fun h _ => rfl, fun _ => rfl⟩

theorem Block_decommit_frame (w : World) (a offset size : Nat) :
    (∀ j h ps, j ≠ a / ALLOCATION_GRANULARITY → w.vm j = .mapped h ps →
      ∃ ps', (Block.decommit w a offset size).2.vm j = .mapped h ps') ∧
    (∀ h, h ≠ w.directory (a / ALLOCATION_GRANULARITY) →
      (Block.decommit w a offset size).2.handles h = w.handles h) := by
  obtain ⟨u1, u2, _⟩ := Block_unmap_frame w a INVALID_HANDLE_VALUE false
  have hu : (∀ j h ps, j ≠ a / ALLOCATION_GRANULARITY → w.vm j = .mapped h ps →
      ∃ ps', (Block.unmap w a INVALID_HANDLE_VALUE false).2.vm j = .mapped h ps') ∧
    (∀ h, h ≠ w.directory (a / ALLOCATION_GRANULARITY) →
      (Block.unmap w a INVALID_HANDLE_VALUE false).2.handles h = w.handles h) :=
    ⟨fun j h ps hj hm => ⟨ps, u1 j h ps hj hm⟩, u2⟩
  have hid : (∀ j h ps, j ≠ a / ALLOCATION_GRANULARITY → w.vm j = .mapped h ps →
      ∃ ps', w.vm j = .mapped h ps') ∧
    (∀ h, h ≠ w.directory (a / ALLOCATION_GRANULARITY) → w.handles h = w.handles h) :=
    ⟨fun j h ps _ hm => ⟨ps, hm⟩, fun _ _ => rfl⟩
  unfold Block.decommit Block.decommit_pages
  simp only []
  split_ifs
  · exact hu
  · split
    · unfold Block.decommit_mapped
      split
      · exact hu
      · simp only []
        obtain ⟨p1, p2⟩ := VirtualProtectEx_frame w (a + round_up offset PAGE_SIZE)
          (round_down (round_up offset PAGE_SIZE + size) PAGE_SIZE - round_up offset PAGE_SIZE)
          (PageState.DECOMMITTED ||| PAGE_REVERT_TO_FILE_MAP)
        have hp : (∀ j h ps, j ≠ a / ALLOCATION_GRANULARITY → w.vm j = .mapped h ps →
            ∃ ps', (AddressSpace.protect w (a + round_up offset PAGE_SIZE)
              (round_down (round_up offset PAGE_SIZE + size) PAGE_SIZE
                - round_up offset PAGE_SIZE)
              (PageState.DECOMMITTED ||| PAGE_REVERT_TO_FILE_MAP)).vm j = .mapped h ps') ∧
          (∀ h, h ≠ w.directory (a / ALLOCATION_GRANULARITY) →
            (AddressSpace.protect w (a + round_up offset PAGE_SIZE)
              (round_down (round_up offset PAGE_SIZE + size) PAGE_SIZE
                - round_up offset PAGE_SIZE)
              (PageState.DECOMMITTED ||| PAGE_REVERT_TO_FILE_MAP)).handles h = w.handles h) :=
          ⟨fun j h ps _ hm => p2 j h ps hm, fun h _ => by
            show (VirtualProtectEx _ _ _ _).handles h = _
            rw [p1]⟩
        split <;> exact hp
      · exact hid
      · exact hid
      · exact hid
    · exact hid
    · exact hid
    · exact hid
    · exact hid
  · exact hid

/-- The teardown of the source in `Block::copy` leaves the views of the other blocks
mapped to the handles they had, and closes no handle but the one of the source's entry, and
none at all in a move that did not duplicate the handle. -/
theorem Block_copy_teardown_frame (w : World) (src offset size flags : Nat) (move nd : Bool) :
    (∀ j h ps, j ≠ src / ALLOCATION_GRANULARITY → w.vm j = .mapped h ps →
      ∃ ps', (Block.copy_teardown w src offset size flags move nd).2.vm j = .mapped h ps') ∧
    (∀ h, h ≠ w.directory (src / ALLOCATION_GRANULARITY) →
      (Block.copy_teardown w src offset size flags move nd).2.handles h = w.handles h) ∧
    (nd = true → move = true →
      (Block.copy_teardown w src offset size flags move nd).2.handles = w.handles) := by
  unfold Block.copy_teardown
  split_ifs with c1 c2 c3
  · obtain ⟨u1, u2, u3⟩ := Block_unmap_frame w src 0 nd
    exact ⟨fun j h ps hj hm => ⟨ps, u1 j h ps hj hm⟩, u2, fun hn _ => u3 hn⟩
  · obtain ⟨u1, u2, u3⟩ := Block_unmap_frame w src INVALID_HANDLE_VALUE nd
    exact ⟨fun j h ps hj hm => ⟨ps, u1 j h ps hj hm⟩, u2, fun hn _ => u3 hn⟩
  · obtain ⟨d1, d2⟩ := Block_decommit_frame w src offset size
    exact ⟨d1, d2, fun _ hm => absurd hm c3⟩
  · exact ⟨fun j h ps _ hm => ⟨ps, hm⟩, fun _ _ => rfl, fun _ _ => rfl⟩

theorem protect_keeps_views (w0 w : World) (a s p : Nat)
    (hP : w.handles = w0.handles ∧ ∀ j h ps, w0.vm j = .mapped h ps →
      ∃ ps', w.vm j = .mapped h ps') :
    (AddressSpace.protect w a s p).handles = w0.handles ∧ ∀ j h ps, w0.vm j = .mapped h ps →
      ∃ ps', (AddressSpace.protect w a s p).vm j = .mapped h ps' := by
  obtain ⟨p1, p2⟩ := VirtualProtectEx_frame w a s p
  refine ⟨by show (VirtualProtectEx w a s p).handles = _; rw [p1]; exact hP.1,
    fun j h ps hm => ?_⟩
  obtain ⟨ps1, h1⟩ := hP.2 j h ps hm
  exact p2 j h ps1 h1

/-- The protection pass of `Block::copy` closes no handle and leaves every view mapped to
the handle it had. -/
theorem Block_copy_protect_frame (cur dps : List Nat) (a : Nat) (w0 : World) :
    ∀ (fuel rb : Nat) (w : World),
    (w.handles = w0.handles ∧ ∀ j h ps, w0.vm j = .mapped h ps →
      ∃ ps', w.vm j = .mapped h ps') →
    (Block.copy_protect cur dps a fuel rb w).2.handles = w0.handles ∧
      ∀ j h ps, w0.vm j = .mapped h ps →
        ∃ ps', (Block.copy_protect cur dps a fuel rb w).2.vm j = .mapped h ps' := by
  intro fuel
  induction fuel with
  | zero => intro rb w hP; exact hP
  | succ fuel ih =>
    intro rb w hP
    unfold Block.copy_protect
    split
    · exact hP
    · split
      · split
        · simp only []
          split_ifs
          · exact ih _ _ (protect_keeps_views w0 w _ _ _ hP)
          · exact protect_keeps_views w0 w _ _ _ hP
        · exact hP
        · exact hP
        · exact hP
      · exact hP
    · exact hP
    · exact hP
    · exact hP

theorem Block_map_split_frame (w : World) (a : Nat) :
    (Block.map_split w a).2.handles = w.handles ∧
    (Block.map_split w a).2.directory = w.directory := by
  unfold Block.map_split
  simp only []
  obtain ⟨f1, f2, _⟩ := VirtualFreeEx_release_frame w (query w a).AllocationBase
  generalize (VirtualFreeEx_release w (query w a).AllocationBase).2 = w1 at f1 f2
  have hr : ∀ (w2 : World) (x y : Nat), (reserve_retry w2 x y).2.handles = w2.handles ∧
      (reserve_retry w2 x y).2.directory = w2.directory :=
    fun w2 x y => ⟨(reserve_retry_frame w2 x y).1, reserve_retry_directory w2 x y⟩
  by_cases c1 : (query w a).AllocationBase < a
  · rw [if_pos c1]
    rcases hq : reserve_retry w1 (query w a).AllocationBase (a - (query w a).AllocationBase)
      with ⟨q1, w2⟩
    have h2 := hr w1 (query w a).AllocationBase (a - (query w a).AllocationBase)
    rw [hq] at h2
    simp only [] at h2
    cases q1 with
    | ok u =>
      simp only []
      split_ifs
      · have h3 := hr w2 (a + ALLOCATION_GRANULARITY)
          ((query w a).BaseAddress + (query w a).RegionSize - (a + ALLOCATION_GRANULARITY))
        exact ⟨by rw [h3.1, h2.1, f1], by rw [h3.2, h2.2, f2]⟩
      · exact ⟨by rw [h2.1, f1], by rw [h2.2, f2]⟩
    | raise e => exact ⟨by rw [h2.1, f1], by rw [h2.2, f2]⟩
    | hang => exact ⟨by rw [h2.1, f1], by rw [h2.2, f2]⟩
    | fault => exact ⟨by rw [h2.1, f1], by rw [h2.2, f2]⟩
  · rw [if_neg c1]
    simp only []
    split_ifs
    · have h3 := hr w1 (a + ALLOCATION_GRANULARITY)
        ((query w a).BaseAddress + (query w a).RegionSize - (a + ALLOCATION_GRANULARITY))
      exact ⟨by rw [h3.1, f1], by rw [h3.2, f2]⟩
    · exact ⟨f1, f2⟩

/-- A view that `MapViewOfFile2` has mapped: the handle is open, and the block holds a
view of it. -/
theorem map_view_retry_ok (w : World) (mapping a protection : Nat) (w1 : World)
    (h : map_view_retry w mapping a protection = (.ok (), w1)) :
    ∃ obj ps, w.handles mapping = some obj ∧ mapping ≠ 0 ∧ mapping ≠ INVALID_HANDLE_VALUE ∧
      w1.handles = w.handles ∧ w1.directory = w.directory ∧
      w1.vm (a / ALLOCATION_GRANULARITY) = .mapped mapping ps := by
  have hG : ALLOCATION_GRANULARITY = 65536 := rfl
  have key : MapViewOfFile2 w mapping a protection = (0, w) ∨
      ∃ obj, w.handles mapping = some obj ∧ mapping ≠ 0 ∧ mapping ≠ INVALID_HANDLE_VALUE ∧
        0 < a / ALLOCATION_GRANULARITY ∧
        MapViewOfFile2 w mapping a protection = (a, w.set_vm (a / ALLOCATION_GRANULARITY)
          (.mapped mapping (view_protect w obj protection))) := by
    unfold MapViewOfFile2
    simp only []
    cases hh : w.handles mapping with
    | none => exact Or.inl rfl
    | some obj =>
      simp only []
      by_cases c : mapping ≠ 0 ∧ mapping ≠ INVALID_HANDLE_VALUE ∧
          a % ALLOCATION_GRANULARITY = 0 ∧ 0 < a / ALLOCATION_GRANULARITY ∧
          a / ALLOCATION_GRANULARITY < w.directory_size ∧
          w.vm (a / ALLOCATION_GRANULARITY) = .free
      · rw [if_pos c]
        exact Or.inr ⟨obj, rfl, c.1, c.2.1, c.2.2.2.1, rfl⟩
      · rw [if_neg c]
        exact Or.inl rfl
  unfold map_view_retry at h
  simp only [] at h
  rcases key with e | ⟨obj, h1, h2, h3, h4, e⟩
  · rw [e] at h
    simp at h
  · rw [e] at h
    simp only [] at h
    have ha : a ≠ 0 := by
      intro h0
      rw [h0, hG] at h4
      omega
    rw [if_neg ha] at h
    have hw : w1 = w.set_vm (a / ALLOCATION_GRANULARITY)
        (.mapped mapping (view_protect w obj protection)) := (congrArg Prod.snd h).symm
    subst hw
    exact ⟨obj, view_protect w obj protection, h1, h2, h3, rfl, rfl, by simp [World.set_vm]⟩

/-- What `Block::map (mapping, protection, commit = false)` has done when it returns: the
entry of the block is `mapping`, an open handle other than the entry before, the block
holds a view of it, and no handle but the one of the old entry has been closed. -/
theorem Block_map_ok (w : World) (dst mapping protection : Nat) (w1 : World)
    (h : Block.map w dst mapping protection false = (.ok (), w1)) :
    ∃ obj ps, w.handles mapping = some obj ∧ w1.handles mapping = some obj ∧
      mapping ≠ INVALID_HANDLE_VALUE ∧ mapping ≠ w.directory (dst / ALLOCATION_GRANULARITY) ∧
      w1.directory (dst / ALLOCATION_GRANULARITY) = mapping ∧
      (∀ j, j ≠ dst / ALLOCATION_GRANULARITY → w1.directory j = w.directory j) ∧
      w1.vm (dst / ALLOCATION_GRANULARITY) = .mapped mapping ps ∧
      (∀ x, x ≠ w.directory (dst / ALLOCATION_GRANULARITY) → w1.handles x = w.handles x) := by
  unfold Block.map at h
  simp only [Bool.false_eq_true, if_false] at h
  have hdir : ∀ (wx : World), wx.directory
      = (w.set_mapping (dst / ALLOCATION_GRANULARITY) mapping).directory →
      wx.directory (dst / ALLOCATION_GRANULARITY) = mapping ∧
      ∀ j, j ≠ dst / ALLOCATION_GRANULARITY → wx.directory j = w.directory j := by
    intro wx hx
    rw [hx]
    exact ⟨by simp [World.set_mapping], fun j hj => by simp [World.set_mapping, hj]⟩
  by_cases c1 : w.directory (dst / ALLOCATION_GRANULARITY) = INVALID_HANDLE_VALUE
  · rw [if_pos c1] at h
    obtain ⟨s1, s2⟩ := Block_map_split_frame
      (w.set_mapping (dst / ALLOCATION_GRANULARITY) mapping) dst
    rcases hms : Block.map_split (w.set_mapping (dst / ALLOCATION_GRANULARITY) mapping) dst
      with ⟨r, w2⟩
    rw [hms] at h s1 s2
    simp only [] at s1 s2
    cases r with
    | ok u =>
      simp only [] at h
      obtain ⟨obj, ps, m1, m2, m3, m4, m5, m6⟩ := map_view_retry_ok w2 mapping dst protection w1 h
      have hh : w2.handles = w.handles := by rw [s1]; rfl
      obtain ⟨d1, d2⟩ := hdir w1 (by rw [m5, s2])
      refine ⟨obj, ps, by rw [← hh]; exact m1, by rw [m4]; exact m1, m3, by rw [c1]; exact m3,
        d1, d2, m6, fun x _ => by rw [m4, hh]⟩
    | raise e => simp at h
    | hang => simp at h
    | fault => simp at h
  · rw [if_neg c1] at h
    by_cases c2 : w.directory (dst / ALLOCATION_GRANULARITY) ≠ 0
    · rw [if_pos c2] at h
      obtain ⟨obj, ps, m1, m2, m3, m4, m5, m6⟩ := map_view_retry_ok _ mapping dst protection w1 h
      obtain ⟨u1, _⟩ := UnmapViewOfFile2_frame
        (w.set_mapping (dst / ALLOCATION_GRANULARITY) mapping) dst
      have hc : ∀ x, (CloseHandle (UnmapViewOfFile2
          (w.set_mapping (dst / ALLOCATION_GRANULARITY) mapping) dst).2
          (w.directory (dst / ALLOCATION_GRANULARITY))).handles x =
          if x = w.directory (dst / ALLOCATION_GRANULARITY) then none else w.handles x := by
        intro x
        simp only [CloseHandle]
        rw [u1]
        rfl
      have hne : mapping ≠ w.directory (dst / ALLOCATION_GRANULARITY) := by
        intro he
        rw [hc mapping, if_pos he] at m1
        cases m1
      rw [hc mapping, if_neg hne] at m1
      obtain ⟨d1, d2⟩ := hdir w1 (by
        rw [m5]
        show (UnmapViewOfFile2 _ dst).2.directory = _
        rw [UnmapViewOfFile2_directory])
      refine ⟨obj, ps, m1, by rw [m4, hc mapping, if_neg hne]; exact m1, m3, hne, d1, d2, m6,
        fun x hx => by rw [m4, hc x, if_neg hx]⟩
    · rw [if_neg c2] at h
      simp at h

/-- What the rewiring step of `Block::copy` has done when it returns: the entry of the
destination is a new handle, open on the object behind the source's handle, with its view;
the handle is the source's own only when it was not duplicated. -/
theorem Block_copy_remap_ok (w : World) (dst src : Nat) (move nd : Bool) (dup : Nat)
    (w1 : World) (hne : dst / ALLOCATION_GRANULARITY ≠ src / ALLOCATION_GRANULARITY)
    (h : Block.copy_remap w dst src move nd dup = (.ok (), w1)) :
    ∃ obj ps, w.handles (Block.mapping w src) = some obj ∧
      w1.handles (w1.directory (dst / ALLOCATION_GRANULARITY)) = some obj ∧
      w1.directory (dst / ALLOCATION_GRANULARITY) ≠ w.directory (dst / ALLOCATION_GRANULARITY) ∧
      w1.directory (src / ALLOCATION_GRANULARITY) = w.directory (src / ALLOCATION_GRANULARITY) ∧
      w1.vm (dst / ALLOCATION_GRANULARITY)
        = .mapped (w1.directory (dst / ALLOCATION_GRANULARITY)) ps ∧
      (nd = false → w1.directory (dst / ALLOCATION_GRANULARITY)
        ≠ w.directory (src / ALLOCATION_GRANULARITY)) := by
  unfold Block.copy_remap at h
  by_cases cn : nd = true
  · rw [if_neg (by simpa using cn)] at h
    obtain ⟨obj, ps, m1, m2, m3, m4, m5, m6, m7, m8⟩ := Block_map_ok w dst _ _ w1 h
    refine ⟨obj, ps, m1, by rw [m5]; exact m2, by rw [m5]; exact m4,
      m6 _ (fun e => hne e.symm), by rw [m5]; exact m7, fun hf => ?_⟩
    rw [hf] at cn
    cases cn
  · rw [if_pos (by simpa using cn)] at h
    simp only [] at h
    unfold DuplicateHandle at h
    cases hh : w.handles (Block.mapping w src) with
    | none =>
      rw [hh] at h
      simp at h
    | some obj =>
      rw [hh] at h
      simp only [] at h
      by_cases cd : dup ≠ 0 ∧ dup ≠ INVALID_HANDLE_VALUE ∧ w.handles dup = none
      · rw [if_pos cd] at h
        simp only [] at h
        rw [if_neg cd.1] at h
        obtain ⟨wd, hwd⟩ : ∃ wd : World, wd = { w with
            handles := fun k => if k = dup then some obj else w.handles k } := ⟨_, rfl⟩
        rw [← hwd] at h
        have hm : Block.map wd dst dup (if move = true then MAP_PRIVATE else MAP_SHARED) false
            = (.ok (), w1) := by
          rcases hx : Block.map wd dst dup (if move = true then MAP_PRIVATE else MAP_SHARED)
            false with ⟨r, w2⟩
          rw [hx] at h
          cases r with
          | ok u => exact h
          | raise e => simp at h
          | hang => simp at h
          | fault => simp at h
        obtain ⟨obj', ps, m1, m2, m3, m4, m5, m6, m7, m8⟩ := Block_map_ok wd dst _ _ w1 hm
        have hd : wd.directory = w.directory := by rw [hwd]
        have hobj : obj' = obj := by
          rw [hwd] at m1
          simp only [if_true] at m1
          cases m1
          rfl
        subst hobj
        have hds : dup ≠ w.directory (src / ALLOCATION_GRANULARITY) := by
          intro he
          have : w.handles dup = some obj' := by rw [he]; exact hh
          rw [cd.2.2] at this
          cases this
        refine ⟨obj', ps, rfl, by rw [m5]; exact m2, by rw [m5, ← hd]; exact m4, ?_,
          by rw [m5]; exact m7, fun _ => by rw [m5]; exact hds⟩
        rw [m6 _ (fun e => hne e.symm), hd]
      · rw [if_neg cd] at h
        simp at h

/-- With `remap`, `Block::copy (remap, move, ...)` that returns has rewired the
destination to the mapping of the source. -/
theorem Block_copy6_remap_ok (w : World) (dst src offset size flags dup : Nat) (move : Bool)
    (w' : World) (hne : dst / ALLOCATION_GRANULARITY ≠ src / ALLOCATION_GRANULARITY)
    (h : Block.copy6 w dst true move src offset size flags dup = (.ok (), w')) :
    Remapped w w' dst src := by
  unfold Block.copy6 at h
  simp only [if_true] at h
  cases hd : Block.copy_dst_page_state move
      (if move = true then Block.page_state w src else .ok []) offset size flags with
  | ok dps =>
    rw [hd] at h
    simp only [] at h
    rcases hr : Block.copy_remap w dst src move (move && w.is_current_process) dup
      with ⟨r1, w1⟩
    rw [hr] at h
    cases r1 with
    | ok u1 =>
      simp only [] at h
      rcases ht : Block.copy_teardown w1 src offset size flags move
        (move && w.is_current_process) with ⟨r2, w2⟩
      have tf := Block_copy_teardown_frame w1 src offset size flags move
        (move && w.is_current_process)
      have td := Block_copy_teardown_directory w1 src offset size flags move
        (move && w.is_current_process) (dst / ALLOCATION_GRANULARITY) hne
      rw [ht] at h tf td
      simp only [] at tf td
      obtain ⟨t1, t2, t3⟩ := tf
      cases r2 with
      | ok u2 =>
        simp only [] at h
        cases hp : Block.page_state w2 dst with
        | ok cur =>
          rw [hp] at h
          simp only [] at h
          have pd := Block_copy_protect_directory cur dps dst (PAGES_PER_BLOCK + 1) 0 w2
          have pf := Block_copy_protect_frame cur dps dst w2 (PAGES_PER_BLOCK + 1) 0 w2
            ⟨rfl, fun j x ps hm => ⟨ps, hm⟩⟩
          rw [h] at pd pf
          simp only [] at pd pf
          obtain ⟨p1, p2⟩ := pf
          obtain ⟨obj, ps, q1, q2, q3, q4, q5, q6⟩ :=
            Block_copy_remap_ok w dst src move _ dup w1 hne hr
          have hdir : w'.directory (dst / ALLOCATION_GRANULARITY)
              = w1.directory (dst / ALLOCATION_GRANULARITY) := by rw [pd, td]
          have hh : w2.handles (w1.directory (dst / ALLOCATION_GRANULARITY))
              = w1.handles (w1.directory (dst / ALLOCATION_GRANULARITY)) := by
            cases hnd : (move && w.is_current_process) with
            | true =>
              have hmv : move = true := by
                cases move with
                | true => rfl
                | false => simp at hnd
              rw [t3 hnd hmv]
            | false =>
              exact t2 _ (by rw [q4]; exact q6 hnd)
          obtain ⟨ps1, v1⟩ := t1 _ _ ps hne q5
          obtain ⟨ps2, v2⟩ := p2 _ _ ps1 v1
          unfold Remapped Block.mapping
          rw [hdir]
          exact ⟨q3, ⟨obj, q1, by rw [p1, hh]; exact q2⟩, ps2, v2⟩
        | raise e => rw [hp] at h; simp at h
        | hang => rw [hp] at h; simp at h
        | fault => rw [hp] at h; simp at h
      | raise e => simp at h
      | hang => simp at h
      | fault => simp at h
    | raise e => simp at h
    | hang => simp at h
    | fault => simp at h
  | raise e => rw [hd] at h; simp at h
  | hang => rw [hd] at h; simp at h
  | fault => rw [hd] at h; simp at h

/-- Without `remap`, `Block::copy (remap, move, ...)` leaves the destination block mapped
to the handle it had, whatever its outcome. -/
theorem Block_copy6_no_remap_view (w : World) (dst src offset size flags dup : Nat)
    (move : Bool) (hne : dst / ALLOCATION_GRANULARITY ≠ src / ALLOCATION_GRANULARITY) :
    ∀ x ps, w.vm (dst / ALLOCATION_GRANULARITY) = .mapped x ps →
      ∃ ps', (Block.copy6 w dst false move src offset size flags dup).2.vm
        (dst / ALLOCATION_GRANULARITY) = .mapped x ps' := by
  intro x ps hm
  unfold Block.copy6
  simp only [Bool.false_eq_true, if_false]
  split
  · obtain ⟨t1, _, _⟩ := Block_copy_teardown_frame w src offset size flags move
      (move && w.is_current_process)
    obtain ⟨ps1, v1⟩ := t1 _ x ps hne hm
    split
    · rename_i heq
      rw [heq] at v1
      simp only [] at v1
      split
      · exact (Block_copy_protect_frame _ _ dst _ (PAGES_PER_BLOCK + 1) 0 _
          ⟨rfl, fun j y qs hq => ⟨qs, hq⟩⟩).2 _ x ps1 v1
      · exact ⟨ps1, v1⟩
      · exact ⟨ps1, v1⟩
      · exact ⟨ps1, v1⟩
    · exact ⟨ps1, v1⟩
  · exact ⟨ps, hm⟩
  · exact ⟨ps, hm⟩
  · exact ⟨ps, hm⟩

/-- Claim C13: `Block::copy (src, offset, size, flags)` on a destination block other than
the source block.  When the destination's entry is the sentinel, or holds a handle that does
not compare equal to the source's while `has_data_outside_of (offset, size)` is false for
the destination, a copy that returns has remapped the destination: its entry is another
handle than before, open on the object of the source's mapping, and the block holds a view
of it.  When the handles do not compare equal and `has_data_outside_of (offset, size)` is
true, it raises `INTERNAL` and nothing at all has changed.  When the two handles compare
equal it never remaps: whatever the outcome, the destination's entry is as before and the
block is still a view of the handle it was a view of. -/
theorem Block_copy_remap (w : World) (dst src offset size flags dup : Nat)
    (hne : dst / ALLOCATION_GRANULARITY ≠ src / ALLOCATION_GRANULARITY) :
    ((Block.mapping w dst = INVALID_HANDLE_VALUE ∨
        (CompareObjectHandles w (Block.mapping w dst) (Block.mapping w src) = false ∧
          Block.has_data_outside_of w dst offset size PageState.MASK_ACCESS = .ok false)) →
      ∀ w', Block.copy w dst src offset size flags dup = (.ok (), w') →
        Remapped w w' dst src) ∧
    (Block.mapping w dst ≠ INVALID_HANDLE_VALUE →
      CompareObjectHandles w (Block.mapping w dst) (Block.mapping w src) = false →
      Block.has_data_outside_of w dst offset size PageState.MASK_ACCESS = .ok true →
      Block.copy w dst src offset size flags dup = (.raise .INTERNAL, w)) ∧
    (Block.mapping w dst ≠ INVALID_HANDLE_VALUE →
      CompareObjectHandles w (Block.mapping w dst) (Block.mapping w src) = true →
      Block.mapping (Block.copy w dst src offset size flags dup).2 dst = Block.mapping w dst ∧
      ∀ x ps, w.vm (dst / ALLOCATION_GRANULARITY) = .mapped x ps →
        ∃ ps', (Block.copy w dst src offset size flags dup).2.vm
          (dst / ALLOCATION_GRANULARITY) = .mapped x ps') := by
  obtain ⟨d1, d2, d3⟩ := Block_copy_decision w dst src offset size flags dup
  have hsent : Block.mapping w dst = INVALID_HANDLE_VALUE →
      ∀ w', Block.copy w dst src offset size flags dup = (.ok (), w') →
        Remapped w w' dst src := by
    intro hs w' h
    cases hcm : Block.can_move w src offset size flags with
    | ok move =>
      rw [d1 hs move hcm] at h
      exact Block_copy6_remap_ok w dst src offset size flags dup move w' hne h
    | raise e =>
      unfold Block.copy at h
      simp only [hs, if_true, hcm, Res.pure_eq, Res.ok_bind, Res.raise_bind] at h
      simp at h
    | hang =>
      unfold Block.copy at h
      simp only [hs, if_true, hcm, Res.pure_eq, Res.ok_bind, Res.hang_bind] at h
      simp at h
    | fault =>
      unfold Block.copy at h
      simp only [hs, if_true, hcm, Res.pure_eq, Res.ok_bind, Res.fault_bind] at h
      simp at h
  refine ⟨?_, fun hs hc hd => (d2 hs hc).1 hd, ?_⟩
  · rintro (hs | ⟨hc, hd⟩) w' h
    · exact hsent hs w' h
    · by_cases hs : Block.mapping w dst = INVALID_HANDLE_VALUE
      · exact hsent hs w' h
      · have hs' : ¬ (INVALID_HANDLE_VALUE = Block.mapping w dst) := fun e => hs e.symm
        cases hcm : Block.can_move w src offset size flags with
        | ok move =>
          rw [(d2 hs hc).2 hd move hcm] at h
          exact Block_copy6_remap_ok w dst src offset size flags dup move w' hne h
        | raise e =>
          unfold Block.copy at h
          simp only [hs', if_false, hc, Bool.false_eq_true, not_false_eq_true, if_true, hd,
            Res.ok_bind, hcm, Res.pure_eq, Res.raise_bind] at h
          simp at h
        | hang =>
          unfold Block.copy at h
          simp only [hs', if_false, hc, Bool.false_eq_true, not_false_eq_true, if_true, hd,
            Res.ok_bind, hcm, Res.pure_eq, Res.hang_bind] at h
          simp at h
        | fault =>
          unfold Block.copy at h
          simp only [hs', if_false, hc, Bool.false_eq_true, not_false_eq_true, if_true, hd,
            Res.ok_bind, hcm, Res.pure_eq, Res.fault_bind] at h
          simp at h
  · intro hs hc
    have hs' : ¬ (INVALID_HANDLE_VALUE = Block.mapping w dst) := fun e => hs e.symm
    cases hcm : Block.can_move w src offset size flags with
    | ok move =>
      rw [(d3 hs hc move hcm).1]
      exact ⟨Block_copy6_no_remap w dst src offset size flags dup move hne,
        Block_copy6_no_remap_view w dst src offset size flags dup move hne⟩
    | raise e =>
      have : Block.copy w dst src offset size flags dup = (.raise e, w) := by
        unfold Block.copy
        simp only [hs', if_false, hc, not_true_eq_false, Res.pure_eq, Res.ok_bind, hcm,
          Res.raise_bind]
      rw [this]
      exact ⟨rfl, fun x ps hm => ⟨ps, hm⟩⟩
    | hang =>
      have : Block.copy w dst src offset size flags dup = (.hang, w) := by
        unfold Block.copy
        simp only [hs', if_false, hc, not_true_eq_false, Res.pure_eq, Res.ok_bind, hcm,
          Res.hang_bind]
      rw [this]
      exact ⟨rfl, fun x ps hm => ⟨ps, hm⟩⟩
    | fault =>
      have : Block.copy w dst src offset size flags dup = (.fault, w) := by
        unfold Block.copy
        simp only [hs', if_false, hc, not_true_eq_false, Res.pure_eq, Res.ok_bind, hcm,
          Res.fault_bind]
      rw [this]
      exact ⟨rfl, fun x ps hm => ⟨ps, hm⟩⟩

theorem Block_copy_remap_witness :
    2 * ALLOCATION_GRANULARITY / ALLOCATION_GRANULARITY
        ≠ ALLOCATION_GRANULARITY / ALLOCATION_GRANULARITY ∧
      Remapped world_shared_reserved
        (Block.copy world_shared_reserved (2 * ALLOCATION_GRANULARITY) ALLOCATION_GRANULARITY
          0 ALLOCATION_GRANULARITY 0 500).2
        (2 * ALLOCATION_GRANULARITY) ALLOCATION_GRANULARITY :=
  ⟨by decide,
    (Block_copy_remap world_shared_reserved (2 * ALLOCATION_GRANULARITY)
      ALLOCATION_GRANULARITY 0 ALLOCATION_GRANULARITY 0 500 (by decide)).1
      (Or.inl (by decide)) _ (Prod.ext (by decide) rfl)⟩

theorem getD_set (a : List Nat) (i v j : Nat) (hi : i < a.length) :
    (a.set i v).getD j 0 = if j = i then v else a.getD j 0 := by
  rw [List.getD_eq_getElem?_getD, List.getD_eq_getElem?_getD, List.getElem?_set]
  by_cases h : i = j
  · subst h; simp [hi]
  · have h' : ¬ j = i := fun e => h e.symm
    simp [h, h']

/-- What `std::fill (a + first, a + last, v)` leaves. -/
theorem fill_spec (v last : Nat) : ∀ (n first : Nat) (a : List Nat),
    last ≤ a.length → last - first ≤ n →
    ∃ a', fill v last first n a = .ok a' ∧ a'.length = a.length ∧
      ∀ j, a'.getD j 0 = if first ≤ j ∧ j < last then v else a.getD j 0 := by
  intro n
  induction n with
  | zero =>
    intro first a hl hn
    refine ⟨a, ?_, rfl, fun j => ?_⟩
    · unfold fill; rw [if_neg (by omega)]
    · rw [if_neg (by omega)]
  | succ n ih =>
    intro first a hl hn
    unfold fill
    by_cases c : first < last
    · rw [if_pos c]
      have hw : wr a first v = .ok (a.set first v) := by
        unfold wr; rw [if_pos (by omega)]
      obtain ⟨a', h1, h2, h3⟩ := ih (first + 1) (a.set first v)
        (by rw [List.length_set]; exact hl) (by omega)
      refine ⟨a', ?_, ?_, fun j => ?_⟩
      · rw [hw, Res.ok_bind]; exact h1
      · rw [h2, List.length_set]
      · rw [h3 j, getD_set a first v j (by omega)]
        split_ifs <;> first | rfl | (exfalso; omega)
    · rw [if_neg c]
      refine ⟨a, rfl, rfl, fun j => ?_⟩
      rw [if_neg (by omega)]

/-- What the loop of `Block::copy` that decides the target states of a move leaves. -/
theorem copy_move_states_spec (flags : Nat) (src : List Nat) (end_ : Nat) :
    ∀ (fuel k : Nat) (a : List Nat),
    k < end_ → end_ ≤ a.length → end_ ≤ src.length → end_ - k ≤ fuel →
    ∃ a', Block.copy_move_states flags src end_ fuel k a = .ok a' ∧ a'.length = a.length ∧
      ∀ j, a'.getD j 0 = if k ≤ j ∧ j < end_ then moved_state flags (src.getD j 0)
        else a.getD j 0 := by
  intro fuel
  induction fuel with
  | zero => intro k a h1 h2 h3 h4; omega
  | succ n ih =>
    intro k a h1 h2 h3 h4
    unfold Block.copy_move_states
    have hr : rd src k = .ok (src.getD k 0) := rd_eq src k (by omega)
    have hw : wr a k (moved_state flags (src.getD k 0))
        = .ok (a.set k (moved_state flags (src.getD k 0))) := by
      unfold wr; rw [if_pos (by omega)]
    rw [hr, Res.ok_bind, hw, Res.ok_bind]
    by_cases c : k + 1 = end_
    · rw [if_neg (by simpa using c)]
      refine ⟨_, rfl, by rw [List.length_set], fun j => ?_⟩
      rw [getD_set a k _ j (by omega)]
      split_ifs <;> first | rfl | (exfalso; omega) | (subst_vars; rfl)
    · rw [if_pos c]
      obtain ⟨a', e1, e2, e3⟩ := ih (k + 1) (a.set k (moved_state flags (src.getD k 0)))
        (by omega) (by rw [List.length_set]; exact h2) h3 (by omega)
      refine ⟨a', e1, by rw [e2, List.length_set], fun j => ?_⟩
      rw [e3 j, getD_set a k _ j (by omega)]
      split_ifs <;> first | rfl | (exfalso; omega) | (subst_vars; rfl)

/-- Claim C21: for every `offset` and `size > 0` with `offset + size <= ALLOCATION_GRANULARITY`
(and, for a move, the `PAGES_PER_BLOCK` page states of the source), `Block::copy` computes a
vector `dst_page_state` of `PAGES_PER_BLOCK` desired states in which a page that does not
intersect `[offset, offset + size)` is `DECOMMITTED`; a page that intersects it is, on a
move, the `SHARED` variant when the source page at the same index has a `MASK_MAY_BE_SHARED`
bit and the `PRIVATE` variant otherwise, and on a share the `SHARED` variant; it is the
read-only variant exactly when `flags` has `READ_ONLY`. -/
theorem copy_dst_page_state_spec (move : Bool) (src_page_state : List Nat)
    (offset size flags : Nat) (hs : 0 < size) (he : offset + size ≤ ALLOCATION_GRANULARITY)
    (hl : move = true → src_page_state.length = PAGES_PER_BLOCK) :
    ∃ a, Block.copy_dst_page_state move (.ok src_page_state) offset size flags = .ok a ∧
      a.length = PAGES_PER_BLOCK ∧
      ∀ j, j < PAGES_PER_BLOCK → a.getD j 0 =
        if (j + 1) * PAGE_SIZE ≤ offset ∨ offset + size ≤ j * PAGE_SIZE then
          PageState.DECOMMITTED
        else if move = true ∧ src_page_state.getD j 0 &&& PageState.MASK_MAY_BE_SHARED = 0 then
          (if flags &&& READ_ONLY ≠ 0 then PageState.RO_MAPPED_PRIVATE
            else PageState.RW_MAPPED_PRIVATE)
        else
          (if flags &&& READ_ONLY ≠ 0 then PageState.RO_MAPPED_SHARED
            else PageState.RW_MAPPED_SHARED) := by
  have hG : ALLOCATION_GRANULARITY = 65536 := rfl
  have hP : PAGE_SIZE = 4096 := rfl
  have hN : PAGES_PER_BLOCK = 16 := rfl
  have hcov : ∀ j, ((j + 1) * PAGE_SIZE ≤ offset ∨ offset + size ≤ j * PAGE_SIZE) ↔
      ¬ (offset / PAGE_SIZE ≤ j ∧ j < (offset + size + PAGE_SIZE - 1) / PAGE_SIZE) := by
    intro j; simp only [hP]; omega
  have hb : offset / PAGE_SIZE < (offset + size + PAGE_SIZE - 1) / PAGE_SIZE := by
    simp only [hP]; omega
  have hen : (offset + size + PAGE_SIZE - 1) / PAGE_SIZE ≤ PAGES_PER_BLOCK := by
    simp only [hG, hP, hN] at *; omega
  unfold Block.copy_dst_page_state
  simp only []
  generalize offset / PAGE_SIZE = b at hcov hb ⊢
  generalize (offset + size + PAGE_SIZE - 1) / PAGE_SIZE = e at hcov hb hen ⊢
  obtain ⟨a1, f1, l1, g1⟩ := fill_spec PageState.DECOMMITTED b
    (PAGES_PER_BLOCK + 1) 0 (List.replicate PAGES_PER_BLOCK 0)
    (by rw [List.length_replicate]; omega) (by omega)
  rw [List.length_replicate] at l1
  obtain ⟨a2, f2, l2, g2⟩ := fill_spec PageState.DECOMMITTED PAGES_PER_BLOCK
    (PAGES_PER_BLOCK + 1) e a1 (by omega) (by omega)
  rw [f1, Res.ok_bind, f2, Res.ok_bind]
  have hout : ∀ j, j < PAGES_PER_BLOCK → ¬ (b ≤ j ∧ j < e) →
      a2.getD j 0 = PageState.DECOMMITTED := by
    intro j hj c
    rw [g2 j, g1 j]
    split_ifs <;> first | rfl | (exfalso; omega)
  cases move with
  | true =>
    obtain ⟨a3, f3, l3, g3⟩ := copy_move_states_spec flags src_page_state e
      (PAGES_PER_BLOCK + 1) b a2 hb (by omega) (by rw [hl rfl]; exact hen) (by omega)
    refine ⟨a3, ?_, by omega, fun j hj => ?_⟩
    · rw [if_pos rfl, Res.ok_bind]
      exact f3
    · rw [g3 j]
      by_cases c : b ≤ j ∧ j < e
      · rw [if_pos c, if_neg ((hcov j).not_left.mpr c)]
        unfold moved_state
        split_ifs <;> first | rfl | (exfalso; tauto)
      · rw [if_neg c, if_pos ((hcov j).mpr c)]
        exact hout j hj c
  | false =>
    obtain ⟨a3, f3, l3, g3⟩ := fill_spec
      (if READ_ONLY &&& flags ≠ 0 then PageState.RO_MAPPED_SHARED else PageState.RW_MAPPED_SHARED)
      e (PAGES_PER_BLOCK + 1) b a2 (by omega) (by omega)
    refine ⟨a3, ?_, by omega, fun j hj => ?_⟩
    · rw [if_neg (by simp)]
      exact f3
    · rw [g3 j]
      by_cases c : b ≤ j ∧ j < e
      · rw [if_pos c, if_neg ((hcov j).not_left.mpr c)]
        rw [Nat.land_comm READ_ONLY flags]
        split_ifs <;> first | rfl | (exfalso; tauto)
      · rw [if_neg c, if_pos ((hcov j).mpr c)]
        exact hout j hj c

theorem copy_dst_page_state_spec_witness :
    ∃ a, Block.copy_dst_page_state true (.ok (List.replicate 16 PageState.RW_MAPPED_PRIVATE))
        4096 4096 READ_ONLY = .ok a ∧
      a.length = PAGES_PER_BLOCK ∧
      ∀ j, j < PAGES_PER_BLOCK → a.getD j 0 =
        if (j + 1) * PAGE_SIZE ≤ 4096 ∨ 4096 + 4096 ≤ j * PAGE_SIZE then
          PageState.DECOMMITTED
        else if true = true ∧ (List.replicate 16 PageState.RW_MAPPED_PRIVATE).getD j 0 &&&
            PageState.MASK_MAY_BE_SHARED = 0 then
          (if READ_ONLY &&& READ_ONLY ≠ 0 then PageState.RO_MAPPED_PRIVATE
            else PageState.RW_MAPPED_PRIVATE)
        else
          (if READ_ONLY &&& READ_ONLY ≠ 0 then PageState.RO_MAPPED_SHARED
            else PageState.RW_MAPPED_SHARED) :=
  copy_dst_page_state_spec true (List.replicate 16 PageState.RW_MAPPED_PRIVATE) 4096 4096
    READ_ONLY (by decide) (by decide) (fun _ => rfl)

/-- What the skip loop of the protection pass of `Block::copy` finds. -/
theorem copy_skip_spec (cur_ps dst : List Nat) (hc : cur_ps.length = PAGES_PER_BLOCK)
    (hd : dst.length = PAGES_PER_BLOCK) : ∀ (fuel rb : Nat),
    rb < PAGES_PER_BLOCK → PAGES_PER_BLOCK - rb ≤ fuel →
    (Block.copy_skip cur_ps dst fuel rb = .ok none ∧
      ∀ j, rb ≤ j → j < PAGES_PER_BLOCK →
        PageState.MASK_ACCESS &&& (cur_ps.getD j 0 ^^^ dst.getD j 0) = 0) ∨
    ∃ k, Block.copy_skip cur_ps dst fuel rb = .ok (some k) ∧ rb ≤ k ∧ k < PAGES_PER_BLOCK ∧
      PageState.MASK_ACCESS &&& (cur_ps.getD k 0 ^^^ dst.getD k 0) ≠ 0 ∧
      ∀ j, rb ≤ j → j < k →
        PageState.MASK_ACCESS &&& (cur_ps.getD j 0 ^^^ dst.getD j 0) = 0 := by
  intro fuel
  induction fuel with
  | zero => intro rb h1 h2; omega
  | succ n ih =>
    intro rb h1 h2
    unfold Block.copy_skip
    rw [rd_eq cur_ps rb (by omega), Res.ok_bind, rd_eq dst rb (by omega), Res.ok_bind]
    by_cases c : PageState.MASK_ACCESS &&& (cur_ps.getD rb 0 ^^^ dst.getD rb 0) = 0
    · rw [if_pos c]
      by_cases c2 : rb + 1 = PAGES_PER_BLOCK
      · rw [if_pos c2]
        refine Or.inl ⟨rfl, fun j h3 h4 => ?_⟩
        have : j = rb := by omega
        rw [this]; exact c
      · rw [if_neg c2]
        rcases ih (rb + 1) (by omega) (by omega) with ⟨e, h⟩ | ⟨k, e, k1, k2, k3, k4⟩
        · refine Or.inl ⟨e, fun j h3 h4 => ?_⟩
          by_cases hj : j = rb
          · rw [hj]; exact c
          · exact h j (by omega) h4
        · refine Or.inr ⟨k, e, by omega, k2, k3, fun j h3 h4 => ?_⟩
          by_cases hj : j = rb
          · rw [hj]; exact c
          · exact k4 j (by omega) h4
    · rw [if_neg c]
      exact Or.inr ⟨rb, rfl, le_refl _, h1, c, fun j h3 h4 => by omega⟩

/-- The protection pass of `Block::copy`, from page `rb` on: the walk ends, the calls it
makes are those of `Block.copy_protect_regions`, each call covers a run of pages that have
the protection of the call as their desired state, and every page whose access differs is
covered. -/
theorem copy_protect_regions_from (cur_ps dst : List Nat)
    (hc : cur_ps.length = PAGES_PER_BLOCK) (hd : dst.length = PAGES_PER_BLOCK) :
    ∀ (fuel rb : Nat), rb < PAGES_PER_BLOCK → PAGES_PER_BLOCK - rb < fuel →
    ∃ l, Block.copy_protect_regions cur_ps dst fuel rb = .ok l ∧
      (∀ m_address w, Block.copy_protect cur_ps dst m_address fuel rb w
        = (.ok (), Block.protect_regions m_address l w)) ∧
      (∀ r ∈ l, rb ≤ r.region_begin ∧ r.region_begin < r.region_end ∧
        r.region_end ≤ PAGES_PER_BLOCK ∧
        ∀ j, r.region_begin ≤ j → j < r.region_end → dst.getD j 0 = r.state) ∧
      (∀ j, rb ≤ j → j < PAGES_PER_BLOCK →
        PageState.MASK_ACCESS &&& (cur_ps.getD j 0 ^^^ dst.getD j 0) ≠ 0 →
        ∃ r ∈ l, r.region_begin ≤ j ∧ j < r.region_end) := by
  have hN : PAGES_PER_BLOCK = 16 := rfl
  intro fuel
  induction fuel with
  | zero => intro rb h1 h2; omega
  | succ n ih =>
    intro rb h1 h2
    rcases copy_skip_spec cur_ps dst hc hd (PAGES_PER_BLOCK + 1) rb h1 (by omega)
      with ⟨e, h⟩ | ⟨k, e, k1, k2, k3, k4⟩
    · refine ⟨[], ?_, fun m w => ?_, fun r hr => absurd hr (List.not_mem_nil _),
        fun j h3 h4 h5 => absurd (h j h3 h4) h5⟩
      · unfold Block.copy_protect_regions; rw [e]
      · unfold Block.copy_protect; rw [e]; rfl
    · obtain ⟨s1, s2⟩ := same_state_run_spec dst (dst.getD k 0) PAGES_PER_BLOCK
        PAGES_PER_BLOCK (k + 1)
      obtain ⟨re, hre⟩ := s2 (by omega) (by omega)
      obtain ⟨r1, r2, r3⟩ := s1 re hre
      have r2' : re ≤ PAGES_PER_BLOCK := by
        have : max PAGES_PER_BLOCK (k + 1) = PAGES_PER_BLOCK := max_eq_left (by omega)
        rw [this] at r2; exact r2
      have hrun : ∀ j, k ≤ j → j < re → dst.getD j 0 = dst.getD k 0 := by
        intro j h3 h4
        by_cases hj : j = k
        · rw [hj]
        · exact (r3 j (by omega) h4).2
      have hstep : ∀ m w, Block.copy_protect cur_ps dst m (n + 1) rb w =
          if re < PAGES_PER_BLOCK then
            Block.copy_protect cur_ps dst m n re
              (AddressSpace.protect w (m + k * PAGE_SIZE) ((re - k) * PAGE_SIZE) (dst.getD k 0))
          else (.ok (),
            AddressSpace.protect w (m + k * PAGE_SIZE) ((re - k) * PAGE_SIZE) (dst.getD k 0)) := by
        intro m w
        rw [Block.copy_protect, e]
        simp only []
        rw [rd_eq dst k (by omega)]
        simp only []
        rw [hre]
      by_cases c : re < PAGES_PER_BLOCK
      · obtain ⟨l, e1, e2, e3, e4⟩ := ih re c (by omega)
        refine ⟨⟨k, re, dst.getD k 0⟩ :: l, ?_, fun m w => ?_, fun r hr => ?_,
          fun j h3 h4 h5 => ?_⟩
        · rw [Block.copy_protect_regions, e]
          simp only []
          rw [rd_eq dst k (by omega)]
          simp only []
          rw [hre]
          simp only []
          rw [if_pos c, e1]
        · rw [hstep, if_pos c, e2]; rfl
        · rcases List.mem_cons.mp hr with hr | hr
          · subst hr
            exact ⟨k1, (by show k < re; omega), r2', hrun⟩
          · obtain ⟨q1, q2, q3, q4⟩ := e3 r hr
            exact ⟨by omega, q2, q3, q4⟩
        · by_cases hj : j < re
          · by_cases hjk : j < k
            · exact absurd (k4 j h3 hjk) h5
            · exact ⟨_, List.mem_cons_self _ _, (by omega : k ≤ j), hj⟩
          · obtain ⟨r, hr, q⟩ := e4 j (by omega) h4 h5
            exact ⟨r, List.mem_cons_of_mem _ hr, q⟩
      · refine ⟨[⟨k, re, dst.getD k 0⟩], ?_, fun m w => ?_, fun r hr => ?_,
          fun j h3 h4 h5 => ?_⟩
        · rw [Block.copy_protect_regions, e]
          simp only []
          rw [rd_eq dst k (by omega)]
          simp only []
          rw [hre]
          simp only []
          rw [if_neg c]
        · rw [hstep, if_neg c]; rfl
        · rcases List.mem_cons.mp hr with hr | hr
          · subst hr
            exact ⟨k1, (by show k < re; omega), r2', hrun⟩
          · exact absurd hr (List.not_mem_nil _)
        · by_cases hjk : j < k
          · exact absurd (k4 j h3 hjk) h5
          · exact ⟨_, List.mem_cons_self _ _, (by omega : k ≤ j), (by omega : j < re)⟩

/-- Claim C23: for every current page-state vector and every desired vector of
`PAGES_PER_BLOCK` entries, the protection pass of `Block::copy` ends normally without
reading outside either vector; it makes the calls `protect` of the list `l`, each of which
covers a non-empty run of pages of the block that all have the protection of the call as
their desired state; and every page whose current and desired states differ in a
`MASK_ACCESS` bit is covered by one of the calls. -/
theorem copy_protect_regions_spec (cur_ps dst_page_state : List Nat)
    (hc : cur_ps.length = PAGES_PER_BLOCK) (hd : dst_page_state.length = PAGES_PER_BLOCK) :
    ∃ l, Block.copy_protect_regions cur_ps dst_page_state (PAGES_PER_BLOCK + 1) 0 = .ok l ∧
      (∀ m_address w,
        Block.copy_protect cur_ps dst_page_state m_address (PAGES_PER_BLOCK + 1) 0 w
          = (.ok (), Block.protect_regions m_address l w)) ∧
      (∀ r ∈ l, r.region_begin < r.region_end ∧ r.region_end ≤ PAGES_PER_BLOCK ∧
        ∀ j, r.region_begin ≤ j → j < r.region_end → dst_page_state.getD j 0 = r.state) ∧
      (∀ j, j < PAGES_PER_BLOCK →
        PageState.MASK_ACCESS &&& (cur_ps.getD j 0 ^^^ dst_page_state.getD j 0) ≠ 0 →
        ∃ r ∈ l, r.region_begin ≤ j ∧ j < r.region_end) := by
  have hN : PAGES_PER_BLOCK = 16 := rfl
  obtain ⟨l, e1, e2, e3, e4⟩ := copy_protect_regions_from cur_ps dst_page_state hc hd
    (PAGES_PER_BLOCK + 1) 0 (by omega) (by omega)
  exact ⟨l, e1, e2, fun r hr => (e3 r hr).2, fun j hj h => e4 j (Nat.zero_le _) hj h⟩

theorem copy_protect_regions_spec_witness :
    ∃ l, Block.copy_protect_regions (List.replicate 16 PageState.RW_MAPPED_SHARED)
        (List.replicate 16 PageState.DECOMMITTED) (PAGES_PER_BLOCK + 1) 0 = .ok l ∧
      (∀ m_address w,
        Block.copy_protect (List.replicate 16 PageState.RW_MAPPED_SHARED)
          (List.replicate 16 PageState.DECOMMITTED) m_address (PAGES_PER_BLOCK + 1) 0 w
          = (.ok (), Block.protect_regions m_address l w)) ∧
      (∀ r ∈ l, r.region_begin < r.region_end ∧ r.region_end ≤ PAGES_PER_BLOCK ∧
        ∀ j, r.region_begin ≤ j → j < r.region_end →
          (List.replicate 16 PageState.DECOMMITTED).getD j 0 = r.state) ∧
      (∀ j, j < PAGES_PER_BLOCK →
        PageState.MASK_ACCESS &&& ((List.replicate 16 PageState.RW_MAPPED_SHARED).getD j 0 ^^^
          (List.replicate 16 PageState.DECOMMITTED).getD j 0) ≠ 0 →
        ∃ r ∈ l, r.region_begin ≤ j ∧ j < r.region_end) :=
  copy_protect_regions_spec (List.replicate 16 PageState.RW_MAPPED_SHARED)
    (List.replicate 16 PageState.DECOMMITTED) rfl rfl

/-- Claim C24, as amended: `Block::map (handle, protection, commit_only = true)` on a block
whose directory entry is not the sentinel changes neither the directory nor any view.  When
the entry is a real handle it returns without raising and closes the incoming handle, no
other; when the entry is null it raises `INTERNAL` and closes no handle, so the incoming
handle stays open. -/
theorem Block_map_commit_not_reserved (w : World) (m_address mapping protection : Nat)
    (hs : Block.mapping w m_address ≠ INVALID_HANDLE_VALUE) :
    ∃ w', Block.map w m_address mapping protection true =
        (if Block.mapping w m_address ≠ 0 then .ok () else .raise .INTERNAL, w') ∧
      w'.directory = w.directory ∧ w'.vm = w.vm ∧
      (Block.mapping w m_address ≠ 0 →
        w'.handles mapping = none ∧ ∀ h, h ≠ mapping → w'.handles h = w.handles h) ∧
      (Block.mapping w m_address = 0 → w'.handles = w.handles) := by
  unfold Block.mapping at hs ⊢
  by_cases hn : w.directory (m_address / ALLOCATION_GRANULARITY) = 0
  · refine ⟨w.set_mapping (m_address / ALLOCATION_GRANULARITY) 0, ?_, ?_, rfl,
      fun h => absurd hn h, fun _ => rfl⟩
    · unfold Block.map
      simp only [hs, hn, if_false, if_true, ne_eq, not_true_eq_false, not_false_eq_true,
        INVALID_ne_zero.symm]
    · funext j
      simp only [World.set_mapping]
      split_ifs with c
      · rw [c, hn]
      · rfl
  · refine ⟨CloseHandle w mapping, ?_, rfl, rfl, fun _ => ⟨?_, fun h hh => ?_⟩,
      fun h => absurd h hn⟩
    · unfold Block.map
      simp only [hs, hn, if_false, if_true, ne_eq, not_false_eq_true]
    · simp [CloseHandle]
    · simp [CloseHandle, hh]

theorem Block_map_commit_not_reserved_witness :
    ∃ w', Block.map world_shared ALLOCATION_GRANULARITY 101 MAP_PRIVATE true =
        (if Block.mapping world_shared ALLOCATION_GRANULARITY ≠ 0 then .ok ()
          else .raise .INTERNAL, w') ∧
      w'.directory = world_shared.directory ∧ w'.vm = world_shared.vm ∧
      (Block.mapping world_shared ALLOCATION_GRANULARITY ≠ 0 →
        w'.handles 101 = none ∧ ∀ h, h ≠ 101 → w'.handles h = world_shared.handles h) ∧
      (Block.mapping world_shared ALLOCATION_GRANULARITY = 0 →
        w'.handles = world_shared.handles) :=
  Block_map_commit_not_reserved world_shared ALLOCATION_GRANULARITY 101 MAP_PRIVATE
    (by decide)

/-- Claim C24 fails on a null entry: block 2 of the sample process is not allocated, and
`Block::map (100, MAP_PRIVATE, commit_only = true)` on it raises `INTERNAL` and leaves the
incoming handle 100 open. -/
theorem Block_map_commit_null_raises :
    Block.mapping world_shared (2 * ALLOCATION_GRANULARITY) = 0 ∧
    (Block.map world_shared (2 * ALLOCATION_GRANULARITY) 100 MAP_PRIVATE true).1
      = .raise .INTERNAL ∧
    (Block.map world_shared (2 * ALLOCATION_GRANULARITY) 100 MAP_PRIVATE true).2.handles 100
      = some 7 := by
  decide

/-- Claim C22 at a failing input: blocks 1 and 3 are views of one mapping with every page
committed; `Block::copy` of the range `[1, 4097)` from block 1 to block 3 with `DECOMMIT`
returns; the copy is not a move (the source has data outside the range), no whole page of
the source lies inside `[1, 4097)`, and yet page 1 of the source, `[4096, 8192)`, has become
`DECOMMITTED`. -/
theorem copy_decommits_beyond_range :
    Block.can_move world_shared ALLOCATION_GRANULARITY 1 4096 DECOMMIT = .ok false ∧
    (Block.copy world_shared (3 * ALLOCATION_GRANULARITY) ALLOCATION_GRANULARITY 1 4096
      DECOMMIT 0).1 = .ok () ∧
    page_protect world_shared 1 1 = PageState.RW_MAPPED_SHARED ∧
    page_protect (Block.copy world_shared (3 * ALLOCATION_GRANULARITY) ALLOCATION_GRANULARITY
      1 4096 DECOMMIT 0).2 1 1 = PageState.DECOMMITTED := by
  decide

/-- Claim C27 at a failing input: the region `[10, 110)` minus the range `[20, 50)`, which
lies strictly inside it: `size` is set to zero and then reduced by `my_end - begin = 90`, so
the region comes out as `[10, 10 + 2 ^ 64 - 90)`. -/
theorem subtract_inner_range_wraps :
    Region.subtract ⟨10, 100⟩ 20 50 = ⟨10, 2 ^ 64 - 90⟩ ∧
    (Region.subtract ⟨10, 100⟩ 20 50).size > 100 := by
  decide

/-- Claim C28 at a failing input: blocks 1 and 3 of the current process are views of one
mapping through the handles 100 and 101; `Block::copy` of the whole block 1 to block 3 with
`RELEASE` does not remap, is a move, and returns; the entry of the source has gone from 100
to null, the destination still holds 101, and the handle 100 is still open. -/
theorem copy_move_drops_open_handle :
    world_shared.is_current_process = true ∧
    Block.mapping world_shared ALLOCATION_GRANULARITY = 100 ∧
    (Block.copy world_shared (3 * ALLOCATION_GRANULARITY) ALLOCATION_GRANULARITY 0
      ALLOCATION_GRANULARITY RELEASE 0).1 = .ok () ∧
    (∀ i, (Block.copy world_shared (3 * ALLOCATION_GRANULARITY) ALLOCATION_GRANULARITY 0
      ALLOCATION_GRANULARITY RELEASE 0).2.directory i ≠ 100) ∧
    (Block.copy world_shared (3 * ALLOCATION_GRANULARITY) ALLOCATION_GRANULARITY 0
      ALLOCATION_GRANULARITY RELEASE 0).2.directory 3 = 101 ∧
    (Block.copy world_shared (3 * ALLOCATION_GRANULARITY) ALLOCATION_GRANULARITY 0
      ALLOCATION_GRANULARITY RELEASE 0).2.handles 100 = some 7 := by
  have hd : (Block.copy world_shared (3 * ALLOCATION_GRANULARITY) ALLOCATION_GRANULARITY 0
      ALLOCATION_GRANULARITY RELEASE 0).2.directory =
      fun i => if i = 1 then 0 else world_shared.directory i := by
    rfl
  refine ⟨by decide, by decide, by decide, ?_, by decide, by decide⟩
  intro i
  rw [hd]
  unfold world_shared
  simp only []
  split_ifs <;> omega

/-- The compare-and-swap walk of `AddressSpace::reserve` when it stops at an entry that is
not null: the entries before it were null and now hold the sentinel, nothing else has
changed. -/
theorem reserve_claim_stops (n : Nat) : ∀ (w : World) (b pb : Nat) (w2 : World),
    AddressSpace.reserve_claim w (b * ALLOCATION_GRANULARITY) n = (some pb, w2) →
    ∃ k, k < n ∧ pb = (b + k) * ALLOCATION_GRANULARITY ∧
      (∀ j, b ≤ j → j < b + k → w.directory j = 0) ∧ w.directory (b + k) ≠ 0 ∧
      (∀ j, w2.directory j = if b ≤ j ∧ j < b + k then INVALID_HANDLE_VALUE
        else w.directory j) ∧
      w2.vm = w.vm := by
  induction n with
  | zero =>
    intro w b pb w2 h
    unfold AddressSpace.reserve_claim at h
    cases h
  | succ n ih =>
    intro w b pb w2 h
    unfold AddressSpace.reserve_claim at h
    rw [block_div] at h
    by_cases c : w.directory b ≠ 0
    · rw [if_pos c] at h
      cases h
      refine ⟨0, by omega, by rw [Nat.add_zero], fun j h1 h2 => by omega, c, fun j => ?_, rfl⟩
      rw [if_neg (by omega)]
    · rw [if_neg c] at h
      have hb : w.directory b = 0 := by simpa using c
      rw [show b * ALLOCATION_GRANULARITY + ALLOCATION_GRANULARITY
        = (b + 1) * ALLOCATION_GRANULARITY by ring] at h
      obtain ⟨k, k1, k2, k3, k4, k5, k6⟩ := ih _ (b + 1) pb w2 h
      refine ⟨k + 1, by omega, by rw [k2]; ring_nf, fun j h1 h2 => ?_, ?_, fun j => ?_, ?_⟩
      · by_cases hj : j = b
        · rw [hj]; exact hb
        · have := k3 j (by omega) (by omega)
          simpa [World.set_mapping, hj] using this
      · have := k4
        have hne : b + 1 + k ≠ b := by omega
        simp only [World.set_mapping, if_neg hne] at this
        rwa [show b + (k + 1) = b + 1 + k by omega]
      · rw [k5 j]
        simp only [World.set_mapping]
        split_ifs <;> first | rfl | (exfalso; omega)
      · rw [k6]; rfl

/-- The rollback of `AddressSpace::reserve`: the `k` entries below `pb` are reset to null,
nothing else changes. -/
theorem reserve_rollback_spec (k : Nat) : ∀ (w : World) (b : Nat),
    (∀ j, (AddressSpace.reserve_rollback w ((b + k) * ALLOCATION_GRANULARITY) k).directory j =
      if b ≤ j ∧ j < b + k then 0 else w.directory j) ∧
    (AddressSpace.reserve_rollback w ((b + k) * ALLOCATION_GRANULARITY) k).vm = w.vm := by
  induction k with
  | zero =>
    intro w b
    unfold AddressSpace.reserve_rollback
    exact ⟨fun j => by rw [if_neg (by omega)], rfl⟩
  | succ k ih =>
    intro w b
    unfold AddressSpace.reserve_rollback
    have e1 : (b + (k + 1)) * ALLOCATION_GRANULARITY - ALLOCATION_GRANULARITY
        = (b + k) * ALLOCATION_GRANULARITY := by
      have hG : ALLOCATION_GRANULARITY = 65536 := rfl
      rw [hG]; omega
    rw [e1, block_div]
    obtain ⟨h1, h2⟩ := ih (w.set_mapping (b + k) 0) b
    refine ⟨fun j => ?_, by rw [h2]; rfl⟩
    rw [h1 j]
    simp only [World.set_mapping]
    split_ifs <;> first | rfl | (exfalso; omega)

/-- Claim C25: when, in one pass of the loop of `AddressSpace::reserve`, the compare-and-swap
of some block's entry from null to the sentinel fails and the attempt is rolled back, the
directory is identical to its state before the attempt, and the OS reservation of the
attempt is released: every block that was free is free again (and, when the reservations
of the process were whole, the OS state is identical too). -/
theorem reserve_rollback_restores (w : World) (size dst choice : Nat) (w' : World)
    (h : AddressSpace.reserve_attempt w size dst choice = (none, false, w')) :
    w'.directory = w.directory ∧ (∀ j, w.vm j = .free → w'.vm j = .free) ∧
      (ReservationsWhole w → w'.vm = w.vm) := by
  have hG : ALLOCATION_GRANULARITY = 65536 := rfl
  unfold AddressSpace.reserve_attempt at h
  simp only [] at h
  -- the request is one call of `VirtualAllocEx`, at `dst` or at the base the OS picks
  obtain ⟨a, ha⟩ : ∃ a, (if dst = 0 then VirtualAllocEx_reserve_any w size choice
      else VirtualAllocEx_reserve w dst size) = (0, w) ∨
      (if dst = 0 then VirtualAllocEx_reserve_any w size choice
      else VirtualAllocEx_reserve w dst size) = VirtualAllocEx_reserve w a size := by
    by_cases hd : dst = 0
    · simp only [if_pos hd]
      unfold VirtualAllocEx_reserve_any
      by_cases hc : choice = 0 ∨ choice % ALLOCATION_GRANULARITY ≠ 0
      · exact ⟨0, Or.inl (by rw [if_pos hc])⟩
      · exact ⟨choice, Or.inr (by rw [if_neg hc])⟩
    · exact ⟨dst, Or.inr (by simp only [if_neg hd])⟩
  rcases ha with ha | ha
  · rw [ha] at h
    simp at h
  rw [ha] at h
  unfold VirtualAllocEx_reserve at h
  simp only [] at h
  by_cases hf : 0 < size ∧ blocks_free w (a / ALLOCATION_GRANULARITY)
      ((a + size + ALLOCATION_GRANULARITY - 1) / ALLOCATION_GRANULARITY) = true
  swap
  · rw [if_neg hf] at h
    simp at h
  rw [if_pos hf] at h
  simp only [] at h
  obtain ⟨hs, hfree⟩ := hf
  obtain ⟨hb0, hedir, hfr⟩ := (blocks_free_iff w _ _).1 hfree
  have hbe : a / ALLOCATION_GRANULARITY
      < (a + size + ALLOCATION_GRANULARITY - 1) / ALLOCATION_GRANULARITY := by
    rw [hG]; omega
  generalize a / ALLOCATION_GRANULARITY = b at h hb0 hfr hfree hbe
  generalize (a + size + ALLOCATION_GRANULARITY - 1) / ALLOCATION_GRANULARITY = e
    at h hedir hfr hfree hbe
  have hp : b * ALLOCATION_GRANULARITY ≠ 0 := by rw [hG]; omega
  rw [if_neg hp] at h
  cases hc : AddressSpace.reserve_claim
      { w with vm := fun j => if b ≤ j ∧ j < e then VBlock.reserved b e else w.vm j }
      (b * ALLOCATION_GRANULARITY) (size / ALLOCATION_GRANULARITY) with
  | mk o w2 =>
    rw [hc] at h
    cases o with
    | none => simp at h
    | some pb =>
      simp only [] at h
      obtain ⟨k, k1, k2, k3, k4, k5, k6⟩ := reserve_claim_stops _ _ b pb w2 hc
      have e1 : (pb - b * ALLOCATION_GRANULARITY) / ALLOCATION_GRANULARITY = k := by
        rw [k2, hG]; omega
      rw [e1, k2] at h
      obtain ⟨r1, r2⟩ := reserve_rollback_spec k w2 b
      have hw' : w' = (VirtualFreeEx_release
          (AddressSpace.reserve_rollback w2 ((b + k) * ALLOCATION_GRANULARITY) k)
          (b * ALLOCATION_GRANULARITY)).2 := by
        have := congrArg (fun x => x.2.2) h
        exact this.symm
      have hdir : ∀ j, (AddressSpace.reserve_rollback w2
          ((b + k) * ALLOCATION_GRANULARITY) k).directory j = w.directory j := by
        intro j
        rw [r1 j, k5 j]
        by_cases c : b ≤ j ∧ j < b + k
        · rw [if_pos c]
          exact (k3 j c.1 c.2).symm
        · rw [if_neg c, if_neg c]
      have hvm : (AddressSpace.reserve_rollback w2
          ((b + k) * ALLOCATION_GRANULARITY) k).vm =
          fun j => if b ≤ j ∧ j < e then VBlock.reserved b e else w.vm j := by
        rw [r2, k6]
      have hvb : (AddressSpace.reserve_rollback w2
          ((b + k) * ALLOCATION_GRANULARITY) k).vm b = .reserved b e := by
        rw [hvm]
        simp only []
        rw [if_pos ⟨le_refl _, hbe⟩]
      rw [VirtualFreeEx_release_base _ b e hvb] at hw'
      simp only [] at hw'
      subst hw'
      refine ⟨funext hdir, fun j hj => ?_, fun hrw => funext fun j => ?_⟩
      · simp only [hvm]
        by_cases c : b ≤ j ∧ j < e
        · rw [if_pos c, if_pos rfl]
        · rw [if_neg c, hj]
          split_ifs <;> rfl
      · simp only [hvm]
        by_cases c : b ≤ j ∧ j < e
        · rw [if_pos c, if_pos rfl]
          exact (hfr j c.1 c.2).symm
        · rw [if_neg c]
          by_cases c2 : w.vm j = .reserved b e
          · exfalso
            obtain ⟨q1, q2, _⟩ := hrw j b e c2
            exact c ⟨q1, q2⟩
          · rw [if_neg c2]

theorem reserve_rollback_restores_witness :
    (AddressSpace.reserve_attempt world_claimed (2 * 65536) 65536 0).2.2.directory
        = world_claimed.directory ∧
      (∀ j, world_claimed.vm j = .free →
        (AddressSpace.reserve_attempt world_claimed (2 * 65536) 65536 0).2.2.vm j = .free) ∧
      (ReservationsWhole world_claimed →
        (AddressSpace.reserve_attempt world_claimed (2 * 65536) 65536 0).2.2.vm
          = world_claimed.vm) :=
  reserve_rollback_restores world_claimed (2 * 65536) 65536 0 _
    (Prod.ext (by decide) (Prod.ext (by decide) rfl))

theorem andThen_assoc {α β γ : Type} (r : Res α × World) (f : α → World → Res β × World)
    (g : β → World → Res γ × World) :
    andThen (andThen r f) g = andThen r fun a w => andThen (f a w) g := by
  rcases r with ⟨r1, w1⟩
  cases r1 <;> rfl

theorem run_pieces_append (cpp : MemoryWindowsCpp) (l1 l2 : List Piece) : ∀ (w : World),
    MemoryWindows.run_pieces cpp (l1 ++ l2) w =
      andThen (MemoryWindows.run_pieces cpp l1 w) fun _ w => MemoryWindows.run_pieces cpp l2 w := by
  induction l1 with
  | nil => intro w; rfl
  | cons p rest ih =>
    intro w
    simp only [List.cons_append, MemoryWindows.run_pieces]
    rw [andThen_assoc]
    congr 1
    funext block w1
    rw [andThen_assoc]
    congr 1
    funext _ w2
    exact ih w2

/-- The ascending loops of the share path make the calls of `MemoryWindows.copy_up_pieces`,
in order, and stop at the first that does not return normally. -/
theorem copy_up_pieces_run (cpp : MemoryWindowsCpp) (limit flags : Nat) (clamp : Bool) :
    ∀ (fuel pd ps : Nat) (l : List Piece) (q : Nat × Nat),
    MemoryWindows.copy_up_pieces limit flags clamp fuel pd ps = .ok (l, q) →
    ∀ w, MemoryWindows.copy_up cpp limit flags clamp fuel pd ps w =
      andThen (MemoryWindows.run_pieces cpp l w) fun _ w => (.ok q, w) := by
  intro fuel
  induction fuel with
  | zero =>
    intro pd ps l q h w
    unfold MemoryWindows.copy_up_pieces at h
    unfold MemoryWindows.copy_up
    by_cases c : pd < limit
    · rw [if_pos c] at h; cases h
    · rw [if_neg c] at h; cases h
      rw [if_neg c]; rfl
  | succ n ih =>
    intro pd ps l q h w
    unfold MemoryWindows.copy_up_pieces at h
    unfold MemoryWindows.copy_up
    by_cases c : pd < limit
    · rw [if_pos c] at h
      rw [if_pos c]
      simp only [] at h
      cases hrec : MemoryWindows.copy_up_pieces limit flags clamp n
          (if clamp = true ∧ round_down pd ALLOCATION_GRANULARITY + ALLOCATION_GRANULARITY > limit
            then limit else round_down pd ALLOCATION_GRANULARITY + ALLOCATION_GRANULARITY)
          (ps + ((if clamp = true ∧
            round_down pd ALLOCATION_GRANULARITY + ALLOCATION_GRANULARITY > limit
            then limit else round_down pd ALLOCATION_GRANULARITY + ALLOCATION_GRANULARITY) - pd))
        with
      | ok x =>
        rw [hrec] at h
        rcases x with ⟨rest, p⟩
        simp only [] at h
        cases h
        have hih := ih _ _ rest q hrec
        unfold MemoryWindows.run_pieces
        by_cases ha : block_allocated w pd
        · rw [Block_new_ok w pd ha]
          simp only [pureCall, andThen]
          generalize cpp.Block_copy w (round_down pd ALLOCATION_GRANULARITY) ps _ flags = r
          rcases r with ⟨r1, w1⟩
          cases r1 <;> simp only [hih, andThen]
        · rw [Block_new_raise w pd ha]
          rfl
      | raise e => rw [hrec] at h; cases h
      | hang => rw [hrec] at h; cases h
      | fault => rw [hrec] at h; cases h
    · rw [if_neg c] at h; cases h
      rw [if_neg c]; rfl

/-- The descending loops of the share path make the calls of
`MemoryWindows.copy_down_pieces`, in order, and stop at the first that does not return
normally. -/
theorem copy_down_pieces_run (cpp : MemoryWindowsCpp) (limit flags : Nat) (clamp : Bool) :
    ∀ (fuel pd ps : Nat) (l : List Piece) (q : Nat × Nat),
    MemoryWindows.copy_down_pieces limit flags clamp fuel pd ps = .ok (l, q) →
    ∀ w, MemoryWindows.copy_down cpp limit flags clamp fuel pd ps w =
      andThen (MemoryWindows.run_pieces cpp l w) fun _ w => (.ok q, w) := by
  intro fuel
  induction fuel with
  | zero =>
    intro pd ps l q h w
    unfold MemoryWindows.copy_down_pieces at h
    unfold MemoryWindows.copy_down
    by_cases c : pd > limit
    · rw [if_pos c] at h; cases h
    · rw [if_neg c] at h; cases h
      rw [if_neg c]; rfl
  | succ n ih =>
    intro pd ps l q h w
    unfold MemoryWindows.copy_down_pieces at h
    unfold MemoryWindows.copy_down
    by_cases c : pd > limit
    · rw [if_pos c] at h
      rw [if_pos c]
      simp only [] at h
      cases hrec : MemoryWindows.copy_down_pieces limit flags clamp n
          (if clamp = true ∧ round_down (pd - 1) ALLOCATION_GRANULARITY < limit
            then limit else round_down (pd - 1) ALLOCATION_GRANULARITY)
          (ps - (pd - (if clamp = true ∧ round_down (pd - 1) ALLOCATION_GRANULARITY < limit
            then limit else round_down (pd - 1) ALLOCATION_GRANULARITY)))
        with
      | ok x =>
        rw [hrec] at h
        rcases x with ⟨rest, p⟩
        simp only [] at h
        cases h
        have hih := ih _ _ rest q hrec
        unfold MemoryWindows.run_pieces
        simp only []
        generalize (if clamp = true ∧ round_down (pd - 1) ALLOCATION_GRANULARITY < limit
            then limit else round_down (pd - 1) ALLOCATION_GRANULARITY) = bb at hih ⊢
        generalize pureCall (Block.new w bb) w = r0
        rcases r0 with ⟨r1, w1⟩
        cases r1 with
        | ok block =>
          simp only [andThen]
          generalize cpp.Block_copy w1 block (ps - (pd - bb)) (pd - bb) flags = r
          rcases r with ⟨r2, w2⟩
          cases r2 <;> simp only [hih, andThen]
        | raise e => rfl
        | hang => rfl
        | fault => rfl
      | raise e => rw [hrec] at h; cases h
      | hang => rw [hrec] at h; cases h
      | fault => rw [hrec] at h; cases h
    · rw [if_neg c] at h; cases h
      rw [if_neg c]; rfl

theorem andThen_unit (r : Res Unit × World) : (andThen r fun _ w => (.ok (), w)) = r := by
  rcases r with ⟨r1, w1⟩
  cases r1 <;> rfl

/-- The branch "Share (regions may overlap)" of `MemoryWindows::copy` makes the calls of
`MemoryWindows.copy_share_pieces`, in order, and stops at the first that does not return
normally. -/
theorem copy_share_pieces_run (cpp : MemoryWindowsCpp) (ret src size flags : Nat)
    (l : List Piece) (h : MemoryWindows.copy_share_pieces ret src size flags = .ok l)
    (w : World) :
    MemoryWindows.copy_share cpp w ret src size flags = MemoryWindows.run_pieces cpp l w := by
  unfold MemoryWindows.copy_share_pieces at h
  unfold MemoryWindows.copy_share
  simp only [] at h ⊢
  by_cases c : ret < src
  · rw [if_pos c] at h
    rw [if_pos c]
    by_cases c2 : ret + size > src
    · rw [if_pos c2] at h
      rw [if_pos c2]
      cases h1 : MemoryWindows.copy_up_pieces
          (round_up (ret + size - (src + size - (ret + size))) ALLOCATION_GRANULARITY)
          (first_part_flags flags) false (size / ALLOCATION_GRANULARITY + 2) ret src with
      | ok a =>
        rw [h1] at h
        simp only [Res.bind] at h
        cases h2 : MemoryWindows.copy_up_pieces (ret + size) flags true
            (size / ALLOCATION_GRANULARITY + 2) a.2.1 a.2.2 with
        | ok b =>
          rw [h2] at h
          simp only [Res.bind] at h
          cases h
          rw [copy_up_pieces_run cpp _ _ _ _ _ _ a.1 a.2 h1 w, andThen_assoc]
          simp only [andThen]
          rw [run_pieces_append]
          congr 1
          funext _ w1
          rw [copy_up_pieces_run cpp _ _ _ _ _ _ b.1 b.2 h2 w1]
          show _ = MemoryWindows.run_pieces cpp b.1 w1
          generalize MemoryWindows.run_pieces cpp b.1 w1 = r
          rcases r with ⟨r1, w2⟩
          cases r1 <;> rfl
        | raise e => rw [h2] at h; cases h
        | hang => rw [h2] at h; cases h
        | fault => rw [h2] at h; cases h
      | raise e => rw [h1] at h; cases h
      | hang => rw [h1] at h; cases h
      | fault => rw [h1] at h; cases h
    · rw [if_neg c2] at h
      rw [if_neg c2]
      simp only [Res.bind] at h
      cases h2 : MemoryWindows.copy_up_pieces (ret + size) flags true
          (size / ALLOCATION_GRANULARITY + 2) ret src with
      | ok b =>
        rw [h2] at h
        simp only [Res.bind] at h
        cases h
        simp only [andThen, List.nil_append]
        rw [copy_up_pieces_run cpp _ _ _ _ _ _ b.1 b.2 h2 w]
        generalize MemoryWindows.run_pieces cpp b.1 w = r
        rcases r with ⟨r1, w2⟩
        cases r1 <;> rfl
      | raise e => rw [h2] at h; cases h
      | hang => rw [h2] at h; cases h
      | fault => rw [h2] at h; cases h
  · rw [if_neg c] at h
    rw [if_neg c]
    by_cases c2 : ret < src + size
    · rw [if_pos c2] at h
      rw [if_pos c2]
      cases h1 : MemoryWindows.copy_down_pieces
          (round_down (ret + (ret - src)) ALLOCATION_GRANULARITY)
          (first_part_flags flags) false (size / ALLOCATION_GRANULARITY + 2) (ret + size)
          (src + size) with
      | ok a =>
        rw [h1] at h
        simp only [Res.bind] at h
        cases h2 : MemoryWindows.copy_down_pieces ret flags true
            (size / ALLOCATION_GRANULARITY + 2) a.2.1 a.2.2 with
        | ok b =>
          rw [h2] at h
          simp only [Res.bind] at h
          cases h
          rw [copy_down_pieces_run cpp _ _ _ _ _ _ a.1 a.2 h1 w, andThen_assoc]
          simp only [andThen]
          rw [run_pieces_append]
          congr 1
          funext _ w1
          rw [copy_down_pieces_run cpp _ _ _ _ _ _ b.1 b.2 h2 w1]
          show _ = MemoryWindows.run_pieces cpp b.1 w1
          generalize MemoryWindows.run_pieces cpp b.1 w1 = r
          rcases r with ⟨r1, w2⟩
          cases r1 <;> rfl
        | raise e => rw [h2] at h; cases h
        | hang => rw [h2] at h; cases h
        | fault => rw [h2] at h; cases h
      | raise e => rw [h1] at h; cases h
      | hang => rw [h1] at h; cases h
      | fault => rw [h1] at h; cases h
    · rw [if_neg c2] at h
      rw [if_neg c2]
      simp only [Res.bind] at h
      cases h2 : MemoryWindows.copy_down_pieces ret flags true
          (size / ALLOCATION_GRANULARITY + 2) (ret + size) (src + size) with
      | ok b =>
        rw [h2] at h
        simp only [Res.bind] at h
        cases h
        simp only [andThen, List.nil_append]
        rw [copy_down_pieces_run cpp _ _ _ _ _ _ b.1 b.2 h2 w]
        generalize MemoryWindows.run_pieces cpp b.1 w = r
        rcases r with ⟨r1, w2⟩
        cases r1 <;> rfl
      | raise e => rw [h2] at h; cases h
      | hang => rw [h2] at h; cases h
      | fault => rw [h2] at h; cases h

theorem tiles_up_append (l1 l2 : List Piece) (c : Nat) : ∀ (a b : Nat),
    tiles_up a b l1 → tiles_up b c l2 → tiles_up a c (l1 ++ l2) := by
  induction l1 with
  | nil => intro a b h1 h2; cases h1; exact h2
  | cons p rest ih =>
    intro a b h1 h2
    exact ⟨h1.1, h1.2.1, ih _ b h1.2.2 h2⟩

theorem tiles_down_append (l1 l2 : List Piece) (a : Nat) : ∀ (b c : Nat),
    tiles_down b c l1 → tiles_down a b l2 → tiles_down a c (l1 ++ l2) := by
  induction l1 with
  | nil => intro b c h1 h2; cases h1; exact h2
  | cons p rest ih =>
    intro b c h1 h2
    exact ⟨h1.1, h1.2.1, ih b _ h1.2.2 h2⟩

theorem tiles_up_bounds (l : List Piece) (b : Nat) : ∀ (a : Nat), tiles_up a b l →
    a ≤ b ∧ ∀ p ∈ l, a ≤ p.pd ∧ p.pd + p.cb ≤ b := by
  induction l with
  | nil => intro a h; cases h; exact ⟨le_refl _, fun p hp => absurd hp (List.not_mem_nil _)⟩
  | cons q rest ih =>
    intro a h
    obtain ⟨h1, h2, h3⟩ := h
    obtain ⟨i1, i2⟩ := ih _ h3
    refine ⟨by omega, fun p hp => ?_⟩
    rcases List.mem_cons.mp hp with hp | hp
    · subst hp; omega
    · have := i2 p hp; omega

theorem tiles_down_bounds (l : List Piece) (a : Nat) : ∀ (b : Nat), tiles_down a b l →
    a ≤ b ∧ ∀ p ∈ l, a ≤ p.pd ∧ p.pd + p.cb ≤ b := by
  induction l with
  | nil => intro b h; cases h; exact ⟨le_refl _, fun p hp => absurd hp (List.not_mem_nil _)⟩
  | cons q rest ih =>
    intro b h
    obtain ⟨h1, h2, h3⟩ := h
    obtain ⟨i1, i2⟩ := ih _ h3
    refine ⟨by omega, fun p hp => ?_⟩
    rcases List.mem_cons.mp hp with hp | hp
    · subst hp; omega
    · have := i2 p hp; omega

/-- Pieces that tile upwards and read from above their destination never read what an
earlier piece has written. -/
theorem tiles_up_pairwise (l : List Piece) (b : Nat) : ∀ (a : Nat), tiles_up a b l →
    (∀ p ∈ l, p.pd ≤ p.ps) →
    l.Pairwise fun earlier later =>
      later.ps + later.cb ≤ earlier.pd ∨ earlier.pd + earlier.cb ≤ later.ps := by
  induction l with
  | nil => intro a _ _; exact List.Pairwise.nil
  | cons q rest ih =>
    intro a h hs
    obtain ⟨h1, h2, h3⟩ := h
    refine List.Pairwise.cons (fun p hp => ?_)
      (ih _ h3 fun p hp => hs p (List.mem_cons_of_mem _ hp))
    have := (tiles_up_bounds rest b _ h3).2 p hp
    have := hs p (List.mem_cons_of_mem _ hp)
    right; omega

/-- Pieces that tile downwards and read from below their destination never read what an
earlier piece has written. -/
theorem tiles_down_pairwise (l : List Piece) (a : Nat) : ∀ (b : Nat), tiles_down a b l →
    (∀ p ∈ l, p.ps ≤ p.pd) →
    l.Pairwise fun earlier later =>
      later.ps + later.cb ≤ earlier.pd ∨ earlier.pd + earlier.cb ≤ later.ps := by
  induction l with
  | nil => intro b _ _; exact List.Pairwise.nil
  | cons q rest ih =>
    intro b h hs
    obtain ⟨h1, h2, h3⟩ := h
    refine List.Pairwise.cons (fun p hp => ?_)
      (ih _ h3 fun p hp => hs p (List.mem_cons_of_mem _ hp))
    have := (tiles_down_bounds rest a _ h3).2 p hp
    have := hs p (List.mem_cons_of_mem _ hp)
    left; omega

/-- What an ascending loop of the share path does, given enough iterations: its pieces tile
`[pd, limit)` upwards, each inside one block and at the distance `ps - pd` from its
source. -/
theorem copy_up_pieces_spec (limit flags : Nat) (clamp : Bool)
    (hal : clamp = false → limit % ALLOCATION_GRANULARITY = 0) :
    ∀ (fuel pd ps : Nat), pd ≤ limit →
    (pd < limit → (limit - 1) / ALLOCATION_GRANULARITY - pd / ALLOCATION_GRANULARITY < fuel) →
    ∃ l, MemoryWindows.copy_up_pieces limit flags clamp fuel pd ps
        = .ok (l, limit, ps + (limit - pd)) ∧
      tiles_up pd limit l ∧
      ∀ p ∈ l, p.pd / ALLOCATION_GRANULARITY = (p.pd + p.cb - 1) / ALLOCATION_GRANULARITY ∧
        p.ps + pd = p.pd + ps ∧ p.flags = flags := by
  have hG : ALLOCATION_GRANULARITY = 65536 := rfl
  intro fuel
  induction fuel with
  | zero =>
    intro pd ps h1 h2
    have : ¬ pd < limit := fun c => by have := h2 c; omega
    have e : pd = limit := by omega
    subst e
    refine ⟨[], ?_, rfl, fun p hp => absurd hp (List.not_mem_nil _)⟩
    unfold MemoryWindows.copy_up_pieces
    rw [if_neg this, Nat.sub_self, Nat.add_zero]
  | succ n ih =>
    intro pd ps h1 h2
    unfold MemoryWindows.copy_up_pieces
    by_cases c : pd < limit
    · rw [if_pos c]
      simp only []
      have h2' := h2 c
      obtain ⟨be, hbe⟩ : ∃ be, be = (if clamp = true ∧
          round_down pd ALLOCATION_GRANULARITY + ALLOCATION_GRANULARITY > limit
          then limit else round_down pd ALLOCATION_GRANULARITY + ALLOCATION_GRANULARITY) :=
        ⟨_, rfl⟩
      rw [← hbe]
      have hb1 : pd < be ∧ be ≤ limit ∧ be ≤ pd / 65536 * 65536 + 65536 ∧
          (be < limit → be = pd / 65536 * 65536 + 65536) := by
        rw [hbe]
        unfold round_down
        rw [hG]
        by_cases cc : clamp = true ∧ pd / 65536 * 65536 + 65536 > limit
        · rw [if_pos cc]
          refine ⟨c, le_refl _, by omega, fun h => by omega⟩
        · rw [if_neg cc]
          have : pd / 65536 * 65536 + 65536 ≤ limit := by
            by_cases ct : clamp = true
            · have : ¬ pd / 65536 * 65536 + 65536 > limit := fun h => cc ⟨ct, h⟩
              omega
            · have := hal (by simpa using ct)
              rw [hG] at this
              omega
          refine ⟨by omega, this, le_refl _, fun _ => rfl⟩
      obtain ⟨hb2, hb3, hb4, hb5⟩ := hb1
      obtain ⟨l, e1, e2, e3⟩ := ih be (ps + (be - pd)) hb3 (fun h => by
        have := hb5 h
        rw [hG] at h2' ⊢
        omega)
      rw [e1]
      refine ⟨⟨pd, ps, be - pd, flags⟩ :: l, ?_, ⟨rfl, by show 0 < be - pd; omega, ?_⟩,
        fun p hp => ?_⟩
      · simp only []
        rw [show ps + (be - pd) + (limit - be) = ps + (limit - pd) by omega]
      · show tiles_up (pd + (be - pd)) limit l
        rw [show pd + (be - pd) = be by omega]
        exact e2
      · rcases List.mem_cons.mp hp with hp | hp
        · subst hp
          refine ⟨?_, Nat.add_comm _ _, rfl⟩
          show pd / ALLOCATION_GRANULARITY = (pd + (be - pd) - 1) / ALLOCATION_GRANULARITY
          rw [hG]; omega
        · obtain ⟨q1, q2, q3⟩ := e3 p hp
          exact ⟨q1, by omega, q3⟩
    · have e : pd = limit := by omega
      subst e
      rw [if_neg c, Nat.sub_self, Nat.add_zero]
      exact ⟨[], rfl, rfl, fun p hp => absurd hp (List.not_mem_nil _)⟩

/-- What a descending loop of the share path does, given enough iterations: its pieces tile
`[limit, pd)` downwards, each inside one block and at the distance `pd - ps` from its
source. -/
theorem copy_down_pieces_spec (limit flags : Nat) (clamp : Bool)
    (hal : clamp = false → limit % ALLOCATION_GRANULARITY = 0) :
    ∀ (fuel pd ps : Nat), limit ≤ pd → pd - limit ≤ ps →
    (limit < pd → (pd - 1) / ALLOCATION_GRANULARITY - limit / ALLOCATION_GRANULARITY < fuel) →
    ∃ l, MemoryWindows.copy_down_pieces limit flags clamp fuel pd ps
        = .ok (l, limit, ps - (pd - limit)) ∧
      tiles_down limit pd l ∧
      ∀ p ∈ l, p.pd / ALLOCATION_GRANULARITY = (p.pd + p.cb - 1) / ALLOCATION_GRANULARITY ∧
        p.ps + pd = p.pd + ps ∧ p.flags = flags := by
  have hG : ALLOCATION_GRANULARITY = 65536 := rfl
  intro fuel
  induction fuel with
  | zero =>
    intro pd ps h1 h0 h2
    have : ¬ pd > limit := fun c => by have := h2 c; omega
    have e : pd = limit := by omega
    subst e
    refine ⟨[], ?_, rfl, fun p hp => absurd hp (List.not_mem_nil _)⟩
    unfold MemoryWindows.copy_down_pieces
    rw [if_neg this, Nat.sub_self, Nat.sub_zero]
  | succ n ih =>
    intro pd ps h1 h0 h2
    unfold MemoryWindows.copy_down_pieces
    by_cases c : pd > limit
    · rw [if_pos c]
      simp only []
      have h2' := h2 c
      obtain ⟨bb, hbb⟩ : ∃ bb, bb = (if clamp = true ∧
          round_down (pd - 1) ALLOCATION_GRANULARITY < limit
          then limit else round_down (pd - 1) ALLOCATION_GRANULARITY) := ⟨_, rfl⟩
      rw [← hbb]
      have hb1 : bb < pd ∧ limit ≤ bb ∧ (pd - 1) / 65536 * 65536 ≤ bb ∧
          (limit < bb → bb = (pd - 1) / 65536 * 65536) := by
        rw [hbb]
        unfold round_down
        rw [hG]
        by_cases cc : clamp = true ∧ (pd - 1) / 65536 * 65536 < limit
        · rw [if_pos cc]
          refine ⟨c, le_refl _, by omega, fun h => by omega⟩
        · rw [if_neg cc]
          have : limit ≤ (pd - 1) / 65536 * 65536 := by
            by_cases ct : clamp = true
            · have : ¬ (pd - 1) / 65536 * 65536 < limit := fun h => cc ⟨ct, h⟩
              omega
            · have := hal (by simpa using ct)
              rw [hG] at this
              omega
          refine ⟨by omega, this, le_refl _, fun _ => rfl⟩
      obtain ⟨hb2, hb3, hb4, hb5⟩ := hb1
      obtain ⟨l, e1, e2, e3⟩ := ih bb (ps - (pd - bb)) hb3 (by omega) (fun h => by
        have := hb5 h
        rw [hG] at h2' ⊢
        omega)
      rw [e1]
      refine ⟨⟨bb, ps - (pd - bb), pd - bb, flags⟩ :: l, ?_,
        ⟨by show bb + (pd - bb) = pd; omega, by show 0 < pd - bb; omega, e2⟩, fun p hp => ?_⟩
      · simp only []
        rw [show ps - (pd - bb) - (bb - limit) = ps - (pd - limit) by omega]
      · rcases List.mem_cons.mp hp with hp | hp
        · subst hp
          refine ⟨?_, by show ps - (pd - bb) + pd = bb + ps; omega, rfl⟩
          show bb / ALLOCATION_GRANULARITY = (bb + (pd - bb) - 1) / ALLOCATION_GRANULARITY
          rw [hG]; omega
        · obtain ⟨q1, q2, q3⟩ := e3 p hp
          exact ⟨q1, by omega, q3⟩
    · have e : pd = limit := by omega
      subst e
      rw [if_neg c, Nat.sub_self, Nat.sub_zero]
      exact ⟨[], rfl, rfl, fun p hp => absurd hp (List.not_mem_nil _)⟩

/-- Claim C26: in the share path of `MemoryWindows::copy` (destination `ret` and source
`src` at the same offset inside their blocks, `ret != src`, `size > 0`) the loops end and
make the calls `block.copy` of the list `l`, in order; the destination ranges of the pieces
tile `[ret, ret + size)`, upwards when `ret < src` and downwards when `ret > src`; each
piece lies inside one granularity block and its source is at the distance `src - ret`; and
no piece reads bytes that an earlier piece has written. -/
theorem copy_share_pieces_spec (ret src size flags : Nat) (hs : 0 < size) (hne : ret ≠ src)
    (hal : ret % ALLOCATION_GRANULARITY = src % ALLOCATION_GRANULARITY) :
    ∃ l, MemoryWindows.copy_share_pieces ret src size flags = .ok l ∧
      (∀ cpp w, MemoryWindows.copy_share cpp w ret src size flags
        = MemoryWindows.run_pieces cpp l w) ∧
      (if ret < src then tiles_up ret (ret + size) l else tiles_down ret (ret + size) l) ∧
      (∀ p ∈ l, p.pd / ALLOCATION_GRANULARITY = (p.pd + p.cb - 1) / ALLOCATION_GRANULARITY ∧
        p.ps + ret = p.pd + src) ∧
      l.Pairwise fun earlier later =>
        later.ps + later.cb ≤ earlier.pd ∨ earlier.pd + earlier.cb ≤ later.ps := by
  have hG : ALLOCATION_GRANULARITY = 65536 := rfl
  rw [hG] at hal
  by_cases c : ret < src
  · -- the pieces of the two ascending loops
    have key : ∃ l, MemoryWindows.copy_share_pieces ret src size flags = .ok l ∧
        tiles_up ret (ret + size) l ∧
        ∀ p ∈ l, p.pd / ALLOCATION_GRANULARITY = (p.pd + p.cb - 1) / ALLOCATION_GRANULARITY ∧
          p.ps + ret = p.pd + src := by
      unfold MemoryWindows.copy_share_pieces
      simp only []
      rw [if_pos c]
      by_cases c2 : ret + size > src
      · rw [if_pos c2]
        obtain ⟨fpe, hfpe⟩ : ∃ fpe, fpe =
            round_up (ret + size - (src + size - (ret + size))) ALLOCATION_GRANULARITY :=
          ⟨_, rfl⟩
        rw [← hfpe]
        have hf : fpe % 65536 = 0 ∧ ret ≤ fpe ∧ fpe ≤ ret + size ∧
            (fpe - 1) / 65536 - ret / 65536 < size / 65536 + 2 := by
          rw [hfpe]; unfold round_up; rw [hG]; omega
        obtain ⟨f1, f2, f3, f4⟩ := hf
        obtain ⟨l1, e1, t1, q1⟩ := copy_up_pieces_spec fpe (first_part_flags flags) false
          (fun _ => by rw [hG]; exact f1) (size / ALLOCATION_GRANULARITY + 2) ret src f2
          (fun _ => by rw [hG]; exact f4)
        obtain ⟨l2, e2, t2, q2⟩ := copy_up_pieces_spec (ret + size) flags true
          (fun h => by cases h) (size / ALLOCATION_GRANULARITY + 2) fpe (src + (fpe - ret)) f3
          (fun _ => by rw [hG]; omega)
        rw [e1]
        simp only [Res.bind]
        rw [e2]
        refine ⟨l1 ++ l2, rfl, tiles_up_append l1 l2 _ _ _ t1 t2, fun p hp => ?_⟩
        rcases List.mem_append.mp hp with hp | hp
        · exact ⟨(q1 p hp).1, (q1 p hp).2.1⟩
        · refine ⟨(q2 p hp).1, ?_⟩
          have := (q2 p hp).2.1
          omega
      · rw [if_neg c2]
        obtain ⟨l2, e2, t2, q2⟩ := copy_up_pieces_spec (ret + size) flags true
          (fun h => by cases h) (size / ALLOCATION_GRANULARITY + 2) ret src (by omega)
          (fun _ => by rw [hG]; omega)
        simp only [Res.bind]
        rw [e2]
        refine ⟨l2, by simp, t2, fun p hp => ?_⟩
        exact ⟨(q2 p hp).1, (q2 p hp).2.1⟩
    obtain ⟨l, hl, ht, hq⟩ := key
    refine ⟨l, hl, fun cpp w => copy_share_pieces_run cpp ret src size flags l hl w,
      (by rw [if_pos c]; exact ht), hq,
      tiles_up_pairwise l _ _ ht fun p hp => ?_⟩
    have := (hq p hp).2
    omega
  · have key : ∃ l, MemoryWindows.copy_share_pieces ret src size flags = .ok l ∧
        tiles_down ret (ret + size) l ∧
        ∀ p ∈ l, p.pd / ALLOCATION_GRANULARITY = (p.pd + p.cb - 1) / ALLOCATION_GRANULARITY ∧
          p.ps + ret = p.pd + src := by
      unfold MemoryWindows.copy_share_pieces
      simp only []
      rw [if_neg c]
      by_cases c2 : ret < src + size
      · rw [if_pos c2]
        obtain ⟨fpb, hfpb⟩ : ∃ fpb, fpb =
            round_down (ret + (ret - src)) ALLOCATION_GRANULARITY := ⟨_, rfl⟩
        rw [← hfpb]
        have hf : fpb % 65536 = 0 ∧ ret ≤ fpb ∧ fpb ≤ ret + size ∧ ret ≤ src + fpb ∧
            (ret + size - 1) / 65536 - fpb / 65536 < size / 65536 + 2 ∧
            (fpb - 1) / 65536 - ret / 65536 < size / 65536 + 2 := by
          rw [hfpb]; unfold round_down; rw [hG]; omega
        obtain ⟨f1, f2, f3, f4, f5, f6⟩ := hf
        obtain ⟨l1, e1, t1, q1⟩ := copy_down_pieces_spec fpb (first_part_flags flags) false
          (fun _ => by rw [hG]; exact f1) (size / ALLOCATION_GRANULARITY + 2) (ret + size)
          (src + size) f3 (by omega) (fun _ => by rw [hG]; exact f5)
        obtain ⟨l2, e2, t2, q2⟩ := copy_down_pieces_spec ret flags true
          (fun h => by cases h) (size / ALLOCATION_GRANULARITY + 2) fpb
          (src + size - (ret + size - fpb)) f2 (by omega) (fun _ => by rw [hG]; exact f6)
        rw [e1]
        simp only [Res.bind]
        rw [e2]
        refine ⟨l1 ++ l2, rfl, tiles_down_append l1 l2 _ _ _ t1 t2, fun p hp => ?_⟩
        rcases List.mem_append.mp hp with hp | hp
        · refine ⟨(q1 p hp).1, ?_⟩
          have := (q1 p hp).2.1
          omega
        · refine ⟨(q2 p hp).1, ?_⟩
          have := (q2 p hp).2.1
          omega
      · rw [if_neg c2]
        obtain ⟨l2, e2, t2, q2⟩ := copy_down_pieces_spec ret flags true
          (fun h => by cases h) (size / ALLOCATION_GRANULARITY + 2) (ret + size) (src + size)
          (by omega) (by omega) (fun _ => by rw [hG]; omega)
        simp only [Res.bind]
        rw [e2]
        refine ⟨l2, by simp, t2, fun p hp => ?_⟩
        refine ⟨(q2 p hp).1, ?_⟩
        have := (q2 p hp).2.1
        omega
    obtain ⟨l, hl, ht, hq⟩ := key
    refine ⟨l, hl, fun cpp w => copy_share_pieces_run cpp ret src size flags l hl w,
      (by rw [if_neg c]; exact ht), hq,
      tiles_down_pairwise l _ _ ht fun p hp => ?_⟩
    have := (hq p hp).2
    omega

theorem copy_share_pieces_spec_witness :
    ∃ l, MemoryWindows.copy_share_pieces 65536 (2 * 65536) (65536 + 1) 0 = .ok l ∧
      (∀ cpp w, MemoryWindows.copy_share cpp w 65536 (2 * 65536) (65536 + 1) 0
        = MemoryWindows.run_pieces cpp l w) ∧
      (if 65536 < 2 * 65536 then tiles_up 65536 (65536 + (65536 + 1)) l
        else tiles_down 65536 (65536 + (65536 + 1)) l) ∧
      (∀ p ∈ l, p.pd / ALLOCATION_GRANULARITY = (p.pd + p.cb - 1) / ALLOCATION_GRANULARITY ∧
        p.ps + 65536 = p.pd + 2 * 65536) ∧
      l.Pairwise fun earlier later =>
        later.ps + later.cb ≤ earlier.pd ∨ earlier.pd + earlier.cb ≤ later.ps :=
  copy_share_pieces_spec 65536 (2 * 65536) (65536 + 1) 0 (by decide) (by decide) (by decide)

/-- Claim C29 at a failing input: a share copy without `DECOMMIT` (`flags = 0`) of
`size = ALLOCATION_GRANULARITY + 1` bytes from `src = 2 * ALLOCATION_GRANULARITY` to
`ret = ALLOCATION_GRANULARITY`.  The first call is `block.copy` of the whole source block
`[2 G, 3 G)` with the forced `DECOMMIT` flag, and the destination `[G, 2 G + 1)` ends
before that piece does: the source bytes `[2 G + 1, 3 G)` are not overwritten. -/
theorem share_forced_decommit_past_destination :
    MemoryWindows.copy_share_pieces ALLOCATION_GRANULARITY (2 * ALLOCATION_GRANULARITY)
        (ALLOCATION_GRANULARITY + 1) 0 =
      .ok [⟨ALLOCATION_GRANULARITY, 2 * ALLOCATION_GRANULARITY, ALLOCATION_GRANULARITY, DECOMMIT⟩,
        ⟨2 * ALLOCATION_GRANULARITY, 3 * ALLOCATION_GRANULARITY, 1, 0⟩] ∧
    (∀ cpp w, MemoryWindows.copy_share cpp w ALLOCATION_GRANULARITY
        (2 * ALLOCATION_GRANULARITY) (ALLOCATION_GRANULARITY + 1) 0 =
      MemoryWindows.run_pieces cpp
        [⟨ALLOCATION_GRANULARITY, 2 * ALLOCATION_GRANULARITY, ALLOCATION_GRANULARITY, DECOMMIT⟩,
          ⟨2 * ALLOCATION_GRANULARITY, 3 * ALLOCATION_GRANULARITY, 1, 0⟩] w) ∧
    first_part_flags 0 = DECOMMIT ∧
    ALLOCATION_GRANULARITY + (ALLOCATION_GRANULARITY + 1)
      < 2 * ALLOCATION_GRANULARITY + ALLOCATION_GRANULARITY :=
  ⟨by decide, fun cpp w => copy_share_pieces_run cpp _ _ _ _ _ (by decide) w, by decide,
    by decide⟩

theorem protect_run_spec (ps : List Nat) (v : Nat) : ∀ (fuel k : Nat),
    k ≤ protect_run ps v k fuel ∧ protect_run ps v k fuel ≤ k + fuel ∧
    (∀ j, k ≤ j → j < protect_run ps v k fuel → ps.getD j 0 = v) ∧
    (ps.getD k 0 = v → 0 < fuel → k < protect_run ps v k fuel) := by
  intro fuel
  induction fuel with
  | zero =>
    intro k
    unfold protect_run
    exact ⟨le_refl _, le_refl _, fun j h1 h2 => by omega, fun _ h => by omega⟩
  | succ n ih =>
    intro k
    unfold protect_run
    by_cases c : ps.getD k 0 = v
    · rw [if_pos c]
      obtain ⟨h1, h2, h3, _⟩ := ih (k + 1)
      refine ⟨by omega, by omega, fun j hj1 hj2 => ?_, fun _ _ => by omega⟩
      by_cases hj : j = k
      · rw [hj]; exact c
      · exact h3 j (by omega) hj2
    · rw [if_neg c]
      exact ⟨le_refl _, by omega, fun j h1 h2 => by omega, fun h => absurd h c⟩

/-- One `VirtualQueryEx` of the loop of `is_private`: the region it reports ends after the
page of `begin`, and every page of the region has the protection it reports. -/
theorem query_region (w : World) (hrw : ReservationsWhole w) (a : Nat)
    (hin : a / ALLOCATION_GRANULARITY < w.directory_size) :
    (a / PAGE_SIZE + 1) * PAGE_SIZE ≤ (query w a).BaseAddress + (query w a).RegionSize ∧
    ∀ x, a ≤ x → x < (query w a).BaseAddress + (query w a).RegionSize →
      (query w x).Protect = (query w a).Protect := by
  have hG : ALLOCATION_GRANULARITY = 65536 := rfl
  have hP : PAGE_SIZE = 4096 := rfl
  have hN : PAGES_PER_BLOCK = 16 := rfl
  cases hv : w.vm (a / ALLOCATION_GRANULARITY) with
  | free =>
    obtain ⟨f1, f2, f3, f4⟩ := free_run_spec w (w.directory_size - a / ALLOCATION_GRANULARITY)
      (a / ALLOCATION_GRANULARITY)
    have f5 := f4 hv (by omega)
    have hB : (query w a).BaseAddress = round_down a PAGE_SIZE := by
      unfold query; simp only [hv]
    have hR : (query w a).RegionSize = free_run w (a / ALLOCATION_GRANULARITY)
        (w.directory_size - a / ALLOCATION_GRANULARITY) * ALLOCATION_GRANULARITY
        - round_down a PAGE_SIZE := by
      unfold query; simp only [hv]
    have hPr : (query w a).Protect = PAGE_NOACCESS := by
      unfold query; simp only [hv]
    rw [hB, hR, hPr]
    generalize free_run w (a / ALLOCATION_GRANULARITY)
      (w.directory_size - a / ALLOCATION_GRANULARITY) = fr at f1 f2 f3 f5
    have e1 : round_down a PAGE_SIZE + (fr * ALLOCATION_GRANULARITY - round_down a PAGE_SIZE)
        = fr * ALLOCATION_GRANULARITY := by
      unfold round_down; rw [hG, hP] at *; omega
    rw [e1]
    refine ⟨by rw [hG, hP] at *; omega, fun x h1 h2 => ?_⟩
    have hx : w.vm (x / ALLOCATION_GRANULARITY) = .free :=
      f3 _ (by rw [hG] at *; omega) (by rw [hG] at *; omega)
    unfold query; simp only [hx]
  | reserved b e =>
    obtain ⟨r1, r2, r3⟩ := hrw _ b e hv
    rw [query_reserved_at w a b e hv]
    simp only []
    have e1 : round_down a PAGE_SIZE + (e * ALLOCATION_GRANULARITY - round_down a PAGE_SIZE)
        = e * ALLOCATION_GRANULARITY := by
      unfold round_down; rw [hG, hP] at *; omega
    rw [e1]
    refine ⟨by rw [hG, hP] at *; omega, fun x h1 h2 => ?_⟩
    have hx : w.vm (x / ALLOCATION_GRANULARITY) = .reserved b e :=
      r3 _ (by rw [hG] at *; omega) (by rw [hG] at *; omega)
    rw [query_reserved_at w x b e hx]
  | mapped h ps =>
    obtain ⟨k, hk⟩ : ∃ k, k = a % ALLOCATION_GRANULARITY / PAGE_SIZE := ⟨_, rfl⟩
    have hk16 : k < 16 := by rw [hk, hG, hP]; omega
    obtain ⟨p1, p2, p3, p4⟩ := protect_run_spec ps (ps.getD k 0) (PAGES_PER_BLOCK - k) k
    have p5 := p4 rfl (by rw [hN]; omega)
    have hB : (query w a).BaseAddress = round_down a PAGE_SIZE := by
      unfold query; simp only [hv]
    have hR : (query w a).RegionSize =
        (protect_run ps (ps.getD k 0) k (PAGES_PER_BLOCK - k) - k) * PAGE_SIZE := by
      unfold query; simp only [hv, hk]
    have hPr : (query w a).Protect = ps.getD k 0 := by
      unfold query; simp only [hv, hk]
    rw [hB, hR, hPr]
    generalize protect_run ps (ps.getD k 0) k (PAGES_PER_BLOCK - k) = pr at p1 p2 p3 p5
    have e1 : round_down a PAGE_SIZE + (pr - k) * PAGE_SIZE
        = a / ALLOCATION_GRANULARITY * ALLOCATION_GRANULARITY + pr * PAGE_SIZE := by
      unfold round_down; rw [hG, hP] at *; omega
    rw [e1]
    refine ⟨by rw [hG, hP, hN] at *; omega, fun x h1 h2 => ?_⟩
    have hxb : x / ALLOCATION_GRANULARITY = a / ALLOCATION_GRANULARITY := by
      rw [hG, hP, hN] at *; omega
    have hx : w.vm (x / ALLOCATION_GRANULARITY) = .mapped h ps := by rw [hxb]; exact hv
    have : (query w x).Protect = ps.getD (x % ALLOCATION_GRANULARITY / PAGE_SIZE) 0 := by
      unfold query; simp only [hx]
    rw [this]
    exact p3 _ (by rw [hG, hP, hN] at *; omega) (by rw [hG, hP, hN] at *; omega)

/-- What the loop of `AddressSpace::is_private` answers, from `b` on. -/
theorem is_private_loop_spec (w : World) (hrw : ReservationsWhole w) (end_ : Nat)
    (he : end_ ≤ w.directory_size * ALLOCATION_GRANULARITY) : ∀ (fuel b : Nat),
    (b < end_ → (end_ + PAGE_SIZE - 1) / PAGE_SIZE - b / PAGE_SIZE ≤ fuel) →
    ∃ r, AddressSpace.is_private_loop w end_ fuel b = .ok r ∧
      (r = false ↔ ∃ a, b ≤ a ∧ a < end_ ∧
        (query w a).Protect &&& (PAGE_WRITECOPY ||| PAGE_EXECUTE_WRITECOPY) ≠ 0) := by
  have hG : ALLOCATION_GRANULARITY = 65536 := rfl
  have hP : PAGE_SIZE = 4096 := rfl
  intro fuel
  induction fuel with
  | zero =>
    intro b hb
    have hnb : ¬ b < end_ := fun c => by have := hb c; simp only [hP] at *; omega
    refine ⟨true, ?_, ?_⟩
    · unfold AddressSpace.is_private_loop; rw [if_neg hnb]
    · constructor
      · intro h; cases h
      · rintro ⟨a, h1, h2, _⟩; omega
  | succ n ih =>
    intro b hb
    unfold AddressSpace.is_private_loop
    by_cases c : b < end_
    · rw [if_pos c]
      simp only []
      have hb' := hb c
      obtain ⟨q1, q2⟩ := query_region w hrw b (by simp only [hG, hP] at *; omega)
      by_cases hbit : (query w b).Protect &&& (PAGE_WRITECOPY ||| PAGE_EXECUTE_WRITECOPY) ≠ 0
      · rw [if_pos hbit]
        exact ⟨false, rfl, fun _ => ⟨b, le_refl _, c, hbit⟩, fun _ => rfl⟩
      · rw [if_neg hbit]
        generalize (query w b).BaseAddress + (query w b).RegionSize = next at q1 q2
        obtain ⟨r, e1, e2⟩ := ih next (fun h => by simp only [hP] at *; omega)
        refine ⟨r, e1, ?_⟩
        rw [e2]
        constructor
        · rintro ⟨a, h1, h2, h3⟩
          exact ⟨a, by simp only [hP] at *; omega, h2, h3⟩
        · rintro ⟨a, h1, h2, h3⟩
          by_cases ha : a < next
          · exfalso
            rw [q2 a h1 ha] at h3
            exact hbit h3
          · exact ⟨a, by omega, h2, h3⟩
    · rw [if_neg c]
      refine ⟨true, rfl, ?_⟩
      constructor
      · intro h; cases h
      · rintro ⟨a, h1, h2, _⟩; omega

/-- Claim C30: for a range inside the address space of a process whose reservations are
whole, `AddressSpace::is_private (p, n)` returns, and it returns false if and only if the
page of some byte of `[p, p + n)` has a protection with a write-copy bit (`PAGE_WRITECOPY`
or `PAGE_EXECUTE_WRITECOPY`); in particular it returns true for `n == 0` and for a range
whose pages are all `RO_MAPPED_SHARED`. -/
theorem is_private_iff (w : World) (p n : Nat) (hrw : ReservationsWhole w)
    (hin : n ≠ 0 → p + n ≤ w.directory_size * ALLOCATION_GRANULARITY) :
    ∃ b, AddressSpace.is_private w p n = .ok b ∧
      (b = false ↔ ∃ a, p ≤ a ∧ a < p + n ∧
        (query w a).Protect &&& (PAGE_WRITECOPY ||| PAGE_EXECUTE_WRITECOPY) ≠ 0) ∧
      (n = 0 → b = true) ∧
      ((∀ a, p ≤ a → a < p + n → (query w a).Protect = PageState.RO_MAPPED_SHARED) →
        b = true) := by
  have hP : PAGE_SIZE = 4096 := rfl
  have key : ∃ b, AddressSpace.is_private w p n = .ok b ∧
      (b = false ↔ ∃ a, p ≤ a ∧ a < p + n ∧
        (query w a).Protect &&& (PAGE_WRITECOPY ||| PAGE_EXECUTE_WRITECOPY) ≠ 0) := by
    unfold AddressSpace.is_private
    by_cases hn : n = 0
    · subst hn
      refine ⟨true, ?_, ?_⟩
      · unfold AddressSpace.is_private_loop
        rw [if_neg (by omega)]
      · constructor
        · intro h; cases h
        · rintro ⟨a, h1, h2, _⟩; omega
    · exact is_private_loop_spec w hrw (p + n) (hin hn) (n / PAGE_SIZE + 2) p
        (fun _ => by rw [hP]; omega)
  obtain ⟨b, e1, e2⟩ := key
  refine ⟨b, e1, e2, fun hn => ?_, fun hall => ?_⟩
  · cases b with
    | true => rfl
    | false =>
      obtain ⟨a, h1, h2, _⟩ := e2.1 rfl
      omega
  · cases b with
    | true => rfl
    | false =>
      obtain ⟨a, h1, h2, h3⟩ := e2.1 rfl
      rw [hall a h1 h2] at h3
      exact absurd (by decide) h3

theorem is_private_iff_witness :
    ∃ b, AddressSpace.is_private world_shared 65536 65536 = .ok b ∧
      (b = false ↔ ∃ a, 65536 ≤ a ∧ a < 65536 + 65536 ∧
        (query world_shared a).Protect &&& (PAGE_WRITECOPY ||| PAGE_EXECUTE_WRITECOPY) ≠ 0) ∧
      (65536 = 0 → b = true) ∧
      ((∀ a, 65536 ≤ a → a < 65536 + 65536 →
        (query world_shared a).Protect = PageState.RO_MAPPED_SHARED) → b = true) :=
  is_private_iff world_shared 65536 65536 world_shared_wf.2.1 (fun _ => by decide)

end Nirvana
